import Mathlib

/-!
# Cachegrind TLB simulator (`cachegrind/cg_tlb.c`)

A shallow embedding of the TLB simulation engine and theorems about it.

Conventions of the embedding.

* The C globals (`TLBc`, `TLB`, `RepPol`, `TLB_TYPE`, `l2check`, ...) are the
  fields of one record `State`, threaded explicitly through every function.
  The caller's accumulators `*t1` and `*t2` are the fields `t1` and `t2`.
* A function that can touch memory returns `Option State`; `none` stands for
  undefined behaviour of the C program (an access outside the cells that were
  allocated for `TLB[t]`, a remainder by zero, a shift that overflows `int`)
  or for a failed `tl_assert`.
* `Addr` and `ULong` are 64-bit: values are natural numbers, and arithmetic that
  can wrap is reduced modulo `2 ^ 64`.  `Int` indices are mathematical integers
  that are checked against the allocation on every access.
* The counters are incremented at the width of their C type: `hit` and `miss`
  of a level and `count` of an entry are 32-bit `Int`s (`incr_int`: the
  increment of `2147483647` gives `-2147483648`, as in the compiled program),
  the accumulators `t1` and `t2` are 64-bit `ULong`s (`incr_ulong`).  The page
  log, a list with one allocated node per page, is modelled without
  wrap-around (`count` of a node, `total_pages`).
* `VG_(random)` is an oracle: `random k` is the value of its `k`-th call.
-/

namespace CgTlb

/-! ## Data model -/

/-- Node of the page list of a level (`struct pages_accessed`); the `next`
pointer is the tail of the list that holds the node. -/
structure PAGES where
  tag : Nat
  count : Nat
deriving DecidableEq

/-- One TLB entry (`struct _tlb_entry`). -/
structure TLB_ENTRY where
  tag : Nat
  count : Int
deriving DecidableEq

/-- Characteristics of one TLB level (`struct _tlb_t`, without `desc_line`). -/
structure tlb_t where
  hit : Int
  miss : Int
  page_size : Nat
  assoc : Int
  entries : Int
  offset_mask : Nat
  vpn_mask : Nat
  index_mask : Nat
  tag_mask : Nat
  sets : Int
  replace : Bool
  page_ptr : List PAGES
  total_pages : Int
  tlb_counter : Int
deriving DecidableEq

/-- The global variables of `cg_tlb.c`, the two accumulators handed to
`reference_address`, and the random oracle.  `TLB_size t` is the number of
cells that were allocated for `TLB[t]`. -/
structure State where
  TLBc : Int → tlb_t
  TLB : Int → Int → TLB_ENTRY
  TLB_size : Int → Int
  clo_sim_tlb : Bool
  clo_sim_pages : Bool
  VAS_SIZE : Int
  RepPol : Int
  sim_iTLB : Bool
  sim_dTLB : Bool
  sim_L2TLB : Bool
  TLB_TYPE : Int
  l2check : Bool
  l2hit : Bool
  t1 : Nat
  t2 : Nat
  random : Nat → Nat
  random_calls : Nat

def TLB_TYPE_ITLB : Int := 0
def TLB_TYPE_DTLB : Int := 1
def TLB_TYPE_L2TLB : Int := 2

/-- Conversion of an unsigned value to the 32-bit `Int` (two's complement). -/
def toInt32 (n : Nat) : Int :=
  if n % 2 ^ 32 < 2 ^ 31 then ((n % 2 ^ 32 : Nat) : Int) else ((n % 2 ^ 32 : Nat) : Int) - 2 ^ 32

/-- Conversion of an `Int` to the 64-bit `ULong`. -/
def toULong (x : Int) : Nat := (x % 2 ^ 64).toNat

/-- Conversion of an `Int` to the 32-bit `UInt`. -/
def toUInt (x : Int) : Nat := (x % 2 ^ 32).toNat

/-- The value a 32-bit `Int` holds when the result `x` of an arithmetic
operation is stored in it: reduction modulo `2 ^ 32` into
`[-2 ^ 31, 2 ^ 31)`. -/
def wrap_int (x : Int) : Int := (x + 2 ^ 31) % 2 ^ 32 - 2 ^ 31

/-- The increment `x++` of a 32-bit `Int`: `2147483647` is followed by
`-2147483648`. -/
def incr_int (x : Int) : Int := wrap_int (x + 1)

/-- The increment `(*x)++` of a 64-bit `ULong`. -/
def incr_ulong (x : Nat) : Nat := (x + 1) % 2 ^ 64

/-- Pointwise update of a table indexed by integers. -/
def upd {α : Type} (f : Int → α) (i : Int) (v : α) : Int → α :=
  fun j => if j = i then v else f j

/-- The level `TLBc[TLB_TYPE]`. -/
def State.cur (s : State) : tlb_t := s.TLBc s.TLB_TYPE

/-- Assignment to `TLBc[TLB_TYPE]`. -/
def State.setCur (s : State) (c : tlb_t) : State :=
  { s with TLBc := upd s.TLBc s.TLB_TYPE c }

/-- Read of `TLB[TLB_TYPE][i]`; undefined outside the allocated cells. -/
def load (i : Int) (s : State) : Option TLB_ENTRY :=
  if 0 ≤ i ∧ i < s.TLB_size s.TLB_TYPE then some (s.TLB s.TLB_TYPE i) else none

/-- Write of `TLB[TLB_TYPE][i]`; undefined outside the allocated cells. -/
def store (i : Int) (e : TLB_ENTRY) (s : State) : Option State :=
  if 0 ≤ i ∧ i < s.TLB_size s.TLB_TYPE then
    some { s with TLB := upd s.TLB s.TLB_TYPE (upd (s.TLB s.TLB_TYPE) i e) }
  else none

/-- `TLB[TLB_TYPE][i].tag = tag`. -/
def store_tag (i : Int) (tag : Nat) (s : State) : Option State :=
  (load i s).bind fun e => store i { e with tag := tag } s

/-- `TLB[TLB_TYPE][i].count = c`. -/
def store_count (i : Int) (c : Int) (s : State) : Option State :=
  (load i s).bind fun e => store i { e with count := c } s

/-- `TLB[TLB_TYPE][i].count++`: `count` is a 32-bit `Int`. -/
def incr_count (i : Int) (s : State) : Option State :=
  (load i s).bind fun e => store i { e with count := incr_int e.count } s

/-! ## Page list -/

/-- The search loop of `add_page`: increments the count of the first node
with the given tag, or reports that there is none. -/
def bump_page (tag : Nat) : List PAGES → Option (List PAGES)
  | [] => none
  | p :: ps =>
    if p.tag = tag then some ({ p with count := p.count + 1 } :: ps)
    else (bump_page tag ps).map (fun qs => p :: qs)

/-- `add_page(tag)`: count the page in the list of `TLBc[TLB_TYPE]`, creating
its node at the head when it is new. -/
def add_page (tag : Nat) (s : State) : State :=
  match bump_page tag s.cur.page_ptr with
  | some ps => s.setCur { s.cur with page_ptr := ps }
  | none =>
    s.setCur { s.cur with page_ptr := { tag := tag, count := 1 } :: s.cur.page_ptr,
                          total_pages := s.cur.total_pages + 1 }

/-- The loop of `print_pages` over the list of one level: the tag and the
count of every node, in the order in which the list is walked from its
head. -/
def print_pages (c : tlb_t) : List (Nat × Nat) :=
  c.page_ptr.map fun p => (p.tag, p.count)

/-! ## Replacement bookkeeping -/

/-- The loop `for (i = lo; ...; i++) TLB[TLB_TYPE][i].count++` over `n` cells. -/
def incr_counts : Nat → Int → State → Option State
  | 0, _, s => some s
  | n + 1, lo, s => (incr_count lo s).bind (incr_counts n (lo + 1))

/-- `increase_LRU(target)`: every count of the scope is incremented (as a
32-bit `Int`), then the count of `target` is cleared.  The two tests on `assoc` of the source exclude
each other. -/
def increase_LRU (target : Int) (s : State) : Option State :=
  if s.cur.assoc = -1 then
    (incr_counts s.cur.entries.toNat 0 s).bind (store_count target 0)
  else if s.cur.assoc > 0 then
    let set := Int.tdiv target s.cur.assoc
    (incr_counts ((set + 1) * s.cur.assoc - set * s.cur.assoc).toNat (set * s.cur.assoc) s).bind
      (store_count target 0)
  else some s

/-- The scan loop of `LRU`: `n` cells from `i` on, keeping the first position
whose count is strictly above the running maximum. -/
def max_scan : Nat → Int → Int → Int → State → Option Int
  | 0, _, _, pos, _ => some pos
  | n + 1, i, max, pos, s =>
    (load i s).bind fun e =>
      if e.count > max then max_scan n (i + 1) e.count i s
      else max_scan n (i + 1) max pos s

/-- `LRU(set)`: position of the entry with the largest count in the scope. -/
def LRU (set : Int) (s : State) : Option Int :=
  if s.cur.assoc = -1 then
    (load 0 s).bind fun e => max_scan (s.cur.entries - 1).toNat 1 e.count 0 s
  else if s.cur.assoc > 0 then
    (load (set * s.cur.assoc) s).bind fun e =>
      max_scan (s.cur.assoc * (set + 1) - (set * s.cur.assoc + 1)).toNat
        (set * s.cur.assoc + 1) e.count (set * s.cur.assoc) s
  else some (-1)

/-- The scan loop of `LFU`: `n` cells from `i` on, keeping the first position
whose count is strictly below the running minimum. -/
def min_scan : Nat → Int → Int → Int → State → Option Int
  | 0, _, _, pos, _ => some pos
  | n + 1, i, hold, pos, s =>
    (load i s).bind fun e =>
      if e.count < hold then min_scan n (i + 1) e.count i s
      else min_scan n (i + 1) hold pos s

/-- `LFU(set)`: position of the entry with the smallest count in the scope. -/
def LFU (set : Int) (s : State) : Option Int :=
  if s.cur.assoc = -1 then
    (load 0 s).bind fun e => min_scan (s.cur.entries - 1).toNat 1 e.count 0 s
  else if s.cur.assoc > 0 then
    (load (set * s.cur.assoc) s).bind fun e =>
      min_scan (s.cur.assoc * (set + 1) - (set * s.cur.assoc + 1)).toNat
        (set * s.cur.assoc + 1) e.count (set * s.cur.assoc) s
  else some (-1)

/-- `get_random(range)`: `VG_(random)(NULL) % range`, computed on `UInt`. -/
def get_random (range : Int) (s : State) : Option (Int × State) :=
  if toUInt range = 0 then none
  else some (toInt32 ((s.random s.random_calls % 2 ^ 32) % toUInt range),
             { s with random_calls := s.random_calls + 1 })

/-- `do_hit()`: `hit` is a 32-bit `Int`. -/
def do_hit (s : State) : State :=
  s.setCur { s.cur with hit := incr_int s.cur.hit }

/-- `do_miss(t1, t2)`: `miss` is a 32-bit `Int`, `*t1` and `*t2` are 64-bit
`ULong`. -/
def do_miss (s : State) : State :=
  let s1 := s.setCur { s.cur with miss := incr_int s.cur.miss }
  let s2 := if s1.TLB_TYPE = TLB_TYPE_ITLB ∨ s1.TLB_TYPE = TLB_TYPE_DTLB then
              { s1 with t1 := incr_ulong s1.t1 } else s1
  if s2.TLB_TYPE = TLB_TYPE_L2TLB then { s2 with t2 := incr_ulong s2.t2 } else s2

/-! ## Lookup -/

/-- The hit-scan loop of `tlb_lookup`: `n` cells at positions `idx i`,
`idx (i+1)`, ...; the first position whose tag is `addr_tag`, if any. -/
def tag_scan : Nat → Nat → (Nat → Int) → Nat → State → Option (Option Int)
  | 0, _, _, _, _ => some none
  | n + 1, i, idx, addr_tag, s =>
    (load (idx i) s).bind fun e =>
      if e.tag = addr_tag then some (some (idx i))
      else tag_scan n (i + 1) idx addr_tag s

/-- The cell `(addr_index * assoc) + i` of the N-way scan, computed on `Addr`. -/
def nway_cell (addr_index : Nat) (assoc : Int) (i : Nat) : Int :=
  (((addr_index * toULong assoc + i) % 2 ^ 64 : Nat) : Int)

/-- The slot `addr_index % entr` of the direct-mapped branch, computed on `Addr`. -/
def dm_slot (addr_index : Nat) (entr : Int) : Nat := addr_index % toULong entr

/-- The block of `tlb_lookup` that visits L2TLB after an L1 miss: it runs
`TLB_simulation` (here `sim`) with `TLB_TYPE`, `l2check` and `sim_L2TLB`
switched, and switches them back. -/
def l2_descend (sim : Nat → State → Option State) (addr_l2 : Nat) (s : State) :
    Option State :=
  if s.sim_L2TLB then
    (sim addr_l2 { s with TLB_TYPE := TLB_TYPE_L2TLB, l2check := true, sim_L2TLB := false }).map
      fun s2 => { s2 with sim_L2TLB := true, l2check := false, TLB_TYPE := s.TLB_TYPE }
  else some s

/-- The statements of `tlb_lookup` on a hit, before the counter update:
`if (l2check) l2hit = True; do_hit();`. -/
def hit_prologue (s : State) : State :=
  do_hit (if s.l2check then { s with l2hit := true } else s)

/-- The statements of `tlb_lookup` on a miss, before the visit of L2TLB:
`do_miss(t1, t2); if (l2check) l2hit = False;`. -/
def miss_prologue (s : State) : State :=
  let s1 := do_miss s
  if s1.l2check then { s1 with l2hit := false } else s1

/-- The replacement block of the fully associative branch of `tlb_lookup`. -/
def fa_install (addr_tag : Nat) (s : State) : Option State :=
  if s.RepPol = 0 then
    (LFU (-1) s).bind fun entry =>
      (store_tag entry addr_tag s).bind (store_count entry 1)
  else if s.RepPol = 1 then
    (LRU (-1) s).bind fun entry =>
      ((store_tag entry addr_tag s).bind (store_count entry 0)).bind (increase_LRU entry)
  else if s.RepPol = 2 then
    (get_random s.cur.entries s).bind fun r =>
      (store_tag r.1 addr_tag r.2).bind (store_count r.1 1)
  else some s

/-- The replacement block of the N-way branch of `tlb_lookup`. -/
def nway_install (addr_tag addr_index : Nat) (s : State) : Option State :=
  if s.RepPol = 0 then
    (LFU (toInt32 addr_index) s).bind fun entry =>
      (store_tag entry addr_tag s).bind (store_count entry 1)
  else if s.RepPol = 1 then
    (LRU (toInt32 addr_index) s).bind fun entry =>
      ((store_tag entry addr_tag s).bind (store_count entry 0)).bind (increase_LRU entry)
  else if s.RepPol = 2 then
    let base := toInt32 ((addr_index * toULong s.cur.assoc) % 2 ^ 64)
    (get_random s.cur.assoc s).bind fun r =>
      (store_tag (base + r.1) addr_tag r.2).bind (store_count (base + r.1) 0)
  else some s

/-- `tlb_lookup(addr_l2, addr_tag, addr_index, t1, t2)`; `sim` is the
`TLB_simulation` that the miss path calls for L2TLB. -/
def tlb_lookup (sim : Nat → State → Option State) (addr_l2 addr_tag addr_index : Nat)
    (s : State) : Option State :=
  if s.cur.assoc = -1 then
    (tag_scan s.cur.entries.toNat 0 (fun i => (i : Int)) addr_tag s).bind fun r =>
      match r with
      | some i =>
        let s1 := hit_prologue s
        if s1.RepPol = 0 then incr_count i s1
        else if s1.RepPol = 1 then increase_LRU i s1
        else some s1
      | none =>
        (l2_descend sim addr_l2 (miss_prologue s)).bind fun s3 =>
          if s3.sim_L2TLB = false ∨ s3.l2hit = false then fa_install addr_tag s3
          else some s3
  else if s.cur.assoc = 0 then
    let entr := s.cur.entries
    if toULong entr = 0 then none
    else
      let slot : Int := ((dm_slot addr_index entr : Nat) : Int)
      (load slot s).bind fun e =>
        if e.tag = addr_tag then some (hit_prologue s)
        else
          (l2_descend sim addr_l2 (miss_prologue s)).bind fun s3 =>
            if s3.sim_L2TLB = false ∨ s3.l2hit = false then store_tag slot addr_tag s3
            else some s3
  else if s.cur.assoc > 0 then
    (tag_scan s.cur.assoc.toNat 0 (nway_cell addr_index s.cur.assoc) addr_tag s).bind fun r =>
      match r with
      | some i =>
        let s1 := hit_prologue s
        if s1.RepPol = 0 then incr_count i s1
        else if s1.RepPol = 1 then increase_LRU i s1
        else some s1
      | none =>
        (l2_descend sim addr_l2 (miss_prologue s)).bind fun s3 =>
          if s3.sim_L2TLB = false ∨ s3.l2hit = false then nway_install addr_tag addr_index s3
          else some s3
  else some s

/-- The loop of `log2`, with the number of iterations it may still take. -/
def log2_loop : Nat → Int → Int → Int
  | 0, _, log => log
  | fuel + 1, num, log => if num > 1 then log2_loop fuel (num / 2) (log + 1) else log

/-- `log2(num)`: the number of halvings that bring `num` down to 1. -/
def log2 (num : Int) : Int := log2_loop num.toNat num 0

/-- `TLB_simulation(addr, t1, t2)`.  The first argument bounds the depth of
the calls `TLB_simulation → tlb_lookup → TLB_simulation`. -/
def TLB_simulation : Nat → Nat → State → Option State
  | 0, _, _ => none
  | fuel + 1, addr, s0 =>
    let s : State := { s0 with l2hit := false, l2check := false }
    let VPN := (addr &&& s.cur.vpn_mask) >>> s.cur.offset_mask
    let r : Option (Nat × State) :=
      if s.clo_sim_tlb ∨ s.clo_sim_pages then
        if s.cur.assoc = 0 then
          let index := VPN &&& s.cur.index_mask
          let tag := (VPN &&& s.cur.tag_mask) >>> (log2 s.cur.entries).toNat
          if s.clo_sim_tlb then
            (tlb_lookup (TLB_simulation fuel) addr tag index s).map fun s1 => (tag, s1)
          else some (tag, s)
        else if s.cur.assoc > 0 then
          let index := VPN &&& s.cur.index_mask
          let tag := (VPN &&& s.cur.tag_mask) >>>
            (log2 (toInt32 ((s.cur.index_mask + 1) % 2 ^ 64))).toNat
          if s.clo_sim_tlb then
            (tlb_lookup (TLB_simulation fuel) addr tag index s).map fun s1 => (tag, s1)
          else some (tag, s)
        else if s.cur.assoc = -1 then
          if s.clo_sim_tlb then
            (tlb_lookup (TLB_simulation fuel) addr VPN 0 s).map fun s1 => (VPN, s1)
          else some (VPN, s)
        else some (VPN, s)
      else some (VPN, s)
    r.bind fun p => if p.2.clo_sim_pages then some (add_page p.1 p.2) else some p.2

/-- `reference_address(addr, data_type, t1, t2)`. -/
def reference_address (addr : Nat) (data_type : Int) (s : State) : Option State :=
  (if data_type = TLB_TYPE_ITLB ∧ s.sim_iTLB then
      TLB_simulation 2 addr { s with TLB_TYPE := TLB_TYPE_ITLB }
    else some s).bind fun s1 =>
  if data_type = TLB_TYPE_DTLB ∧ s1.sim_dTLB then
    TLB_simulation 2 addr { s1 with TLB_TYPE := TLB_TYPE_DTLB }
  else some s1

/-- A sequence of `reference_address` calls, given as `(addr, data_type)`. -/
def run : List (Nat × Int) → State → Option State
  | [], s => some s
  | r :: rs, s => (reference_address r.1 r.2 s).bind (run rs)

/-! ## Initialisation -/

/-- The loop `for (...; i > 0; i--) mask = mask * 2 + 1` on `ULong`, `n` times. -/
def grow_mask : Nat → Nat → Nat
  | 0, mask => mask
  | n + 1, mask => grow_mask n ((mask * 2 + 1) % 2 ^ 64)

/-- `calc_VPN_MASK(offset, page_size)` for the given `VAS_SIZE`. -/
def calc_VPN_MASK (VAS_SIZE : Int) (offset : Int) (page_size : Nat) : Nat :=
  (grow_mask (VAS_SIZE - offset).toNat 1 * page_size) % 2 ^ 64

/-- The expression `2 << n` on `int`, for a shift count `n` of type `ULong`:
defined when the result fits in 32 signed bits. -/
def shl_two (n : Nat) : Option Nat :=
  if n ≤ 29 then some (2 ^ (n + 1)) else none

/-- The index mask of the direct-mapped and N-way cases of `init_tlb`, for a
level with `n` slots or sets. -/
def calc_index_mask (n : Int) : Nat := grow_mask (log2 n - 1).toNat 1

/-- The tag mask of the direct-mapped and N-way cases of `init_tlb`:
`2 << (VAS_SIZE - offset_mask - 1)`, minus the index mask on `ULong`. -/
def calc_tag_mask (VAS_SIZE : Int) (offset_mask index_mask : Nat) : Option Nat :=
  (shl_two (toULong (VAS_SIZE - offset_mask - 1))).map fun t =>
    (t + 2 ^ 64 - index_mask % 2 ^ 64) % 2 ^ 64

/-- How `init_tlb` can fail: its `tl_assert` does not hold, or an operation of
C has no defined result (the shift that builds the tag mask). -/
inductive InitFault where
  | assertion
  | undefined
deriving DecidableEq

/-- The geometry part of `init_tlb`: the fields computed from `page_size`,
`assoc` and `entries` of the level `c`, or the way the function fails. -/
def init_level_x (VAS_SIZE : Int) (c : tlb_t) : Except InitFault tlb_t :=
  let c1 : tlb_t := { c with hit := 0, miss := 0, replace := false, page_ptr := [],
                             total_pages := 0, tlb_counter := 0 }
  let offset_mask := toULong (log2 (toInt32 c1.page_size))
  let c2 : tlb_t := { c1 with offset_mask := offset_mask,
                              vpn_mask := calc_VPN_MASK VAS_SIZE (toInt32 offset_mask) c1.page_size }
  if c2.assoc = -1 then
    Except.ok { c2 with index_mask := 2 ^ 64 - 1, tag_mask := 2 ^ 64 - 1 }
  else if c2.assoc = 0 then
    let index_mask := calc_index_mask c2.entries
    match calc_tag_mask VAS_SIZE offset_mask index_mask with
    | some tag_mask => Except.ok { c2 with index_mask := index_mask, tag_mask := tag_mask }
    | none => Except.error InitFault.undefined
  else if c2.assoc % 2 = 0 then
    let sets := Int.tdiv c2.entries c2.assoc
    let index_mask := calc_index_mask sets
    match calc_tag_mask VAS_SIZE offset_mask index_mask with
    | some tag_mask =>
      Except.ok { c2 with sets := sets, index_mask := index_mask, tag_mask := tag_mask }
    | none => Except.error InitFault.undefined
  else Except.error InitFault.assertion

/-- The level record that `init_tlb` leaves, when it completes. -/
def init_level (VAS_SIZE : Int) (c : tlb_t) : Option tlb_t :=
  match init_level_x VAS_SIZE c with
  | Except.ok c3 => some c3
  | Except.error _ => none

/-- `init_tlb(tlb)`. -/
def init_tlb (tlb : Int) (s : State) : Option State :=
  (init_level s.VAS_SIZE (s.TLBc tlb)).map fun c => { s with TLBc := upd s.TLBc tlb c }

/-- The part of `tlb_post_clo_init` for one level: when the level is
simulated, initialise it, allocate its `entries` cells and clear their
counts.  The tags of the new cells are not written: they are whatever the
allocator returns, here `heap tlb`. -/
def alloc_level (heap : Int → Int → Nat) (enabled : Bool) (tlb : Int) (s : State) :
    Option State :=
  if enabled then
    (init_tlb tlb s).bind fun s1 =>
      if (s1.TLBc tlb).entries < 0 then none
      else some { s1 with
        TLB := upd s1.TLB tlb (fun i => { tag := heap tlb i, count := 0 }),
        TLB_size := upd s1.TLB_size tlb (s1.TLBc tlb).entries }
  else some s

/-- `tlb_post_clo_init()`. -/
def tlb_post_clo_init (heap : Int → Int → Nat) (s : State) : Option State :=
  let s0 : State := { s with TLB_size := fun _ => 0 }
  ((alloc_level heap s0.sim_iTLB 0 s0).bind fun s1 =>
    alloc_level heap s1.sim_dTLB 1 s1).bind fun s2 =>
    alloc_level heap s2.sim_L2TLB 2 s2

/-- `tlbsim_init(tlb_type, page_size, assoc, entries)`. -/
def tlbsim_init (tlb_type page_size assoc entries : Int) (s : State) : State :=
  let s1 : State := if tlb_type = 0 ∧ page_size ≠ -1 then { s with sim_iTLB := true } else s
  let s2 : State := if tlb_type = 1 ∧ page_size ≠ -1 then { s1 with sim_dTLB := true } else s1
  let s3 : State := if tlb_type = 2 ∧ page_size ≠ -1 then { s2 with sim_L2TLB := true } else s2
  let c : tlb_t := s3.TLBc tlb_type
  let c1 : tlb_t := { c with page_size := toULong page_size, assoc := assoc, entries := entries }
  { s3 with TLBc := upd s3.TLBc tlb_type c1 }

/-- A TLB descriptor `(page_size, assoc, entries)` as the tool hands it to
`tlbsim_init`; `page_size = -1` marks a level that is not simulated. -/
structure Desc where
  page_size : Int
  assoc : Int
  entries : Int
deriving DecidableEq

/-- The undefined descriptor. -/
def Desc.undefined : Desc := { page_size := -1, assoc := -1, entries := -1 }

/-- The values of the command-line options of `tlb_process_cmd_line_option`. -/
structure Options where
  clo_sim_tlb : Bool
  clo_sim_pages : Bool
  VAS_SIZE : Int
  RepPol : Int

/-- The default option values. -/
def Options.default : Options :=
  { clo_sim_tlb := true, clo_sim_pages := false, VAS_SIZE := 32, RepPol := 1 }

/-- A level record of the zero-initialised static array `TLBc`. -/
def tlb_t.zero : tlb_t :=
  { hit := 0, miss := 0, page_size := 0, assoc := 0, entries := 0,
    offset_mask := 0, vpn_mask := 0, index_mask := 0, tag_mask := 0,
    sets := 0, replace := false, page_ptr := [], total_pages := 0, tlb_counter := 0 }

/-- The static initial values of the globals. -/
def boot (random : Nat → Nat) : State :=
  { TLBc := fun _ => tlb_t.zero,
    TLB := fun _ _ => { tag := 0, count := 0 },
    TLB_size := fun _ => 0,
    clo_sim_tlb := true, clo_sim_pages := false, VAS_SIZE := 32, RepPol := 1,
    sim_iTLB := false, sim_dTLB := false, sim_L2TLB := false, TLB_TYPE := -1,
    l2check := false, l2hit := false, t1 := 0, t2 := 0,
    random := random, random_calls := 0 }

/-- Option processing (`tlb_process_cmd_line_option`): `VAS_SIZE` must be
positive, and a replacement policy outside `0..2` is replaced by LRU. -/
def set_options (o : Options) (s : State) : Option State :=
  if o.VAS_SIZE > 0 then
    some { s with clo_sim_tlb := o.clo_sim_tlb, clo_sim_pages := o.clo_sim_pages,
                  VAS_SIZE := o.VAS_SIZE,
                  RepPol := if o.RepPol < 0 ∨ o.RepPol > 2 then 1 else o.RepPol }
  else none

/-- Start-up of the simulator: options, the three `tlbsim_init` calls, then
`tlb_post_clo_init`. -/
def startup (o : Options) (iTLB dTLB L2TLB : Desc) (heap : Int → Int → Nat)
    (random : Nat → Nat) : Option State :=
  (set_options o (boot random)).bind fun s =>
    tlb_post_clo_init heap
      (tlbsim_init 2 L2TLB.page_size L2TLB.assoc L2TLB.entries
        (tlbsim_init 1 dTLB.page_size dTLB.assoc dTLB.entries
          (tlbsim_init 0 iTLB.page_size iTLB.assoc iTLB.entries s)))

/-- The tags held by the first `n` cells of `TLB[t]`. -/
def tags (s : State) (t : Int) (n : Nat) : List Nat :=
  (List.range n).map fun i => (s.TLB t i).tag

/-- The counts held by the first `n` cells of `TLB[t]`. -/
def counts (s : State) (t : Int) (n : Nat) : List Int :=
  (List.range n).map fun i => (s.TLB t i).count

/-! ## Vocabulary of the statements -/

/-- The table `TLB[TLB_TYPE]`. -/
def State.tbl (s : State) : Int → TLB_ENTRY := s.TLB s.TLB_TYPE

/-- The number of cells allocated for `TLB[TLB_TYPE]`. -/
def State.size (s : State) : Int := s.TLB_size s.TLB_TYPE

/-- The state with `TLB[TLB_TYPE]` replaced by the table `f`. -/
def State.put (s : State) (f : Int → TLB_ENTRY) : State :=
  { s with TLB := upd s.TLB s.TLB_TYPE f }

/-- The state after `k` calls of `VG_(random)` in all. -/
def State.draw (s : State) (k : Nat) : State :=
  { s with random_calls := k }

/-- Everything of the state but the entry tables and the number of random
draws: the levels' characteristics and counters, the flags, `t1` and `t2`. -/
def State.core (s : State) : State :=
  { s with TLB := fun _ _ => { tag := 0, count := 0 }, random_calls := 0 }

/-- A view `P` of the state that the writes of entries and the draws of random
numbers leave alone. -/
structure Stable {α : Type} (P : State → α) : Prop where
  store : ∀ {i : Int} {e : TLB_ENTRY} {s x : State}, store i e s = some x → P x = P s
  draw : ∀ {range : Int} {s : State} {r : Int × State}, get_random range s = some r → P r.2 = P s

/-- Level `u` as seen from a state that is not working on it: its entries and
its record; nothing when `u` is the current level. -/
def State.view (u : Int) (s : State) : Option ((Int → TLB_ENTRY) × tlb_t) :=
  if s.TLB_TYPE = u then none else some (s.TLB u, s.TLBc u)

/-- The table `f` with the counts of the cells `lo ≤ j < lo + n` incremented
(as 32-bit `Int`s). -/
def bumped (f : Int → TLB_ENTRY) (lo : Int) (n : Nat) : Int → TLB_ENTRY :=
  fun j => if lo ≤ j ∧ j < lo + n then { f j with count := incr_int (f j).count } else f j

/-- First cell of the scope that set number (or slot index) `set` addresses
in level `c`: the whole array when fully associative, one slot when direct
mapped, `assoc` contiguous cells when N-way. -/
def scope_lo (c : tlb_t) (set : Int) : Int :=
  if c.assoc = -1 then 0 else if c.assoc = 0 then set % c.entries else set * c.assoc

/-- End (exclusive) of the scope that `set` addresses in level `c`. -/
def scope_hi (c : tlb_t) (set : Int) : Int :=
  if c.assoc = -1 then c.entries
  else if c.assoc = 0 then set % c.entries + 1 else (set + 1) * c.assoc

/-- The current level is fully associative or N-way, and the scope of `set`
is a non-empty range of cells allocated for it. -/
def ScopeAllocated (s : State) (set : Int) : Prop :=
  (s.cur.assoc = -1 ∨ 0 < s.cur.assoc) ∧ 0 ≤ scope_lo s.cur set ∧
    scope_lo s.cur set < scope_hi s.cur set ∧ scope_hi s.cur set ≤ s.size

instance (s : State) (set : Int) : Decidable (ScopeAllocated s set) := by
  unfold ScopeAllocated; infer_instance

/-- Position `p` is the lowest one in `lo ≤ j < hi` whose count is the maximum. -/
def FirstMax (f : Int → TLB_ENTRY) (lo hi p : Int) : Prop :=
  lo ≤ p ∧ p < hi ∧ (∀ j, lo ≤ j → j < hi → (f j).count ≤ (f p).count) ∧
    (∀ j, lo ≤ j → j < p → (f j).count < (f p).count)

/-- Position `p` is the lowest one in `lo ≤ j < hi` whose count is the minimum. -/
def FirstMin (f : Int → TLB_ENTRY) (lo hi p : Int) : Prop :=
  lo ≤ p ∧ p < hi ∧ (∀ j, lo ≤ j → j < hi → (f p).count ≤ (f j).count) ∧
    (∀ j, lo ≤ j → j < p → (f p).count < (f j).count)

/-- The table `f` after an LRU touch of cell `e` in the scope of `n` cells
from `lo`: all counts of the scope incremented as 32-bit `Int`s, the count of `e`
cleared. -/
def lru_touch (f : Int → TLB_ENTRY) (lo : Int) (n : Nat) (e : Int) : Int → TLB_ENTRY :=
  upd (bumped f lo n) e { bumped f lo n e with count := 0 }

/-- Table `g` is table `f` after an LRU touch of `e` in the scope
`lo ≤ j < hi`: the count of `e` is 0 and every other count of the scope was
incremented once, as the 32-bit `Int` it is. -/
def LRUFresh (f g : Int → TLB_ENTRY) (lo hi e : Int) : Prop :=
  (g e).count = 0 ∧ ∀ j, lo ≤ j → j < hi → j ≠ e → (g j).count = incr_int (f j).count

/-- The virtual page number that `TLB_simulation` extracts from `addr` for
level `c`: `(addr & vpn_mask) >> offset_mask`. -/
def decode_vpn (c : tlb_t) (addr : Nat) : Nat :=
  (addr &&& c.vpn_mask) >>> c.offset_mask

/-- The `addr_index` that `TLB_simulation` passes to `tlb_lookup` for level `c`. -/
def decode_index (c : tlb_t) (addr : Nat) : Nat :=
  if c.assoc = -1 then 0 else decode_vpn c addr &&& c.index_mask

/-- The `addr_tag` that `TLB_simulation` passes to `tlb_lookup` for level `c`,
which is also the value it passes to `add_page`. -/
def decode_tag (c : tlb_t) (addr : Nat) : Nat :=
  if c.assoc = 0 then (decode_vpn c addr &&& c.tag_mask) >>> (log2 c.entries).toNat
  else if c.assoc > 0 then
    (decode_vpn c addr &&& c.tag_mask) >>> (log2 (toInt32 ((c.index_mask + 1) % 2 ^ 64))).toNat
  else decode_vpn c addr

/-- The last statement of `TLB_simulation`: `if (clo_sim_pages) add_page(VPN)`. -/
def log_page (tag : Nat) (s : State) : State :=
  if s.clo_sim_pages then add_page tag s else s

/-- The geometry of a level: its record with the statistics and the page list
cleared. -/
def tlb_t.geom (c : tlb_t) : tlb_t :=
  { c with hit := 0, miss := 0, page_ptr := [], total_pages := 0 }

/-- The replacement block that `tlb_lookup` runs after a miss in a level of
associativity `assoc` with `entr` entries. -/
def install (assoc entr : Int) (addr_tag addr_index : Nat) (s : State) : Option State :=
  if assoc = -1 then fa_install addr_tag s
  else if assoc = 0 then store_tag ((dm_slot addr_index entr : Nat) : Int) addr_tag s
  else nway_install addr_tag addr_index s

/-- The counter update that `tlb_lookup` runs after a hit on cell `e`. -/
def hit_update (e : Int) (s : State) : Option State :=
  if s.cur.assoc = 0 then some s
  else if s.RepPol = 0 then incr_count e s
  else if s.RepPol = 1 then increase_LRU e s
  else some s

/-- Cell `e` is the first one of `lo ≤ j < hi` that holds `tag`. -/
def FirstTag (f : Int → TLB_ENTRY) (lo hi : Int) (tag : Nat) (e : Int) : Prop :=
  lo ≤ e ∧ e < hi ∧ (f e).tag = tag ∧ ∀ j, lo ≤ j → j < e → (f j).tag ≠ tag

/-- Table `g` agrees with table `f` on every cell outside `lo ≤ j < hi`. -/
def SameOutside (f g : Int → TLB_ENTRY) (lo hi : Int) : Prop :=
  ∀ j, j < lo ∨ hi ≤ j → g j = f j

/-- Table `g` holds the same tags as table `f`; only counts may differ. -/
def SameTags (f g : Int → TLB_ENTRY) : Prop := ∀ j, (g j).tag = (f j).tag

/-- Table `g` is table `f` after `tag` was installed in cell `e` of
`lo ≤ j < hi`: cell `e` holds `tag`, no other cell changed its tag, and no
cell outside the range changed at all. -/
def Installed (f g : Int → TLB_ENTRY) (lo hi : Int) (tag : Nat) (e : Int) : Prop :=
  lo ≤ e ∧ e < hi ∧ (g e).tag = tag ∧ (∀ j, j ≠ e → (g j).tag = (f j).tag) ∧
    SameOutside f g lo hi

/-- Level `t` of state `s` has a usable geometry for the set index
`addr_index`: its associativity is `-1`, `0` or positive, and the scope that
`addr_index` addresses lies inside the cells allocated for `TLB[t]`, whose
number fits in an `Int`. -/
def InRangeAt (s : State) (t : Int) (addr_index : Nat) : Prop :=
  s.TLB_size t < 2 ^ 31 ∧
    (((s.TLBc t).assoc = -1 ∧ 0 < (s.TLBc t).entries ∧ (s.TLBc t).entries ≤ s.TLB_size t) ∨
     ((s.TLBc t).assoc = 0 ∧ 0 < (s.TLBc t).entries ∧ (s.TLBc t).entries ≤ s.TLB_size t) ∨
     (0 < (s.TLBc t).assoc ∧ ((addr_index : Int) + 1) * (s.TLBc t).assoc ≤ s.TLB_size t))

instance (s : State) (t : Int) (i : Nat) : Decidable (InRangeAt s t i) := by
  unfold InRangeAt; infer_instance

/-- Some cell of the scope that `addr_index` addresses in level `t` holds `tag`. -/
def Resident (s : State) (t : Int) (tag addr_index : Nat) : Prop :=
  ∃ j, scope_lo (s.TLBc t) addr_index ≤ j ∧ j < scope_hi (s.TLBc t) addr_index ∧
    (s.TLB t j).tag = tag

/-- State `y` has the set-up of state `x`: the same geometry and allocation
of every level, the same options and flags, the same random oracle. -/
structure SameSetup (x y : State) : Prop where
  geom : ∀ u, (y.TLBc u).geom = (x.TLBc u).geom
  size : y.TLB_size = x.TLB_size
  pol : y.RepPol = x.RepPol
  sim : y.clo_sim_tlb = x.clo_sim_tlb
  pages : y.clo_sim_pages = x.clo_sim_pages
  itlb : y.sim_iTLB = x.sim_iTLB
  dtlb : y.sim_dTLB = x.sim_dTLB
  l2tlb : y.sim_L2TLB = x.sim_L2TLB
  vas : y.VAS_SIZE = x.VAS_SIZE
  oracle : y.random = x.random

/-- Level `u` is the same in `y` as in `x`: its entries and its record,
counters and page list included. -/
def Untouched (x y : State) (u : Int) : Prop :=
  y.TLB u = x.TLB u ∧ y.TLBc u = x.TLBc u

/-- Level `t` of `y` is level `t` of `x` after a lookup that hit in the scope
`lo ≤ j < hi`: the hit counter incremented once, the same misses, the same
tags, and the same cells outside the scope. -/
structure HitFacts (x y : State) (t lo hi : Int) : Prop where
  hit : (y.TLBc t).hit = incr_int (x.TLBc t).hit
  miss : (y.TLBc t).miss = (x.TLBc t).miss
  tags : SameTags (x.TLB t) (y.TLB t)
  outside : SameOutside (x.TLB t) (y.TLB t) lo hi

/-- Level `t` of `y` is level `t` of `x` after a lookup that missed and
installed `tag` in the scope `lo ≤ j < hi`: the miss counter incremented
once, the same hits. -/
structure MissFacts (x y : State) (t lo hi : Int) (tag : Nat) : Prop where
  miss : (y.TLBc t).miss = incr_int (x.TLBc t).miss
  hit : (y.TLBc t).hit = (x.TLBc t).hit
  installed : ∃ e, Installed (x.TLB t) (y.TLB t) lo hi tag e

/-- A sequence of `add_page` calls on the current level, one per value. -/
def add_pages (vals : List Nat) (s : State) : State :=
  vals.foldl (fun st v => add_page v st) s

/-- The distinct values of a list, in the order of their first occurrence. -/
def first_seen (vals : List Nat) : List Nat :=
  vals.foldl (fun acc v => if v ∈ acc then acc else acc ++ [v]) []

/-- The page list `l` with its counter `n` records the values `seen`: one node
per distinct value, each with the number of occurrences of its value, the
nodes ordered from the most recently first-seen value to the oldest. -/
structure Logged (l : List PAGES) (n : Int) (seen : List Nat) : Prop where
  order : l.map PAGES.tag = (first_seen seen).reverse
  counts : ∀ p ∈ l, p.count = seen.count p.tag
  total : n = l.length

/-- The amount `v` for level `t` and nothing for the other levels. -/
def single (t : Int) (v : Int) : Int → Int := fun u => if u = t then v else 0

/-- A counter of `2 ^ w` values (a 32-bit `Int` within `[-2 ^ 31, 2 ^ 31)`
when `lo = -2 ^ 31`, a 64-bit `ULong` when `lo = 0`) that held `a` holds `b`
after `d` increments: `b` is `a + d` modulo `2 ^ w`, and `b` is in the range
of the type when `a` was. -/
def counts_up (w : Nat) (lo a b d : Int) : Prop :=
  (b - (a + d)) % 2 ^ w = 0 ∧ (lo ≤ a ∧ a < lo + 2 ^ w → lo ≤ b ∧ b < lo + 2 ^ w)

/-- State `y` against state `x`: level `u` counted `dh u` hits and `dm u`
misses more on its 32-bit counters, the 64-bit `t1` counted the new misses of
iTLB and dTLB and `t2` those of L2TLB, and the geometry, the allocation and
the options are the same. -/
def Counted (dh dm : Int → Int) (x y : State) : Prop :=
  (∀ u, (y.TLBc u).geom = (x.TLBc u).geom) ∧
  (∀ u, counts_up 32 (-2 ^ 31) (x.TLBc u).hit (y.TLBc u).hit (dh u)) ∧
  (∀ u, counts_up 32 (-2 ^ 31) (x.TLBc u).miss (y.TLBc u).miss (dm u)) ∧
  counts_up 64 0 x.t1 y.t1 (dm 0 + dm 1) ∧ counts_up 64 0 x.t2 y.t2 (dm 2) ∧
  y.sim_iTLB = x.sim_iTLB ∧ y.sim_dTLB = x.sim_dTLB ∧ y.clo_sim_tlb = x.clo_sim_tlb ∧
  y.clo_sim_pages = x.clo_sim_pages ∧ y.RepPol = x.RepPol ∧ y.VAS_SIZE = x.VAS_SIZE ∧
  y.TLB_size = x.TLB_size

/-- The reference `(addr, data_type)` is handed to a simulated L1 level:
`data_type` is `0` and iTLB is simulated, or it is `1` and dTLB is. -/
def Routed (data_type : Int) (s : State) : Prop :=
  (data_type = 0 ∧ s.sim_iTLB = true) ∨ (data_type = 1 ∧ s.sim_dTLB = true)

instance (data_type : Int) (s : State) : Decidable (Routed data_type s) := by
  unfold Routed; infer_instance

/-- The level record that `tlbsim_init` leaves for the descriptor `d`. -/
def desc_level (d : Desc) : tlb_t :=
  { tlb_t.zero with page_size := toULong d.page_size, assoc := d.assoc, entries := d.entries }

/-- Level `t` of `s` is as start-up leaves it for the descriptor `d`: when the
level is simulated, its record is the one `init_tlb` computes, its `entries`
cells are allocated, their counts are zero and their tags are what the
allocator returned (`heap t`); otherwise only the descriptor was stored. -/
def LevelFresh (heap : Int → Int → Nat) (VAS : Int) (d : Desc) (t : Int) (s : State) : Prop :=
  if d.page_size ≠ -1 then
    init_level VAS (desc_level d) = some (s.TLBc t) ∧ 0 ≤ d.entries ∧
      s.TLB_size t = d.entries ∧ s.TLB t = fun i => { tag := heap t i, count := 0 }
  else s.TLBc t = desc_level d

/-- The options, flags and accumulators of a state: everything but the three
tables `TLBc`, `TLB` and their allocation. -/
def State.opts (s : State) : State :=
  { s with TLBc := fun _ => tlb_t.zero, TLB := fun _ _ => { tag := 0, count := 0 },
           TLB_size := fun _ => 0 }

/-- Number of lookups that level `u` has counted: `hit + miss`. -/
def lookups (s : State) (u : Int) : Int := (s.TLBc u).hit + (s.TLBc u).miss

/-- Number of references of kind `data_type` in a trace. -/
def refs_of (data_type : Int) (trace : List (Nat × Int)) : Nat :=
  trace.countP fun r => decide (r.2 = data_type)

/-- The simulation of lookups is on, and every simulated level has one of
the associativities `-1`, `0`, `N > 0`. -/
def LookupsOn (s : State) : Prop :=
  s.clo_sim_tlb = true ∧ (s.sim_iTLB = true → -1 ≤ (s.TLBc 0).assoc) ∧
    (s.sim_dTLB = true → -1 ≤ (s.TLBc 1).assoc) ∧ (s.sim_L2TLB = true → -1 ≤ (s.TLBc 2).assoc)

instance (s : State) : Decidable (LookupsOn s) := by
  unfold LookupsOn; infer_instance

/-- The accumulators agree with the miss counters of the levels:
`t1 = iTLB.miss + dTLB.miss` and `t2 = L2TLB.miss`. -/
def Accounted (s : State) : Prop :=
  (s.t1 : Int) = (s.TLBc 0).miss + (s.TLBc 1).miss ∧ (s.t2 : Int) = (s.TLBc 2).miss

instance (s : State) : Decidable (Accounted s) := by
  unfold Accounted; infer_instance

/-- Residence by bounded search, cell by cell from the start of the scope. -/
def ResidentAt (s : State) (t : Int) (tag addr_index : Nat) : Prop :=
  ∃ k : Nat, k < (scope_hi (s.TLBc t) addr_index - scope_lo (s.TLBc t) addr_index).toNat ∧
    (s.TLB t (scope_lo (s.TLBc t) addr_index + k)).tag = tag

instance (s : State) (t : Int) (tag addr_index : Nat) : Decidable (ResidentAt s t tag addr_index) := by
  unfold ResidentAt; infer_instance

instance (s : State) (t : Int) (tag addr_index : Nat) : Decidable (Resident s t tag addr_index) :=
  decidable_of_iff (ResidentAt s t tag addr_index) (by
    unfold ResidentAt Resident
    constructor
    · rintro ⟨k, hk, ht⟩
      exact ⟨_, by omega, by omega, ht⟩
    · rintro ⟨j, h0, h1, ht⟩
      refine ⟨(j - scope_lo (s.TLBc t) addr_index).toNat, by omega, ?_⟩
      rw [Int.toNat_of_nonneg (by omega)]
      have e : scope_lo (s.TLBc t) addr_index + (j - scope_lo (s.TLBc t) addr_index) = j := by ring
      rw [e]; exact ht)

/-- The virtual page number, for pages of `2 ^ k` bytes, of the last address
of `trace` whose page falls in slot `slot` of `2 ^ m` slots; `none` when no
address of `trace` falls in that slot. -/
def last_in_slot (k m slot : Nat) : List Nat → Option Nat
  | [] => none
  | b :: rest =>
    match last_in_slot k m slot rest with
    | some v => some v
    | none => if (b / 2 ^ k) % 2 ^ m = slot then some (b / 2 ^ k) else none

/-- Level `t` of `s` is a simulated L1 level with no L2TLB behind it. -/
structure Alone (s : State) (t : Int) : Prop where
  routed : Routed t s
  sim : s.clo_sim_tlb = true
  pol : s.RepPol = 0 ∨ s.RepPol = 1 ∨ s.RepPol = 2
  l2 : s.sim_L2TLB = false
  limit : s.TLB_size t < 2 ^ 31

/-- Level `t` of `s` is direct mapped with pages of `2 ^ k` bytes and `2 ^ m`
entries: its geometry is the one `init_tlb` computes from such a descriptor
`c0` for the address width `VAS_SIZE`, and its `2 ^ m` cells are allocated. -/
structure DirectMapped (s : State) (t : Int) (k m : Nat) (c0 c : tlb_t) : Prop where
  init : init_level s.VAS_SIZE c0 = some c
  geom : (s.TLBc t).geom = c.geom
  page : c0.page_size = 2 ^ k
  assoc : c0.assoc = 0
  entries : c0.entries = 2 ^ m
  hk : k ≤ 30
  hm : m ≤ 30
  vas_pos : 0 < s.VAS_SIZE
  vas_lim : s.VAS_SIZE < 2 ^ 31
  cells : (2 : Int) ^ m ≤ s.TLB_size t

/-- The number of distinct values referenced since the last reference to `v`,
in a list `recent` of references given most recent first: the distinct values
that stand before the first occurrence of `v`. -/
def others_since (v : Nat) (recent : List Nat) : Nat :=
  ((recent.takeWhile fun u => decide (u ≠ v)).dedup).length

/-- The scope of `K` cells from `lo` of the table `f` under the LRU policy,
after the pages `recent` (most recent first, all of residue `r` modulo `2 ^ m`)
were referenced in it from a fresh start: the first `w` cells were written,
cell `i` holds the tag of the page `cv i` and counts the references made since
the last one to that page; the pages held are those with fewer than `K`
distinct other pages referenced since; the other cells still hold tag 0 and
count every reference. -/
structure LruScope (f : Int → TLB_ENTRY) (lo : Int) (K m r : Nat) (recent : List Nat)
    (w : Nat) (cv : Nat → Nat) : Prop where
  len : w ≤ K
  slot : ∀ v ∈ recent, v % 2 ^ m = r
  inj : ∀ i j, i < w → j < w → cv i = cv j → i = j
  mem : ∀ v, (∃ i, i < w ∧ cv i = v) ↔ (v ∈ recent ∧ others_since v recent < K)
  full : w < K → ∀ v ∈ recent, ∃ i, i < w ∧ cv i = v
  touched : ∀ i : Nat, i < w →
    (f (lo + i)).tag = cv i / 2 ^ m ∧ (f (lo + i)).count = recent.indexOf (cv i)
  fresh : ∀ i : Nat, w ≤ i → i < K →
    (f (lo + i)).tag = 0 ∧ (f (lo + i)).count = recent.length

/-- The pages, for pages of `2 ^ k` bytes, of the addresses of `trace` that
fall in the scope `r` of `2 ^ m` scopes, the most recent first. -/
def scope_refs (k m r : Nat) (trace : List Nat) : List Nat :=
  ((trace.map fun b => b / 2 ^ k).filter fun v => v % 2 ^ m = r).reverse

/-- Level `t` of `s` is fully associative with `K` entries (then `m = 0`), or
N-way with `K` ways and `2 ^ m` sets, `1 ≤ m`, under the LRU policy, with
pages of `2 ^ k` bytes: its geometry is the one `init_tlb` computes from such
a descriptor `c0` for the address width `VAS_SIZE`, and its cells are
allocated. -/
structure LruLevel (s : State) (t : Int) (k m K : Nat) (c0 c : tlb_t) : Prop where
  init : init_level s.VAS_SIZE c0 = some c
  geom : (s.TLBc t).geom = c.geom
  page : c0.page_size = 2 ^ k
  hk : k ≤ 30
  pol : s.RepPol = 1
  ways : 0 < K
  kind : (c0.assoc = -1 ∧ c0.entries = K ∧ m = 0 ∧ k ≤ s.VAS_SIZE ∧ s.VAS_SIZE ≤ 63) ∨
    (c0.assoc = K ∧ Int.tdiv c0.entries c0.assoc = 2 ^ m ∧ 1 ≤ m ∧ m ≤ 30)
  vas_pos : 0 < s.VAS_SIZE
  vas_lim : s.VAS_SIZE < 2 ^ 31
  cells : (2 : Int) ^ m * K ≤ s.TLB_size t

/-- The trace of `n` references that alternates between `p` and `q`, starting
with `p`. -/
def alternate : Nat → (Nat × Int) → (Nat × Int) → List (Nat × Int)
  | 0, _, _ => []
  | n + 1, p, q => p :: alternate n q p

/-- The addresses `a` and `b` thrash the L1 level `t` and L2TLB of `s`: in
both levels they decode to the same scope, a scope of a single cell, with
different tags, and neither level holds `a`, the address referenced next. -/
structure Thrash (s : State) (t : Int) (a b : Nat) : Prop where
  routed : Routed t s
  l2 : s.sim_L2TLB = true
  sim : s.clo_sim_tlb = true
  pol : s.RepPol = 0 ∨ s.RepPol = 1 ∨ s.RepPol = 2
  range1 : InRangeAt s t (decode_index (s.TLBc t) a)
  range2 : InRangeAt s 2 (decode_index (s.TLBc 2) a)
  index1 : decode_index (s.TLBc t) b = decode_index (s.TLBc t) a
  index2 : decode_index (s.TLBc 2) b = decode_index (s.TLBc 2) a
  single1 : scope_hi (s.TLBc t) (decode_index (s.TLBc t) a) =
    scope_lo (s.TLBc t) (decode_index (s.TLBc t) a) + 1
  single2 : scope_hi (s.TLBc 2) (decode_index (s.TLBc 2) a) =
    scope_lo (s.TLBc 2) (decode_index (s.TLBc 2) a) + 1
  tags1 : decode_tag (s.TLBc t) a ≠ decode_tag (s.TLBc t) b
  tags2 : decode_tag (s.TLBc 2) a ≠ decode_tag (s.TLBc 2) b
  out1 : ¬ Resident s t (decode_tag (s.TLBc t) a) (decode_index (s.TLBc t) a)
  out2 : ¬ Resident s 2 (decode_tag (s.TLBc 2) a) (decode_index (s.TLBc 2) a)

/-- The address `a` on the L1 level `t` of `s`, fully associative or N-way
under the LRU policy without L2TLB: it decodes to the tag `tag` and to the
scope of the `K` cells from `lo`. -/
structure LruAt (s : State) (t : Int) (a : Nat) (lo : Int) (K tag : Nat) : Prop where
  alone : Alone s t
  pol : s.RepPol = 1
  range : InRangeAt s t (decode_index (s.TLBc t) a)
  assoc : (s.TLBc t).assoc ≠ 0
  first : scope_lo (s.TLBc t) (decode_index (s.TLBc t) a) = lo
  last : scope_hi (s.TLBc t) (decode_index (s.TLBc t) a) = lo + K
  tag : decode_tag (s.TLBc t) a = tag

/-! ## Sample configurations -/

/-- The descriptor of a fully associative level with 4 entries and 4 KiB pages. -/
def fa_four : Desc := { page_size := 4096, assoc := -1, entries := 4 }

/-- The descriptor of a fully associative level with 8 entries and 4 KiB pages. -/
def fa_eight : Desc := { page_size := 4096, assoc := -1, entries := 8 }

/-- A fully associative iTLB with 4 entries over a fully associative L2TLB
with 8 entries, 4 KiB pages, default options (LRU, 32-bit addresses), with the
allocator returning zeroed cells. -/
def two_level_start : Option State :=
  startup Options.default fa_four Desc.undefined fa_eight (fun _ _ => 0) (fun _ => 0)

/-- The state of `two_level_start`. -/
def two_level : State := two_level_start.getD (boot fun _ => 0)

/-- References to the virtual pages 1, 2, 3, 4, 5 as instruction fetches. -/
def five_pages : List (Nat × Int) :=
  [(0x1000, 0), (0x2000, 0), (0x3000, 0), (0x4000, 0), (0x5000, 0)]

/-- The state of `two_level` after the references `five_pages`. -/
def two_level_after_five : State := (run five_pages two_level).getD two_level

/-- The state of `two_level` after `five_pages` and one more reference to page 1. -/
def two_level_after_six : State :=
  (reference_address 0x1000 0 two_level_after_five).getD two_level

/-- A 2-way dTLB with 4 entries (two sets), 4 KiB pages, default options. -/
def two_way_start : Option State :=
  startup Options.default Desc.undefined { page_size := 4096, assoc := 2, entries := 4 }
    Desc.undefined (fun _ _ => 0) (fun _ => 0)

/-- The state of `two_way_start`, with the dTLB selected. -/
def two_way : State :=
  { two_way_start.getD (boot fun _ => 0) with TLB_TYPE := 1 }

/-- The state `two_way` with the counts 3, 7, 7, 2 in its four cells, under
the policy `pol`. -/
def two_way_counts (pol : Int) : State :=
  { two_way with
    RepPol := pol,
    TLB := upd two_way.TLB 1 fun i =>
      if i = 0 then { tag := 10, count := 3 } else if i = 1 then { tag := 11, count := 7 }
      else if i = 2 then { tag := 12, count := 7 } else { tag := 13, count := 2 } }

/-- The descriptor of a 2-way level with 2 entries, that is, with a single set. -/
def one_set_desc : Desc := { page_size := 4096, assoc := 2, entries := 2 }

/-- The level record that `init_tlb` computes for `one_set_desc` with 32-bit
addresses. -/
def one_set_level : tlb_t := (init_level 32 (desc_level one_set_desc)).getD tlb_t.zero

/-- A 2-way iTLB with 2 entries, alone, default options. -/
def one_set_start : Option State :=
  startup Options.default one_set_desc Desc.undefined Desc.undefined (fun _ _ => 0) (fun _ => 0)

/-- The state of `one_set_start`. -/
def one_set : State := one_set_start.getD (boot fun _ => 0)

/-- The descriptor of a direct-mapped level with 4 entries and 4 KiB pages. -/
def dm_four_desc : Desc := { page_size := 4096, assoc := 0, entries := 4 }

/-- The level record that `init_tlb` computes for `dm_four_desc` with 32-bit
addresses. -/
def dm_four : tlb_t := (init_level 32 (desc_level dm_four_desc)).getD tlb_t.zero

/-- A direct-mapped iTLB with 4 entries and 4 KiB pages, alone, default
options, with the allocator returning zeroed cells. -/
def dm_four_start : Option State :=
  startup Options.default dm_four_desc Desc.undefined Desc.undefined (fun _ _ => 0) (fun _ => 0)

/-- The state of `dm_four_start`. -/
def dm_four_state : State := dm_four_start.getD (boot fun _ => 0)

/-- Instruction references to the pages 0, 4, 8, 12, 16 and 0 again, which all
fall in slot 0 of a direct-mapped level with 4 entries. -/
def slot_zero_refs : List (Nat × Int) :=
  [(0x0000, 0), (0x4000, 0), (0x8000, 0), (0xC000, 0), (0x10000, 0), (0x0000, 0)]

/-- The state of `dm_four_state` after the references `slot_zero_refs`. -/
def dm_four_after : State := (run slot_zero_refs dm_four_state).getD dm_four_state

/-- The values 7, 7, 3, 7, 3, 11. -/
def page_values : List Nat := [7, 7, 3, 7, 3, 11]

/-- The state `two_level` with iTLB selected; its page list is empty. -/
def two_level_itlb : State := { two_level with TLB_TYPE := 0 }

/-- The default options with the page log switched on. -/
def logging_options : Options :=
  { clo_sim_tlb := true, clo_sim_pages := true, VAS_SIZE := 32, RepPol := 1 }

/-- The descriptor of a direct-mapped level with 8 entries and 4 KiB pages. -/
def dm_eight_desc : Desc := { page_size := 4096, assoc := 0, entries := 8 }

/-- Instruction references to the pages 7, 7, 3, 7, 3, 11. -/
def page_refs : List (Nat × Int) :=
  [(0x7000, 0), (0x7000, 0), (0x3000, 0), (0x7000, 0), (0x3000, 0), (0xB000, 0)]

/-- A direct-mapped iTLB with 8 entries, alone, with the page log on. -/
def dm_logging_start : Option State :=
  startup logging_options dm_eight_desc Desc.undefined Desc.undefined (fun _ _ => 0)
    (fun _ => 0)

/-- The state of `dm_logging_start` after the references `page_refs`. -/
def dm_logging_after : State :=
  ((dm_logging_start.bind (run page_refs)).getD (boot fun _ => 0))

/-- A fully associative iTLB with 8 entries, alone, with the page log on. -/
def fa_logging_start : Option State :=
  startup logging_options fa_eight Desc.undefined Desc.undefined (fun _ _ => 0) (fun _ => 0)

/-- The state of `fa_logging_start` after the references `page_refs`. -/
def fa_logging_after : State :=
  ((fa_logging_start.bind (run page_refs)).getD (boot fun _ => 0))

/-- The default options with the random replacement policy. -/
def random_options : Options :=
  { clo_sim_tlb := true, clo_sim_pages := false, VAS_SIZE := 32, RepPol := 2 }

/-- A fully associative iTLB with 4 entries, alone, under the random policy
with the generator `rnd`, the allocator returning zeroed cells. -/
def random_start (rnd : Nat → Nat) : Option State :=
  startup random_options fa_four Desc.undefined Desc.undefined (fun _ _ => 0) rnd

/-- The state of `random_start`. -/
def random_state (rnd : Nat → Nat) : State := (random_start rnd).getD (boot rnd)

/-- The addresses of the virtual pages 1, 2, 3, 4, 5. -/
def five_addrs : List Nat := [0x1000, 0x2000, 0x3000, 0x4000, 0x5000]

/-- The state `random_state rnd` after instruction references to `five_addrs`. -/
def random_after (rnd : Nat → Nat) : State :=
  (run (five_addrs.map fun a => (a, 0)) (random_state rnd)).getD (boot rnd)

/-- The descriptor of the 2-way dTLB of `two_way`: 4 entries, 4 KiB pages. -/
def two_way_desc : Desc := { page_size := 4096, assoc := 2, entries := 4 }

/-- The level record that `init_tlb` computes for `two_way_desc` with 32-bit
addresses. -/
def two_way_level : tlb_t := (init_level 32 (desc_level two_way_desc)).getD tlb_t.zero

/-- The level record that `init_tlb` computes for `fa_four` with 32-bit
addresses. -/
def fa_four_level : tlb_t := (init_level 32 (desc_level fa_four)).getD tlb_t.zero

/-- Instruction references to page 1 and to the address that differs from it
in bit 32 only. -/
def bit_32_refs : List (Nat × Int) := [(0x1000, 0), (0x100001000, 0)]

/-- The state of `two_level` after the references `bit_32_refs`. -/
def two_level_after_bit_32 : State := (run bit_32_refs two_level).getD two_level

/-- A direct-mapped iTLB with 4 entries over a direct-mapped L2TLB with 4
entries, 4 KiB pages, default options (LRU, 32-bit addresses), with the
allocator returning zeroed cells. -/
def dm_two_level_start : Option State :=
  startup Options.default dm_four_desc Desc.undefined dm_four_desc (fun _ _ => 0) (fun _ => 0)

/-- The state of `dm_two_level_start`. -/
def dm_two_level : State := dm_two_level_start.getD (boot fun _ => 0)

/-- The state of `two_way` after data references to the pages 25 and 27, both
of set 1, with the tags 12 and 13. -/
def two_way_warm : State :=
  (run ([0x19000, 0x1B000].map fun b => (b, 1)) two_way).getD two_way

/-- The addresses of the pages 25 and 27, then `n` more times the address of
page 27, then the address of page 29: all three pages belong to set 1 of a
2-way level with two sets. -/
def lru_long_trace (n : Nat) : List Nat :=
  [0x19000, 0x1B000] ++ List.replicate n 0x1B000 ++ [0x1D000]

/-- The allocator that returns cells with tag 5 for iTLB and zeroed cells
otherwise. -/
def heap_five : Int → Int → Nat := fun t _ => if t = 0 then 5 else 0

/-- The direct-mapped iTLB of `dm_four_start` when the allocator returns cells
that hold the tag 5. -/
def dm_four_dirty_start : Option State :=
  startup Options.default dm_four_desc Desc.undefined Desc.undefined heap_five (fun _ => 0)

/-- The state of `dm_four_dirty_start`. -/
def dm_four_dirty : State := dm_four_dirty_start.getD (boot fun _ => 0)

end CgTlb

namespace CgArch

/-!
# Cache option handling (`cachegrind/cg-arch.c`)

`check_cache`, `parse_cache_opt`, `VG_(str_clo_cache_opt)`,
`check_cache_or_override` and `VG_(post_clo_init_configure_caches)`.
The fields of a descriptor are 32-bit `Int`s; an operation of C that has no
defined result (overflow of a signed product, division by zero) yields `none`.
-/

/-- `cache_t` of `cg_arch.h`: a descriptor `(size, assoc, line_size)`. -/
structure cache_t where
  size : Int
  assoc : Int
  line_size : Int
deriving DecidableEq

/-- The value `x` is one of the 32-bit type `Int`. -/
def in_int (x : Int) : Prop := -2 ^ 31 ≤ x ∧ x < 2 ^ 31

instance (x : Int) : Decidable (in_int x) := by
  unfold in_int; infer_instance

/-- The conversion of a 64-bit `Long` to the 32-bit `Int`. -/
def to_int (x : Int) : Int := (x + 2 ^ 31) % 2 ^ 32 - 2 ^ 31

/-- The conversion of an `Int` to `UInt`. -/
def to_uint (x : Int) : Nat := (x % 2 ^ 32).toNat

/-- The product `a * b` on `Int`: undefined when it overflows. -/
def mul_int (a b : Int) : Option Int :=
  if in_int (a * b) then some (a * b) else none

/-- The quotient `a / b` on `Int`: undefined for a zero divisor and for
`INT_MIN / -1`. -/
def div_int (a b : Int) : Option Int :=
  if b = 0 ∨ (a = -2 ^ 31 ∧ b = -1) then none else some (Int.tdiv a b)

/-- The remainder `a % b` on `Int`: undefined where `a / b` is. -/
def mod_int (a b : Int) : Option Int :=
  if b = 0 ∨ (a = -2 ^ 31 ∧ b = -1) then none else some (Int.tmod a b)

/-- Modelled from the spec: `VG_(log2)` of Valgrind's core, which is not part
of this repository: for an unsigned 32-bit `x` it returns `k` when
`x = 2 ^ k` and `-1` otherwise. -/
def VG_log2 (x : Nat) : Int :=
  match (List.range 32).find? (fun k => 2 ^ k = x) with
  | some k => (k : Int)
  | none => -1

/-- Modelled from the spec: the constant `MIN_LINE_SIZE` of `cg_arch.h`, which
is not part of this repository; the comment at its use says that the line
size must be at least 16. -/
def MIN_LINE_SIZE : Int := 16

/-- The first test of `check_cache`: `size % (line_size * assoc) != 0 ||
-1 == VG_(log2)(size / line_size / assoc)`, the right operand evaluated only
when the left one is false. -/
def set_count_bad (cache : cache_t) : Option Bool :=
  (mul_int cache.line_size cache.assoc).bind fun p =>
    (mod_int cache.size p).bind fun r =>
      if r ≠ 0 then some true
      else (div_int cache.size cache.line_size).bind fun q1 =>
        (div_int q1 cache.assoc).map fun q2 => decide (VG_log2 (to_uint q2) = -1)

/-- `check_cache(cache)`: `some none` for `NULL` (the descriptor is accepted),
`some (some msg)` for the error string `msg`. -/
def check_cache (cache : cache_t) : Option (Option String) :=
  (set_count_bad cache).bind fun bad =>
    if bad then some (some "Cache set count is not a power of two.\n")
    else if VG_log2 (to_uint cache.line_size) = -1 then
      some (some "Cache line size is not a power of two.\n")
    else if cache.line_size < MIN_LINE_SIZE then
      some (some "Cache line size is too small.\n")
    else if cache.size ≤ cache.line_size then
      some (some "Cache size <= line size.\n")
    else (div_int cache.size cache.line_size).map fun q =>
      if cache.assoc > q then some "Cache associativity > (size / line size).\n"
      else none

/-- The digit loop of `VG_(strtoll10)`: the value read so far, whether a digit
was converted, and the rest of the string. -/
def read_digits : List Char → Int → Bool → Int × Bool × List Char
  | [], n, conv => (n, conv, [])
  | ch :: rest, n, conv =>
    if ch.isDigit then read_digits rest (10 * n + ((ch.toNat - 48 : Nat) : Int)) true
    else (n, conv, ch :: rest)

/-- Modelled from the spec: `VG_(strtoll10)` of Valgrind's core, which is not
part of this repository: an optional sign, then decimal digits; the end
pointer is at the first unconverted character, or at the start of the string
if nothing was converted.  The result is the value and the string at the end
pointer. -/
def VG_strtoll10 (str : List Char) : Int × List Char :=
  let body : Bool × List Char :=
    match str with
    | '-' :: rest => (true, rest)
    | '+' :: rest => (false, rest)
    | _ => (false, str)
  let r := read_digits body.2 0 false
  (if body.1 then -r.1 else r.1, if r.2.1 then r.2.2 else str)

/-- How `parse_cache_opt` ends: it returns, or it leaves through
`VG_(fmsg_bad_option)` at the label `bad` or at the label `overflow`. -/
inductive Outcome where
  | returned
  | bad_option
  | overflow
deriving DecidableEq

/-- `parse_cache_opt(cache, opt, optval)` with the global `TLB_bool`: the
descriptor `*cache` afterwards and the way the function ends.  A C string is
the list of its characters before the terminating `NUL`. -/
def parse_cache_opt (TLB_bool : Bool) (cache : cache_t) (optval : List Char) :
    Option (cache_t × Outcome) :=
  let p1 := VG_strtoll10 optval
  if p1.2.head? ≠ some ',' then some (cache, Outcome.bad_option) else
  let p2 := VG_strtoll10 p1.2.tail
  if p2.2.head? ≠ some ',' then some (cache, Outcome.bad_option) else
  let p3 := VG_strtoll10 p2.2.tail
  if p3.2 ≠ [] then some (cache, Outcome.bad_option) else
  let c : cache_t := { size := to_int p1.1, assoc := to_int p2.1, line_size := to_int p3.1 }
  if c.size ≠ p1.1 then some (c, Outcome.overflow)
  else if c.assoc ≠ p2.1 then some (c, Outcome.overflow)
  else if c.line_size ≠ p3.1 then some (c, Outcome.overflow)
  else if !TLB_bool then
    (check_cache c).map fun checkRes =>
      if checkRes.isSome then (c, Outcome.bad_option) else (c, Outcome.returned)
  else some (c, Outcome.returned)

/-- The command-line descriptors that `VG_(str_clo_cache_opt)` fills and the
globals `TLB_bool`, `itlb_bool`, `dtlb_bool`, `l2tlb_bool`. -/
structure Clo where
  I1c : cache_t
  D1c : cache_t
  L2c : cache_t
  LLc : cache_t
  iTLBc : cache_t
  dTLBc : cache_t
  L2TLBc : cache_t
  TLB_bool : Bool
  itlb_bool : Bool
  dtlb_bool : Bool
  l2tlb_bool : Bool

/-- The undefined descriptor `(-1, -1, -1)`. -/
def UNDEFINED_CACHE : cache_t := { size := -1, assoc := -1, line_size := -1 }

/-- The state before any option is handled: every descriptor undefined, every
flag `False`. -/
def Clo.start : Clo :=
  { I1c := UNDEFINED_CACHE, D1c := UNDEFINED_CACHE, L2c := UNDEFINED_CACHE,
    LLc := UNDEFINED_CACHE, iTLBc := UNDEFINED_CACHE, dTLBc := UNDEFINED_CACHE,
    L2TLBc := UNDEFINED_CACHE, TLB_bool := false, itlb_bool := false, dtlb_bool := false,
    l2tlb_bool := false }

/-- Modelled from the spec: the macro `VG_STR_CLO(arg, option, var)` of
`pub_tool_options.h`, which is not part of this repository: `arg` starts with
`option` followed by `=`, and `var` is the rest of `arg`. -/
def VG_STR_CLO (arg : List Char) (option : String) : Option (List Char) :=
  if (option.toList ++ ['=']).isPrefixOf arg then some (arg.drop (option.length + 1))
  else none

/-- What one call of `VG_(str_clo_cache_opt)` did: it returned `False` (not a
cache option), it returned `True`, or `parse_cache_opt` left through
`VG_(fmsg_bad_option)`. -/
inductive Handled where
  | not_mine
  | taken
  | rejected (how : Outcome)
deriving DecidableEq

/-- The call of `parse_cache_opt` for one slot, and the bookkeeping that
follows it when it returns. -/
def parse_into (s : Clo) (optval : List Char) (get : Clo → cache_t)
    (set : Clo → cache_t → Clo) (after : Clo → Clo) : Option (Clo × Handled) :=
  (parse_cache_opt s.TLB_bool (get s) optval).map fun r =>
    match r.2 with
    | Outcome.returned => (after (set s r.1), Handled.taken)
    | how => (set s r.1, Handled.rejected how)

/-- `VG_(str_clo_cache_opt)(arg, ...)` on the descriptors and flags `s`. -/
def VG_str_clo_cache_opt (arg : List Char) (s : Clo) : Option (Clo × Handled) :=
  match VG_STR_CLO arg "--I1" with
  | some v => parse_into s v Clo.I1c (fun t c => { t with I1c := c }) id
  | none =>
  match VG_STR_CLO arg "--D1" with
  | some v => parse_into s v Clo.D1c (fun t c => { t with D1c := c }) id
  | none =>
  match VG_STR_CLO arg "--L2" with
  | some v => parse_into s v Clo.L2c (fun t c => { t with L2c := c }) id
  | none =>
  match VG_STR_CLO arg "--LL" with
  | some v => parse_into s v Clo.LLc (fun t c => { t with LLc := c }) id
  | none =>
  match VG_STR_CLO arg "--iTLB" with
  | some v => parse_into { s with TLB_bool := true } v Clo.iTLBc
      (fun t c => { t with iTLBc := c }) (fun t => { t with itlb_bool := true })
  | none =>
  match VG_STR_CLO arg "--dTLB" with
  | some v => parse_into { s with TLB_bool := true } v Clo.dTLBc
      (fun t c => { t with dTLBc := c }) (fun t => { t with dtlb_bool := true })
  | none =>
  match VG_STR_CLO arg "--L2TLB" with
  | some v => parse_into { s with TLB_bool := true } v Clo.L2TLBc
      (fun t c => { t with L2TLBc := c }) (fun t => { t with l2tlb_bool := true })
  | none => some (s, Handled.not_mine)

/-- The macro `DEFINED(L)` of `VG_(post_clo_init_configure_caches)`. -/
def DEFINED (L : cache_t) : Bool :=
  decide (-1 ≠ L.size) || decide (-1 ≠ L.assoc) || decide (-1 ≠ L.line_size)

/-- The local `all_caches_clo_defined` of `VG_(post_clo_init_configure_caches)`. -/
def all_caches_clo_defined (clo : Clo) : Bool :=
  DEFINED clo.I1c && DEFINED clo.D1c && DEFINED clo.L2c && DEFINED clo.LLc

/-- `check_cache_or_override(desc, c, clo_redefined)`: `some true` when it
returns, `some false` when it stops at `tl_assert(0)`. -/
def check_cache_or_override (c : cache_t) (clo_redefined : Bool) : Option Bool :=
  (check_cache c).map fun checkRes =>
    if checkRes.isSome then (if !clo_redefined then false else true) else true

/-- The seven descriptors that the tool simulates with. -/
structure Caches where
  I1c : cache_t
  D1c : cache_t
  L2c : cache_t
  LLc : cache_t
  iTLBc : cache_t
  dTLBc : cache_t
  L2TLBc : cache_t

/-- `VG_(post_clo_init_configure_caches)`: `some none` when it stops at an
assertion, `some (some caches)` with the final descriptors when it returns.
`VG_(configure_caches)`, the auto-detection of the architecture, is not part
of this repository and is the parameter `configure`, from the descriptors
before the call and `all_caches_clo_defined` to the descriptors after it. -/
def VG_post_clo_init_configure_caches (configure : Caches → Bool → Caches) (caches : Caches)
    (clo : Clo) : Option (Option Caches) :=
  let a := configure caches (all_caches_clo_defined clo)
  (check_cache_or_override a.I1c (DEFINED clo.I1c)).bind fun ok1 =>
  if !ok1 then some none else
  (check_cache_or_override a.D1c (DEFINED clo.D1c)).bind fun ok2 =>
  if !ok2 then some none else
  (check_cache_or_override a.L2c (DEFINED clo.L2c)).bind fun ok3 =>
  if !ok3 then some none else
  (check_cache_or_override a.LLc (DEFINED clo.LLc)).bind fun ok4 =>
  if !ok4 then some none else
  let b1 := if DEFINED clo.I1c then { a with I1c := clo.I1c } else a
  let b2 := if DEFINED clo.D1c then { b1 with D1c := clo.D1c } else b1
  let b3 := if DEFINED clo.L2c then { b2 with L2c := clo.L2c } else b2
  let b4 := if DEFINED clo.LLc then { b3 with LLc := clo.LLc } else b3
  let b5 := if clo.itlb_bool then { b4 with iTLBc := clo.iTLBc } else b4
  let b6 := if clo.dtlb_bool then { b5 with dTLBc := clo.dTLBc } else b5
  let b7 := if clo.l2tlb_bool then { b6 with L2TLBc := clo.L2TLBc } else b6
  some (some b7)

/-! ## Vocabulary of the statements -/

/-- The auto-detected descriptor `auto` fails `check_cache` and the
command-line descriptor `given` of the same slot is undefined. -/
def SlotFails (auto given : cache_t) : Prop :=
  check_cache auto ≠ some none ∧ given = UNDEFINED_CACHE

/-- The final descriptor of a slot: the command-line one if it is defined,
the auto-detected one otherwise. -/
def final_slot (auto given : cache_t) : cache_t :=
  if given = UNDEFINED_CACHE then auto else given

/-- Sample auto-detection: every slot is (65536, 2, 64), whatever came in. -/
def sample_configure : Caches → Bool → Caches := fun _ _ =>
  { I1c := { size := 65536, assoc := 2, line_size := 64 },
    D1c := { size := 65536, assoc := 2, line_size := 64 },
    L2c := { size := 65536, assoc := 2, line_size := 64 },
    LLc := { size := 65536, assoc := 2, line_size := 64 },
    iTLBc := UNDEFINED_CACHE, dTLBc := UNDEFINED_CACHE, L2TLBc := UNDEFINED_CACHE }

/-- Sample contents of the descriptors before auto-detection. -/
def sample_caches : Caches :=
  { I1c := UNDEFINED_CACHE, D1c := UNDEFINED_CACHE, L2c := UNDEFINED_CACHE,
    LLc := UNDEFINED_CACHE, iTLBc := UNDEFINED_CACHE, dTLBc := UNDEFINED_CACHE,
    L2TLBc := UNDEFINED_CACHE }

end CgArch

namespace CgTlb

/-! ## Basic facts about the memory operations -/

@[simp] theorem upd_same {α : Type} (f : Int → α) (i : Int) (v : α) : upd f i v i = v := by
  simp [upd]

theorem upd_ne {α : Type} (f : Int → α) {i j : Int} (v : α) (h : j ≠ i) :
    upd f i v j = f j := by
  simp [upd, h]

theorem upd_apply {α : Type} (f : Int → α) (i j : Int) (v : α) :
    upd f i v j = if j = i then v else f j := rfl

@[simp] theorem upd_upd {α : Type} (f : Int → α) (i : Int) (v w : α) :
    upd (upd f i v) i w = upd f i w := by
  funext j
  simp only [upd]
  split <;> simp_all

@[simp] theorem put_tbl (s : State) (f : Int → TLB_ENTRY) : (s.put f).tbl = f := by
  simp [State.put, State.tbl]

@[simp] theorem put_put (s : State) (f g : Int → TLB_ENTRY) : (s.put f).put g = s.put g := by
  simp [State.put]

@[simp] theorem put_self (s : State) : s.put s.tbl = s := by
  cases s
  simp only [State.put, State.tbl, State.mk.injEq, and_true, true_and]
  funext t
  simp only [upd]
  split
  · next h => rw [h]
  · rfl

@[simp] theorem put_cur (s : State) (f : Int → TLB_ENTRY) : (s.put f).cur = s.cur := rfl
@[simp] theorem put_size (s : State) (f : Int → TLB_ENTRY) : (s.put f).size = s.size := rfl
@[simp] theorem put_TLB_TYPE (s : State) (f : Int → TLB_ENTRY) :
    (s.put f).TLB_TYPE = s.TLB_TYPE := rfl
@[simp] theorem put_RepPol (s : State) (f : Int → TLB_ENTRY) : (s.put f).RepPol = s.RepPol := rfl
@[simp] theorem put_TLBc (s : State) (f : Int → TLB_ENTRY) : (s.put f).TLBc = s.TLBc := rfl

theorem put_TLB_other (s : State) (f : Int → TLB_ENTRY) {t : Int} (h : t ≠ s.TLB_TYPE) :
    (s.put f).TLB t = s.TLB t := by
  simp [State.put, upd, h]

theorem load_eq (s : State) {i : Int} (h0 : 0 ≤ i) (h1 : i < s.size) :
    load i s = some (s.tbl i) := by
  unfold load
  rw [if_pos ⟨h0, h1⟩]
  rfl

theorem store_eq (s : State) {i : Int} (e : TLB_ENTRY) (h0 : 0 ≤ i) (h1 : i < s.size) :
    store i e s = some (s.put (upd s.tbl i e)) := by
  unfold store
  rw [if_pos ⟨h0, h1⟩]
  rfl

theorem store_tag_eq (s : State) {i : Int} (tag : Nat) (h0 : 0 ≤ i) (h1 : i < s.size) :
    store_tag i tag s = some (s.put (upd s.tbl i { s.tbl i with tag := tag })) := by
  simp [store_tag, load_eq s h0 h1, store_eq s _ h0 h1]

theorem store_count_eq (s : State) {i : Int} (c : Int) (h0 : 0 ≤ i) (h1 : i < s.size) :
    store_count i c s = some (s.put (upd s.tbl i { s.tbl i with count := c })) := by
  simp [store_count, load_eq s h0 h1, store_eq s _ h0 h1]

theorem incr_count_eq (s : State) {i : Int} (h0 : 0 ≤ i) (h1 : i < s.size) :
    incr_count i s =
      some (s.put (upd s.tbl i { s.tbl i with count := incr_int (s.tbl i).count })) := by
  simp [incr_count, load_eq s h0 h1, store_eq s _ h0 h1]

theorem incr_counts_eq (n : Nat) : ∀ (lo : Int) (s : State), 0 ≤ lo → lo + n ≤ s.size →
    incr_counts n lo s = some (s.put (bumped s.tbl lo n)) := by
  induction n with
  | zero =>
    intro lo s _ _
    have : bumped s.tbl lo 0 = s.tbl := by
      funext j; simp only [bumped]; rw [if_neg]; push_cast; omega
    simp [incr_counts, this]
  | succ n ih =>
    intro lo s h0 h1
    have hlt : lo < s.size := by push_cast at h1; omega
    simp only [incr_counts, incr_count_eq s h0 hlt, Option.some_bind]
    rw [ih (lo + 1) _ (by omega) (by simp only [put_size]; push_cast at h1 ⊢; omega)]
    simp only [put_put, put_tbl]
    congr 2
    funext j
    simp only [bumped, upd_apply]
    push_cast
    by_cases hj : j = lo
    · subst hj
      simp
    · by_cases hj2 : lo + 1 ≤ j ∧ j < lo + 1 + n
      · rw [if_pos hj2, if_neg hj, if_pos (by omega)]
      · rw [if_neg hj2, if_neg hj, if_neg (by omega)]

theorem eq_some_getD {α : Type} {o : Option α} (d : α) (h : o.isSome = true) :
    o = some (o.getD d) := by
  cases o with
  | none => simp at h
  | some a => rfl

/-! ## Counters of 32 and 64 bits -/

theorem wrap_int_of_in {x : Int} (h0 : -2 ^ 31 ≤ x) (h1 : x < 2 ^ 31) : wrap_int x = x := by
  unfold wrap_int; omega

theorem wrap_int_range (x : Int) : -2 ^ 31 ≤ wrap_int x ∧ wrap_int x < 2 ^ 31 := by
  unfold wrap_int; omega

theorem wrap_int_wrap (x d : Int) : wrap_int (wrap_int x + d) = wrap_int (x + d) := by
  unfold wrap_int; omega

theorem incr_int_of_lt {x : Int} (h0 : -2 ^ 31 ≤ x) (h1 : x < 2 ^ 31 - 1) :
    incr_int x = x + 1 := by
  unfold incr_int wrap_int; omega

theorem incr_int_range (x : Int) : -2 ^ 31 ≤ incr_int x ∧ incr_int x < 2 ^ 31 :=
  wrap_int_range _

theorem incr_int_ne (x : Int) : incr_int x ≠ x := by
  unfold incr_int wrap_int; omega

theorem incr_ulong_of_lt {x : Nat} (h : x < 2 ^ 64 - 1) : incr_ulong x = x + 1 := by
  unfold incr_ulong; omega

theorem counts_up_refl (w : Nat) (lo a : Int) : counts_up w lo a a 0 := by
  refine ⟨?_, fun h => h⟩
  have : a - (a + 0) = 0 := by ring
  rw [this]; simp

theorem counts_up_of_eq {w : Nat} {lo a b : Int} (h : b = a) : counts_up w lo a b 0 := by
  rw [h]; exact counts_up_refl w lo a

theorem counts_up_trans {w : Nat} {lo a b c d e : Int} (h1 : counts_up w lo a b d)
    (h2 : counts_up w lo b c e) : counts_up w lo a c (d + e) := by
  refine ⟨?_, fun h => h2.2 (h1.2 h)⟩
  have e1 : c - (a + (d + e)) = (c - (b + e)) + (b - (a + d)) := by ring
  rw [e1]
  exact Int.emod_eq_zero_of_dvd
    (dvd_add (Int.dvd_of_emod_eq_zero h2.1) (Int.dvd_of_emod_eq_zero h1.1))

theorem counts_up_congr {w : Nat} {lo a b d e : Int} (h : counts_up w lo a b d) (hd : d = e) :
    counts_up w lo a b e := by
  rw [← hd]; exact h

theorem counts_up_incr_int (a : Int) : counts_up 32 (-2 ^ 31) a (incr_int a) 1 := by
  unfold counts_up incr_int wrap_int
  omega

theorem counts_up_incr_ulong (a : Nat) : counts_up 64 0 a (incr_ulong a) 1 := by
  unfold counts_up incr_ulong
  omega

/-- A 32-bit counter that started within the type and whose ideal value
`a + d` still fits holds exactly `a + d`. -/
theorem counts_up_exact {a b d : Int} (h : counts_up 32 (-2 ^ 31) a b d) (h0 : -2 ^ 31 ≤ a)
    (h1 : a < 2 ^ 31) (h2 : -2 ^ 31 ≤ a + d) (h3 : a + d < 2 ^ 31) : b = a + d := by
  obtain ⟨c1, c2⟩ := h
  have c3 := c2 ⟨h0, by omega⟩
  omega

/-- A 64-bit counter that started within the type and whose ideal value
`a + d` still fits holds exactly `a + d`. -/
theorem counts_up_exact64 {a b d : Int} (h : counts_up 64 0 a b d) (h0 : 0 ≤ a)
    (h1 : a < 2 ^ 64) (h2 : 0 ≤ a + d) (h3 : a + d < 2 ^ 64) : b = a + d := by
  obtain ⟨c1, c2⟩ := h
  have c3 := c2 ⟨h0, by omega⟩
  omega

/-! ## Arithmetic of the masks -/

theorem and_shiftRight (x y m : Nat) : (x &&& y) >>> m = (x >>> m) &&& (y >>> m) := by
  apply Nat.eq_of_testBit_eq
  intro i
  simp

theorem testBit_false_of_lt {x i j : Nat} (h : x < 2 ^ i) (hij : i ≤ j) : x.testBit j = false :=
  Nat.testBit_lt_two_pow (lt_of_lt_of_le h (Nat.pow_le_pow_right (by decide) hij))

/-- Masking an address below `2 ^ (N + k)` with the bits `k .. k + N` and
shifting by `k` is the division by `2 ^ k`. -/
theorem vpn_extract (a N k : Nat) (h : a < 2 ^ (N + k)) :
    (a &&& ((2 ^ (N + 1) - 1) * 2 ^ k)) >>> k = a / 2 ^ k := by
  rw [and_shiftRight, Nat.shiftRight_eq_div_pow, Nat.shiftRight_eq_div_pow,
    Nat.mul_div_cancel _ (by positivity), Nat.and_pow_two_sub_one_eq_mod]
  apply Nat.mod_eq_of_lt
  have h2 : a / 2 ^ k < 2 ^ N := by
    rw [Nat.div_lt_iff_lt_mul (by positivity), ← pow_add]; exact h
  calc a / 2 ^ k < 2 ^ N := h2
    _ ≤ 2 ^ (N + 1) := Nat.pow_le_pow_right (by decide) (by omega)

theorem grow_mask_eq (n : Nat) : ∀ j, j + n ≤ 64 → grow_mask n (2 ^ j - 1) = 2 ^ (j + n) - 1 := by
  induction n with
  | zero => intro j _; rfl
  | succ n ih =>
    intro j hj
    have h1 : (2 ^ j - 1) * 2 + 1 = 2 ^ (j + 1) - 1 := by
      have : 1 ≤ 2 ^ j := Nat.one_le_two_pow
      rw [pow_succ]; omega
    have h2 : 2 ^ (j + 1) - 1 < 2 ^ 64 := by
      have : 2 ^ (j + 1) ≤ 2 ^ 64 := Nat.pow_le_pow_right (by decide) (by omega)
      have : 1 ≤ 2 ^ (j + 1) := Nat.one_le_two_pow
      omega
    simp only [grow_mask, h1, Nat.mod_eq_of_lt h2]
    rw [ih (j + 1) (by omega)]
    congr 2
    omega

theorem grow_mask_one (n : Nat) (h : n ≤ 63) : grow_mask n 1 = 2 ^ (n + 1) - 1 := by
  have := grow_mask_eq n 1 (by omega)
  simpa [Nat.add_comm] using this

theorem log2_loop_pow (k : Nat) : ∀ (fuel : Nat) (log : Int), k < fuel →
    log2_loop fuel ((2 : Int) ^ k) log = log + k := by
  induction k with
  | zero =>
    intro fuel log h
    cases fuel with
    | zero => omega
    | succ f => simp [log2_loop]
  | succ k ih =>
    intro fuel log h
    cases fuel with
    | zero => omega
    | succ f =>
      have h1 : (2 : Int) ^ (k + 1) > 1 := by
        have : (1 : Int) ≤ 2 ^ k := one_le_pow₀ (by norm_num)
        rw [pow_succ]; omega
      have h2 : (2 : Int) ^ (k + 1) / 2 = 2 ^ k := by
        rw [pow_succ]; exact Int.mul_ediv_cancel _ (by norm_num)
      simp only [log2_loop, if_pos h1, h2]
      rw [ih f (log + 1) (by omega)]
      push_cast; ring

theorem log2_pow (k : Nat) : log2 ((2 : Int) ^ k) = k := by
  unfold log2
  have h : k < ((2 : Int) ^ k).toNat := by
    have e : ((2 : Int) ^ k).toNat = 2 ^ k := by
      have : ((2 : Int) ^ k) = ((2 ^ k : Nat) : Int) := by push_cast; rfl
      rw [this, Int.toNat_natCast]
    rw [e]; exact Nat.lt_two_pow k
  rw [log2_loop_pow k _ 0 h]
  simp

theorem toInt32_of_lt {n : Nat} (h : n < 2 ^ 31) : toInt32 n = n := by
  unfold toInt32
  have h2 : n % 2 ^ 32 = n := Nat.mod_eq_of_lt (by omega)
  rw [h2, if_pos h]

theorem toULong_of_nonneg {x : Int} (h0 : 0 ≤ x) (h1 : x < 2 ^ 64) : toULong x = x.toNat := by
  unfold toULong
  rw [Int.emod_eq_of_lt h0 h1]

theorem toULong_natCast {n : Nat} (h1 : n < 2 ^ 64) : toULong (n : Int) = n := by
  rw [toULong_of_nonneg (by omega) (by exact_mod_cast h1)]
  simp

/-- The tag extraction of the direct-mapped and N-way decoders, for a level
with `2 ^ m` slots or sets, `m ≥ 1`. -/
theorem tag_extract (v N m : Nat) (hv : v < 2 ^ N) (hN : N ≤ 62) (hm : 1 ≤ m) (hm2 : m ≤ 62) :
    (v &&& ((2 ^ N + 2 ^ 64 - (2 ^ m - 1) % 2 ^ 64) % 2 ^ 64)) >>> m = v / 2 ^ m := by
  rw [and_shiftRight, Nat.shiftRight_eq_div_pow v]
  by_cases hmn : m < N
  · have hI : (2 ^ m - 1) % 2 ^ 64 = 2 ^ m - 1 := by
      apply Nat.mod_eq_of_lt
      have : 2 ^ m ≤ 2 ^ 62 := Nat.pow_le_pow_right (by decide) hm2
      omega
    have hle : 2 ^ m ≤ 2 ^ N := Nat.pow_le_pow_right (by decide) (by omega)
    have hN2 : 2 ^ N ≤ 2 ^ 62 := Nat.pow_le_pow_right (by decide) hN
    have h1 : 1 ≤ 2 ^ m := Nat.one_le_two_pow
    have hT : (2 ^ N + 2 ^ 64 - (2 ^ m - 1)) % 2 ^ 64 = 2 ^ N - 2 ^ m + 1 := by
      have : 2 ^ N + 2 ^ 64 - (2 ^ m - 1) = (2 ^ N - 2 ^ m + 1) + 2 ^ 64 := by omega
      rw [this, Nat.add_mod_right]
      apply Nat.mod_eq_of_lt; omega
    rw [hI, hT]
    have hsplit : 2 ^ N - 2 ^ m + 1 = (2 ^ (N - m) - 1) * 2 ^ m + 1 := by
      have : 2 ^ N = 2 ^ (N - m) * 2 ^ m := by rw [← pow_add]; congr 1; omega
      rw [this, Nat.sub_mul]; simp
    have h2m : 1 < 2 ^ m := by
      calc 1 < 2 ^ 1 := by decide
        _ ≤ 2 ^ m := Nat.pow_le_pow_right (by decide) hm
    have hTs : (2 ^ N - 2 ^ m + 1) >>> m = 2 ^ (N - m) - 1 := by
      rw [Nat.shiftRight_eq_div_pow, hsplit, Nat.add_comm,
        Nat.add_mul_div_right _ _ (by positivity), Nat.div_eq_of_lt h2m]
      simp
    rw [hTs, Nat.and_pow_two_sub_one_eq_mod]
    apply Nat.mod_eq_of_lt
    rw [Nat.div_lt_iff_lt_mul (by positivity), ← pow_add]
    have : N - m + m = N := by omega
    rw [this]; exact hv
  · have hz : v / 2 ^ m = 0 := by
      apply Nat.div_eq_of_lt
      calc v < 2 ^ N := hv
        _ ≤ 2 ^ m := Nat.pow_le_pow_right (by decide) (by omega)
    rw [hz, Nat.zero_and]

/-! ## Victim selection -/

theorem max_scan_spec (lo : Int) (n : Nat) : ∀ (i pos : Int) (s : State),
    0 ≤ i → i + n ≤ s.size → FirstMax s.tbl lo i pos →
    ∃ p, max_scan n i (s.tbl pos).count pos s = some p ∧ FirstMax s.tbl lo (i + n) p := by
  induction n with
  | zero =>
    intro i pos s _ _ h
    exact ⟨pos, rfl, by simpa using h⟩
  | succ n ih =>
    intro i pos s h0 h1 h
    have hlt : i < s.size := by push_cast at h1; omega
    obtain ⟨hlo, hhi, hmax, hfirst⟩ := h
    simp only [max_scan, load_eq s h0 hlt, Option.some_bind]
    have hstep : ∀ q, FirstMax s.tbl lo (i + 1) q →
        ∃ p, max_scan n (i + 1) (s.tbl q).count q s = some p ∧
          FirstMax s.tbl lo (i + ((n + 1 : Nat) : Int)) p := by
      intro q hq
      obtain ⟨p, hp, hp2⟩ := ih (i + 1) q s (by omega) (by push_cast at h1 ⊢; omega) hq
      refine ⟨p, hp, ?_⟩
      have e : i + ((n + 1 : Nat) : Int) = i + 1 + (n : Int) := by push_cast; ring
      rw [e]; exact hp2
    by_cases hc : (s.tbl i).count > (s.tbl pos).count
    · rw [if_pos hc]
      apply hstep
      refine ⟨by omega, by omega, ?_, ?_⟩
      · intro j hj1 hj2
        by_cases hji : j = i
        · subst hji; exact le_refl _
        · have := hmax j hj1 (by omega); omega
      · intro j hj1 hj2
        have := hmax j hj1 hj2; omega
    · rw [if_neg hc]
      apply hstep
      refine ⟨hlo, by omega, ?_, hfirst⟩
      intro j hj1 hj2
      by_cases hji : j = i
      · subst hji; omega
      · exact hmax j hj1 (by omega)

theorem min_scan_spec (lo : Int) (n : Nat) : ∀ (i pos : Int) (s : State),
    0 ≤ i → i + n ≤ s.size → FirstMin s.tbl lo i pos →
    ∃ p, min_scan n i (s.tbl pos).count pos s = some p ∧ FirstMin s.tbl lo (i + n) p := by
  induction n with
  | zero =>
    intro i pos s _ _ h
    exact ⟨pos, rfl, by simpa using h⟩
  | succ n ih =>
    intro i pos s h0 h1 h
    have hlt : i < s.size := by push_cast at h1; omega
    obtain ⟨hlo, hhi, hmin, hfirst⟩ := h
    simp only [min_scan, load_eq s h0 hlt, Option.some_bind]
    have hstep : ∀ q, FirstMin s.tbl lo (i + 1) q →
        ∃ p, min_scan n (i + 1) (s.tbl q).count q s = some p ∧
          FirstMin s.tbl lo (i + ((n + 1 : Nat) : Int)) p := by
      intro q hq
      obtain ⟨p, hp, hp2⟩ := ih (i + 1) q s (by omega) (by push_cast at h1 ⊢; omega) hq
      refine ⟨p, hp, ?_⟩
      have e : i + ((n + 1 : Nat) : Int) = i + 1 + (n : Int) := by push_cast; ring
      rw [e]; exact hp2
    by_cases hc : (s.tbl i).count < (s.tbl pos).count
    · rw [if_pos hc]
      apply hstep
      refine ⟨by omega, by omega, ?_, ?_⟩
      · intro j hj1 hj2
        by_cases hji : j = i
        · subst hji; exact le_refl _
        · have := hmin j hj1 (by omega); omega
      · intro j hj1 hj2
        have := hmin j hj1 hj2; omega
    · rw [if_neg hc]
      apply hstep
      refine ⟨hlo, by omega, ?_, hfirst⟩
      intro j hj1 hj2
      by_cases hji : j = i
      · subst hji; omega
      · exact hmin j hj1 (by omega)

theorem firstMax_single (f : Int → TLB_ENTRY) (lo : Int) : FirstMax f lo (lo + 1) lo :=
  ⟨le_refl _, by omega, fun j h1 h2 => by have : j = lo := by omega
                                          subst this; exact le_refl _,
    fun j h1 h2 => by omega⟩

theorem firstMin_single (f : Int → TLB_ENTRY) (lo : Int) : FirstMin f lo (lo + 1) lo :=
  ⟨le_refl _, by omega, fun j h1 h2 => by have : j = lo := by omega
                                          subst this; exact le_refl _,
    fun j h1 h2 => by omega⟩

theorem LRU_spec (s : State) (set : Int) (h : ScopeAllocated s set) :
    ∃ p, LRU set s = some p ∧ FirstMax s.tbl (scope_lo s.cur set) (scope_hi s.cur set) p := by
  obtain ⟨hg, h0, h1, h2⟩ := h
  unfold LRU
  by_cases hfa : s.cur.assoc = -1
  · simp only [scope_lo, scope_hi, hfa, if_true] at h0 h1 h2 ⊢
    rw [load_eq s (le_refl 0) (by omega)]
    simp only [Option.some_bind]
    obtain ⟨p, hp, hp2⟩ := max_scan_spec 0 (s.cur.entries - 1).toNat 1 0 s (by omega)
      (by omega) (firstMax_single s.tbl 0)
    refine ⟨p, hp, ?_⟩
    have e : (1 : Int) + ((s.cur.entries - 1).toNat : Int) = s.cur.entries := by omega
    rw [e] at hp2; exact hp2
  · have hpos : 0 < s.cur.assoc := by tauto
    have hne0 : s.cur.assoc ≠ 0 := by omega
    simp only [scope_lo, scope_hi, hfa, hne0, if_false] at h0 h1 h2 ⊢
    rw [if_pos hpos, load_eq s h0 (by omega)]
    simp only [Option.some_bind]
    have hn : s.cur.assoc * (set + 1) - (set * s.cur.assoc + 1) = s.cur.assoc - 1 := by ring
    rw [hn]
    obtain ⟨p, hp, hp2⟩ := max_scan_spec (set * s.cur.assoc) (s.cur.assoc - 1).toNat
      (set * s.cur.assoc + 1) (set * s.cur.assoc) s (by omega)
      (by have e : (set + 1) * s.cur.assoc = set * s.cur.assoc + s.cur.assoc := by ring
          rw [e] at h2; omega) (firstMax_single s.tbl _)
    refine ⟨p, hp, ?_⟩
    have e : set * s.cur.assoc + 1 + ((s.cur.assoc - 1).toNat : Int) = (set + 1) * s.cur.assoc := by
      have e2 : (set + 1) * s.cur.assoc = set * s.cur.assoc + s.cur.assoc := by ring
      rw [e2]; omega
    rw [e] at hp2; exact hp2

theorem LFU_spec (s : State) (set : Int) (h : ScopeAllocated s set) :
    ∃ p, LFU set s = some p ∧ FirstMin s.tbl (scope_lo s.cur set) (scope_hi s.cur set) p := by
  obtain ⟨hg, h0, h1, h2⟩ := h
  unfold LFU
  by_cases hfa : s.cur.assoc = -1
  · simp only [scope_lo, scope_hi, hfa, if_true] at h0 h1 h2 ⊢
    rw [load_eq s (le_refl 0) (by omega)]
    simp only [Option.some_bind]
    obtain ⟨p, hp, hp2⟩ := min_scan_spec 0 (s.cur.entries - 1).toNat 1 0 s (by omega)
      (by omega) (firstMin_single s.tbl 0)
    refine ⟨p, hp, ?_⟩
    have e : (1 : Int) + ((s.cur.entries - 1).toNat : Int) = s.cur.entries := by omega
    rw [e] at hp2; exact hp2
  · have hpos : 0 < s.cur.assoc := by tauto
    have hne0 : s.cur.assoc ≠ 0 := by omega
    simp only [scope_lo, scope_hi, hfa, hne0, if_false] at h0 h1 h2 ⊢
    rw [if_pos hpos, load_eq s h0 (by omega)]
    simp only [Option.some_bind]
    have hn : s.cur.assoc * (set + 1) - (set * s.cur.assoc + 1) = s.cur.assoc - 1 := by ring
    rw [hn]
    obtain ⟨p, hp, hp2⟩ := min_scan_spec (set * s.cur.assoc) (s.cur.assoc - 1).toNat
      (set * s.cur.assoc + 1) (set * s.cur.assoc) s (by omega)
      (by have e : (set + 1) * s.cur.assoc = set * s.cur.assoc + s.cur.assoc := by ring
          rw [e] at h2; omega) (firstMin_single s.tbl _)
    refine ⟨p, hp, ?_⟩
    have e : set * s.cur.assoc + 1 + ((s.cur.assoc - 1).toNat : Int) = (set + 1) * s.cur.assoc := by
      have e2 : (set + 1) * s.cur.assoc = set * s.cur.assoc + s.cur.assoc := by ring
      rw [e2]; omega
    rw [e] at hp2; exact hp2

/-! ## LRU and LFU bookkeeping -/

theorem tdiv_of_mem {e a set : Int} (ha : 0 < a) (h0 : 0 ≤ set) (h1 : set * a ≤ e)
    (h2 : e < (set + 1) * a) : Int.tdiv e a = set := by
  have he : 0 ≤ e := le_trans (mul_nonneg h0 (le_of_lt ha)) h1
  rw [Int.tdiv_eq_ediv he (le_of_lt ha)]
  apply le_antisymm
  · have := (Int.ediv_lt_iff_lt_mul ha).2 h2
    omega
  · exact (Int.le_ediv_iff_mul_le ha).2 h1

theorem scope_set_nonneg {s : State} {set : Int} (h : ScopeAllocated s set)
    (hpos : 0 < s.cur.assoc) : 0 ≤ set := by
  obtain ⟨_, h0, _, _⟩ := h
  have hne : s.cur.assoc ≠ -1 := by omega
  have hne0 : s.cur.assoc ≠ 0 := by omega
  simp only [scope_lo, hne, hne0, if_false] at h0
  by_contra hneg
  have : set * s.cur.assoc < 0 := mul_neg_of_neg_of_pos (by omega) hpos
  omega

theorem scope_len (s : State) (set : Int) (hpos : 0 < s.cur.assoc) :
    scope_hi s.cur set - scope_lo s.cur set = s.cur.assoc := by
  have hne : s.cur.assoc ≠ -1 := by omega
  have hne0 : s.cur.assoc ≠ 0 := by omega
  simp only [scope_lo, scope_hi, hne, hne0, if_false]
  ring

theorem increase_LRU_eq (s : State) (set e : Int) (h : ScopeAllocated s set)
    (he0 : scope_lo s.cur set ≤ e) (he1 : e < scope_hi s.cur set) :
    increase_LRU e s = some (s.put (lru_touch s.tbl (scope_lo s.cur set)
      (scope_hi s.cur set - scope_lo s.cur set).toNat e)) := by
  have hset := scope_set_nonneg h
  have hlen := scope_len s set
  obtain ⟨hg, h0, h1, h2⟩ := h
  unfold increase_LRU
  by_cases hfa : s.cur.assoc = -1
  · simp only [scope_lo, scope_hi, hfa, if_true] at h0 h1 h2 he0 he1 ⊢
    rw [incr_counts_eq _ 0 s (le_refl 0) (by omega)]
    simp only [Option.some_bind]
    rw [store_count_eq _ 0 he0 (by simp only [put_size]; omega)]
    simp only [put_put, put_tbl, lru_touch, sub_zero]
  · have hpos : 0 < s.cur.assoc := by tauto
    have hne0 : s.cur.assoc ≠ 0 := by omega
    have hlen := hlen hpos
    have hset := hset hpos
    simp only [scope_lo, scope_hi, hfa, hne0, if_false] at h0 h1 h2 he0 he1 hlen ⊢
    rw [if_pos hpos]
    simp only [tdiv_of_mem hpos hset he0 he1]
    rw [incr_counts_eq _ _ s h0 (by omega)]
    simp only [Option.some_bind]
    rw [store_count_eq _ 0 (by omega) (by simp only [put_size]; omega)]
    simp only [put_put, put_tbl, lru_touch]

theorem lru_touch_fresh (f : Int → TLB_ENTRY) (lo hi e : Int) (he0 : lo ≤ e) (he1 : e < hi) :
    LRUFresh f (lru_touch f lo (hi - lo).toNat e) lo hi e := by
  constructor
  · simp [lru_touch]
  · intro j hj0 hj1 hne
    simp only [lru_touch, upd_ne _ _ hne, bumped]
    rw [if_pos (by omega)]

theorem lru_touch_tag (f : Int → TLB_ENTRY) (lo : Int) (n : Nat) (e j : Int) :
    (lru_touch f lo n e j).tag = (f j).tag := by
  simp only [lru_touch, upd_apply, bumped]
  split <;> split <;> simp_all

theorem lru_touch_outside (f : Int → TLB_ENTRY) (lo : Int) (n : Nat) (e j : Int)
    (he0 : lo ≤ e) (he1 : e < lo + n) (hj : j < lo ∨ lo + n ≤ j) :
    lru_touch f lo n e j = f j := by
  have hne : j ≠ e := by omega
  simp only [lru_touch, upd_ne _ _ hne, bumped]
  rw [if_neg (by omega)]

theorem store_tag_count_eq (s : State) {i : Int} (tag : Nat) (c : Int) (h0 : 0 ≤ i)
    (h1 : i < s.size) :
    (store_tag i tag s).bind (store_count i c) =
      some (s.put (upd s.tbl i { tag := tag, count := c })) := by
  rw [store_tag_eq s tag h0 h1]
  simp only [Option.some_bind]
  rw [store_count_eq _ c h0 (by simpa using h1)]
  simp

theorem firstMax_mem {f : Int → TLB_ENTRY} {lo hi p : Int} (h : FirstMax f lo hi p) :
    lo ≤ p ∧ p < hi := ⟨h.1, h.2.1⟩

theorem firstMin_mem {f : Int → TLB_ENTRY} {lo hi p : Int} (h : FirstMin f lo hi p) :
    lo ≤ p ∧ p < hi := ⟨h.1, h.2.1⟩

theorem scopeAllocated_put {s : State} {set : Int} (h : ScopeAllocated s set)
    (f : Int → TLB_ENTRY) : ScopeAllocated (s.put f) set := h

/-- The LFU replacement `entry = LFU(set); tag; count = 1` on an allocated scope. -/
theorem lfu_block_eq (s : State) (set : Int) (tag : Nat) (h : ScopeAllocated s set) :
    ∃ p, LFU set s = some p ∧ FirstMin s.tbl (scope_lo s.cur set) (scope_hi s.cur set) p ∧
      ((LFU set s).bind fun entry => (store_tag entry tag s).bind (store_count entry 1)) =
        some (s.put (upd s.tbl p { tag := tag, count := 1 })) := by
  obtain ⟨p, hp, hmin⟩ := LFU_spec s set h
  refine ⟨p, hp, hmin, ?_⟩
  obtain ⟨hp0, hp1⟩ := firstMin_mem hmin
  obtain ⟨_, h0, _, h2⟩ := h
  rw [hp]
  simp only [Option.some_bind]
  exact store_tag_count_eq s tag 1 (by omega) (by omega)

/-- The LRU replacement `entry = LRU(set); tag; count = 0; increase_LRU(entry)`
on an allocated scope. -/
theorem lru_block_eq (s : State) (set : Int) (tag : Nat) (h : ScopeAllocated s set) :
    ∃ p, LRU set s = some p ∧ FirstMax s.tbl (scope_lo s.cur set) (scope_hi s.cur set) p ∧
      ((LRU set s).bind fun entry =>
        ((store_tag entry tag s).bind (store_count entry 0)).bind (increase_LRU entry)) =
        some (s.put (lru_touch (upd s.tbl p { tag := tag, count := 0 }) (scope_lo s.cur set)
          (scope_hi s.cur set - scope_lo s.cur set).toNat p)) := by
  obtain ⟨p, hp, hmax⟩ := LRU_spec s set h
  refine ⟨p, hp, hmax, ?_⟩
  obtain ⟨hp0, hp1⟩ := firstMax_mem hmax
  have h' := h
  obtain ⟨_, h0, _, h2⟩ := h
  rw [hp]
  simp only [Option.some_bind]
  rw [store_tag_count_eq s tag 0 (by omega) (by omega)]
  simp only [Option.some_bind]
  rw [increase_LRU_eq _ set p (scopeAllocated_put h' _) hp0 hp1]
  simp

/-! ## The decoder inside `TLB_simulation` -/

/-- What `TLB_simulation` does, in terms of the decoder: one `tlb_lookup` with
the decoded tag and index when the level has a known associativity, then the
page log. -/
theorem TLB_simulation_succ (fuel addr : Nat) (s : State) :
    TLB_simulation (fuel + 1) addr s =
      (if s.clo_sim_tlb = true ∧ -1 ≤ s.cur.assoc then
        tlb_lookup (TLB_simulation fuel) addr (decode_tag s.cur addr) (decode_index s.cur addr)
          { s with l2hit := false, l2check := false }
       else some { s with l2hit := false, l2check := false }).map
        (log_page (decode_tag s.cur addr)) := by
  have hcur : ({ s with l2hit := false, l2check := false } : State).cur = s.cur := rfl
  simp only [TLB_simulation, hcur, decode_tag, decode_index, decode_vpn]
  generalize tlb_lookup (TLB_simulation fuel) addr = L
  by_cases h0 : s.cur.assoc = 0
  · cases ht : s.clo_sim_tlb <;> cases hp : s.clo_sim_pages <;>
      simp [h0, ht, hp, log_page]
    all_goals
      generalize L _ _ _ = r
      cases r <;> simp [log_page] <;> split <;> rfl
  · by_cases h1 : 0 < s.cur.assoc
    · have hne : s.cur.assoc ≠ -1 := by omega
      have hge : -1 ≤ s.cur.assoc := by omega
      cases ht : s.clo_sim_tlb <;> cases hp : s.clo_sim_pages <;>
        simp [h0, h1, hne, hge, ht, hp, log_page]
      all_goals
        generalize L _ _ _ = r
        cases r <;> simp [log_page] <;> split <;> rfl <;> split <;> rfl
    · by_cases h2 : s.cur.assoc = -1
      · cases ht : s.clo_sim_tlb <;> cases hp : s.clo_sim_pages <;>
          simp [h2, ht, hp, log_page]
        all_goals
          generalize L _ _ _ = r
          cases r <;> simp [log_page] <;> split <;> rfl <;> split <;> rfl <;> split <;> rfl
      · have hlt : ¬ (-1 ≤ s.cur.assoc) := by omega
        cases ht : s.clo_sim_tlb <;> cases hp : s.clo_sim_pages <;>
          simp [h0, h1, h2, hlt, ht, hp, log_page]

/-- The record that `init_tlb` leaves, branch by branch. -/
theorem init_level_def (VAS_SIZE : Int) (c : tlb_t) :
    init_level VAS_SIZE c =
      (
        let c1 : tlb_t := { c with hit := 0, miss := 0, replace := false, page_ptr := [],
                                   total_pages := 0, tlb_counter := 0 }
        let offset_mask := toULong (log2 (toInt32 c1.page_size))
        let c2 : tlb_t := { c1 with offset_mask := offset_mask,
                                    vpn_mask := calc_VPN_MASK VAS_SIZE (toInt32 offset_mask) c1.page_size }
        if c2.assoc = -1 then
          some { c2 with index_mask := 2 ^ 64 - 1, tag_mask := 2 ^ 64 - 1 }
        else if c2.assoc = 0 then
          let index_mask := calc_index_mask c2.entries
          (calc_tag_mask VAS_SIZE offset_mask index_mask).map fun tag_mask =>
            { c2 with index_mask := index_mask, tag_mask := tag_mask }
        else if c2.assoc % 2 = 0 then
          let sets := Int.tdiv c2.entries c2.assoc
          let index_mask := calc_index_mask sets
          (calc_tag_mask VAS_SIZE offset_mask index_mask).map fun tag_mask =>
            { c2 with sets := sets, index_mask := index_mask, tag_mask := tag_mask }
        else none) := by
  unfold init_level init_level_x
  dsimp only
  split_ifs
  · rfl
  · cases calc_tag_mask VAS_SIZE (toULong (log2 (toInt32 c.page_size))) (calc_index_mask c.entries) <;> rfl
  · cases calc_tag_mask VAS_SIZE (toULong (log2 (toInt32 c.page_size)))
      (calc_index_mask (Int.tdiv c.entries c.assoc)) <;> rfl
  · rfl


/-! ## Levels produced by `init_tlb` -/

theorem toULong_le_29 {x : Int} (h0 : -2 ^ 31 - 31 ≤ x) (h1 : x < 2 ^ 31) (h : toULong x ≤ 29) :
    0 ≤ x ∧ x ≤ 29 := by
  unfold toULong at h
  norm_num at h0 h1 h
  omega

theorem calc_tag_mask_some {VAS : Int} {k I T : Nat} (hk : k ≤ 30) (h0 : -2 ^ 31 ≤ VAS)
    (h1 : VAS < 2 ^ 31) (h : calc_tag_mask VAS k I = some T) :
    ∃ N : Nat, 1 ≤ N ∧ N ≤ 30 ∧ VAS = k + N ∧ T = (2 ^ N + 2 ^ 64 - I % 2 ^ 64) % 2 ^ 64 := by
  unfold calc_tag_mask shl_two at h
  by_cases hle : toULong (VAS - k - 1) ≤ 29
  · rw [if_pos hle] at h
    simp only [Option.map_some', Option.some.injEq] at h
    have hk' : (k : Int) ≤ 30 := by exact_mod_cast hk
    obtain ⟨hx0, hx1⟩ := toULong_le_29 (x := VAS - k - 1) (by norm_num at h0 ⊢; omega)
      (by norm_num at h1 ⊢; omega) hle
    refine ⟨(VAS - k).toNat, by omega, by omega, by omega, ?_⟩
    have e : toULong (VAS - k - 1) + 1 = (VAS - k).toNat := by
      rw [toULong_of_nonneg hx0 (by norm_num; omega)]; omega
    rw [← h, e]
  · rw [if_neg hle] at h
    simp at h

theorem calc_tag_mask_eq {VAS : Int} {k N : Nat} (I : Nat) (hN1 : 1 ≤ N) (hN2 : N ≤ 30)
    (hV : VAS = k + N) :
    calc_tag_mask VAS k I = some ((2 ^ N + 2 ^ 64 - I % 2 ^ 64) % 2 ^ 64) := by
  unfold calc_tag_mask shl_two
  have e : toULong (VAS - k - 1) = N - 1 := by
    rw [toULong_of_nonneg (by omega) (by norm_num; omega)]; omega
  rw [e, if_pos (by omega)]
  have e2 : N - 1 + 1 = N := by omega
  simp [e2]

theorem calc_VPN_MASK_eq {VAS : Int} {k N : Nat} (hk : k ≤ 30) (hN2 : N ≤ 30)
    (hV : VAS = k + N) : calc_VPN_MASK VAS k (2 ^ k) = (2 ^ (N + 1) - 1) * 2 ^ k := by
  unfold calc_VPN_MASK
  have e : (VAS - k).toNat = N := by omega
  rw [e, grow_mask_one N (by omega)]
  apply Nat.mod_eq_of_lt
  calc (2 ^ (N + 1) - 1) * 2 ^ k < 2 ^ (N + 1) * 2 ^ k := by
        apply Nat.mul_lt_mul_of_pos_right _ (by positivity)
        have : 1 ≤ 2 ^ (N + 1) := Nat.one_le_two_pow
        omega
    _ = 2 ^ (N + 1 + k) := by rw [← pow_add]
    _ ≤ 2 ^ 64 := Nat.pow_le_pow_right (by decide) (by omega)

theorem pow_lt_of_le_30 {k : Nat} (hk : k ≤ 30) : 2 ^ k < 2 ^ 31 :=
  Nat.pow_lt_pow_right (by decide) (by omega)

theorem log2_page {k : Nat} (hk : k ≤ 30) : toULong (log2 (toInt32 (2 ^ k))) = k := by
  rw [toInt32_of_lt (pow_lt_of_le_30 hk)]
  have : (((2 ^ k : Nat) : Int)) = (2 : Int) ^ k := by push_cast; rfl
  rw [this, log2_pow, toULong_natCast (by omega)]

theorem calc_index_mask_pow {m : Nat} (hm : m ≤ 62) :
    calc_index_mask ((2 : Int) ^ m) = if m = 0 then 1 else 2 ^ m - 1 := by
  unfold calc_index_mask
  rw [log2_pow]
  by_cases h : m = 0
  · subst h; simp [grow_mask]
  · rw [if_neg h, grow_mask_one _ (by omega)]
    congr 2
    omega

/-- The fields that `init_tlb` computes for a direct-mapped or N-way level
with page size `2 ^ k`, as far as they do not depend on the associativity. -/
theorem init_level_common {VAS : Int} {c0 c : tlb_t} {k : Nat} (hp : c0.page_size = 2 ^ k)
    (hk : k ≤ 30) (h : init_level VAS c0 = some c) :
    c.page_size = 2 ^ k ∧ c.assoc = c0.assoc ∧ c.entries = c0.entries ∧ c.offset_mask = k ∧
      c.vpn_mask = calc_VPN_MASK VAS k (2 ^ k) ∧ c.hit = 0 ∧ c.miss = 0 ∧ c.page_ptr = [] ∧
      c.total_pages = 0 := by
  rw [init_level_def] at h
  simp only [hp, log2_page hk, toInt32_of_lt (show k < 2 ^ 31 by omega)] at h
  split at h
  · simp only [Option.some.injEq] at h
    subst h; simp [hp]
  · split at h
    · simp only [Option.map_eq_some'] at h
      obtain ⟨T, _, rfl⟩ := h
      simp [hp]
    · split at h
      · simp only [Option.map_eq_some'] at h
        obtain ⟨T, _, rfl⟩ := h
        simp [hp]
      · simp at h

theorem init_level_dm {VAS : Int} {c0 c : tlb_t} {k : Nat} (hp : c0.page_size = 2 ^ k)
    (hk : k ≤ 30) (ha : c0.assoc = 0) (h : init_level VAS c0 = some c) :
    c.index_mask = calc_index_mask c0.entries ∧
      calc_tag_mask VAS k (calc_index_mask c0.entries) = some c.tag_mask := by
  rw [init_level_def] at h
  simp only [hp, log2_page hk, toInt32_of_lt (show k < 2 ^ 31 by omega), ha] at h
  rw [if_neg (by decide), if_pos trivial] at h
  simp only [Option.map_eq_some'] at h
  obtain ⟨T, hT, rfl⟩ := h
  exact ⟨rfl, hT⟩

theorem init_level_nway {VAS : Int} {c0 c : tlb_t} {k : Nat} (hp : c0.page_size = 2 ^ k)
    (hk : k ≤ 30) (ha : 0 < c0.assoc) (h : init_level VAS c0 = some c) :
    c0.assoc % 2 = 0 ∧ c.sets = Int.tdiv c0.entries c0.assoc ∧
      c.index_mask = calc_index_mask (Int.tdiv c0.entries c0.assoc) ∧
      calc_tag_mask VAS k (calc_index_mask (Int.tdiv c0.entries c0.assoc)) = some c.tag_mask := by
  rw [init_level_def] at h
  have h1 : c0.assoc ≠ -1 := by omega
  have h2 : c0.assoc ≠ 0 := by omega
  simp only [hp, log2_page hk, toInt32_of_lt (show k < 2 ^ 31 by omega), h1, h2, if_false] at h
  split at h
  · next hev =>
    simp only [Option.map_eq_some'] at h
    obtain ⟨T, hT, rfl⟩ := h
    exact ⟨hev, rfl, rfl, hT⟩
  · simp at h

theorem decode_vpn_init {VAS : Int} {c0 c : tlb_t} {k N a : Nat} (hp : c0.page_size = 2 ^ k)
    (hk : k ≤ 30) (hN : N ≤ 30) (hV : VAS = k + N) (h : init_level VAS c0 = some c)
    (ha : a < 2 ^ VAS.toNat) : decode_vpn c a = a / 2 ^ k ∧ a / 2 ^ k < 2 ^ N := by
  obtain ⟨_, _, _, hoff, hvm, _⟩ := init_level_common hp hk h
  have e : VAS.toNat = N + k := by omega
  rw [e] at ha
  constructor
  · unfold decode_vpn
    rw [hoff, hvm, calc_VPN_MASK_eq hk hN hV]
    exact vpn_extract a N k ha
  · rw [Nat.div_lt_iff_lt_mul (by positivity), ← pow_add]; exact ha

/-- Decoding for a direct-mapped level that `init_tlb` produced with page size
`2 ^ k` and `2 ^ m` entries. -/
theorem dm_decode_spec {VAS : Int} {c0 c : tlb_t} {k m a : Nat} (hp : c0.page_size = 2 ^ k)
    (hk : k ≤ 30) (hassoc : c0.assoc = 0) (he : c0.entries = 2 ^ m) (hm : m ≤ 30)
    (hV0 : 0 < VAS) (hV1 : VAS < 2 ^ 31) (h : init_level VAS c0 = some c)
    (ha : a < 2 ^ VAS.toNat) :
    decode_vpn c a = a / 2 ^ k ∧
      dm_slot (decode_index c a) c.entries = (a / 2 ^ k) % 2 ^ m ∧
      decode_tag c a = (a / 2 ^ k) / 2 ^ m := by
  obtain ⟨_, hca, hce, hoff, hvm, _⟩ := init_level_common hp hk h
  obtain ⟨him, htm⟩ := init_level_dm hp hk hassoc h
  obtain ⟨N, hN1, hN2, hV, hT⟩ := calc_tag_mask_some hk (by norm_num; omega) hV1 htm
  obtain ⟨hvpn, hlt⟩ := decode_vpn_init hp hk hN2 hV h ha
  rw [he, calc_index_mask_pow (by omega)] at him
  rw [he, calc_index_mask_pow (by omega)] at hT
  have hca0 : c.assoc = 0 := by rw [hca, hassoc]
  have hne : c.assoc ≠ -1 := by omega
  have hent : toULong c.entries = 2 ^ m := by
    rw [hce, he]
    have : ((2 : Int) ^ m) = ((2 ^ m : Nat) : Int) := by push_cast; rfl
    rw [this, toULong_natCast]
    calc 2 ^ m ≤ 2 ^ 30 := Nat.pow_le_pow_right (by decide) hm
      _ < 2 ^ 64 := by norm_num
  refine ⟨hvpn, ?_, ?_⟩
  · unfold dm_slot decode_index
    rw [if_neg hne, hvpn, him, hent]
    by_cases hm0 : m = 0
    · subst hm0; simp [Nat.mod_one]
    · rw [if_neg hm0, Nat.and_pow_two_sub_one_eq_mod, Nat.mod_mod]
  · unfold decode_tag
    rw [if_pos hca0, hvpn, hce, he, log2_pow, hT]
    simp only [Int.toNat_natCast]
    by_cases hm0 : m = 0
    · subst hm0
      have e1 : (2 ^ N + 2 ^ 64 - 1 % 2 ^ 64) % 2 ^ 64 = 2 ^ N - 1 := by
        have h1 : 1 ≤ 2 ^ N := Nat.one_le_two_pow
        have h2 : 2 ^ N ≤ 2 ^ 30 := Nat.pow_le_pow_right (by decide) hN2
        have h3 : 1 % 2 ^ 64 = 1 := Nat.mod_eq_of_lt (by norm_num)
        have : 2 ^ N + 2 ^ 64 - 1 % 2 ^ 64 = (2 ^ N - 1) + 2 ^ 64 := by rw [h3]; omega
        rw [this, Nat.add_mod_right]
        apply Nat.mod_eq_of_lt; omega
      rw [if_pos rfl, e1, Nat.and_pow_two_sub_one_eq_mod, Nat.mod_eq_of_lt hlt]
      simp
    · rw [if_neg hm0]
      exact tag_extract _ N m hlt (by omega) (by omega) (by omega)

/-- Decoding for an N-way level that `init_tlb` produced with page size
`2 ^ k` and `2 ^ m` sets, `m ≥ 1`. -/
theorem nway_decode_spec {VAS : Int} {c0 c : tlb_t} {k m a : Nat} (hp : c0.page_size = 2 ^ k)
    (hk : k ≤ 30) (hassoc : 0 < c0.assoc) (he : Int.tdiv c0.entries c0.assoc = 2 ^ m)
    (hm1 : 1 ≤ m) (hm : m ≤ 30)
    (hV0 : 0 < VAS) (hV1 : VAS < 2 ^ 31) (h : init_level VAS c0 = some c)
    (ha : a < 2 ^ VAS.toNat) :
    decode_vpn c a = a / 2 ^ k ∧ decode_index c a = (a / 2 ^ k) % 2 ^ m ∧
      decode_tag c a = (a / 2 ^ k) / 2 ^ m ∧ c.index_mask = 2 ^ m - 1 := by
  obtain ⟨_, hca, hce, hoff, hvm, _⟩ := init_level_common hp hk h
  obtain ⟨_, _, him, htm⟩ := init_level_nway hp hk hassoc h
  obtain ⟨N, hN1, hN2, hV, hT⟩ := calc_tag_mask_some hk (by norm_num; omega) hV1 htm
  obtain ⟨hvpn, hlt⟩ := decode_vpn_init hp hk hN2 hV h ha
  have hm0 : m ≠ 0 := by omega
  rw [he, calc_index_mask_pow (by omega), if_neg hm0] at him
  rw [he, calc_index_mask_pow (by omega), if_neg hm0] at hT
  have hca0 : 0 < c.assoc := by rw [hca]; exact hassoc
  have hne : c.assoc ≠ -1 := by omega
  have hne0 : c.assoc ≠ 0 := by omega
  have h2m : 2 ^ m ≤ 2 ^ 30 := Nat.pow_le_pow_right (by decide) hm
  have h1m : 1 ≤ 2 ^ m := Nat.one_le_two_pow
  refine ⟨hvpn, ?_, ?_, him⟩
  · unfold decode_index
    rw [if_neg hne, hvpn, him, Nat.and_pow_two_sub_one_eq_mod]
  · unfold decode_tag
    rw [if_neg hne0, if_pos hca0, hvpn, him, hT]
    have e : (2 ^ m - 1 + 1) % 2 ^ 64 = 2 ^ m := by
      have : 2 ^ m - 1 + 1 = 2 ^ m := by omega
      rw [this]; apply Nat.mod_eq_of_lt; omega
    rw [e, toInt32_of_lt (by omega)]
    have e2 : (((2 ^ m : Nat) : Int)) = (2 : Int) ^ m := by push_cast; rfl
    rw [e2, log2_pow]
    simp only [Int.toNat_natCast]
    exact tag_extract _ N m hlt (by omega) (by omega) (by omega)

/-! ## The address widths for which `init_tlb` is defined -/

/-- The shift that builds the tag mask has no defined result when the number
of page-number bits `VAS_SIZE - k` is not between 1 and 30. -/
theorem calc_tag_mask_none {VAS : Int} {k : Nat} (I : Nat) (hk : k ≤ 30) (h0 : -2 ^ 31 ≤ VAS)
    (h1 : VAS < 2 ^ 31) (h : VAS ≤ k ∨ k + 30 < VAS) : calc_tag_mask VAS k I = none := by
  unfold calc_tag_mask shl_two
  have hgt : ¬ toULong (VAS - k - 1) ≤ 29 := by
    unfold toULong
    norm_num at h0 h1 ⊢
    omega
  rw [if_neg hgt]
  rfl

/-- For a direct-mapped or N-way level with pages of `2 ^ k` bytes, `init_tlb`
has no defined result when `VAS_SIZE ≤ k` or `k + 30 < VAS_SIZE`. -/
theorem init_level_x_undefined {VAS : Int} {c0 : tlb_t} {k : Nat} (hp : c0.page_size = 2 ^ k)
    (hk : k ≤ 30) (ha : c0.assoc = 0 ∨ (0 < c0.assoc ∧ c0.assoc % 2 = 0))
    (h0 : -2 ^ 31 ≤ VAS) (h1 : VAS < 2 ^ 31) (h : VAS ≤ k ∨ k + 30 < VAS) :
    init_level_x VAS c0 = Except.error InitFault.undefined := by
  unfold init_level_x
  simp only [hp, log2_page hk]
  rcases ha with ha | ⟨ha, hev⟩
  · rw [if_neg (by rw [ha]; decide), if_pos ha, calc_tag_mask_none _ hk h0 h1 h]
  · rw [if_neg (by omega), if_neg (by omega), if_pos hev, calc_tag_mask_none _ hk h0 h1 h]

/-- For a direct-mapped level with pages of `2 ^ k` bytes, `init_tlb`
completes when `k < VAS_SIZE ≤ k + 30`. -/
theorem init_level_dm_some {VAS : Int} {c0 : tlb_t} {k : Nat} (hp : c0.page_size = 2 ^ k)
    (hk : k ≤ 30) (ha : c0.assoc = 0) (h0 : k < VAS) (h1 : VAS ≤ k + 30) :
    ∃ c, init_level VAS c0 = some c := by
  rw [init_level_def]
  simp only [hp, log2_page hk, ha]
  rw [if_neg (by decide), if_pos trivial,
    calc_tag_mask_eq (N := (VAS - k).toNat) _ (by omega) (by omega) (by omega)]
  exact ⟨_, rfl⟩

/-- For an N-way level of even associativity with pages of `2 ^ k` bytes,
`init_tlb` completes when `k < VAS_SIZE ≤ k + 30`. -/
theorem init_level_nway_some {VAS : Int} {c0 : tlb_t} {k : Nat} (hp : c0.page_size = 2 ^ k)
    (hk : k ≤ 30) (ha : 0 < c0.assoc) (hev : c0.assoc % 2 = 0) (h0 : k < VAS)
    (h1 : VAS ≤ k + 30) : ∃ c, init_level VAS c0 = some c := by
  rw [init_level_def]
  simp only [hp, log2_page hk]
  rw [if_neg (by omega), if_neg (by omega), if_pos hev,
    calc_tag_mask_eq (N := (VAS - k).toNat) _ (by omega) (by omega) (by omega)]
  exact ⟨_, rfl⟩

/-- A level that `init_tlb` completed as direct mapped or N-way with pages of
`2 ^ k` bytes has `k < VAS_SIZE ≤ k + 30`. -/
theorem init_level_width {VAS : Int} {c0 c : tlb_t} {k : Nat} (hp : c0.page_size = 2 ^ k)
    (hk : k ≤ 30) (ha : c0.assoc = 0 ∨ 0 < c0.assoc) (h0 : -2 ^ 31 ≤ VAS) (h1 : VAS < 2 ^ 31)
    (h : init_level VAS c0 = some c) : k < VAS ∧ VAS ≤ k + 30 := by
  rcases ha with ha | ha
  · obtain ⟨_, htm⟩ := init_level_dm hp hk ha h
    obtain ⟨N, hN1, hN2, hV, _⟩ := calc_tag_mask_some hk h0 h1 htm
    omega
  · obtain ⟨_, _, _, htm⟩ := init_level_nway hp hk ha h
    obtain ⟨N, hN1, hN2, hV, _⟩ := calc_tag_mask_some hk h0 h1 htm
    omega

/-- Iterated increments of a 32-bit `Int` that starts within the type. -/
theorem iterate_incr_int (n : Nat) : ∀ (x : Int), -2 ^ 31 ≤ x → x < 2 ^ 31 →
    incr_int^[n] x = wrap_int (x + n) := by
  induction n with
  | zero =>
    intro x h0 h1
    simp [wrap_int_of_in h0 h1]
  | succ n ih =>
    intro x h0 h1
    rw [Function.iterate_succ_apply, ih _ (incr_int_range x).1 (incr_int_range x).2]
    unfold incr_int
    rw [wrap_int_wrap]
    congr 1
    push_cast; ring

/-- Iterated increments of a 32-bit `Int` that stay below `2 ^ 31` add up. -/
theorem iterate_incr_int_exact (n : Nat) (x : Int) (h0 : -2 ^ 31 ≤ x) (h1 : x + n < 2 ^ 31) :
    incr_int^[n] x = x + n := by
  rw [iterate_incr_int n x h0 (by omega), wrap_int_of_in (by omega) h1]

/-! ## The hit scan -/

theorem tag_scan_none (idx : Nat → Int) (tag : Nat) (s : State) (n : Nat) : ∀ i : Nat,
    (∀ k, i ≤ k → k < i + n → 0 ≤ idx k ∧ idx k < s.size ∧ (s.tbl (idx k)).tag ≠ tag) →
    tag_scan n i idx tag s = some none := by
  induction n with
  | zero => intro i _; rfl
  | succ n ih =>
    intro i h
    obtain ⟨h0, h1, h2⟩ := h i (le_refl i) (by omega)
    simp only [tag_scan, load_eq s h0 h1, Option.some_bind, if_neg h2]
    exact ih (i + 1) (fun k hk1 hk2 => h k (by omega) (by omega))

theorem tag_scan_some (idx : Nat → Int) (tag : Nat) (s : State) (n : Nat) : ∀ i k : Nat,
    i ≤ k → k < i + n →
    (∀ j, i ≤ j → j ≤ k → 0 ≤ idx j ∧ idx j < s.size) →
    (∀ j, i ≤ j → j < k → (s.tbl (idx j)).tag ≠ tag) → (s.tbl (idx k)).tag = tag →
    tag_scan n i idx tag s = some (some (idx k)) := by
  induction n with
  | zero => intro i k h1 h2; omega
  | succ n ih =>
    intro i k hik hk hb hne heq
    obtain ⟨h0, h1⟩ := hb i (le_refl i) hik
    simp only [tag_scan, load_eq s h0 h1, Option.some_bind]
    by_cases hki : k = i
    · subst hki; rw [if_pos heq]
    · rw [if_neg (hne i (le_refl i) (by omega))]
      exact ih (i + 1) k (by omega) (by omega) (fun j hj1 hj2 => hb j (by omega) hj2)
        (fun j hj1 hj2 => hne j (by omega) hj2) heq

/-- In a bounded range of naturals, a decidable property has a least witness
or none. -/
theorem first_or_none (P : Nat → Prop) [DecidablePred P] (n : Nat) :
    (∀ k, k < n → ¬ P k) ∨ ∃ k, k < n ∧ P k ∧ ∀ j, j < k → ¬ P j := by
  induction n with
  | zero => left; intro k hk; omega
  | succ n ih =>
    rcases ih with h | ⟨k, hk, hP, hmin⟩
    · by_cases hn : P n
      · right; exact ⟨n, by omega, hn, fun j hj => h j hj⟩
      · left; intro k hk
        by_cases hkn : k = n
        · subst hkn; exact hn
        · exact h k (by omega)
    · right; exact ⟨k, by omega, hP, hmin⟩

theorem nway_cell_eq {n : Nat} {assoc : Int} {i : Nat} (h0 : 0 < assoc)
    (ha : assoc < 2 ^ 31) (h1 : (n : Int) * assoc + i < 2 ^ 63) :
    nway_cell n assoc i = (n : Int) * assoc + i := by
  unfold nway_cell
  rw [toULong_of_nonneg (le_of_lt h0) (by norm_num at ha ⊢; omega)]
  obtain ⟨a, rfl⟩ := Int.eq_ofNat_of_zero_le (le_of_lt h0)
  simp only [Int.toNat_natCast]
  have h2 : n * a + i < 2 ^ 63 := by exact_mod_cast h1
  rw [Nat.mod_eq_of_lt (by omega)]
  push_cast; rfl

theorem toInt32_index {addr_index : Nat} {assoc size : Int} (h0 : 0 < assoc)
    (h1 : ((addr_index : Int) + 1) * assoc ≤ size) (h2 : size < 2 ^ 31) :
    toInt32 addr_index = addr_index := by
  apply toInt32_of_lt
  have h3 : (addr_index : Int) + 1 ≤ ((addr_index : Int) + 1) * assoc :=
    le_mul_of_one_le_right (by positivity) (by omega)
  have : (addr_index : Int) < 2 ^ 31 := by omega
  exact_mod_cast this

/-! ## The two paths of `tlb_lookup` -/

theorem scope_fa {c : tlb_t} (h : c.assoc = -1) (set : Int) :
    scope_lo c set = 0 ∧ scope_hi c set = c.entries := by
  simp [scope_lo, scope_hi, h]

theorem scope_dm {c : tlb_t} (h : c.assoc = 0) (set : Int) :
    scope_lo c set = set % c.entries ∧ scope_hi c set = set % c.entries + 1 := by
  simp [scope_lo, scope_hi, h]

theorem scope_nway {c : tlb_t} (h : 0 < c.assoc) (set : Int) :
    scope_lo c set = set * c.assoc ∧ scope_hi c set = set * c.assoc + c.assoc := by
  have h1 : c.assoc ≠ -1 := by omega
  have h2 : c.assoc ≠ 0 := by omega
  simp only [scope_lo, scope_hi, h1, h2, if_false, true_and]
  ring

theorem dm_slot_cast {addr_index : Nat} {entr : Int} (h0 : 0 < entr) (h1 : entr < 2 ^ 31) :
    ((dm_slot addr_index entr : Nat) : Int) = (addr_index : Int) % entr := by
  unfold dm_slot
  rw [toULong_of_nonneg (le_of_lt h0) (by norm_num at h1 ⊢; omega)]
  obtain ⟨a, rfl⟩ := Int.eq_ofNat_of_zero_le (le_of_lt h0)
  simp

theorem toULong_pos {entr : Int} (h0 : 0 < entr) (h1 : entr < 2 ^ 31) : toULong entr ≠ 0 := by
  rw [toULong_of_nonneg (le_of_lt h0) (by norm_num at h1 ⊢; omega)]
  omega

/-- The scope of an in-range level lies inside the allocated cells. -/
theorem scope_bounds {s : State} {t : Int} {idx : Nat} (h : InRangeAt s t idx) :
    0 ≤ scope_lo (s.TLBc t) idx ∧ scope_lo (s.TLBc t) idx < scope_hi (s.TLBc t) idx ∧
      scope_hi (s.TLBc t) idx ≤ s.TLB_size t := by
  obtain ⟨hsz, hfa | hdm | hnw⟩ := h
  · obtain ⟨ha, he0, he1⟩ := hfa
    rw [(scope_fa ha idx).1, (scope_fa ha idx).2]
    omega
  · obtain ⟨ha, he0, he1⟩ := hdm
    rw [(scope_dm ha idx).1, (scope_dm ha idx).2]
    have h1 := Int.emod_nonneg (idx : Int) (show (s.TLBc t).entries ≠ 0 by omega)
    have h2 := Int.emod_lt_of_pos (idx : Int) he0
    omega
  · obtain ⟨ha, he⟩ := hnw
    rw [(scope_nway ha idx).1, (scope_nway ha idx).2]
    have h1 : (0 : Int) ≤ idx * (s.TLBc t).assoc := by positivity
    have h2 : ((idx : Int) + 1) * (s.TLBc t).assoc = idx * (s.TLBc t).assoc + (s.TLBc t).assoc := by
      ring
    omega

theorem inRange_scopeAllocated {s : State} {idx : Nat} (h : InRangeAt s s.TLB_TYPE idx)
    (hne : s.cur.assoc ≠ 0) : ScopeAllocated s idx := by
  obtain ⟨h0, h1, h2⟩ := scope_bounds h
  refine ⟨?_, h0, h1, h2⟩
  obtain ⟨_, hfa | hdm | hnw⟩ := h
  · exact Or.inl hfa.1
  · exact absurd hdm.1 hne
  · exact Or.inr hnw.1

/-- A lookup of a tag that is not resident takes the miss path. -/
theorem tlb_lookup_miss (sim : Nat → State → Option State) (a tag idx : Nat) (s : State)
    (hr : InRangeAt s s.TLB_TYPE idx) (hm : ¬ Resident s s.TLB_TYPE tag idx) :
    tlb_lookup sim a tag idx s =
      (l2_descend sim a (miss_prologue s)).bind fun s3 =>
        if s3.sim_L2TLB = false ∨ s3.l2hit = false then
          install s.cur.assoc s.cur.entries tag idx s3
        else some s3 := by
  have hb : 0 ≤ scope_lo s.cur idx ∧ scope_lo s.cur idx < scope_hi s.cur idx ∧
      scope_hi s.cur idx ≤ s.size := scope_bounds hr
  have hm2 : ∀ j, scope_lo s.cur idx ≤ j → j < scope_hi s.cur idx → (s.tbl j).tag ≠ tag :=
    fun j h1 h2 h3 => hm ⟨j, h1, h2, h3⟩
  obtain ⟨hsz, hfa | hdm | hnw⟩ := hr
  · obtain ⟨ha, he0, he1⟩ := hfa
    change s.cur.assoc = -1 at ha
    rw [(scope_fa ha idx).1, (scope_fa ha idx).2] at hm2
    unfold tlb_lookup install
    rw [if_pos ha, tag_scan_none _ tag s _ 0 (fun k _ hk2 => ⟨by positivity, by
      have : s.cur.entries ≤ s.size := he1
      omega, hm2 _ (by positivity) (by omega)⟩)]
    simp only [Option.some_bind, if_pos ha]
  · obtain ⟨ha, he0, he1⟩ := hdm
    change s.cur.assoc = 0 at ha
    have he1 : s.cur.entries ≤ s.size := he1
    have hsz : s.size < 2 ^ 31 := hsz
    rw [(scope_dm ha idx).1, (scope_dm ha idx).2] at hm2 hb
    unfold tlb_lookup install
    have hne : s.cur.assoc ≠ -1 := by omega
    have hslot : ((dm_slot idx s.cur.entries : Nat) : Int) = (idx : Int) % s.cur.entries :=
      dm_slot_cast he0 (by omega)
    have hpos : toULong s.cur.entries ≠ 0 := toULong_pos he0 (by omega)
    simp only [if_neg hne, if_pos ha, if_neg hpos]
    rw [hslot, load_eq s hb.1 (by have := hb.2.2; change _ ≤ s.size at this; omega)]
    simp only [Option.some_bind, if_neg (hm2 _ (le_refl _) (by omega))]
  · obtain ⟨ha, he⟩ := hnw
    change 0 < s.cur.assoc at ha
    have he : ((idx : Int) + 1) * s.cur.assoc ≤ s.size := he
    have hsz : s.size < 2 ^ 31 := hsz
    rw [(scope_nway ha idx).1, (scope_nway ha idx).2] at hm2
    have hne : s.cur.assoc ≠ -1 := by omega
    have hne0 : s.cur.assoc ≠ 0 := by omega
    have hexp : ((idx : Int) + 1) * s.cur.assoc = idx * s.cur.assoc + s.cur.assoc := by ring
    have hnn : (0 : Int) ≤ idx * s.cur.assoc := by positivity
    have hcell : ∀ k : Nat, k < s.cur.assoc.toNat →
        nway_cell idx s.cur.assoc k = (idx : Int) * s.cur.assoc + k := fun k hk =>
      nway_cell_eq ha (by omega) (by omega)
    unfold tlb_lookup install
    rw [if_neg hne, if_neg hne0, if_pos ha, tag_scan_none _ tag s _ 0 (fun k _ hk2 => by
      rw [hcell k (by omega)]
      exact ⟨by omega, by omega, hm2 _ (by omega) (by omega)⟩)]
    simp only [Option.some_bind, if_neg hne, if_neg hne0]

/-- A lookup of a resident tag takes the hit path on its first cell. -/
theorem tlb_lookup_hit (sim : Nat → State → Option State) (a tag idx : Nat) (s : State)
    (hr : InRangeAt s s.TLB_TYPE idx) (hm : Resident s s.TLB_TYPE tag idx) :
    ∃ e, FirstTag s.tbl (scope_lo s.cur idx) (scope_hi s.cur idx) tag e ∧
      tlb_lookup sim a tag idx s = hit_update e (hit_prologue s) := by
  have hb : 0 ≤ scope_lo s.cur idx ∧ scope_lo s.cur idx < scope_hi s.cur idx ∧
      scope_hi s.cur idx ≤ s.size := scope_bounds hr
  have hcur : (hit_prologue s).cur.assoc = s.cur.assoc := by
    simp only [hit_prologue, do_hit, State.setCur, State.cur]
    split <;> simp [upd]
  have hrep : (hit_prologue s).RepPol = s.RepPol := by
    simp only [hit_prologue, do_hit, State.setCur]
    split <;> rfl
  obtain ⟨hsz, hfa | hdm | hnw⟩ := hr
  · obtain ⟨ha, he0, he1⟩ := hfa
    change s.cur.assoc = -1 at ha
    have he1 : s.cur.entries ≤ s.size := he1
    obtain ⟨j, hj0, hj1, hj2⟩ := hm
    change scope_lo s.cur idx ≤ j at hj0
    change j < scope_hi s.cur idx at hj1
    change (s.tbl j).tag = tag at hj2
    rw [(scope_fa ha idx).1] at hj0 ⊢
    rw [(scope_fa ha idx).2] at hj1 ⊢
    rcases first_or_none (fun k : Nat => (s.tbl (k : Int)).tag = tag) s.cur.entries.toNat with
      hnone | ⟨k, hk, hP, hmin⟩
    · exact absurd (by rw [Int.toNat_of_nonneg hj0]; exact hj2) (hnone j.toNat (by omega))
    · refine ⟨(k : Int), ⟨by positivity, by omega, hP, fun i hi0 hi1 => by
        have := hmin i.toNat (by omega)
        rw [Int.toNat_of_nonneg hi0] at this; exact this⟩, ?_⟩
      unfold tlb_lookup hit_update
      rw [if_pos ha, tag_scan_some _ tag s _ 0 k (by omega) (by omega)
        (fun i _ hi => ⟨by positivity, by omega⟩) (fun i _ hi => hmin i hi) hP]
      simp only [Option.some_bind, hcur, hrep]
      rw [if_neg (show ¬ s.cur.assoc = 0 by omega)]
  · obtain ⟨ha, he0, he1⟩ := hdm
    change s.cur.assoc = 0 at ha
    have he1 : s.cur.entries ≤ s.size := he1
    have hsz : s.size < 2 ^ 31 := hsz
    obtain ⟨j, hj0, hj1, hj2⟩ := hm
    change scope_lo s.cur idx ≤ j at hj0
    change j < scope_hi s.cur idx at hj1
    change (s.tbl j).tag = tag at hj2
    rw [(scope_dm ha idx).1] at hj0 hb ⊢
    rw [(scope_dm ha idx).2] at hj1 hb ⊢
    have hje : j = (idx : Int) % s.cur.entries := by omega
    subst hje
    refine ⟨_, ⟨le_refl _, by omega, hj2, fun i hi0 hi1 => by omega⟩, ?_⟩
    unfold tlb_lookup hit_update
    have hne : s.cur.assoc ≠ -1 := by omega
    have hslot : ((dm_slot idx s.cur.entries : Nat) : Int) = (idx : Int) % s.cur.entries :=
      dm_slot_cast he0 (by omega)
    have hpos : toULong s.cur.entries ≠ 0 := toULong_pos he0 (by omega)
    simp only [if_neg hne, if_pos ha, if_neg hpos]
    rw [hslot, load_eq s hb.1 (by have := hb.2.2; change _ ≤ s.size at this; omega)]
    simp only [Option.some_bind, if_pos hj2, hcur, ha, if_true]
  · obtain ⟨ha, he⟩ := hnw
    change 0 < s.cur.assoc at ha
    have he : ((idx : Int) + 1) * s.cur.assoc ≤ s.size := he
    have hsz : s.size < 2 ^ 31 := hsz
    obtain ⟨j, hj0, hj1, hj2⟩ := hm
    change scope_lo s.cur idx ≤ j at hj0
    change j < scope_hi s.cur idx at hj1
    change (s.tbl j).tag = tag at hj2
    rw [(scope_nway ha idx).1] at hj0 ⊢
    rw [(scope_nway ha idx).2] at hj1 ⊢
    have hne : s.cur.assoc ≠ -1 := by omega
    have hne0 : s.cur.assoc ≠ 0 := by omega
    have hexp : ((idx : Int) + 1) * s.cur.assoc = idx * s.cur.assoc + s.cur.assoc := by ring
    have hnn : (0 : Int) ≤ idx * s.cur.assoc := by positivity
    have hcell : ∀ k : Nat, k < s.cur.assoc.toNat →
        nway_cell idx s.cur.assoc k = (idx : Int) * s.cur.assoc + k := fun k hk =>
      nway_cell_eq ha (by omega) (by omega)
    rcases first_or_none (fun k : Nat => (s.tbl ((idx : Int) * s.cur.assoc + k)).tag = tag)
      s.cur.assoc.toNat with hnone | ⟨k, hk, hP, hmin⟩
    · refine absurd ?_ (hnone (j - idx * s.cur.assoc).toNat (by omega))
      rw [Int.toNat_of_nonneg (by omega)]
      have : (idx : Int) * s.cur.assoc + (j - idx * s.cur.assoc) = j := by ring
      rw [this]; exact hj2
    · refine ⟨(idx : Int) * s.cur.assoc + k, ⟨by omega, by omega, hP, fun i hi0 hi1 => by
        have := hmin (i - idx * s.cur.assoc).toNat (by omega)
        rw [Int.toNat_of_nonneg (by omega)] at this
        have e : (idx : Int) * s.cur.assoc + (i - idx * s.cur.assoc) = i := by ring
        rw [e] at this; exact this⟩, ?_⟩
      unfold tlb_lookup hit_update
      rw [if_neg hne, if_neg hne0, if_pos ha, tag_scan_some _ tag s _ 0 k (by omega) (by omega)
        (fun i _ hi => by rw [hcell i (by omega)]; exact ⟨by omega, by omega⟩)
        (fun i _ hi => by rw [hcell i (by omega)]; exact hmin i hi)
        (by rw [hcell k hk]; exact hP)]
      simp only [Option.some_bind, hcur, hrep, hcell k hk]
      rw [if_neg (show ¬ s.cur.assoc = 0 from hne0)]

/-! ## The replacement block -/

@[simp] theorem draw_tbl (s : State) (k : Nat) : (s.draw k).tbl = s.tbl := rfl
@[simp] theorem draw_size (s : State) (k : Nat) : (s.draw k).size = s.size := rfl
@[simp] theorem draw_cur (s : State) (k : Nat) : (s.draw k).cur = s.cur := rfl
@[simp] theorem draw_self (s : State) : s.draw s.random_calls = s := rfl
theorem draw_put (s : State) (k : Nat) (g : Int → TLB_ENTRY) :
    (s.draw k).put g = (s.put g).draw k := rfl

theorem toUInt_of_pos {x : Int} (h0 : 0 < x) (h1 : x < 2 ^ 31) : toUInt x = x.toNat := by
  unfold toUInt
  rw [Int.emod_eq_of_lt (le_of_lt h0) (by norm_num at h1 ⊢; omega)]

theorem get_random_eq (s : State) {range : Int} (h0 : 0 < range) (h1 : range < 2 ^ 31) :
    ∃ r : Int, 0 ≤ r ∧ r < range ∧
      get_random range s = some (r, s.draw (s.random_calls + 1)) := by
  unfold get_random
  rw [toUInt_of_pos h0 h1]
  obtain ⟨n, rfl⟩ := Int.eq_ofNat_of_zero_le (le_of_lt h0)
  simp only [Int.toNat_natCast]
  have hn : 0 < n := by exact_mod_cast h0
  have hn2 : n < 2 ^ 31 := by exact_mod_cast h1
  have hlt : s.random s.random_calls % 2 ^ 32 % n < n := Nat.mod_lt _ hn
  rw [if_neg (by omega), toInt32_of_lt (by omega)]
  exact ⟨_, by positivity, by exact_mod_cast hlt, rfl⟩

/-- On an in-range level and under one of the three policies, the replacement
block succeeds: it rewrites the table of the current level only, leaves the
cells outside the addressed scope alone and puts the tag in a cell of the scope. -/
theorem install_ok (tag idx : Nat) (s : State) (hr : InRangeAt s s.TLB_TYPE idx)
    (hpol : s.RepPol = 0 ∨ s.RepPol = 1 ∨ s.RepPol = 2) :
    ∃ g k e, install s.cur.assoc s.cur.entries tag idx s = some ((s.put g).draw k) ∧
      scope_lo s.cur idx ≤ e ∧ e < scope_hi s.cur idx ∧ (g e).tag = tag ∧
      (∀ j, j < scope_lo s.cur idx ∨ scope_hi s.cur idx ≤ j → g j = s.tbl j) ∧
      ∀ j, j ≠ e → (g j).tag = (s.tbl j).tag := by
  have hb : 0 ≤ scope_lo s.cur idx ∧ scope_lo s.cur idx < scope_hi s.cur idx ∧
      scope_hi s.cur idx ≤ s.size := scope_bounds hr
  have hr' := hr
  obtain ⟨hsz, hgeo⟩ := hr
  replace hsz : s.size < 2 ^ 31 := hsz
  by_cases hdm : s.cur.assoc = 0
  · -- direct mapped
    have he0 : 0 < s.cur.entries := by
      rcases hgeo with h | h | h
      · have : s.cur.assoc = -1 := h.1
        omega
      · exact h.2.1
      · have : 0 < s.cur.assoc := h.1
        omega
    have he1 : s.cur.entries ≤ s.size := by
      rcases hgeo with h | h | h
      · have : s.cur.assoc = -1 := h.1
        omega
      · exact h.2.2
      · have : 0 < s.cur.assoc := h.1
        omega
    have hslot : ((dm_slot idx s.cur.entries : Nat) : Int) = (idx : Int) % s.cur.entries :=
      dm_slot_cast he0 (by omega)
    rw [(scope_dm hdm idx).1, (scope_dm hdm idx).2] at hb ⊢
    unfold install
    rw [if_neg (by omega), if_pos hdm, hslot, store_tag_eq s tag hb.1 (by omega)]
    refine ⟨_, s.random_calls, (idx : Int) % s.cur.entries, rfl, le_refl _, by omega, by simp,
      ?_, ?_⟩
    · intro j hj
      rw [upd_ne _ _ (by omega)]
    · intro j hj
      rw [upd_ne _ _ hj]
  · have hsa : ∀ set : Int, set = idx ∨ s.cur.assoc = -1 → ScopeAllocated s set ∧
        scope_lo s.cur set = scope_lo s.cur idx ∧ scope_hi s.cur set = scope_hi s.cur idx := by
      intro set hset
      have h1 := inRange_scopeAllocated hr' hdm
      rcases hset with rfl | hfa
      · exact ⟨h1, rfl, rfl⟩
      · have e1 : scope_lo s.cur set = scope_lo s.cur idx := by
          rw [(scope_fa hfa set).1, (scope_fa hfa idx).1]
        have e2 : scope_hi s.cur set = scope_hi s.cur idx := by
          rw [(scope_fa hfa set).2, (scope_fa hfa idx).2]
        refine ⟨?_, e1, e2⟩
        unfold ScopeAllocated
        rw [e1, e2]; exact h1
    -- the three policies on a scope addressed by `set`
    have hpolicy : ∀ set : Int, (set = idx ∨ s.cur.assoc = -1) →
        (s.RepPol = 0 ∨ s.RepPol = 1) →
        ∃ g k e, (if s.RepPol = 0 then
            (LFU set s).bind fun entry => (store_tag entry tag s).bind (store_count entry 1)
          else (LRU set s).bind fun entry =>
            ((store_tag entry tag s).bind (store_count entry 0)).bind (increase_LRU entry)) =
            some ((s.put g).draw k) ∧
          scope_lo s.cur idx ≤ e ∧ e < scope_hi s.cur idx ∧ (g e).tag = tag ∧
          (∀ j, j < scope_lo s.cur idx ∨ scope_hi s.cur idx ≤ j → g j = s.tbl j) ∧
          ∀ j, j ≠ e → (g j).tag = (s.tbl j).tag := by
      intro set hset hp
      obtain ⟨hal, e1, e2⟩ := hsa set hset
      by_cases h0 : s.RepPol = 0
      · obtain ⟨p, _, hmin, heq⟩ := lfu_block_eq s set tag hal
        obtain ⟨hp0, hp1⟩ := firstMin_mem hmin
        rw [e1] at hp0; rw [e2] at hp1
        rw [if_pos h0, heq]
        refine ⟨_, s.random_calls, p, rfl, hp0, hp1, by simp, ?_, ?_⟩
        · intro j hj
          rw [upd_ne _ _ (by omega)]
        · intro j hj
          rw [upd_ne _ _ hj]
      · obtain ⟨p, _, hmax, heq⟩ := lru_block_eq s set tag hal
        obtain ⟨hp0, hp1⟩ := firstMax_mem hmax
        rw [e1] at hp0
        rw [e2] at hp1
        rw [e1, e2] at heq
        rw [if_neg h0, heq]
        refine ⟨_, s.random_calls, p, rfl, hp0, hp1, ?_, ?_, ?_⟩
        · rw [lru_touch_tag]; simp
        · intro j hj
          rw [lru_touch_outside _ _ _ _ _ hp0 (by omega) (by omega), upd_ne _ _ (by omega)]
        · intro j hj
          rw [lru_touch_tag, upd_ne _ _ hj]
    by_cases hfa : s.cur.assoc = -1
    · have he0 : 0 < s.cur.entries := by
        rcases hgeo with h | h | h
        · exact h.2.1
        · exact absurd h.1 hdm
        · have : 0 < s.cur.assoc := h.1
          omega
      rw [(scope_fa hfa idx).1, (scope_fa hfa idx).2] at hb
      unfold install fa_install
      rw [if_pos hfa]
      by_cases h2 : s.RepPol = 2
      · rw [if_neg (by omega), if_neg (by omega), if_pos h2]
        obtain ⟨r, hr0, hr1, hreq⟩ := get_random_eq s he0 (by omega)
        rw [hreq]
        simp only [Option.some_bind]
        rw [store_tag_count_eq _ tag 1 hr0 (by simp only [draw_size]; omega)]
        rw [(scope_fa hfa idx).1, (scope_fa hfa idx).2]
        refine ⟨_, _, r, rfl, hr0, hr1, by simp, ?_, ?_⟩
        · intro j hj
          simp only [draw_tbl]
          rw [upd_ne _ _ (by omega)]
        · intro j hj
          simp only [draw_tbl]
          rw [upd_ne _ _ hj]
      · have hp : s.RepPol = 0 ∨ s.RepPol = 1 := by omega
        obtain ⟨g, k, e, heq, rest⟩ := hpolicy (-1) (Or.inr hfa) hp
        refine ⟨g, k, e, ?_, rest⟩
        rw [← heq]
        by_cases h0 : s.RepPol = 0
        · simp only [if_pos h0]
        · simp only [if_neg h0, if_pos (show s.RepPol = 1 by omega)]
    · have hnw : 0 < s.cur.assoc ∧ ((idx : Int) + 1) * s.cur.assoc ≤ s.size := by
        rcases hgeo with h | h | h
        · exact absurd h.1 hfa
        · exact absurd h.1 hdm
        · exact h
      obtain ⟨ha, he⟩ := hnw
      have hidx : toInt32 idx = idx := toInt32_index ha he hsz
      rw [(scope_nway ha idx).1, (scope_nway ha idx).2] at hb
      unfold install nway_install
      rw [if_neg hfa, if_neg hdm]
      by_cases h2 : s.RepPol = 2
      · rw [if_neg (by omega), if_neg (by omega), if_pos h2]
        have hexp : ((idx : Int) + 1) * s.cur.assoc = idx * s.cur.assoc + s.cur.assoc := by ring
        obtain ⟨r, hr0, hr1, hreq⟩ := get_random_eq s ha (by omega)
        have hbase : toInt32 (idx * toULong s.cur.assoc % 2 ^ 64) = (idx : Int) * s.cur.assoc := by
          have := nway_cell_eq (n := idx) (i := 0) ha (by omega) (by simp; omega)
          unfold nway_cell at this
          simp only [Nat.add_zero, Nat.cast_zero, add_zero] at this
          rw [toInt32_of_lt, this]
          have h3 : ((idx * toULong s.cur.assoc % 2 ^ 64 : Nat) : Int) < 2 ^ 31 := by
            rw [this]; omega
          exact_mod_cast h3
        simp only [hbase, hreq, Option.some_bind]
        rw [store_tag_count_eq _ tag 0 (by omega) (by simp only [draw_size]; omega)]
        rw [(scope_nway ha idx).1, (scope_nway ha idx).2]
        refine ⟨_, _, (idx : Int) * s.cur.assoc + r, rfl, by omega, by omega, by simp, ?_, ?_⟩
        · intro j hj
          simp only [draw_tbl]
          rw [upd_ne _ _ (by omega)]
        · intro j hj
          simp only [draw_tbl]
          rw [upd_ne _ _ hj]
      · have hp : s.RepPol = 0 ∨ s.RepPol = 1 := by omega
        obtain ⟨g, k, e, heq, rest⟩ := hpolicy idx (Or.inl rfl) hp
        refine ⟨g, k, e, ?_, rest⟩
        rw [← heq, hidx]
        by_cases h0 : s.RepPol = 0
        · simp only [if_pos h0]
        · simp only [if_neg h0, if_pos (show s.RepPol = 1 by omega)]

/-! ## What the bookkeeping steps leave alone -/

theorem geom_assoc {c d : tlb_t} (h : c.geom = d.geom) : c.assoc = d.assoc := by
  have h2 := congrArg tlb_t.assoc h; exact h2
theorem geom_entries {c d : tlb_t} (h : c.geom = d.geom) : c.entries = d.entries := by
  have h2 := congrArg tlb_t.entries h; exact h2
theorem geom_index_mask {c d : tlb_t} (h : c.geom = d.geom) : c.index_mask = d.index_mask := by
  have h2 := congrArg tlb_t.index_mask h; exact h2

theorem geom_scope_lo {c d : tlb_t} (h : c.geom = d.geom) (set : Int) :
    scope_lo c set = scope_lo d set := by
  unfold scope_lo; rw [geom_assoc h, geom_entries h]

theorem geom_scope_hi {c d : tlb_t} (h : c.geom = d.geom) (set : Int) :
    scope_hi c set = scope_hi d set := by
  unfold scope_hi; rw [geom_assoc h, geom_entries h]

theorem geom_decode_vpn {c d : tlb_t} (h : c.geom = d.geom) (a : Nat) :
    decode_vpn c a = decode_vpn d a := by
  have h1 : c.vpn_mask = d.vpn_mask := by
    have h3 := congrArg tlb_t.vpn_mask h; exact h3
  have h2 : c.offset_mask = d.offset_mask := by
    have h3 := congrArg tlb_t.offset_mask h; exact h3
  unfold decode_vpn; rw [h1, h2]

theorem geom_decode_index {c d : tlb_t} (h : c.geom = d.geom) (a : Nat) :
    decode_index c a = decode_index d a := by
  unfold decode_index; rw [geom_assoc h, geom_index_mask h, geom_decode_vpn h]

theorem geom_decode_tag {c d : tlb_t} (h : c.geom = d.geom) (a : Nat) :
    decode_tag c a = decode_tag d a := by
  have h1 : c.tag_mask = d.tag_mask := by
    have h3 := congrArg tlb_t.tag_mask h; exact h3
  unfold decode_tag; rw [geom_assoc h, geom_index_mask h, geom_decode_vpn h, geom_entries h, h1]

theorem inRangeAt_congr {s x : State} {t : Int} (hg : (x.TLBc t).geom = (s.TLBc t).geom)
    (hs : x.TLB_size t = s.TLB_size t) (i : Nat) : InRangeAt x t i ↔ InRangeAt s t i := by
  unfold InRangeAt
  rw [geom_assoc hg, geom_entries hg, hs]

theorem resident_congr {s x : State} {t : Int} (hg : (x.TLBc t).geom = (s.TLBc t).geom)
    (ht : x.TLB t = s.TLB t) (tag i : Nat) : Resident x t tag i ↔ Resident s t tag i := by
  unfold Resident
  rw [geom_scope_lo hg, geom_scope_hi hg, ht]

theorem do_miss_TLBc (s : State) :
    (do_miss s).TLBc = upd s.TLBc s.TLB_TYPE { s.cur with miss := incr_int s.cur.miss } := by
  unfold do_miss
  dsimp only
  split_ifs <;> rfl

/-- The level record after `do_miss`. -/
theorem miss_prologue_TLBc (s : State) (u : Int) :
    (miss_prologue s).TLBc u =
      if u = s.TLB_TYPE then { s.TLBc u with miss := incr_int (s.TLBc u).miss } else s.TLBc u := by
  have h : (miss_prologue s).TLBc = (do_miss s).TLBc := by
    unfold miss_prologue; dsimp only; split_ifs <;> rfl
  rw [h, do_miss_TLBc, upd_apply]
  by_cases hu : u = s.TLB_TYPE
  · subst hu; simp only [if_true]; rfl
  · simp only [if_neg hu]

theorem miss_prologue_geom (s : State) (u : Int) :
    ((miss_prologue s).TLBc u).geom = (s.TLBc u).geom := by
  rw [miss_prologue_TLBc]; split <;> rfl

theorem miss_prologue_miss (s : State) (u : Int) :
    ((miss_prologue s).TLBc u).miss =
      if u = s.TLB_TYPE then incr_int (s.TLBc u).miss else (s.TLBc u).miss := by
  rw [miss_prologue_TLBc]; split <;> rfl

theorem miss_prologue_hit (s : State) (u : Int) :
    ((miss_prologue s).TLBc u).hit = (s.TLBc u).hit := by
  rw [miss_prologue_TLBc]; split <;> rfl

theorem miss_prologue_frame (s : State) :
    (miss_prologue s).TLB = s.TLB ∧ (miss_prologue s).TLB_size = s.TLB_size ∧
      (miss_prologue s).TLB_TYPE = s.TLB_TYPE ∧ (miss_prologue s).RepPol = s.RepPol ∧
      (miss_prologue s).sim_L2TLB = s.sim_L2TLB ∧ (miss_prologue s).clo_sim_tlb = s.clo_sim_tlb ∧
      (miss_prologue s).clo_sim_pages = s.clo_sim_pages ∧
      (miss_prologue s).l2check = s.l2check ∧
      (miss_prologue s).l2hit = (if s.l2check then false else s.l2hit) ∧
      (miss_prologue s).sim_iTLB = s.sim_iTLB ∧ (miss_prologue s).sim_dTLB = s.sim_dTLB ∧
      (miss_prologue s).VAS_SIZE = s.VAS_SIZE ∧ (miss_prologue s).random = s.random ∧
      (miss_prologue s).random_calls = s.random_calls := by
  unfold miss_prologue do_miss
  dsimp only
  split_ifs <;> simp_all [State.setCur]

theorem miss_prologue_t1 (s : State) :
    (miss_prologue s).t1 = if s.TLB_TYPE = 0 ∨ s.TLB_TYPE = 1 then incr_ulong s.t1 else s.t1 := by
  unfold miss_prologue do_miss
  dsimp only [TLB_TYPE_ITLB, TLB_TYPE_DTLB, TLB_TYPE_L2TLB]
  split_ifs <;> simp_all [State.setCur]

theorem miss_prologue_t2 (s : State) :
    (miss_prologue s).t2 = if s.TLB_TYPE = 2 then incr_ulong s.t2 else s.t2 := by
  unfold miss_prologue do_miss
  dsimp only [TLB_TYPE_ITLB, TLB_TYPE_DTLB, TLB_TYPE_L2TLB]
  split_ifs <;> simp_all [State.setCur]

/-- The level record after `do_hit`. -/
theorem hit_prologue_TLBc (s : State) (u : Int) :
    (hit_prologue s).TLBc u =
      if u = s.TLB_TYPE then { s.TLBc u with hit := incr_int (s.TLBc u).hit } else s.TLBc u := by
  have h : (hit_prologue s).TLBc = upd s.TLBc s.TLB_TYPE { s.cur with hit := incr_int s.cur.hit } := by
    unfold hit_prologue do_hit; split_ifs <;> rfl
  rw [h, upd_apply]
  by_cases hu : u = s.TLB_TYPE
  · subst hu; simp only [if_true]; rfl
  · simp only [if_neg hu]

theorem hit_prologue_geom (s : State) (u : Int) :
    ((hit_prologue s).TLBc u).geom = (s.TLBc u).geom := by
  rw [hit_prologue_TLBc]; split <;> rfl

theorem hit_prologue_frame (s : State) :
    (hit_prologue s).TLB = s.TLB ∧ (hit_prologue s).TLB_size = s.TLB_size ∧
      (hit_prologue s).TLB_TYPE = s.TLB_TYPE ∧ (hit_prologue s).RepPol = s.RepPol ∧
      (hit_prologue s).sim_L2TLB = s.sim_L2TLB ∧ (hit_prologue s).clo_sim_tlb = s.clo_sim_tlb ∧
      (hit_prologue s).clo_sim_pages = s.clo_sim_pages ∧
      (hit_prologue s).l2check = s.l2check ∧
      (hit_prologue s).l2hit = (if s.l2check then true else s.l2hit) ∧
      (hit_prologue s).sim_iTLB = s.sim_iTLB ∧ (hit_prologue s).sim_dTLB = s.sim_dTLB ∧
      (hit_prologue s).VAS_SIZE = s.VAS_SIZE ∧ (hit_prologue s).random = s.random ∧
      (hit_prologue s).random_calls = s.random_calls ∧
      (hit_prologue s).t1 = s.t1 ∧ (hit_prologue s).t2 = s.t2 := by
  unfold hit_prologue do_hit
  split_ifs <;> simp_all [State.setCur]

/-- The level record after the page log. -/
theorem log_page_TLBc (tag : Nat) (s : State) (u : Int) :
    ∃ ps n, (log_page tag s).TLBc u = { s.TLBc u with page_ptr := ps, total_pages := n } := by
  unfold log_page
  split
  · unfold add_page
    split
    · by_cases h : u = s.TLB_TYPE
      · subst h; exact ⟨_, _, by simp [State.setCur, State.cur, upd]; exact ⟨rfl, rfl⟩⟩
      · exact ⟨_, _, by simp [State.setCur, upd, h]; rfl⟩
    · by_cases h : u = s.TLB_TYPE
      · subst h; exact ⟨_, _, by simp [State.setCur, State.cur, upd]; exact ⟨rfl, rfl⟩⟩
      · exact ⟨_, _, by simp [State.setCur, upd, h]; rfl⟩
  · exact ⟨_, _, rfl⟩

theorem log_page_geom (tag : Nat) (s : State) (u : Int) :
    ((log_page tag s).TLBc u).geom = (s.TLBc u).geom := by
  obtain ⟨ps, n, h⟩ := log_page_TLBc tag s u
  rw [h]; rfl

theorem log_page_miss (tag : Nat) (s : State) (u : Int) :
    ((log_page tag s).TLBc u).miss = (s.TLBc u).miss := by
  obtain ⟨ps, n, h⟩ := log_page_TLBc tag s u
  rw [h]

theorem log_page_hit (tag : Nat) (s : State) (u : Int) :
    ((log_page tag s).TLBc u).hit = (s.TLBc u).hit := by
  obtain ⟨ps, n, h⟩ := log_page_TLBc tag s u
  rw [h]

theorem log_page_frame (tag : Nat) (s : State) :
    (log_page tag s).TLB = s.TLB ∧ (log_page tag s).TLB_size = s.TLB_size ∧
      (log_page tag s).TLB_TYPE = s.TLB_TYPE ∧ (log_page tag s).RepPol = s.RepPol ∧
      (log_page tag s).sim_L2TLB = s.sim_L2TLB ∧ (log_page tag s).clo_sim_tlb = s.clo_sim_tlb ∧
      (log_page tag s).clo_sim_pages = s.clo_sim_pages ∧
      (log_page tag s).l2check = s.l2check ∧ (log_page tag s).l2hit = s.l2hit ∧
      (log_page tag s).sim_iTLB = s.sim_iTLB ∧ (log_page tag s).sim_dTLB = s.sim_dTLB ∧
      (log_page tag s).VAS_SIZE = s.VAS_SIZE ∧ (log_page tag s).random = s.random ∧
      (log_page tag s).random_calls = s.random_calls ∧
      (log_page tag s).t1 = s.t1 ∧ (log_page tag s).t2 = s.t2 := by
  unfold log_page add_page
  split
  · split <;> simp [State.setCur]
  · simp

/-! ## Misses, with and without a second level -/

theorem inRange_assoc_ge {s : State} {t : Int} {i : Nat} (h : InRangeAt s t i) :
    -1 ≤ (s.TLBc t).assoc := by
  obtain ⟨_, h1 | h1 | h1⟩ := h
  · rw [h1.1]
  · rw [h1.1]; decide
  · have := h1.1; omega

/-- A miss in a level behind which no L2TLB is consulted: the miss is
counted and the tag is installed in the addressed scope. -/
theorem lookup_miss_leaf (sim : Nat → State → Option State) (a tag idx : Nat) (x : State)
    (hl2 : x.sim_L2TLB = false) (hpol : x.RepPol = 0 ∨ x.RepPol = 1 ∨ x.RepPol = 2)
    (hr : InRangeAt x x.TLB_TYPE idx) (hm : ¬ Resident x x.TLB_TYPE tag idx) :
    ∃ g k e, tlb_lookup sim a tag idx x = some (((miss_prologue x).put g).draw k) ∧
      scope_lo x.cur idx ≤ e ∧ e < scope_hi x.cur idx ∧ (g e).tag = tag ∧
      (∀ j, j < scope_lo x.cur idx ∨ scope_hi x.cur idx ≤ j → g j = x.tbl j) ∧
      ∀ j, j ≠ e → (g j).tag = (x.tbl j).tag := by
  obtain ⟨hTLB, hsize, hty, hrep, hsim2, _⟩ := miss_prologue_frame x
  have hg : (miss_prologue x).cur.geom = x.cur.geom := by
    have := miss_prologue_geom x x.TLB_TYPE
    unfold State.cur; rw [hty]; exact this
  have hr1 : InRangeAt (miss_prologue x) (miss_prologue x).TLB_TYPE idx := by
    rw [hty]
    exact (inRangeAt_congr (miss_prologue_geom x x.TLB_TYPE) (by rw [hsize]) idx).2 hr
  obtain ⟨g, k, e, heq, he0, he1, htag, hout, htags⟩ := install_ok tag idx (miss_prologue x) hr1
    (by rw [hrep]; exact hpol)
  rw [geom_scope_lo hg] at he0 hout
  rw [geom_scope_hi hg] at he1 hout
  rw [geom_assoc hg, geom_entries hg] at heq
  have htbl : (miss_prologue x).tbl = x.tbl := by
    unfold State.tbl; rw [hTLB, hty]
  rw [htbl] at hout htags
  refine ⟨g, k, e, ?_, he0, he1, htag, hout, htags⟩
  rw [tlb_lookup_miss sim a tag idx x hr hm]
  unfold l2_descend
  rw [hsim2, hl2]
  simp only [Bool.false_eq_true, if_false, Option.some_bind, hsim2, hl2, true_or, if_true]
  exact heq

/-- A miss in a level behind which L2TLB is consulted, given the state `y`
in which the nested simulation of L2TLB ends: if that simulation left
`l2hit` false and did not touch the level that missed, the tag is installed
in the addressed scope of that level. -/
theorem lookup_miss_l2 (sim : Nat → State → Option State) (a tag idx : Nat) (x y : State)
    (hl2 : x.sim_L2TLB = true) (hpol : x.RepPol = 0 ∨ x.RepPol = 1 ∨ x.RepPol = 2)
    (hr : InRangeAt x x.TLB_TYPE idx) (hm : ¬ Resident x x.TLB_TYPE tag idx)
    (hy : sim a { miss_prologue x with TLB_TYPE := TLB_TYPE_L2TLB, l2check := true,
                                       sim_L2TLB := false } = some y)
    (hyhit : y.l2hit = false) (hyrep : y.RepPol = x.RepPol)
    (hygeom : (y.TLBc x.TLB_TYPE).geom = (x.TLBc x.TLB_TYPE).geom)
    (hysize : y.TLB_size x.TLB_TYPE = x.TLB_size x.TLB_TYPE)
    (hytbl : y.TLB x.TLB_TYPE = x.TLB x.TLB_TYPE) :
    ∃ g k e, tlb_lookup sim a tag idx x =
        some ((({ y with sim_L2TLB := true, l2check := false, TLB_TYPE := x.TLB_TYPE } :
          State).put g).draw k) ∧
      scope_lo x.cur idx ≤ e ∧ e < scope_hi x.cur idx ∧ (g e).tag = tag ∧
      (∀ j, j < scope_lo x.cur idx ∨ scope_hi x.cur idx ≤ j → g j = x.tbl j) ∧
      ∀ j, j ≠ e → (g j).tag = (x.tbl j).tag := by
  obtain ⟨hTLB, hsize, hty, hrep, hsim2, _⟩ := miss_prologue_frame x
  let y1 : State := { y with sim_L2TLB := true, l2check := false, TLB_TYPE := x.TLB_TYPE }
  have hg : y1.cur.geom = x.cur.geom := hygeom
  have hr1 : InRangeAt y1 y1.TLB_TYPE idx :=
    (inRangeAt_congr (s := x) (x := y1) hygeom hysize idx).2 hr
  obtain ⟨g, k, e, heq, he0, he1, htag, hout, htags⟩ := install_ok tag idx y1 hr1
    (by show y.RepPol = 0 ∨ y.RepPol = 1 ∨ y.RepPol = 2; rw [hyrep]; exact hpol)
  rw [geom_scope_lo hg] at he0 hout
  rw [geom_scope_hi hg] at he1 hout
  rw [geom_assoc hg, geom_entries hg] at heq
  have htbl : y1.tbl = x.tbl := hytbl
  rw [htbl] at hout htags
  refine ⟨g, k, e, ?_, he0, he1, htag, hout, htags⟩
  rw [tlb_lookup_miss sim a tag idx x hr hm]
  unfold l2_descend
  rw [hsim2, hl2, if_pos rfl, hy, hty]
  simp only [Option.map_some', Option.some_bind]
  rw [if_pos (Or.inr hyhit)]
  exact heq

/-- The state `log_page tag ((w.put g).draw k)` against `w`: only the table
of the current level, the number of random draws and the page list differ. -/
theorem put_log_facts (tag : Nat) (w : State) (g : Int → TLB_ENTRY) (k : Nat) :
    (∀ u, ((log_page tag ((w.put g).draw k)).TLBc u).geom = (w.TLBc u).geom) ∧
    (∀ u, ((log_page tag ((w.put g).draw k)).TLBc u).miss = (w.TLBc u).miss) ∧
    (∀ u, ((log_page tag ((w.put g).draw k)).TLBc u).hit = (w.TLBc u).hit) ∧
    (∀ u, u ≠ w.TLB_TYPE → (log_page tag ((w.put g).draw k)).TLB u = w.TLB u) ∧
    (log_page tag ((w.put g).draw k)).TLB w.TLB_TYPE = g ∧
    (log_page tag ((w.put g).draw k)).TLB_size = w.TLB_size ∧
    (log_page tag ((w.put g).draw k)).t1 = w.t1 ∧
    (log_page tag ((w.put g).draw k)).t2 = w.t2 ∧
    (log_page tag ((w.put g).draw k)).l2hit = w.l2hit ∧
    (log_page tag ((w.put g).draw k)).RepPol = w.RepPol := by
  obtain ⟨hTLB, hsize, hty, hrep, hl2, hsim, hpg, hchk, hhit, _, _, _, _, _, ht1, ht2⟩ :=
    log_page_frame tag ((w.put g).draw k)
  refine ⟨fun u => ?_, fun u => ?_, fun u => ?_, fun u hu => ?_, ?_, ?_, ?_, ?_, ?_, ?_⟩
  · rw [log_page_geom]; rfl
  · rw [log_page_miss]; rfl
  · rw [log_page_hit]; rfl
  · rw [hTLB]; exact put_TLB_other w g hu
  · rw [hTLB]; simp [State.put, State.draw, upd]
  · rw [hsize]; rfl
  · rw [ht1]; rfl
  · rw [ht2]; rfl
  · rw [hhit]; rfl
  · rw [hrep]; rfl

/-- A reference that misses a level behind which no L2TLB is consulted. -/
theorem sim_miss_leaf (n addr : Nat) (x : State) (hl2 : x.sim_L2TLB = false)
    (hsim : x.clo_sim_tlb = true) (hpol : x.RepPol = 0 ∨ x.RepPol = 1 ∨ x.RepPol = 2)
    (hr : InRangeAt x x.TLB_TYPE (decode_index x.cur addr))
    (hm : ¬ Resident x x.TLB_TYPE (decode_tag x.cur addr) (decode_index x.cur addr)) :
    ∃ g k e, TLB_simulation (n + 1) addr x =
        some (log_page (decode_tag x.cur addr)
          (((miss_prologue { x with l2hit := false, l2check := false }).put g).draw k)) ∧
      scope_lo x.cur (decode_index x.cur addr) ≤ e ∧
      e < scope_hi x.cur (decode_index x.cur addr) ∧ (g e).tag = decode_tag x.cur addr ∧
      (∀ j, j < scope_lo x.cur (decode_index x.cur addr) ∨
        scope_hi x.cur (decode_index x.cur addr) ≤ j → g j = x.tbl j) ∧
      ∀ j, j ≠ e → (g j).tag = (x.tbl j).tag := by
  obtain ⟨g, k, e, heq, rest⟩ := lookup_miss_leaf (TLB_simulation n) addr
    (decode_tag x.cur addr) (decode_index x.cur addr)
    { x with l2hit := false, l2check := false } hl2 hpol hr hm
  refine ⟨g, k, e, ?_, rest⟩
  rw [TLB_simulation_succ, if_pos ⟨hsim, inRange_assoc_ge hr⟩, heq]
  rfl

/-- A reference that misses an L1 level and then misses L2TLB: both levels
install the tag and count the miss. -/
theorem sim_miss_miss (addr : Nat) (x : State) (hty : x.TLB_TYPE = 0 ∨ x.TLB_TYPE = 1)
    (hl2 : x.sim_L2TLB = true)
    (hsim : x.clo_sim_tlb = true) (hpol : x.RepPol = 0 ∨ x.RepPol = 1 ∨ x.RepPol = 2)
    (hr1 : InRangeAt x x.TLB_TYPE (decode_index x.cur addr))
    (hr2 : InRangeAt x 2 (decode_index (x.TLBc 2) addr))
    (hm1 : ¬ Resident x x.TLB_TYPE (decode_tag x.cur addr) (decode_index x.cur addr))
    (hm2 : ¬ Resident x 2 (decode_tag (x.TLBc 2) addr) (decode_index (x.TLBc 2) addr)) :
    ∃ z, TLB_simulation 2 addr x = some z ∧
      Resident z 2 (decode_tag (x.TLBc 2) addr) (decode_index (x.TLBc 2) addr) ∧
      Resident z x.TLB_TYPE (decode_tag x.cur addr) (decode_index x.cur addr) ∧
      (z.TLBc x.TLB_TYPE).miss = incr_int (x.TLBc x.TLB_TYPE).miss ∧
      (z.TLBc 2).miss = incr_int (x.TLBc 2).miss ∧ z.t1 = incr_ulong x.t1 ∧ z.t2 = incr_ulong x.t2 := by
  have hne2 : x.TLB_TYPE ≠ 2 := by omega
  -- the state in which the L1 lookup starts, and the one in which L2TLB is visited
  let x0 : State := { x with l2hit := false, l2check := false }
  let xb : State := { miss_prologue x0 with TLB_TYPE := TLB_TYPE_L2TLB, l2check := true,
                                            sim_L2TLB := false }
  obtain ⟨pTLB, psize, pty, prep, pl2, psim, ppg, pchk, phit, _, _, _, _, _⟩ :=
    miss_prologue_frame x0
  have hxbg : ∀ u, (xb.TLBc u).geom = (x.TLBc u).geom := fun u => miss_prologue_geom x0 u
  have hxbcur : xb.cur.geom = (x.TLBc 2).geom := hxbg 2
  have hxbTLB : xb.TLB = x.TLB := pTLB
  have hxbsize : xb.TLB_size = x.TLB_size := psize
  have hdt : decode_tag xb.cur addr = decode_tag (x.TLBc 2) addr := geom_decode_tag hxbcur addr
  have hdi : decode_index xb.cur addr = decode_index (x.TLBc 2) addr :=
    geom_decode_index hxbcur addr
  -- the nested simulation of L2TLB
  obtain ⟨g2, k2, e2, hy, he20, he21, hg2, _⟩ := sim_miss_leaf 0 addr xb rfl
    (by show (miss_prologue x0).clo_sim_tlb = true; rw [psim]; exact hsim)
    (by show (miss_prologue x0).RepPol = 0 ∨ _; rw [prep]; exact hpol)
    (by rw [hdi]; exact (inRangeAt_congr (hxbg 2) (by rw [hxbsize]) _).2 hr2)
    (by rw [hdi, hdt]
        exact fun h => hm2 ((resident_congr (hxbg 2) (by rw [hxbTLB]) _ _).1 h))
  rw [hdt] at hy hg2
  rw [hdi, geom_scope_lo hxbcur] at he20
  rw [hdi, geom_scope_hi hxbcur] at he21
  let xb0 : State := { xb with l2hit := false, l2check := false }
  obtain ⟨qTLB, qsize, qty, qrep, ql2, qsim, qpg, qchk, qhit, _, _, _, _, _⟩ :=
    miss_prologue_frame xb0
  obtain ⟨fgeom, fmiss, fhit, fother, fcur, fsize, ft1, ft2, fl2hit, frep⟩ :=
    put_log_facts (decode_tag (x.TLBc 2) addr) (miss_prologue xb0) g2 k2
  have hmty : (miss_prologue xb0).TLB_TYPE = 2 := qty
  rw [hmty] at fother fcur
  -- back in the L1 level
  obtain ⟨g1, k1, e1, hz, he10, he11, hg1, _⟩ := lookup_miss_l2 (TLB_simulation 1) addr
    (decode_tag x.cur addr) (decode_index x.cur addr) x0 _ hl2 hpol hr1 hm1 hy
    (by rw [fl2hit, qhit]; rfl)
    (by rw [frep, qrep]; exact prep)
    (by rw [fgeom, miss_prologue_geom]; exact hxbg _)
    (by rw [fsize, qsize]; exact congrFun hxbsize _)
    (by rw [fother _ hne2, qTLB]; exact congrFun hxbTLB _)
  obtain ⟨zgeom, zmiss, zhit, zother, zcur, zsize, zt1, zt2, _, _⟩ :=
    put_log_facts (decode_tag x.cur addr)
      ({ log_page (decode_tag (x.TLBc 2) addr) (((miss_prologue xb0).put g2).draw k2) with
          sim_L2TLB := true, l2check := false, TLB_TYPE := x.TLB_TYPE } : State) g1 k1
  refine ⟨log_page (decode_tag x.cur addr)
    ((({ log_page (decode_tag (x.TLBc 2) addr) (((miss_prologue xb0).put g2).draw k2) with
          sim_L2TLB := true, l2check := false, TLB_TYPE := x.TLB_TYPE } : State).put g1).draw k1),
    ?_, ?_, ?_, ?_, ?_, ?_, ?_⟩
  · rw [TLB_simulation_succ, if_pos ⟨hsim, inRange_assoc_ge hr1⟩, hz]
    rfl
  · refine ⟨e2, ?_, ?_, ?_⟩
    · rw [geom_scope_lo (zgeom 2), geom_scope_lo (fgeom 2),
        geom_scope_lo (miss_prologue_geom xb0 2), geom_scope_lo (hxbg 2)]
      exact he20
    · rw [geom_scope_hi (zgeom 2), geom_scope_hi (fgeom 2),
        geom_scope_hi (miss_prologue_geom xb0 2), geom_scope_hi (hxbg 2)]
      exact he21
    · rw [zother 2 (Ne.symm hne2)]
      show ((log_page _ _).TLB 2 e2).tag = _
      rw [fcur]; exact hg2
  · refine ⟨e1, ?_, ?_, ?_⟩
    · rw [geom_scope_lo (zgeom _), geom_scope_lo (fgeom _),
        geom_scope_lo (miss_prologue_geom xb0 _), geom_scope_lo (hxbg _)]
      exact he10
    · rw [geom_scope_hi (zgeom _), geom_scope_hi (fgeom _),
        geom_scope_hi (miss_prologue_geom xb0 _), geom_scope_hi (hxbg _)]
      exact he11
    · have := congrFun zcur e1
      rw [this]; exact hg1
  · rw [zmiss]
    show ((log_page _ _).TLBc x.TLB_TYPE).miss = _
    rw [fmiss, miss_prologue_miss, if_neg (by show x.TLB_TYPE ≠ 2; exact hne2)]
    show ((miss_prologue x0).TLBc x.TLB_TYPE).miss = _
    rw [miss_prologue_miss, if_pos rfl]
  · rw [zmiss]
    show ((log_page _ _).TLBc 2).miss = _
    rw [fmiss, miss_prologue_miss, if_pos (by rfl)]
    show incr_int ((miss_prologue x0).TLBc 2).miss = _
    rw [miss_prologue_miss, if_neg (by show (2 : Int) ≠ x.TLB_TYPE; exact Ne.symm hne2)]
  · rw [zt1]
    show (log_page _ _).t1 = _
    rw [ft1, miss_prologue_t1, if_neg (by show ¬ ((2 : Int) = 0 ∨ (2 : Int) = 1); decide)]
    show (miss_prologue x0).t1 = _
    rw [miss_prologue_t1, if_pos (by exact hty)]
  · rw [zt2]
    show (log_page _ _).t2 = _
    rw [ft2, miss_prologue_t2, if_pos (by rfl)]
    show incr_ulong (miss_prologue x0).t2 = _
    rw [miss_prologue_t2, if_neg (by show x.TLB_TYPE ≠ 2; exact hne2)]

/-! ## Steps that only rewrite entry tables -/

theorem core_put (s : State) (g : Int → TLB_ENTRY) : (s.put g).core = s.core := rfl
theorem core_draw (s : State) (k : Nat) : (s.draw k).core = s.core := rfl

theorem store_core {i : Int} {e : TLB_ENTRY} {s x : State} (h : store i e s = some x) :
    x.core = s.core := by
  unfold store at h
  split at h
  · simp only [Option.some.injEq] at h
    subst h; rfl
  · simp at h

theorem get_random_core {range : Int} {s : State} {r : Int × State}
    (h : get_random range s = some r) : r.2.core = s.core := by
  unfold get_random at h
  split at h
  · simp at h
  · simp only [Option.some.injEq] at h
    rw [← h]; rfl

theorem stable_core : Stable State.core := ⟨store_core, get_random_core⟩

theorem store_view {u i : Int} {e : TLB_ENTRY} {s x : State} (h : store i e s = some x) :
    x.view u = s.view u := by
  unfold store at h
  split at h
  · simp only [Option.some.injEq] at h
    subst h
    unfold State.view
    by_cases hu : s.TLB_TYPE = u
    · rw [if_pos hu, if_pos hu]
    · rw [if_neg hu, if_neg hu]
      have e : upd s.TLB s.TLB_TYPE (upd (s.TLB s.TLB_TYPE) i e) u = s.TLB u :=
        upd_ne _ _ (Ne.symm hu)
      simp only [e]
  · simp at h

theorem get_random_view {u : Int} {range : Int} {s : State} {r : Int × State}
    (h : get_random range s = some r) : r.2.view u = s.view u := by
  unfold get_random at h
  split at h
  · simp at h
  · simp only [Option.some.injEq] at h
    rw [← h]; rfl

theorem stable_view (u : Int) : Stable (State.view u) := ⟨store_view, get_random_view⟩

section
variable {α : Type} {P : State → α}

theorem store_tag_stable (hP : Stable P) {i : Int} {tag : Nat} {s x : State}
    (h : store_tag i tag s = some x) : P x = P s := by
  unfold store_tag at h
  cases hl : load i s with
  | none => rw [hl] at h; simp at h
  | some e => rw [hl] at h; exact hP.store h

theorem store_count_stable (hP : Stable P) {i c : Int} {s x : State}
    (h : store_count i c s = some x) : P x = P s := by
  unfold store_count at h
  cases hl : load i s with
  | none => rw [hl] at h; simp at h
  | some e => rw [hl] at h; exact hP.store h

theorem incr_count_stable (hP : Stable P) {i : Int} {s x : State}
    (h : incr_count i s = some x) : P x = P s := by
  unfold incr_count at h
  cases hl : load i s with
  | none => rw [hl] at h; simp at h
  | some e => rw [hl] at h; exact hP.store h

theorem incr_counts_stable (hP : Stable P) (n : Nat) : ∀ {lo : Int} {s x : State},
    incr_counts n lo s = some x → P x = P s := by
  induction n with
  | zero =>
    intro lo s x h
    simp only [incr_counts, Option.some.injEq] at h
    rw [h]
  | succ n ih =>
    intro lo s x h
    simp only [incr_counts] at h
    cases h1 : incr_count lo s with
    | none => rw [h1] at h; simp at h
    | some y =>
      rw [h1] at h
      simp only [Option.some_bind] at h
      rw [ih h, incr_count_stable hP h1]

theorem bind_stable {f g : State → Option State} {s x : State}
    (hf : ∀ {a b}, f a = some b → P b = P a)
    (hg : ∀ {a b}, g a = some b → P b = P a) (h : (f s).bind g = some x) :
    P x = P s := by
  cases h1 : f s with
  | none => rw [h1] at h; simp at h
  | some y =>
    rw [h1] at h
    simp only [Option.some_bind] at h
    rw [hg h, hf h1]

theorem increase_LRU_stable (hP : Stable P) {e : Int} {s x : State}
    (h : increase_LRU e s = some x) : P x = P s := by
  unfold increase_LRU at h
  split at h
  · exact bind_stable (incr_counts_stable hP _) (store_count_stable hP) h
  · split at h
    · exact bind_stable (incr_counts_stable hP _) (store_count_stable hP) h
    · simp only [Option.some.injEq] at h
      rw [h]

theorem victim_bind_stable {v : Option Int} {f : Int → State → Option State} {s x : State}
    (hf : ∀ {e a b}, f e a = some b → P b = P a)
    (h : (v.bind fun e => f e s) = some x) : P x = P s := by
  cases v with
  | none => simp at h
  | some e => exact hf h

theorem tag_count_stable (hP : Stable P) {e c : Int} {tag : Nat} {s x : State}
    (h : (store_tag e tag s).bind (store_count e c) = some x) : P x = P s :=
  bind_stable (store_tag_stable hP) (store_count_stable hP) h

theorem fa_install_stable (hP : Stable P) {tag : Nat} {s x : State}
    (h : fa_install tag s = some x) : P x = P s := by
  unfold fa_install at h
  split at h
  · exact victim_bind_stable (f := fun e a => (store_tag e tag a).bind (store_count e 1))
      (tag_count_stable hP) h
  · split at h
    · exact victim_bind_stable
        (f := fun e a => ((store_tag e tag a).bind (store_count e 0)).bind (increase_LRU e))
        (fun h2 => bind_stable (tag_count_stable hP) (increase_LRU_stable hP) h2) h
    · split at h
      · cases h1 : get_random s.cur.entries s with
        | none => rw [h1] at h; simp at h
        | some r =>
          rw [h1] at h
          simp only [Option.some_bind] at h
          rw [tag_count_stable hP h, hP.draw h1]
      · simp only [Option.some.injEq] at h
        rw [h]

theorem nway_install_stable (hP : Stable P) {tag idx : Nat} {s x : State}
    (h : nway_install tag idx s = some x) : P x = P s := by
  unfold nway_install at h
  split at h
  · exact victim_bind_stable (f := fun e a => (store_tag e tag a).bind (store_count e 1))
      (tag_count_stable hP) h
  · split at h
    · exact victim_bind_stable
        (f := fun e a => ((store_tag e tag a).bind (store_count e 0)).bind (increase_LRU e))
        (fun h2 => bind_stable (tag_count_stable hP) (increase_LRU_stable hP) h2) h
    · split at h
      · cases h1 : get_random s.cur.assoc s with
        | none => rw [h1] at h; simp at h
        | some r =>
          rw [h1] at h
          simp only [Option.some_bind] at h
          rw [tag_count_stable hP h, hP.draw h1]
      · simp only [Option.some.injEq] at h
        rw [h]

theorem hit_tail_stable (hP : Stable P) {i : Int} {s x : State}
    (h : (if s.RepPol = 0 then incr_count i s
          else if s.RepPol = 1 then increase_LRU i s else some s) = some x) :
    P x = P s := by
  split at h
  · exact incr_count_stable hP h
  · split at h
    · exact increase_LRU_stable hP h
    · simp only [Option.some.injEq] at h
      rw [h]

/-- The two outcomes of a lookup, as far as a stable view shows: a counted
hit, or a counted miss followed by the visit of L2TLB. -/
theorem tlb_lookup_cases_stable (hP : Stable P) {sim : Nat → State → Option State}
    {a tag idx : Nat} {s x : State}
    (h : tlb_lookup sim a tag idx s = some x) (hassoc : -1 ≤ s.cur.assoc) :
    P x = P (hit_prologue s) ∨
      ∃ s3, l2_descend sim a (miss_prologue s) = some s3 ∧ P x = P s3 := by
  have hmiss : ∀ (f : State → Option State), (∀ {p q}, f p = some q → P q = P p) →
      ((l2_descend sim a (miss_prologue s)).bind fun s3 =>
        if s3.sim_L2TLB = false ∨ s3.l2hit = false then f s3 else some s3) = some x →
      ∃ s3, l2_descend sim a (miss_prologue s) = some s3 ∧ P x = P s3 := by
    intro f hf h2
    cases h3 : l2_descend sim a (miss_prologue s) with
    | none => rw [h3] at h2; simp at h2
    | some s3 =>
      rw [h3] at h2
      simp only [Option.some_bind] at h2
      refine ⟨s3, rfl, ?_⟩
      split at h2
      · exact hf h2
      · simp only [Option.some.injEq] at h2
        rw [h2]
  unfold tlb_lookup at h
  split at h
  · cases h1 : tag_scan s.cur.entries.toNat 0 (fun i => (i : Int)) tag s with
    | none => rw [h1] at h; simp at h
    | some r =>
      rw [h1] at h
      simp only [Option.some_bind] at h
      cases r with
      | some i => exact Or.inl (hit_tail_stable hP h)
      | none => exact Or.inr (hmiss _ (fa_install_stable hP) h)
  · split at h
    · dsimp only at h
      split at h
      · simp at h
      · cases h1 : load ((dm_slot idx s.cur.entries : Nat) : Int) s with
        | none => rw [h1] at h; simp at h
        | some e =>
          rw [h1] at h
          simp only [Option.some_bind] at h
          split at h
          · simp only [Option.some.injEq] at h
            left; rw [h]
          · exact Or.inr (hmiss _ (store_tag_stable hP) h)
    · split at h
      · cases h1 : tag_scan s.cur.assoc.toNat 0 (nway_cell idx s.cur.assoc) tag s with
        | none => rw [h1] at h; simp at h
        | some r =>
          rw [h1] at h
          simp only [Option.some_bind] at h
          cases r with
          | some i => exact Or.inl (hit_tail_stable hP h)
          | none => exact Or.inr (hmiss _ (nway_install_stable hP) h)
      · omega

end

/-- The two outcomes of a lookup, up to the entry tables. -/
theorem tlb_lookup_cases {sim : Nat → State → Option State} {a tag idx : Nat} {s x : State}
    (h : tlb_lookup sim a tag idx s = some x) (hassoc : -1 ≤ s.cur.assoc) :
    x.core = (hit_prologue s).core ∨
      ∃ s3, l2_descend sim a (miss_prologue s) = some s3 ∧ x.core = s3.core :=
  tlb_lookup_cases_stable stable_core h hassoc

theorem log_page_core (tag : Nat) (s : State) : (log_page tag s).core = log_page tag s.core := by
  unfold log_page add_page
  by_cases hp : s.clo_sim_pages = true
  · have hp2 : s.core.clo_sim_pages = true := hp
    rw [if_pos hp, if_pos hp2]
    have hc : s.core.cur = s.cur := rfl
    rw [hc]
    cases bump_page tag s.cur.page_ptr <;> rfl
  · have hp2 : ¬ s.core.clo_sim_pages = true := hp
    rw [if_neg hp, if_neg hp2]

theorem log_page_core_congr (tag : Nat) {s x : State} (h : x.core = s.core) :
    (log_page tag x).core = (log_page tag s).core := by
  rw [log_page_core, log_page_core, h]

theorem l2_descend_off {sim : Nat → State → Option State} {a : Nat} {s : State}
    (h : s.sim_L2TLB = false) : l2_descend sim a s = some s := by
  unfold l2_descend
  rw [h]; rfl

theorem l2_descend_on {sim : Nat → State → Option State} {a : Nat} {s s3 : State}
    (h : s.sim_L2TLB = true) (h3 : l2_descend sim a s = some s3) :
    ∃ y, sim a { s with TLB_TYPE := TLB_TYPE_L2TLB, l2check := true, sim_L2TLB := false } = some y ∧
      s3 = { y with sim_L2TLB := true, l2check := false, TLB_TYPE := s.TLB_TYPE } := by
  unfold l2_descend at h3
  rw [if_pos h] at h3
  simp only [Option.map_eq_some'] at h3
  obtain ⟨y, hy, rfl⟩ := h3
  exact ⟨y, hy, rfl⟩

/-- The outcomes of `TLB_simulation` on a level behind which no L2TLB is
consulted, up to the entry tables: no lookup, a hit, or a miss; then the page log. -/
theorem sim_leaf_cases {n addr : Nat} {x y : State} (h : TLB_simulation (n + 1) addr x = some y)
    (hl2 : x.sim_L2TLB = false) :
    (¬ (x.clo_sim_tlb = true ∧ -1 ≤ x.cur.assoc) ∧
      y.core = (log_page (decode_tag x.cur addr)
        { x with l2hit := false, l2check := false }).core) ∨
    ((x.clo_sim_tlb = true ∧ -1 ≤ x.cur.assoc) ∧
      (y.core = (log_page (decode_tag x.cur addr)
          (hit_prologue { x with l2hit := false, l2check := false })).core ∨
       y.core = (log_page (decode_tag x.cur addr)
          (miss_prologue { x with l2hit := false, l2check := false })).core)) := by
  rw [TLB_simulation_succ] at h
  by_cases hc : x.clo_sim_tlb = true ∧ -1 ≤ x.cur.assoc
  · right
    refine ⟨hc, ?_⟩
    rw [if_pos hc] at h
    simp only [Option.map_eq_some'] at h
    obtain ⟨w, hw, rfl⟩ := h
    rcases tlb_lookup_cases hw hc.2 with h1 | ⟨s3, h3, h4⟩
    · exact Or.inl (log_page_core_congr _ h1)
    · right
      have hoff : (miss_prologue { x with l2hit := false, l2check := false }).sim_L2TLB = false := by
        rw [(miss_prologue_frame _).2.2.2.2.1]; exact hl2
      rw [l2_descend_off hoff] at h3
      simp only [Option.some.injEq] at h3
      subst h3
      exact log_page_core_congr _ h4
  · left
    refine ⟨hc, ?_⟩
    rw [if_neg hc] at h
    simp only [Option.map_some', Option.some.injEq] at h
    rw [← h]

/-- The outcomes of `TLB_simulation` on an L1 level while L2TLB is simulated,
up to the entry tables: no lookup, a hit, or a miss followed by a nested
simulation of L2TLB that ends in some state `w`. -/
theorem sim_l1_cases {addr : Nat} {x y : State} (h : TLB_simulation 2 addr x = some y)
    (hl2 : x.sim_L2TLB = true) :
    (¬ (x.clo_sim_tlb = true ∧ -1 ≤ x.cur.assoc) ∧
      y.core = (log_page (decode_tag x.cur addr)
        { x with l2hit := false, l2check := false }).core) ∨
    ((x.clo_sim_tlb = true ∧ -1 ≤ x.cur.assoc) ∧
      (y.core = (log_page (decode_tag x.cur addr)
          (hit_prologue { x with l2hit := false, l2check := false })).core ∨
       ∃ w, TLB_simulation 1 addr
            { miss_prologue { x with l2hit := false, l2check := false } with
              TLB_TYPE := TLB_TYPE_L2TLB, l2check := true, sim_L2TLB := false } = some w ∧
          y.core = (log_page (decode_tag x.cur addr)
            { w with sim_L2TLB := true, l2check := false, TLB_TYPE := x.TLB_TYPE }).core)) := by
  rw [TLB_simulation_succ] at h
  by_cases hc : x.clo_sim_tlb = true ∧ -1 ≤ x.cur.assoc
  · right
    refine ⟨hc, ?_⟩
    rw [if_pos hc] at h
    simp only [Option.map_eq_some'] at h
    obtain ⟨w, hw, rfl⟩ := h
    rcases tlb_lookup_cases hw hc.2 with h1 | ⟨s3, h3, h4⟩
    · exact Or.inl (log_page_core_congr _ h1)
    · right
      have hon : (miss_prologue { x with l2hit := false, l2check := false }).sim_L2TLB = true := by
        rw [(miss_prologue_frame _).2.2.2.2.1]; exact hl2
      obtain ⟨w2, hw2, rfl⟩ := l2_descend_on hon h3
      refine ⟨w2, hw2, ?_⟩
      have hty : (miss_prologue { x with l2hit := false, l2check := false }).TLB_TYPE =
          x.TLB_TYPE := (miss_prologue_frame _).2.2.1
      rw [hty] at h4
      exact log_page_core_congr _ h4
  · left
    refine ⟨hc, ?_⟩
    rw [if_neg hc] at h
    simp only [Option.map_some', Option.some.injEq] at h
    rw [← h]

/-! ## Counting hits and misses -/

theorem counted_of_core {dh dm : Int → Int} {x y z : State} (h : y.core = z.core)
    (hz : Counted dh dm x z) : Counted dh dm x y := by
  have h1 : Counted dh dm x y.core := by rw [h]; exact hz
  exact h1

theorem counted_trans {dh dm dh2 dm2 : Int → Int} {x y z : State} (h1 : Counted dh dm x y)
    (h2 : Counted dh2 dm2 y z) : Counted (fun u => dh u + dh2 u) (fun u => dm u + dm2 u) x z := by
  obtain ⟨a1, a2, a3, a4, a5, a6, a7, a8, a9, a10, a11, a12⟩ := h1
  obtain ⟨b1, b2, b3, b4, b5, b6, b7, b8, b9, b10, b11, b12⟩ := h2
  refine ⟨fun u => by rw [b1, a1], fun u => counts_up_trans (a2 u) (b2 u),
    fun u => counts_up_trans (a3 u) (b3 u),
    counts_up_congr (counts_up_trans a4 b4)
      (by show _ = (dm 0 + dm2 0) + (dm 1 + dm2 1); ring),
    counts_up_trans a5 b5, by rw [b6, a6], by rw [b7, a7], by rw [b8, a8],
    by rw [b9, a9], by rw [b10, a10], by rw [b11, a11], by rw [b12, a12]⟩

theorem hit_prologue_hit (s : State) (u : Int) :
    ((hit_prologue s).TLBc u).hit =
      if u = s.TLB_TYPE then incr_int (s.TLBc u).hit else (s.TLBc u).hit := by
  rw [hit_prologue_TLBc]; split <;> rfl

theorem hit_prologue_miss (s : State) (u : Int) :
    ((hit_prologue s).TLBc u).miss = (s.TLBc u).miss := by
  rw [hit_prologue_TLBc]; split <;> rfl

theorem counted_refl (x : State) : Counted (fun _ => 0) (fun _ => 0) x x :=
  ⟨fun _ => rfl, fun _ => counts_up_refl _ _ _, fun _ => counts_up_refl _ _ _,
    counts_up_refl _ _ _, counts_up_refl _ _ _, rfl, rfl, rfl, rfl, rfl, rfl, rfl⟩

theorem counts_up_single (t u : Int) (a : Int) :
    counts_up 32 (-2 ^ 31) a (if u = t then incr_int a else a) (single t 1 u) := by
  unfold single
  by_cases h : u = t
  · rw [if_pos h, if_pos h]; exact counts_up_incr_int a
  · rw [if_neg h, if_neg h]; exact counts_up_refl _ _ _

theorem counted_hit (x : State) :
    Counted (single x.TLB_TYPE 1) (fun _ => 0) x (hit_prologue x) := by
  obtain ⟨_, f2, _, f4, _, f6, f7, _, _, f10, f11, f12, _, _, f15, f16⟩ := hit_prologue_frame x
  refine ⟨hit_prologue_geom x, fun u => by rw [hit_prologue_hit]; exact counts_up_single _ _ _,
    fun u => counts_up_of_eq (hit_prologue_miss x u),
    counts_up_of_eq (by rw [f15]), counts_up_of_eq (by rw [f16]), f10, f11, f6, f7, f4, f12, f2⟩

theorem counted_miss (x : State) :
    Counted (fun _ => 0) (single x.TLB_TYPE 1) x (miss_prologue x) := by
  obtain ⟨_, f2, _, f4, _, f6, f7, _, _, f10, f11, f12, _, _⟩ := miss_prologue_frame x
  refine ⟨miss_prologue_geom x, fun u => counts_up_of_eq (miss_prologue_hit x u),
    fun u => by rw [miss_prologue_miss]; exact counts_up_single _ _ _, ?_, ?_,
    f10, f11, f6, f7, f4, f12, f2⟩
  · rw [miss_prologue_t1]
    unfold single
    by_cases h0 : x.TLB_TYPE = 0
    · have h1 : ¬ (1 : Int) = x.TLB_TYPE := by omega
      rw [if_pos (Or.inl h0), if_pos h0.symm, if_neg h1]
      exact counts_up_congr (counts_up_incr_ulong _) (by ring)
    · by_cases h1 : x.TLB_TYPE = 1
      · have h0b : ¬ (0 : Int) = x.TLB_TYPE := by omega
        rw [if_pos (Or.inr h1), if_neg h0b, if_pos h1.symm]
        exact counts_up_congr (counts_up_incr_ulong _) (by ring)
      · have h0b : ¬ (0 : Int) = x.TLB_TYPE := fun h => h0 h.symm
        have h1b : ¬ (1 : Int) = x.TLB_TYPE := fun h => h1 h.symm
        rw [if_neg (by rintro (h | h); exact h0 h; exact h1 h), if_neg h0b, if_neg h1b]
        exact counts_up_congr (counts_up_refl _ _ _) (by ring)
  · rw [miss_prologue_t2]
    unfold single
    by_cases h2 : x.TLB_TYPE = 2
    · rw [if_pos h2, if_pos h2.symm]
      exact counts_up_incr_ulong _
    · have h2b : ¬ (2 : Int) = x.TLB_TYPE := fun h => h2 h.symm
      rw [if_neg h2, if_neg h2b]
      exact counts_up_refl _ _ _

theorem counted_log_page (tag : Nat) (x : State) :
    Counted (fun _ => 0) (fun _ => 0) x (log_page tag x) := by
  obtain ⟨_, f2, _, f4, _, f6, f7, _, _, f10, f11, f12, _, _, f15, f16⟩ := log_page_frame tag x
  exact ⟨log_page_geom tag x, fun u => counts_up_of_eq (log_page_hit tag x u),
    fun u => counts_up_of_eq (log_page_miss tag x u), counts_up_of_eq (by rw [f15]),
    counts_up_of_eq (by rw [f16]), f10, f11, f6, f7, f4, f12, f2⟩

theorem counted_congr {dh dm dh2 dm2 : Int → Int} {x y : State} (h : Counted dh dm x y)
    (h1 : ∀ u, dh u = dh2 u) (h2 : ∀ u, dm u = dm2 u) : Counted dh2 dm2 x y := by
  have e1 : dh = dh2 := funext h1
  have e2 : dm = dm2 := funext h2
  rw [← e1, ← e2]; exact h

/-- What one `TLB_simulation` counts on a level behind which no L2TLB is
consulted: exactly one hit or one miss of that level when a lookup takes
place, nothing otherwise. -/
theorem sim_leaf_counted {n addr : Nat} {x y : State}
    (h : TLB_simulation (n + 1) addr x = some y) (hl2 : x.sim_L2TLB = false) :
    ∃ dh dm : Int, Counted (single x.TLB_TYPE dh) (single x.TLB_TYPE dm) x y ∧
      0 ≤ dh ∧ 0 ≤ dm ∧
      dh + dm = (if x.clo_sim_tlb = true ∧ -1 ≤ x.cur.assoc then 1 else 0) := by
  have hx0 : Counted (fun _ => 0) (fun _ => 0) x
      ({ x with l2hit := false, l2check := false } : State) := counted_refl x
  rcases sim_leaf_cases h hl2 with ⟨hc, hy⟩ | ⟨hc, hy | hy⟩
  · refine ⟨0, 0, ?_, le_refl _, le_refl _, by rw [if_neg hc]; rfl⟩
    refine counted_of_core hy (counted_congr (counted_trans hx0 (counted_log_page _ _)) ?_ ?_)
    all_goals intro u; simp [single]
  · refine ⟨1, 0, ?_, by decide, le_refl _, by rw [if_pos hc]; rfl⟩
    refine counted_of_core hy (counted_congr
      (counted_trans (counted_trans hx0 (counted_hit _)) (counted_log_page _ _)) ?_ ?_)
    all_goals intro u; simp [single]
  · refine ⟨0, 1, ?_, le_refl _, by decide, by rw [if_pos hc]; rfl⟩
    refine counted_of_core hy (counted_congr
      (counted_trans (counted_trans hx0 (counted_miss _)) (counted_log_page _ _)) ?_ ?_)
    all_goals intro u; simp [single]

theorem sim_leaf_flags {n addr : Nat} {x y : State}
    (h : TLB_simulation (n + 1) addr x = some y) (hl2 : x.sim_L2TLB = false) :
    y.sim_L2TLB = false ∧ y.TLB_TYPE = x.TLB_TYPE := by
  have e1 : ∀ z : State, y.core = z.core → y.sim_L2TLB = z.sim_L2TLB ∧ y.TLB_TYPE = z.TLB_TYPE :=
    fun z hz => by
      have a := congrArg State.sim_L2TLB hz
      have b := congrArg State.TLB_TYPE hz
      exact ⟨a, b⟩
  rcases sim_leaf_cases h hl2 with ⟨_, hy⟩ | ⟨_, hy | hy⟩
  · obtain ⟨a, b⟩ := e1 _ hy
    obtain ⟨_, _, f3, _, f5, _⟩ := log_page_frame (decode_tag x.cur addr)
      ({ x with l2hit := false, l2check := false } : State)
    exact ⟨by rw [a, f5]; exact hl2, by rw [b, f3]⟩
  · obtain ⟨a, b⟩ := e1 _ hy
    obtain ⟨_, _, f3, _, f5, _⟩ := log_page_frame (decode_tag x.cur addr)
      (hit_prologue { x with l2hit := false, l2check := false })
    obtain ⟨_, _, g3, _, g5, _⟩ := hit_prologue_frame
      ({ x with l2hit := false, l2check := false } : State)
    exact ⟨by rw [a, f5, g5]; exact hl2, by rw [b, f3, g3]⟩
  · obtain ⟨a, b⟩ := e1 _ hy
    obtain ⟨_, _, f3, _, f5, _⟩ := log_page_frame (decode_tag x.cur addr)
      (miss_prologue { x with l2hit := false, l2check := false })
    obtain ⟨_, _, g3, _, g5, _⟩ := miss_prologue_frame
      ({ x with l2hit := false, l2check := false } : State)
    exact ⟨by rw [a, f5, g5]; exact hl2, by rw [b, f3, g3]⟩

/-- What one `TLB_simulation` counts on an L1 level while L2TLB is simulated:
one hit or one miss of the L1 level when a lookup takes place, and one hit or
one miss of L2TLB exactly when the L1 lookup missed and L2TLB is looked up. -/
theorem sim_l1_counted {addr : Nat} {x y : State} (h : TLB_simulation 2 addr x = some y)
    (hl2 : x.sim_L2TLB = true) :
    ∃ dh1 dm1 dh2 dm2 : Int,
      Counted (fun u => single x.TLB_TYPE dh1 u + single 2 dh2 u)
        (fun u => single x.TLB_TYPE dm1 u + single 2 dm2 u) x y ∧
      0 ≤ dh1 ∧ 0 ≤ dm1 ∧ 0 ≤ dh2 ∧ 0 ≤ dm2 ∧
      dh1 + dm1 = (if x.clo_sim_tlb = true ∧ -1 ≤ x.cur.assoc then 1 else 0) ∧
      dh2 + dm2 = (if x.clo_sim_tlb = true ∧ -1 ≤ (x.TLBc 2).assoc then dm1 else 0) ∧
      y.sim_L2TLB = true := by
  have hx0 : Counted (fun _ => 0) (fun _ => 0) x
      ({ x with l2hit := false, l2check := false } : State) := counted_refl x
  have hflag : ∀ z : State, y.core = z.core → y.sim_L2TLB = z.sim_L2TLB := fun z hz => by
    have a := congrArg State.sim_L2TLB hz
    exact a
  rcases sim_l1_cases h hl2 with ⟨hc, hy⟩ | ⟨hc, hy | ⟨w, hw, hy⟩⟩
  · refine ⟨0, 0, 0, 0, ?_, le_refl _, le_refl _, le_refl _, le_refl _,
      by rw [if_neg hc]; rfl, by simp, ?_⟩
    · refine counted_of_core hy (counted_congr (counted_trans hx0 (counted_log_page _ _)) ?_ ?_)
      all_goals intro u; simp [single]
    · rw [hflag _ hy, (log_page_frame _ _).2.2.2.2.1]; exact hl2
  · refine ⟨1, 0, 0, 0, ?_, by decide, le_refl _, le_refl _, le_refl _,
      by rw [if_pos hc]; rfl, by simp, ?_⟩
    · refine counted_of_core hy (counted_congr
        (counted_trans (counted_trans hx0 (counted_hit _)) (counted_log_page _ _)) ?_ ?_)
      all_goals intro u; simp [single]
    · rw [hflag _ hy, (log_page_frame _ _).2.2.2.2.1, (hit_prologue_frame _).2.2.2.2.1]
      exact hl2
  · obtain ⟨dh2, dm2, hcw, h0, h1, hsum⟩ := sim_leaf_counted hw rfl
    have hxb : Counted (fun u => (0 : Int) + 0) (fun u => 0 + single x.TLB_TYPE 1 u) x
        ({ miss_prologue { x with l2hit := false, l2check := false } with
            TLB_TYPE := TLB_TYPE_L2TLB, l2check := true, sim_L2TLB := false } : State) :=
      counted_trans hx0 (counted_miss _)
    have hw2 : Counted (single 2 dh2) (single 2 dm2)
        ({ miss_prologue { x with l2hit := false, l2check := false } with
            TLB_TYPE := TLB_TYPE_L2TLB, l2check := true, sim_L2TLB := false } : State)
        ({ w with sim_L2TLB := true, l2check := false, TLB_TYPE := x.TLB_TYPE } : State) := hcw
    refine ⟨0, 1, dh2, dm2, ?_, le_refl _, by decide, h0, h1, by rw [if_pos hc]; rfl, ?_, ?_⟩
    · refine counted_of_core hy (counted_congr
        (counted_trans (counted_trans hxb hw2) (counted_log_page _ _)) ?_ ?_)
      all_goals intro u; simp [single]
    · rw [hsum]
      have e1 : (miss_prologue ({ x with l2hit := false, l2check := false } : State)).clo_sim_tlb =
          x.clo_sim_tlb := (miss_prologue_frame _).2.2.2.2.2.1
      have e2 : ((miss_prologue ({ x with l2hit := false, l2check := false } : State)).TLBc 2).assoc =
          (x.TLBc 2).assoc := geom_assoc (miss_prologue_geom _ 2)
      show (if (miss_prologue _).clo_sim_tlb = true ∧ -1 ≤ ((miss_prologue _).TLBc 2).assoc
        then (1 : Int) else 0) = _
      rw [e1, e2]
    · rw [hflag _ hy, (log_page_frame _ _).2.2.2.2.1]

/-- What one `reference_address` counts. -/
theorem reference_counted {addr : Nat} {dt : Int} {s y : State}
    (h : reference_address addr dt s = some y) :
    ∃ dh1 dm1 dh2 dm2 : Int,
      Counted (fun u => single dt dh1 u + single 2 dh2 u)
        (fun u => single dt dm1 u + single 2 dm2 u) s y ∧
      0 ≤ dh1 ∧ 0 ≤ dm1 ∧ 0 ≤ dh2 ∧ 0 ≤ dm2 ∧
      dh1 + dm1 = (if Routed dt s ∧ s.clo_sim_tlb = true ∧ -1 ≤ (s.TLBc dt).assoc
        then 1 else 0) ∧
      dh2 + dm2 = (if s.sim_L2TLB = true ∧ s.clo_sim_tlb = true ∧ -1 ≤ (s.TLBc 2).assoc
        then dm1 else 0) ∧
      y.sim_L2TLB = s.sim_L2TLB := by
  -- one routed simulation, on level `t`
  have hsim : ∀ t : Int, TLB_simulation 2 addr { s with TLB_TYPE := t } = some y →
      ∃ dh1 dm1 dh2 dm2 : Int,
        Counted (fun u => single t dh1 u + single 2 dh2 u)
          (fun u => single t dm1 u + single 2 dm2 u) s y ∧
        0 ≤ dh1 ∧ 0 ≤ dm1 ∧ 0 ≤ dh2 ∧ 0 ≤ dm2 ∧
        dh1 + dm1 = (if s.clo_sim_tlb = true ∧ -1 ≤ (s.TLBc t).assoc then 1 else 0) ∧
        dh2 + dm2 = (if s.sim_L2TLB = true ∧ s.clo_sim_tlb = true ∧ -1 ≤ (s.TLBc 2).assoc
          then dm1 else 0) ∧
        y.sim_L2TLB = s.sim_L2TLB := by
    intro t ht
    by_cases hl2 : s.sim_L2TLB = true
    · obtain ⟨dh1, dm1, dh2, dm2, hc, a, b, c, d, e, f, g⟩ :=
        sim_l1_counted (x := { s with TLB_TYPE := t }) ht hl2
      refine ⟨dh1, dm1, dh2, dm2, hc, a, b, c, d, e, ?_, by rw [g, hl2]⟩
      rw [f]
      show (if s.clo_sim_tlb = true ∧ -1 ≤ (s.TLBc 2).assoc then dm1 else 0) = _
      simp [hl2]
    · have hl2' : s.sim_L2TLB = false := by simpa using hl2
      obtain ⟨dh1, dm1, hc, a, b, e⟩ :=
        sim_leaf_counted (x := { s with TLB_TYPE := t }) ht hl2'
      refine ⟨dh1, dm1, 0, 0, ?_, a, b, le_refl _, le_refl _, e, by simp [hl2'], ?_⟩
      · refine counted_congr (x := s) hc ?_ ?_
        all_goals intro u; simp [single]
      · rw [(sim_leaf_flags (x := { s with TLB_TYPE := t }) ht hl2').1, hl2']
  unfold reference_address at h
  by_cases hi : dt = TLB_TYPE_ITLB ∧ s.sim_iTLB = true
  · rw [if_pos hi] at h
    cases h1 : TLB_simulation 2 addr { s with TLB_TYPE := TLB_TYPE_ITLB } with
    | none => rw [h1] at h; simp at h
    | some z =>
      rw [h1] at h
      have hdt : dt = 0 := hi.1
      have hne : ¬ (dt = TLB_TYPE_DTLB ∧ z.sim_dTLB = true) := by
        intro hh; have := hh.1; rw [hdt] at this; exact absurd this (by decide)
      simp only [Option.some_bind, if_neg hne, Option.some.injEq] at h
      subst h
      obtain ⟨dh1, dm1, dh2, dm2, hc, a, b, c, d, e, f, g⟩ := hsim 0 h1
      have hR : Routed dt s := Or.inl ⟨hdt, hi.2⟩
      refine ⟨dh1, dm1, dh2, dm2, by rw [hdt]; exact hc, a, b, c, d, ?_, f, g⟩
      rw [e, hdt]
      rw [hdt] at hR
      simp [hR]
  · rw [if_neg hi] at h
    simp only [Option.some_bind] at h
    by_cases hd : dt = TLB_TYPE_DTLB ∧ s.sim_dTLB = true
    · rw [if_pos hd] at h
      have hdt : dt = 1 := hd.1
      obtain ⟨dh1, dm1, dh2, dm2, hc, a, b, c, d, e, f, g⟩ := hsim 1 h
      have hR : Routed dt s := Or.inr ⟨hdt, hd.2⟩
      refine ⟨dh1, dm1, dh2, dm2, by rw [hdt]; exact hc, a, b, c, d, ?_, f, g⟩
      rw [e, hdt]
      rw [hdt] at hR
      simp [hR]
    · rw [if_neg hd] at h
      simp only [Option.some.injEq] at h
      subst h
      have hR : ¬ Routed dt s := by
        rintro (⟨h1, h2⟩ | ⟨h1, h2⟩)
        · exact hi ⟨h1, h2⟩
        · exact hd ⟨h1, h2⟩
      refine ⟨0, 0, 0, 0, ?_, le_refl _, le_refl _, le_refl _, le_refl _, by simp [hR], by simp,
        rfl⟩
      refine counted_congr (counted_refl s) ?_ ?_
      all_goals intro u; simp [single]

/-! ## The state after start-up -/

theorem init_level_entries {VAS : Int} {c0 c : tlb_t} (h : init_level VAS c0 = some c) :
    c.entries = c0.entries ∧ c.assoc = c0.assoc ∧ c.hit = 0 ∧ c.miss = 0 := by
  rw [init_level_def] at h
  dsimp only at h
  split at h
  · simp only [Option.some.injEq] at h
    subst h; simp
  · split at h
    · simp only [Option.map_eq_some'] at h
      obtain ⟨T, _, rfl⟩ := h
      simp
    · split at h
      · simp only [Option.map_eq_some'] at h
        obtain ⟨T, _, rfl⟩ := h
        simp
      · simp at h

theorem alloc_level_spec {heap : Int → Int → Nat} {en : Bool} {t : Int} {s x : State}
    (h : alloc_level heap en t s = some x) :
    (en = false ∧ x = s) ∨
    (en = true ∧ ∃ c, init_level s.VAS_SIZE (s.TLBc t) = some c ∧ 0 ≤ c.entries ∧
      x = { s with TLBc := upd s.TLBc t c,
                   TLB := upd s.TLB t (fun i => { tag := heap t i, count := 0 }),
                   TLB_size := upd s.TLB_size t c.entries }) := by
  unfold alloc_level at h
  cases en with
  | false =>
    simp only [Bool.false_eq_true, if_false, Option.some.injEq] at h
    exact Or.inl ⟨rfl, h.symm⟩
  | true =>
    right
    simp only [if_true] at h
    unfold init_tlb at h
    cases hc : init_level s.VAS_SIZE (s.TLBc t) with
    | none => rw [hc] at h; simp at h
    | some c =>
      rw [hc] at h
      simp only [Option.map_some', Option.some_bind, upd_same] at h
      split at h
      · simp at h
      · simp only [Option.some.injEq] at h
        exact ⟨rfl, c, rfl, by omega, h.symm⟩

/-- One level of `tlb_post_clo_init`: the level is fresh afterwards and the
other levels and the options are untouched. -/
theorem alloc_level_fresh {heap : Int → Int → Nat} {en : Bool} {t : Int} {s x : State}
    {D : Desc} (h : alloc_level heap en t s = some x) (hc : s.TLBc t = desc_level D)
    (hen : en = decide (D.page_size ≠ -1)) :
    LevelFresh heap s.VAS_SIZE D t x ∧ x.opts = s.opts ∧
      ∀ u, u ≠ t → x.TLBc u = s.TLBc u ∧ x.TLB_size u = s.TLB_size u ∧ x.TLB u = s.TLB u := by
  rcases alloc_level_spec h with ⟨a, rfl⟩ | ⟨a, c, hinit, hpos, rfl⟩
  · rw [a] at hen
    have hp : ¬ D.page_size ≠ -1 := by
      intro hh; rw [decide_eq_true hh] at hen; exact absurd hen (by decide)
    refine ⟨?_, rfl, fun u _ => ⟨rfl, rfl, rfl⟩⟩
    unfold LevelFresh
    rw [if_neg hp]; exact hc
  · rw [a] at hen
    have hp : D.page_size ≠ -1 := of_decide_eq_true hen.symm
    refine ⟨?_, rfl, fun u hu => ⟨upd_ne _ _ hu, upd_ne _ _ hu, upd_ne _ _ hu⟩⟩
    unfold LevelFresh
    rw [if_pos hp]
    have he := (init_level_entries hinit).1
    rw [hc] at hinit he
    have he2 : c.entries = D.entries := he
    refine ⟨by rw [hinit]; simp, by rw [← he2]; exact hpos, by simp [he2], by simp⟩

theorem levelFresh_congr {heap : Int → Int → Nat} {VAS : Int} {dd : Desc} {t : Int}
    {x y : State} (h : LevelFresh heap VAS dd t x)
    (h1 : y.TLBc t = x.TLBc t ∧ y.TLB_size t = x.TLB_size t ∧ y.TLB t = x.TLB t) :
    LevelFresh heap VAS dd t y := by
  unfold LevelFresh at h ⊢
  rw [h1.1, h1.2.1, h1.2.2]; exact h

theorem tlbsim_init_spec (t p a e : Int) (s : State) :
    (tlbsim_init t p a e s).TLBc = upd s.TLBc t
        { s.TLBc t with page_size := toULong p, assoc := a, entries := e } ∧
      (tlbsim_init t p a e s).sim_iTLB = (s.sim_iTLB || decide (t = 0 ∧ p ≠ -1)) ∧
      (tlbsim_init t p a e s).sim_dTLB = (s.sim_dTLB || decide (t = 1 ∧ p ≠ -1)) ∧
      (tlbsim_init t p a e s).sim_L2TLB = (s.sim_L2TLB || decide (t = 2 ∧ p ≠ -1)) ∧
      (tlbsim_init t p a e s).clo_sim_tlb = s.clo_sim_tlb ∧
      (tlbsim_init t p a e s).clo_sim_pages = s.clo_sim_pages ∧
      (tlbsim_init t p a e s).VAS_SIZE = s.VAS_SIZE ∧
      (tlbsim_init t p a e s).RepPol = s.RepPol ∧
      (tlbsim_init t p a e s).t1 = s.t1 ∧ (tlbsim_init t p a e s).t2 = s.t2 ∧
      (tlbsim_init t p a e s).random = s.random ∧
      (tlbsim_init t p a e s).random_calls = s.random_calls := by
  unfold tlbsim_init
  by_cases h0 : t = 0 ∧ p ≠ -1 <;> by_cases h1 : t = 1 ∧ p ≠ -1 <;>
    by_cases h2 : t = 2 ∧ p ≠ -1 <;> simp [h0, h1, h2]

/-- The state that `startup` produces. -/
theorem startup_spec {o : Options} {i d l : Desc} {heap : Int → Int → Nat} {rnd : Nat → Nat}
    {s : State} (h : startup o i d l heap rnd = some s) :
    LevelFresh heap o.VAS_SIZE i 0 s ∧ LevelFresh heap o.VAS_SIZE d 1 s ∧
    LevelFresh heap o.VAS_SIZE l 2 s ∧
    s.sim_iTLB = decide (i.page_size ≠ -1) ∧ s.sim_dTLB = decide (d.page_size ≠ -1) ∧
    s.sim_L2TLB = decide (l.page_size ≠ -1) ∧
    s.clo_sim_tlb = o.clo_sim_tlb ∧ s.clo_sim_pages = o.clo_sim_pages ∧
    s.VAS_SIZE = o.VAS_SIZE ∧ 0 < o.VAS_SIZE ∧
    s.RepPol = (if o.RepPol < 0 ∨ o.RepPol > 2 then 1 else o.RepPol) ∧
    s.t1 = 0 ∧ s.t2 = 0 ∧ s.random = rnd ∧ s.random_calls = 0 := by
  unfold startup set_options at h
  by_cases hv : o.VAS_SIZE > 0
  · rw [if_pos hv] at h
    simp only [Option.some_bind] at h
    unfold tlb_post_clo_init at h
    simp only [Option.bind_eq_some] at h
    obtain ⟨s2, ⟨s1, h1, h2⟩, h3⟩ := h
    obtain ⟨c0, c1, c2, c3, c4, c5, c6, c7, c8, c9, c10, c11⟩ :=
      tlbsim_init_spec 0 i.page_size i.assoc i.entries
        { boot rnd with clo_sim_tlb := o.clo_sim_tlb, clo_sim_pages := o.clo_sim_pages,
                        VAS_SIZE := o.VAS_SIZE,
                        RepPol := if o.RepPol < 0 ∨ o.RepPol > 2 then 1 else o.RepPol }
    obtain ⟨d0, d1, d2, d3, d4, d5, d6, d7, d8, d9, d10, d11⟩ :=
      tlbsim_init_spec 1 d.page_size d.assoc d.entries
        (tlbsim_init 0 i.page_size i.assoc i.entries
          { boot rnd with clo_sim_tlb := o.clo_sim_tlb, clo_sim_pages := o.clo_sim_pages,
                          VAS_SIZE := o.VAS_SIZE,
                          RepPol := if o.RepPol < 0 ∨ o.RepPol > 2 then 1 else o.RepPol })
    obtain ⟨e0, e1, e2, e3, e4, e5, e6, e7, e8, e9, e10, e11⟩ :=
      tlbsim_init_spec 2 l.page_size l.assoc l.entries
        (tlbsim_init 1 d.page_size d.assoc d.entries
          (tlbsim_init 0 i.page_size i.assoc i.entries
            { boot rnd with clo_sim_tlb := o.clo_sim_tlb, clo_sim_pages := o.clo_sim_pages,
                            VAS_SIZE := o.VAS_SIZE,
                            RepPol := if o.RepPol < 0 ∨ o.RepPol > 2 then 1 else o.RepPol }))
    generalize tlbsim_init 2 l.page_size l.assoc l.entries
        (tlbsim_init 1 d.page_size d.assoc d.entries
          (tlbsim_init 0 i.page_size i.assoc i.entries
            { boot rnd with clo_sim_tlb := o.clo_sim_tlb, clo_sim_pages := o.clo_sim_pages,
                            VAS_SIZE := o.VAS_SIZE,
                            RepPol := if o.RepPol < 0 ∨ o.RepPol > 2 then 1 else o.RepPol })) = z
      at h1 e0 e1 e2 e3 e4 e5 e6 e7 e8 e9 e10 e11
    rw [d0, c0] at e0
    rw [d1, c1] at e1
    rw [d2, c2] at e2
    rw [d3, c3] at e3
    rw [d4, c4] at e4
    rw [d5, c5] at e5
    rw [d6, c6] at e6
    rw [d7, c7] at e7
    rw [d8, c8] at e8
    rw [d9, c9] at e9
    rw [d10, c10] at e10
    rw [d11, c11] at e11
    clear c0 c1 c2 c3 c4 c5 c6 c7 c8 c9 c10 c11 d0 d1 d2 d3 d4 d5 d6 d7 d8 d9 d10 d11
    have hz0 : z.TLBc 0 = desc_level i := by rw [e0]; simp [upd, boot, desc_level]
    have hz1 : z.TLBc 1 = desc_level d := by rw [e0]; simp [upd, boot, desc_level]
    have hz2 : z.TLBc 2 = desc_level l := by rw [e0]; simp [upd, boot, desc_level]
    have hzi : z.sim_iTLB = decide (i.page_size ≠ -1) := by rw [e1]; simp [boot]
    have hzd : z.sim_dTLB = decide (d.page_size ≠ -1) := by rw [e2]; simp [boot]
    have hzl : z.sim_L2TLB = decide (l.page_size ≠ -1) := by rw [e3]; simp [boot]
    obtain ⟨f1, o1, r1⟩ := alloc_level_fresh (D := i) h1 hz0 hzi
    have hs1 : s1.opts = z.opts := o1
    obtain ⟨f2, o2, r2⟩ := alloc_level_fresh (D := d) h2
      (by rw [(r1 1 (by decide)).1]; exact hz1)
      (by have a := congrArg State.sim_dTLB hs1
          have b : s1.sim_dTLB = z.sim_dTLB := a
          rw [b]; exact hzd)
    have hs2 : s2.opts = z.opts := o2.trans hs1
    obtain ⟨f3, o3, r3⟩ := alloc_level_fresh (D := l) h3
      (by rw [(r2 2 (by decide)).1, (r1 2 (by decide)).1]; exact hz2)
      (by have a := congrArg State.sim_L2TLB hs2
          have b : s2.sim_L2TLB = z.sim_L2TLB := a
          rw [b]; exact hzl)
    have hs : s.opts = z.opts := o3.trans hs2
    have v1 : s1.VAS_SIZE = o.VAS_SIZE := by
      have a := congrArg State.VAS_SIZE hs1
      have b : s1.VAS_SIZE = z.VAS_SIZE := a
      rw [b, e6]
    have v2 : s2.VAS_SIZE = o.VAS_SIZE := by
      have a := congrArg State.VAS_SIZE hs2
      have b : s2.VAS_SIZE = z.VAS_SIZE := a
      rw [b, e6]
    have vz : ({ z with TLB_size := fun _ => 0 } : State).VAS_SIZE = o.VAS_SIZE := e6
    rw [vz] at f1
    rw [v1] at f2
    rw [v2] at f3
    have g1 := congrArg State.sim_iTLB hs
    have g2 := congrArg State.sim_dTLB hs
    have g3 := congrArg State.sim_L2TLB hs
    have g4 := congrArg State.clo_sim_tlb hs
    have g5 := congrArg State.clo_sim_pages hs
    have g6 := congrArg State.VAS_SIZE hs
    have g7 := congrArg State.RepPol hs
    have g8 := congrArg State.t1 hs
    have g9 := congrArg State.t2 hs
    have g10 := congrArg State.random hs
    have g11 := congrArg State.random_calls hs
    refine ⟨levelFresh_congr (levelFresh_congr f1 (r2 0 (by decide))) (r3 0 (by decide)),
      levelFresh_congr f2 (r3 1 (by decide)), f3, g1.trans hzi, g2.trans hzd, g3.trans hzl,
      g4.trans e4, g5.trans e5, g6.trans e6, hv, g7.trans e7, g8.trans e8, g9.trans e9,
      g10.trans e10, g11.trans e11⟩
  · rw [if_neg hv] at h
    simp at h

/-! ## Invariants of a run -/

/-- What one reference counts, level by level: the numbers of hits `dh u` and
of misses `dm u` that the counters of level `u` were incremented by. -/
theorem reference_totals {addr : Nat} {dt : Int} {s y : State}
    (h : reference_address addr dt s = some y) :
    ∃ dh dm : Int → Int, Counted dh dm s y ∧ (∀ u, 0 ≤ dh u) ∧ (∀ u, 0 ≤ dm u) ∧
      dh 0 + dm 0 = (if dt = 0 ∧ s.sim_iTLB = true ∧ s.clo_sim_tlb = true ∧
        -1 ≤ (s.TLBc 0).assoc then 1 else 0) ∧
      dh 1 + dm 1 = (if dt = 1 ∧ s.sim_dTLB = true ∧ s.clo_sim_tlb = true ∧
        -1 ≤ (s.TLBc 1).assoc then 1 else 0) ∧
      dh 2 + dm 2 = (if s.sim_L2TLB = true ∧ s.clo_sim_tlb = true ∧ -1 ≤ (s.TLBc 2).assoc
        then dm 0 + dm 1 else 0) ∧
      y.sim_L2TLB = s.sim_L2TLB := by
  obtain ⟨dh1, dm1, dh2, dm2, hc, p1, p2, p3, p4, hsum1, hsum2, hl2⟩ := reference_counted h
  have s22 : ∀ v : Int, single 2 v 2 = v := fun v => by simp [single]
  have s20 : ∀ v : Int, single 2 v 0 = 0 := fun v => by simp [single]
  have s21 : ∀ v : Int, single 2 v 1 = 0 := fun v => by simp [single]
  have sdd : ∀ v : Int, single dt v dt = v := fun v => by simp [single]
  have sdu : ∀ (v u : Int), u ≠ dt → single dt v u = 0 := fun v u hu => by simp [single, hu]
  have hnr : ¬ (dt = 0 ∨ dt = 1) → dh1 = 0 ∧ dm1 = 0 := by
    intro hn
    have hR : ¬ Routed dt s := by
      rintro (⟨a, _⟩ | ⟨a, _⟩)
      · exact hn (Or.inl a)
      · exact hn (Or.inr a)
    rw [if_neg (fun hh => hR hh.1)] at hsum1
    omega
  refine ⟨_, _, hc, ?_, ?_, ?_, ?_, ?_, hl2⟩
  · intro u; simp only [single]; split_ifs <;> omega
  · intro u; simp only [single]; split_ifs <;> omega
  · show single dt dh1 0 + single 2 dh2 0 + (single dt dm1 0 + single 2 dm2 0) = _
    rw [s20, s20]
    by_cases h0 : dt = 0
    · subst h0
      have hR : Routed 0 s ↔ s.sim_iTLB = true := by unfold Routed; simp
      rw [sdd, sdd, add_zero, add_zero, hsum1]
      exact if_congr (by rw [hR]; simp) rfl rfl
    · rw [sdu _ _ (Ne.symm h0), sdu _ _ (Ne.symm h0), if_neg (fun hh => h0 hh.1)]
      rfl
  · show single dt dh1 1 + single 2 dh2 1 + (single dt dm1 1 + single 2 dm2 1) = _
    rw [s21, s21]
    by_cases h0 : dt = 1
    · subst h0
      have hR : Routed 1 s ↔ s.sim_dTLB = true := by unfold Routed; simp
      rw [sdd, sdd, add_zero, add_zero, hsum1]
      exact if_congr (by rw [hR]; simp) rfl rfl
    · rw [sdu _ _ (Ne.symm h0), sdu _ _ (Ne.symm h0), if_neg (fun hh => h0 hh.1)]
      rfl
  · show single dt dh1 2 + single 2 dh2 2 + (single dt dm1 2 + single 2 dm2 2) =
      if _ then (single dt dm1 0 + single 2 dm2 0) + (single dt dm1 1 + single 2 dm2 1) else 0
    rw [s22, s22, s20, s21]
    have hdm : single dt dm1 0 + 0 + (single dt dm1 1 + 0) = dm1 := by
      by_cases h0 : dt = 0
      · subst h0; rw [sdd, sdu _ _ (by decide)]; ring
      · by_cases h1 : dt = 1
        · subst h1; rw [sdd, sdu _ _ (by decide)]; ring
        · obtain ⟨_, z2⟩ := hnr (by tauto)
          rw [z2, sdu _ _ (Ne.symm h0), sdu _ _ (Ne.symm h1)]; ring
    rw [hdm, ← hsum2]
    by_cases h2 : dt = 2
    · obtain ⟨z1, z2⟩ := hnr (by omega)
      subst h2
      rw [sdd, sdd, z1, z2]; ring
    · rw [sdu _ _ (Ne.symm h2), sdu _ _ (Ne.symm h2)]; ring

theorem lookupsOn_of_counted {dh dm : Int → Int} {s y : State} (hc : Counted dh dm s y)
    (hl2 : y.sim_L2TLB = s.sim_L2TLB) (hon : LookupsOn s) : LookupsOn y := by
  obtain ⟨hg, _, _, _, _, hi, hd, hclo, _⟩ := hc
  obtain ⟨on1, on2, on3, on4⟩ := hon
  refine ⟨by rw [hclo]; exact on1, ?_, ?_, ?_⟩
  · rw [hi, geom_assoc (hg 0)]; exact on2
  · rw [hd, geom_assoc (hg 1)]; exact on3
  · rw [hl2, geom_assoc (hg 2)]; exact on4

/-- What a run counts, level by level: the numbers of hits `dh u` and of
misses `dm u` that the counters of level `u` were incremented by. An L1 level
counts at most one lookup per reference of its kind and L2TLB at most one per
L1 miss; with the simulation on, each simulated level counts exactly these. -/
theorem run_totals (trace : List (Nat × Int)) : ∀ {s y : State},
    run trace s = some y →
    ∃ dh dm : Int → Int, Counted dh dm s y ∧ (∀ u, 0 ≤ dh u) ∧ (∀ u, 0 ≤ dm u) ∧
      dh 0 + dm 0 ≤ refs_of 0 trace ∧ dh 1 + dm 1 ≤ refs_of 1 trace ∧
      dh 2 + dm 2 ≤ dm 0 + dm 1 ∧
      (LookupsOn s →
        dh 0 + dm 0 = (if s.sim_iTLB = true then (refs_of 0 trace : Int) else 0) ∧
        dh 1 + dm 1 = (if s.sim_dTLB = true then (refs_of 1 trace : Int) else 0) ∧
        dh 2 + dm 2 = (if s.sim_L2TLB = true then dm 0 + dm 1 else 0)) := by
  induction trace with
  | nil =>
    intro s y h
    simp only [run, Option.some.injEq] at h
    subst h
    refine ⟨_, _, counted_refl s, fun _ => le_refl _, fun _ => le_refl _, ?_, ?_, ?_, ?_⟩
    · simp [refs_of]
    · simp [refs_of]
    · simp
    · intro _; simp [refs_of]
  | cons r rs ih =>
    intro s y h
    simp only [run] at h
    cases h1 : reference_address r.1 r.2 s with
    | none => rw [h1] at h; simp at h
    | some z =>
      rw [h1] at h
      simp only [Option.some_bind] at h
      obtain ⟨dh, dm, hc, n1, n2, a0, a1, a2, fl⟩ := reference_totals h1
      obtain ⟨eh, em, hc2, k1, k2, b0, b1, b2, beq⟩ := ih h
      have r0 : (refs_of 0 (r :: rs) : Int) = (if r.2 = 0 then 1 else 0) + refs_of 0 rs := by
        unfold refs_of; rw [List.countP_cons]
        by_cases hr : r.2 = 0 <;> simp [hr]; ring
      have r1 : (refs_of 1 (r :: rs) : Int) = (if r.2 = 1 then 1 else 0) + refs_of 1 rs := by
        unfold refs_of; rw [List.countP_cons]
        by_cases hr : r.2 = 1 <;> simp [hr]; ring
      have c0 : dh 0 + dm 0 ≤ (if r.2 = 0 then 1 else 0) := by
        rw [a0]; split_ifs <;> simp_all
      have c1 : dh 1 + dm 1 ≤ (if r.2 = 1 then 1 else 0) := by
        rw [a1]; split_ifs <;> simp_all
      have c2 : dh 2 + dm 2 ≤ dm 0 + dm 1 := by
        rw [a2]; split_ifs
        · exact le_refl _
        · have := n2 0; have := n2 1; omega
      refine ⟨_, _, counted_trans hc hc2, fun u => add_nonneg (n1 u) (k1 u),
        fun u => add_nonneg (n2 u) (k2 u), ?_, ?_, ?_, ?_⟩
      · show dh 0 + eh 0 + (dm 0 + em 0) ≤ _
        rw [r0]; omega
      · show dh 1 + eh 1 + (dm 1 + em 1) ≤ _
        rw [r1]; omega
      · show dh 2 + eh 2 + (dm 2 + em 2) ≤ dm 0 + em 0 + (dm 1 + em 1)
        omega
      · intro hon
        have hon2 : LookupsOn z := lookupsOn_of_counted hc fl hon
        obtain ⟨q0, q1, q2⟩ := beq hon2
        obtain ⟨_, _, _, _, _, fi, fd, _⟩ := hc
        obtain ⟨on1, on2, on3, on4⟩ := hon
        rw [fi] at q0
        rw [fd] at q1
        rw [fl] at q2
        refine ⟨?_, ?_, ?_⟩
        · show dh 0 + eh 0 + (dm 0 + em 0) = _
          rw [r0]
          by_cases hs : s.sim_iTLB = true
          · rw [if_pos hs] at q0 ⊢
            have : dh 0 + dm 0 = (if r.2 = 0 then 1 else 0) := by
              rw [a0]
              by_cases hr : r.2 = 0
              · rw [if_pos ⟨hr, hs, on1, on2 hs⟩, if_pos hr]
              · rw [if_neg (fun hh => hr hh.1), if_neg hr]
            omega
          · rw [if_neg hs] at q0 ⊢
            rw [if_neg (fun hh => hs hh.2.1)] at a0
            omega
        · show dh 1 + eh 1 + (dm 1 + em 1) = _
          rw [r1]
          by_cases hs : s.sim_dTLB = true
          · rw [if_pos hs] at q1 ⊢
            have : dh 1 + dm 1 = (if r.2 = 1 then 1 else 0) := by
              rw [a1]
              by_cases hr : r.2 = 1
              · rw [if_pos ⟨hr, hs, on1, on3 hs⟩, if_pos hr]
              · rw [if_neg (fun hh => hr hh.1), if_neg hr]
            omega
          · rw [if_neg hs] at q1 ⊢
            rw [if_neg (fun hh => hs hh.2.1)] at a1
            omega
        · show dh 2 + eh 2 + (dm 2 + em 2) =
            (if s.sim_L2TLB = true then dm 0 + em 0 + (dm 1 + em 1) else 0)
          by_cases hs : s.sim_L2TLB = true
          · rw [if_pos hs] at q2 ⊢
            rw [if_pos ⟨hs, on1, on4 hs⟩] at a2
            omega
          · rw [if_neg hs] at q2 ⊢
            rw [if_neg (fun hh => hs hh.1)] at a2
            omega

theorem refs_of_le (trace : List (Nat × Int)) :
    refs_of 0 trace + refs_of 1 trace ≤ trace.length := by
  induction trace with
  | nil => simp [refs_of]
  | cons r rs ih =>
    unfold refs_of at ih ⊢
    rw [List.countP_cons, List.countP_cons, List.length_cons]
    by_cases h0 : r.2 = 0
    · have h1 : ¬ r.2 = 1 := by omega
      simp [h0]; omega
    · by_cases h1 : r.2 = 1
      · simp [h1]; omega
      · simp [h0, h1]; omega

/-! ## Lemmas behind the claims -/

theorem levelFresh_zero {heap : Int → Int → Nat} {VAS : Int} {d : Desc} {t : Int} {s : State}
    (h : LevelFresh heap VAS d t s) :
    (s.TLBc t).hit = 0 ∧ (s.TLBc t).miss = 0 ∧ (s.TLBc t).assoc = d.assoc ∧
      (s.TLBc t).entries = d.entries := by
  unfold LevelFresh at h
  split at h
  · obtain ⟨a, b, c, e⟩ := init_level_entries h.1
    exact ⟨c, e, b, a⟩
  · rw [h]; exact ⟨rfl, rfl, rfl, rfl⟩

theorem LFU_fa_set {s : State} (h : s.cur.assoc = -1) (set : Int) : LFU set s = LFU (-1) s := by
  unfold LFU
  rw [if_pos h, if_pos h]

theorem LRU_fa_set {s : State} (h : s.cur.assoc = -1) (set : Int) : LRU set s = LRU (-1) s := by
  unfold LRU
  rw [if_pos h, if_pos h]

/-- The LFU replacement block of `tlb_lookup`, in both geometries. -/
theorem lfu_install_eq (s : State) (set : Int) (tag : Nat) (hpol : s.RepPol = 0)
    (h : ScopeAllocated s set) :
    ∃ p, LFU set s = some p ∧ FirstMin s.tbl (scope_lo s.cur set) (scope_hi s.cur set) p ∧
      (s.cur.assoc = -1 → fa_install tag s = some (s.put (upd s.tbl p { tag := tag, count := 1 }))) ∧
      (0 < s.cur.assoc → ∀ idx : Nat, toInt32 idx = set →
        nway_install tag idx s = some (s.put (upd s.tbl p { tag := tag, count := 1 }))) := by
  obtain ⟨p, hp, hmin, heq⟩ := lfu_block_eq s set tag h
  refine ⟨p, hp, hmin, ?_, ?_⟩
  · intro hfa
    unfold fa_install
    rw [if_pos hpol, ← LFU_fa_set hfa set]
    exact heq
  · intro _ idx hidx
    unfold nway_install
    rw [if_pos hpol, hidx]
    exact heq

/-- The LRU replacement block of `tlb_lookup`, in both geometries. -/
theorem lru_install_eq (s : State) (set : Int) (tag : Nat) (hpol : s.RepPol = 1)
    (h : ScopeAllocated s set) :
    ∃ p, LRU set s = some p ∧ FirstMax s.tbl (scope_lo s.cur set) (scope_hi s.cur set) p ∧
      (s.cur.assoc = -1 → fa_install tag s =
        some (s.put (lru_touch (upd s.tbl p { tag := tag, count := 0 }) (scope_lo s.cur set)
          (scope_hi s.cur set - scope_lo s.cur set).toNat p))) ∧
      (0 < s.cur.assoc → ∀ idx : Nat, toInt32 idx = set → nway_install tag idx s =
        some (s.put (lru_touch (upd s.tbl p { tag := tag, count := 0 }) (scope_lo s.cur set)
          (scope_hi s.cur set - scope_lo s.cur set).toNat p))) := by
  obtain ⟨p, hp, hmax, heq⟩ := lru_block_eq s set tag h
  have hne : ¬ s.RepPol = 0 := by omega
  refine ⟨p, hp, hmax, ?_, ?_⟩
  · intro hfa
    unfold fa_install
    rw [if_neg hne, if_pos hpol, ← LRU_fa_set hfa set]
    exact heq
  · intro _ idx hidx
    unfold nway_install
    rw [if_neg hne, if_pos hpol, hidx]
    exact heq

theorem lru_touch_fresh_upd (f : Int → TLB_ENTRY) (lo hi p : Int) (e : TLB_ENTRY)
    (hp0 : lo ≤ p) (hp1 : p < hi) :
    LRUFresh f (lru_touch (upd f p e) lo (hi - lo).toNat p) lo hi p := by
  obtain ⟨a, b⟩ := lru_touch_fresh (upd f p e) lo hi p hp0 hp1
  refine ⟨a, fun j hj0 hj1 hne => ?_⟩
  rw [b j hj0 hj1 hne, upd_ne _ _ hne]

/-- A reference routed to an L1 level that misses it and misses L2TLB. -/
theorem reference_miss_miss (s : State) (addr : Nat) (t : Int)
    (hrouted : Routed t s) (hl2 : s.sim_L2TLB = true) (hsim : s.clo_sim_tlb = true)
    (hpol : s.RepPol = 0 ∨ s.RepPol = 1 ∨ s.RepPol = 2)
    (hr1 : InRangeAt s t (decode_index (s.TLBc t) addr))
    (hr2 : InRangeAt s 2 (decode_index (s.TLBc 2) addr))
    (hm1 : ¬ Resident s t (decode_tag (s.TLBc t) addr) (decode_index (s.TLBc t) addr))
    (hm2 : ¬ Resident s 2 (decode_tag (s.TLBc 2) addr) (decode_index (s.TLBc 2) addr)) :
    ∃ y, reference_address addr t s = some y ∧
      Resident y 2 (decode_tag (s.TLBc 2) addr) (decode_index (s.TLBc 2) addr) ∧
      Resident y t (decode_tag (s.TLBc t) addr) (decode_index (s.TLBc t) addr) ∧
      (y.TLBc t).miss = incr_int (s.TLBc t).miss ∧ (y.TLBc 2).miss = incr_int (s.TLBc 2).miss ∧
      y.t1 = incr_ulong s.t1 ∧ y.t2 = incr_ulong s.t2 := by
  rcases hrouted with ⟨rfl, hen⟩ | ⟨rfl, hen⟩
  · obtain ⟨z, hz, rest⟩ := sim_miss_miss addr { s with TLB_TYPE := 0 } (Or.inl rfl) hl2 hsim hpol
      hr1 hr2 hm1 hm2
    refine ⟨z, ?_, rest⟩
    unfold reference_address
    rw [if_pos ⟨rfl, hen⟩]
    show (TLB_simulation 2 addr { s with TLB_TYPE := 0 }).bind _ = _
    rw [hz]
    simp only [Option.some_bind]
    rw [if_neg (fun h => absurd h.1 (by decide))]
  · obtain ⟨z, hz, rest⟩ := sim_miss_miss addr { s with TLB_TYPE := 1 } (Or.inr rfl) hl2 hsim hpol
      hr1 hr2 hm1 hm2
    refine ⟨z, ?_, rest⟩
    unfold reference_address
    rw [if_neg (fun h => absurd h.1 (by decide))]
    simp only [Option.some_bind]
    rw [if_pos ⟨rfl, hen⟩]
    exact hz

/-! ## Hits -/

theorem sameTags_refl (f : Int → TLB_ENTRY) : SameTags f f := fun _ => rfl

theorem sameOutside_refl (f : Int → TLB_ENTRY) (lo hi : Int) : SameOutside f f lo hi :=
  fun _ _ => rfl

/-- The counter update after a hit on cell `e` of an in-range scope succeeds;
it rewrites the table of the current level only, changes no tag and no cell
outside the scope. -/
theorem hit_update_ok (idx : Nat) (e : Int) (s : State) (hr : InRangeAt s s.TLB_TYPE idx)
    (he0 : scope_lo s.cur idx ≤ e) (he1 : e < scope_hi s.cur idx) :
    ∃ g, hit_update e s = some (s.put g) ∧ SameTags s.tbl g ∧
      SameOutside s.tbl g (scope_lo s.cur idx) (scope_hi s.cur idx) := by
  have hb : 0 ≤ scope_lo s.cur idx ∧ scope_lo s.cur idx < scope_hi s.cur idx ∧
      scope_hi s.cur idx ≤ s.size := scope_bounds hr
  unfold hit_update
  by_cases hdm : s.cur.assoc = 0
  · rw [if_pos hdm]
    exact ⟨s.tbl, by rw [put_self], sameTags_refl _, sameOutside_refl _ _ _⟩
  · rw [if_neg hdm]
    by_cases h0 : s.RepPol = 0
    · rw [if_pos h0, incr_count_eq s (by omega) (by omega)]
      refine ⟨_, rfl, ?_, ?_⟩
      · intro j
        by_cases hj : j = e
        · subst hj; rw [upd_same]
        · rw [upd_ne _ _ hj]
      · intro j hj
        rw [upd_ne _ _ (by omega)]
    · rw [if_neg h0]
      by_cases h1 : s.RepPol = 1
      · rw [if_pos h1, increase_LRU_eq s idx e (inRange_scopeAllocated hr hdm) he0 he1]
        refine ⟨_, rfl, ?_, ?_⟩
        · intro j
          rw [lru_touch_tag]
        · intro j hj
          exact lru_touch_outside _ _ _ _ _ he0 (by omega) (by omega)
      · rw [if_neg h1]
        exact ⟨s.tbl, by rw [put_self], sameTags_refl _, sameOutside_refl _ _ _⟩

theorem hit_prologue_cur_geom (s : State) : (hit_prologue s).cur.geom = s.cur.geom := by
  have h := hit_prologue_geom s s.TLB_TYPE
  unfold State.cur
  rw [(hit_prologue_frame s).2.2.1]
  exact h

theorem hit_prologue_tbl (s : State) : (hit_prologue s).tbl = s.tbl := by
  unfold State.tbl
  rw [(hit_prologue_frame s).1, (hit_prologue_frame s).2.2.1]

/-- A lookup that finds its tag in an in-range scope. -/
theorem lookup_hit_ok (sim : Nat → State → Option State) (a tag idx : Nat) (x : State)
    (hr : InRangeAt x x.TLB_TYPE idx) (hres : Resident x x.TLB_TYPE tag idx) :
    ∃ g, tlb_lookup sim a tag idx x = some ((hit_prologue x).put g) ∧ SameTags x.tbl g ∧
      SameOutside x.tbl g (scope_lo x.cur idx) (scope_hi x.cur idx) := by
  obtain ⟨e, hfirst, heq⟩ := tlb_lookup_hit sim a tag idx x hr hres
  obtain ⟨hTLB, hsize, hty, -⟩ := hit_prologue_frame x
  have hg := hit_prologue_cur_geom x
  have hr1 : InRangeAt (hit_prologue x) (hit_prologue x).TLB_TYPE idx := by
    rw [hty]
    exact (inRangeAt_congr (hit_prologue_geom x x.TLB_TYPE) (by rw [hsize]) idx).2 hr
  obtain ⟨g, hg1, hg2, hg3⟩ := hit_update_ok idx e (hit_prologue x) hr1
    (by rw [geom_scope_lo hg]; exact hfirst.1) (by rw [geom_scope_hi hg]; exact hfirst.2.1)
  rw [geom_scope_lo hg, geom_scope_hi hg, hit_prologue_tbl] at hg3
  rw [hit_prologue_tbl] at hg2
  exact ⟨g, by rw [heq, hg1], hg2, hg3⟩

/-- A reference that hits the current level. -/
theorem sim_hit (n addr : Nat) (x : State) (hsim : x.clo_sim_tlb = true)
    (hr : InRangeAt x x.TLB_TYPE (decode_index x.cur addr))
    (hres : Resident x x.TLB_TYPE (decode_tag x.cur addr) (decode_index x.cur addr)) :
    ∃ g, TLB_simulation (n + 1) addr x =
        some (log_page (decode_tag x.cur addr)
          ((hit_prologue { x with l2hit := false, l2check := false }).put g)) ∧
      SameTags x.tbl g ∧
      SameOutside x.tbl g (scope_lo x.cur (decode_index x.cur addr))
        (scope_hi x.cur (decode_index x.cur addr)) := by
  obtain ⟨g, heq, h1, h2⟩ := lookup_hit_ok (TLB_simulation n) addr (decode_tag x.cur addr)
    (decode_index x.cur addr) { x with l2hit := false, l2check := false } hr hres
  refine ⟨g, ?_, h1, h2⟩
  rw [TLB_simulation_succ, if_pos ⟨hsim, inRange_assoc_ge hr⟩, heq]
  rfl

theorem log_page_TLBc_other (tag : Nat) (s : State) {u : Int} (h : u ≠ s.TLB_TYPE) :
    (log_page tag s).TLBc u = s.TLBc u := by
  unfold log_page add_page
  split
  · split <;> simp [State.setCur, upd, h]
  · rfl

theorem hit_prologue_TLBc_other (s : State) {u : Int} (h : u ≠ s.TLB_TYPE) :
    (hit_prologue s).TLBc u = s.TLBc u := by
  rw [hit_prologue_TLBc, if_neg h]

theorem miss_prologue_TLBc_other (s : State) {u : Int} (h : u ≠ s.TLB_TYPE) :
    (miss_prologue s).TLBc u = s.TLBc u := by
  rw [miss_prologue_TLBc, if_neg h]

/-! ## The set-up is never changed -/

theorem sameSetup_refl (x : State) : SameSetup x x :=
  ⟨fun _ => rfl, rfl, rfl, rfl, rfl, rfl, rfl, rfl, rfl, rfl⟩

theorem sameSetup_trans {x y z : State} (h1 : SameSetup x y) (h2 : SameSetup y z) :
    SameSetup x z :=
  ⟨fun u => (h2.geom u).trans (h1.geom u), h2.size.trans h1.size, h2.pol.trans h1.pol,
    h2.sim.trans h1.sim, h2.pages.trans h1.pages, h2.itlb.trans h1.itlb,
    h2.dtlb.trans h1.dtlb, h2.l2tlb.trans h1.l2tlb, h2.vas.trans h1.vas,
    h2.oracle.trans h1.oracle⟩

theorem sameSetup_hit_prologue (x : State) : SameSetup x (hit_prologue x) := by
  obtain ⟨_, f2, _, f4, f5, f6, f7, _, _, f10, f11, f12, f13, _⟩ := hit_prologue_frame x
  exact ⟨hit_prologue_geom x, f2, f4, f6, f7, f10, f11, f5, f12, f13⟩

theorem sameSetup_miss_prologue (x : State) : SameSetup x (miss_prologue x) := by
  obtain ⟨_, f2, _, f4, f5, f6, f7, _, _, f10, f11, f12, f13, _⟩ := miss_prologue_frame x
  exact ⟨miss_prologue_geom x, f2, f4, f6, f7, f10, f11, f5, f12, f13⟩

theorem sameSetup_log_page (tag : Nat) (x : State) : SameSetup x (log_page tag x) := by
  obtain ⟨_, f2, _, f4, f5, f6, f7, _, _, f10, f11, f12, f13, _⟩ := log_page_frame tag x
  exact ⟨log_page_geom tag x, f2, f4, f6, f7, f10, f11, f5, f12, f13⟩

theorem sameSetup_put_draw (x : State) (g : Int → TLB_ENTRY) (k : Nat) :
    SameSetup x ((x.put g).draw k) :=
  ⟨fun _ => rfl, rfl, rfl, rfl, rfl, rfl, rfl, rfl, rfl, rfl⟩

theorem sameSetup_put (x : State) (g : Int → TLB_ENTRY) : SameSetup x (x.put g) :=
  ⟨fun _ => rfl, rfl, rfl, rfl, rfl, rfl, rfl, rfl, rfl, rfl⟩

theorem sameSetup_flags (x : State) (a b : Bool) :
    SameSetup x { x with l2hit := a, l2check := b } :=
  ⟨fun _ => rfl, rfl, rfl, rfl, rfl, rfl, rfl, rfl, rfl, rfl⟩

/-! ## A reference to a level behind which no L2TLB is consulted -/

/-- The state `log_page tag (w.put g)` against `w`. -/
theorem put_log_facts0 (tag : Nat) (w : State) (g : Int → TLB_ENTRY) :
    (∀ u, ((log_page tag (w.put g)).TLBc u).geom = (w.TLBc u).geom) ∧
    (∀ u, ((log_page tag (w.put g)).TLBc u).miss = (w.TLBc u).miss) ∧
    (∀ u, ((log_page tag (w.put g)).TLBc u).hit = (w.TLBc u).hit) ∧
    (∀ u, u ≠ w.TLB_TYPE → (log_page tag (w.put g)).TLB u = w.TLB u) ∧
    (log_page tag (w.put g)).TLB w.TLB_TYPE = g ∧
    (log_page tag (w.put g)).TLB_size = w.TLB_size ∧
    (log_page tag (w.put g)).t1 = w.t1 ∧
    (log_page tag (w.put g)).t2 = w.t2 ∧
    (log_page tag (w.put g)).l2hit = w.l2hit ∧
    (log_page tag (w.put g)).RepPol = w.RepPol :=
  put_log_facts tag w g w.random_calls

/-- The state after a hit, written out. -/
theorem hit_state_facts (tag : Nat) (x : State) (g : Int → TLB_ENTRY) (lo hi : Int)
    (h1 : SameTags x.tbl g) (h2 : SameOutside x.tbl g lo hi) :
    HitFacts x (log_page tag ((hit_prologue { x with l2hit := false, l2check := false }).put g))
      x.TLB_TYPE lo hi ∧
    (∀ u, u ≠ x.TLB_TYPE → Untouched x
      (log_page tag ((hit_prologue { x with l2hit := false, l2check := false }).put g)) u) ∧
    (log_page tag ((hit_prologue { x with l2hit := false, l2check := false }).put g)).t1 = x.t1 ∧
    (log_page tag ((hit_prologue { x with l2hit := false, l2check := false }).put g)).t2 = x.t2 ∧
    (log_page tag ((hit_prologue { x with l2hit := false, l2check := false }).put g)).random_calls =
      x.random_calls := by
  let x0 : State := { x with l2hit := false, l2check := false }
  obtain ⟨hTLB, hsize, hty, hrep, hl2, hsim, hpg, hchk, hhit, _, _, _, _, hcalls, ht1, ht2⟩ :=
    hit_prologue_frame x0
  obtain ⟨fgeom, fmiss, fhit, fother, fcur, fsize, ft1, ft2, fl2hit, frep⟩ :=
    put_log_facts0 tag (hit_prologue x0) g
  have hty2 : (hit_prologue x0).TLB_TYPE = x.TLB_TYPE := hty
  rw [hty2] at fother fcur
  refine ⟨⟨?_, ?_, ?_, ?_⟩, ?_, ?_, ?_, ?_⟩
  · exact (fhit _).trans (by rw [hit_prologue_hit]; simp [single])
  · exact (fmiss _).trans (hit_prologue_miss x0 _)
  · intro j
    rw [fcur]; exact h1 j
  · intro j hj
    rw [fcur]; exact h2 j hj
  · intro u hu
    refine ⟨(fother u hu).trans (congrFun hTLB u), ?_⟩
    have e1 : (log_page tag ((hit_prologue x0).put g)).TLBc u = ((hit_prologue x0).put g).TLBc u :=
      log_page_TLBc_other tag _ (by show u ≠ (hit_prologue x0).TLB_TYPE; rw [hty2]; exact hu)
    rw [e1]
    exact hit_prologue_TLBc_other x0 hu
  · exact ft1.trans ht1
  · exact ft2.trans ht2
  · have e := (log_page_frame tag ((hit_prologue x0).put g)).2.2.2.2.2.2.2.2.2.2.2.2.2.1
    exact e.trans hcalls

/-- A reference to an in-range level behind which no L2TLB is consulted
returns: a resident tag is a counted hit, any other a counted miss followed by
the installation of the tag in the addressed scope. -/
theorem sim_leaf_ok (n addr : Nat) (x : State) (hl2 : x.sim_L2TLB = false)
    (hsim : x.clo_sim_tlb = true) (hpol : x.RepPol = 0 ∨ x.RepPol = 1 ∨ x.RepPol = 2)
    (hr : InRangeAt x x.TLB_TYPE (decode_index x.cur addr)) :
    ∃ y, TLB_simulation (n + 1) addr x = some y ∧ SameSetup x y ∧ y.TLB_TYPE = x.TLB_TYPE ∧
      y.l2hit = false ∧ y.l2check = false ∧ (∀ u, u ≠ x.TLB_TYPE → Untouched x y u) ∧
      (Resident x x.TLB_TYPE (decode_tag x.cur addr) (decode_index x.cur addr) →
        HitFacts x y x.TLB_TYPE (scope_lo x.cur (decode_index x.cur addr))
          (scope_hi x.cur (decode_index x.cur addr)) ∧
        y.t1 = x.t1 ∧ y.t2 = x.t2 ∧ y.random_calls = x.random_calls) ∧
      (¬ Resident x x.TLB_TYPE (decode_tag x.cur addr) (decode_index x.cur addr) →
        MissFacts x y x.TLB_TYPE (scope_lo x.cur (decode_index x.cur addr))
          (scope_hi x.cur (decode_index x.cur addr)) (decode_tag x.cur addr) ∧
        y.t1 = (if x.TLB_TYPE = 0 ∨ x.TLB_TYPE = 1 then incr_ulong x.t1 else x.t1) ∧
        y.t2 = (if x.TLB_TYPE = 2 then incr_ulong x.t2 else x.t2)) := by
  let x0 : State := { x with l2hit := false, l2check := false }
  by_cases hres : Resident x x.TLB_TYPE (decode_tag x.cur addr) (decode_index x.cur addr)
  · obtain ⟨g, heq, h1, h2⟩ := sim_hit n addr x hsim hr hres
    obtain ⟨hTLB, hsize, hty, hrep, _, _, _, hchk, hhit, _⟩ := hit_prologue_frame x0
    obtain ⟨lTLB, _, lty, _, _, _, _, lchk, lhit, _⟩ :=
      log_page_frame (decode_tag x.cur addr) ((hit_prologue x0).put g)
    obtain ⟨a1, a2, a3, a4, a5⟩ := hit_state_facts (decode_tag x.cur addr) x g _ _ h1 h2
    refine ⟨_, heq, ?_, ?_, ?_, ?_, a2, fun _ => ⟨a1, a3, a4, a5⟩, fun h => absurd hres h⟩
    · exact sameSetup_trans (sameSetup_flags x false false)
        (sameSetup_trans (sameSetup_hit_prologue x0)
          (sameSetup_trans (sameSetup_put _ g) (sameSetup_log_page _ _)))
    · exact lty.trans hty
    · exact lhit.trans hhit
    · exact lchk.trans hchk
  · obtain ⟨g, k, e, heq, he0, he1, hge, hout, htags⟩ := sim_miss_leaf n addr x hl2 hsim hpol hr hres
    obtain ⟨hTLB, hsize, hty, hrep, _, _, _, hchk, hhit, _⟩ := miss_prologue_frame x0
    obtain ⟨lTLB, _, lty, _, _, _, _, lchk, lhit, _⟩ :=
      log_page_frame (decode_tag x.cur addr) (((miss_prologue x0).put g).draw k)
    obtain ⟨fgeom, fmiss, fhit, fother, fcur, fsize, ft1, ft2, fl2hit, frep⟩ :=
      put_log_facts (decode_tag x.cur addr) (miss_prologue x0) g k
    have hty2 : (miss_prologue x0).TLB_TYPE = x.TLB_TYPE := hty
    rw [hty2] at fother fcur
    refine ⟨_, heq, ?_, ?_, ?_, ?_, ?_, fun h => absurd h hres, fun _ => ⟨⟨?_, ?_, ?_⟩, ?_, ?_⟩⟩
    · exact sameSetup_trans (sameSetup_flags x false false)
        (sameSetup_trans (sameSetup_miss_prologue x0)
          (sameSetup_trans (sameSetup_put_draw _ g k) (sameSetup_log_page _ _)))
    · exact lty.trans hty
    · exact lhit.trans hhit
    · exact lchk.trans hchk
    · intro u hu
      refine ⟨(fother u hu).trans (congrFun hTLB u), ?_⟩
      have e1 : (log_page (decode_tag x.cur addr) (((miss_prologue x0).put g).draw k)).TLBc u =
          (((miss_prologue x0).put g).draw k).TLBc u :=
        log_page_TLBc_other _ _ (by show u ≠ (miss_prologue x0).TLB_TYPE; rw [hty2]; exact hu)
      rw [e1]
      exact miss_prologue_TLBc_other x0 hu
    · exact (fmiss _).trans (by rw [miss_prologue_miss, if_pos rfl])
    · exact (fhit _).trans (miss_prologue_hit x0 _)
    · refine ⟨e, he0, he1, ?_, ?_, ?_⟩
      · rw [fcur]; exact hge
      · intro j hj; rw [fcur]; exact htags j hj
      · intro j hj; rw [fcur]; exact hout j hj
    · exact ft1.trans (miss_prologue_t1 x0)
    · exact ft2.trans (miss_prologue_t2 x0)

/-! ## A reference to an L1 level behind which L2TLB is consulted -/

theorem hitFacts_congr {x x' y y' : State} {t lo hi : Int}
    (hx : x'.TLB t = x.TLB t ∧ x'.TLBc t = x.TLBc t)
    (hy : y'.TLB t = y.TLB t ∧ y'.TLBc t = y.TLBc t) (h : HitFacts x y t lo hi) :
    HitFacts x' y' t lo hi := by
  obtain ⟨a, b, c, d⟩ := h
  refine ⟨?_, ?_, ?_, ?_⟩
  · rw [hx.2, hy.2]; exact a
  · rw [hx.2, hy.2]; exact b
  · rw [hx.1, hy.1]; exact c
  · rw [hx.1, hy.1]; exact d

theorem missFacts_congr {x x' y y' : State} {t lo hi : Int} {tag : Nat}
    (hx : x'.TLB t = x.TLB t ∧ x'.TLBc t = x.TLBc t)
    (hy : y'.TLB t = y.TLB t ∧ y'.TLBc t = y.TLBc t) (h : MissFacts x y t lo hi tag) :
    MissFacts x' y' t lo hi tag := by
  obtain ⟨a, b, c⟩ := h
  refine ⟨?_, ?_, ?_⟩
  · rw [hx.2, hy.2]; exact a
  · rw [hx.2, hy.2]; exact b
  · rw [hx.1, hy.1]; exact c

/-- A reference to an in-range L1 level with an in-range L2TLB behind it
returns.  A tag resident in L1 is a counted hit and L2TLB is left alone; any
other is a counted miss, L2TLB is looked up once (a counted hit, or a counted
miss with the installation of its tag), and the tag is installed in L1
whatever L2TLB answered. -/
theorem sim_l1_ok (addr : Nat) (x : State) (hty : x.TLB_TYPE = 0 ∨ x.TLB_TYPE = 1)
    (hl2 : x.sim_L2TLB = true) (hsim : x.clo_sim_tlb = true)
    (hpol : x.RepPol = 0 ∨ x.RepPol = 1 ∨ x.RepPol = 2)
    (hr1 : InRangeAt x x.TLB_TYPE (decode_index x.cur addr))
    (hr2 : InRangeAt x 2 (decode_index (x.TLBc 2) addr)) :
    ∃ y, TLB_simulation 2 addr x = some y ∧ SameSetup x y ∧ y.TLB_TYPE = x.TLB_TYPE ∧
      y.l2check = false ∧ (∀ u, u ≠ x.TLB_TYPE → u ≠ 2 → Untouched x y u) ∧
      (Resident x x.TLB_TYPE (decode_tag x.cur addr) (decode_index x.cur addr) →
        HitFacts x y x.TLB_TYPE (scope_lo x.cur (decode_index x.cur addr))
          (scope_hi x.cur (decode_index x.cur addr)) ∧
        Untouched x y 2 ∧ y.t1 = x.t1 ∧ y.t2 = x.t2 ∧ y.random_calls = x.random_calls) ∧
      (¬ Resident x x.TLB_TYPE (decode_tag x.cur addr) (decode_index x.cur addr) →
        MissFacts x y x.TLB_TYPE (scope_lo x.cur (decode_index x.cur addr))
          (scope_hi x.cur (decode_index x.cur addr)) (decode_tag x.cur addr) ∧
        y.t1 = incr_ulong x.t1 ∧
        (Resident x 2 (decode_tag (x.TLBc 2) addr) (decode_index (x.TLBc 2) addr) →
          HitFacts x y 2 (scope_lo (x.TLBc 2) (decode_index (x.TLBc 2) addr))
            (scope_hi (x.TLBc 2) (decode_index (x.TLBc 2) addr)) ∧ y.t2 = x.t2) ∧
        (¬ Resident x 2 (decode_tag (x.TLBc 2) addr) (decode_index (x.TLBc 2) addr) →
          MissFacts x y 2 (scope_lo (x.TLBc 2) (decode_index (x.TLBc 2) addr))
            (scope_hi (x.TLBc 2) (decode_index (x.TLBc 2) addr))
            (decode_tag (x.TLBc 2) addr) ∧ y.t2 = incr_ulong x.t2)) := by
  have hne2 : x.TLB_TYPE ≠ 2 := by omega
  let x0 : State := { x with l2hit := false, l2check := false }
  by_cases hres : Resident x x.TLB_TYPE (decode_tag x.cur addr) (decode_index x.cur addr)
  · obtain ⟨g, heq, h1, h2⟩ := sim_hit 1 addr x hsim hr1 hres
    obtain ⟨hTLB, hsize, hty0, hrep, _, _, _, hchk, hhit, _⟩ := hit_prologue_frame x0
    obtain ⟨lTLB, _, lty, _, _, _, _, lchk, lhit, _⟩ :=
      log_page_frame (decode_tag x.cur addr) ((hit_prologue x0).put g)
    obtain ⟨a1, a2, a3, a4, a5⟩ := hit_state_facts (decode_tag x.cur addr) x g _ _ h1 h2
    refine ⟨_, heq, ?_, ?_, ?_, fun u hu _ => a2 u hu,
      fun _ => ⟨a1, a2 2 (Ne.symm hne2), a3, a4, a5⟩, fun h => absurd hres h⟩
    · exact sameSetup_trans (sameSetup_flags x false false)
        (sameSetup_trans (sameSetup_hit_prologue x0)
          (sameSetup_trans (sameSetup_put _ g) (sameSetup_log_page _ _)))
    · exact lty.trans hty0
    · exact lchk.trans hchk
  · -- the state in which L2TLB is visited
    let xb : State := { miss_prologue x0 with TLB_TYPE := TLB_TYPE_L2TLB, l2check := true,
                                              sim_L2TLB := false }
    obtain ⟨pTLB, psize, pty, prep, pl2, psim, ppg, pchk, phit, pit, pdt, pvas, prand, _⟩ :=
      miss_prologue_frame x0
    have hxbc : ∀ u, u ≠ x.TLB_TYPE → xb.TLBc u = x.TLBc u := fun u hu =>
      miss_prologue_TLBc_other x0 hu
    have hxbcur : xb.cur = x.TLBc 2 := hxbc 2 (Ne.symm hne2)
    have hxbTLB : xb.TLB = x.TLB := pTLB
    have hxbsize : xb.TLB_size = x.TLB_size := psize
    have hxb2 : xb.TLB 2 = x.TLB 2 ∧ xb.TLBc 2 = x.TLBc 2 := ⟨congrFun hxbTLB 2, hxbcur⟩
    obtain ⟨y2, hy2, set2, ty2, l2hit2, chk2, oth2, hitc2, missc2⟩ := sim_leaf_ok 0 addr xb rfl
      (by show (miss_prologue x0).clo_sim_tlb = true; rw [psim]; exact hsim)
      (by show (miss_prologue x0).RepPol = 0 ∨ _; rw [prep]; exact hpol)
      (by rw [hxbcur]
          exact (inRangeAt_congr (s := x) (x := xb) (t := 2) (congrArg tlb_t.geom hxbcur)
            (congrFun hxbsize 2) _).2 hr2)
    rw [hxbcur] at hitc2 missc2
    have hresb : Resident xb 2 (decode_tag (x.TLBc 2) addr) (decode_index (x.TLBc 2) addr) ↔
        Resident x 2 (decode_tag (x.TLBc 2) addr) (decode_index (x.TLBc 2) addr) :=
      resident_congr (s := x) (x := xb) (t := 2) (congrArg tlb_t.geom hxbcur)
        (congrFun hxbTLB 2) _ _
    -- back in the L1 level
    obtain ⟨g1, k1, e1, hz, he10, he11, hg1, hout1, htags1⟩ := lookup_miss_l2 (TLB_simulation 1)
      addr (decode_tag x.cur addr) (decode_index x.cur addr) x0 y2 hl2 hpol hr1 hres hy2 l2hit2
      (set2.pol.trans prep)
      ((set2.geom _).trans (miss_prologue_geom x0 _))
      ((congrFun set2.size _).trans (congrFun psize _))
      (((oth2 _ hne2).1).trans (congrFun pTLB _))
    let yr : State := { y2 with sim_L2TLB := true, l2check := false, TLB_TYPE := x.TLB_TYPE }
    obtain ⟨zgeom, zmiss, zhit, zother, zcur, zsize, zt1, zt2, _, zrep⟩ :=
      put_log_facts (decode_tag x.cur addr) yr g1 k1
    obtain ⟨lTLB, _, lty, _, _, _, _, lchk, _⟩ :=
      log_page_frame (decode_tag x.cur addr) ((yr.put g1).draw k1)
    have zc : ∀ u, u ≠ x.TLB_TYPE →
        (log_page (decode_tag x.cur addr) ((yr.put g1).draw k1)).TLBc u = y2.TLBc u :=
      fun u hu => log_page_TLBc_other _ _ hu
    have zo : ∀ u, u ≠ x.TLB_TYPE →
        (log_page (decode_tag x.cur addr) ((yr.put g1).draw k1)).TLB u = y2.TLB u :=
      fun u hu => zother u hu
    have hy2t1 : y2.t1 = incr_ulong x.t1 := by
      have hb : xb.t1 = incr_ulong x.t1 := by
        show (miss_prologue x0).t1 = _
        rw [miss_prologue_t1, if_pos hty]
      by_cases hr : Resident xb 2 (decode_tag (x.TLBc 2) addr) (decode_index (x.TLBc 2) addr)
      · rw [(hitc2 hr).2.1, hb]
      · have hnb : ¬ (xb.TLB_TYPE = 0 ∨ xb.TLB_TYPE = 1) := by
          show ¬ ((2 : Int) = 0 ∨ (2 : Int) = 1)
          decide
        rw [(missc2 hr).2.1, if_neg hnb, hb]
    have hbt2 : xb.t2 = x.t2 := by
      show (miss_prologue x0).t2 = _
      rw [miss_prologue_t2, if_neg hne2]
    have yst : SameSetup (miss_prologue x0) yr :=
      ⟨set2.geom, set2.size, set2.pol, set2.sim, set2.pages, set2.itlb, set2.dtlb,
        (pl2.trans hl2).symm, set2.vas, set2.oracle⟩
    refine ⟨log_page (decode_tag x.cur addr) ((yr.put g1).draw k1), ?_, ?_, lty, lchk, ?_,
      fun h => absurd h hres, fun _ => ⟨⟨?_, ?_, ?_⟩, ?_, ?_, ?_⟩⟩
    · rw [TLB_simulation_succ, if_pos ⟨hsim, inRange_assoc_ge hr1⟩, hz]
      rfl
    · exact sameSetup_trans (sameSetup_flags x false false)
        (sameSetup_trans (sameSetup_miss_prologue x0)
          (sameSetup_trans yst
            (sameSetup_trans (sameSetup_put_draw yr g1 k1) (sameSetup_log_page _ _))))
    · intro u hu hu2
      refine ⟨?_, ?_⟩
      · rw [zo u hu, (oth2 u hu2).1]; exact congrFun hxbTLB u
      · rw [zc u hu, (oth2 u hu2).2]; exact hxbc u hu
    · rw [zmiss]
      show (y2.TLBc x.TLB_TYPE).miss = _
      rw [(oth2 _ hne2).2]
      show ((miss_prologue x0).TLBc x.TLB_TYPE).miss = _
      rw [miss_prologue_miss, if_pos rfl]
    · rw [zhit]
      show (y2.TLBc x.TLB_TYPE).hit = _
      rw [(oth2 _ hne2).2]
      exact miss_prologue_hit x0 _
    · refine ⟨e1, he10, he11, ?_, ?_, ?_⟩
      · rw [zcur]; exact hg1
      · intro j hj; rw [zcur]; exact htags1 j hj
      · intro j hj; rw [zcur]; exact hout1 j hj
    · exact zt1.trans hy2t1
    · intro hr
      have hf := hitc2 (hresb.2 hr)
      refine ⟨hitFacts_congr (x := xb) (y := y2) ⟨(congrFun hxbTLB 2).symm, hxbcur.symm⟩
        ⟨zo 2 (Ne.symm hne2), zc 2 (Ne.symm hne2)⟩ hf.1, ?_⟩
      exact zt2.trans (hf.2.2.1.trans hbt2)
    · intro hr
      have hf := missc2 (fun h => hr (hresb.1 h))
      refine ⟨missFacts_congr (x := xb) (y := y2) ⟨(congrFun hxbTLB 2).symm, hxbcur.symm⟩
        ⟨zo 2 (Ne.symm hne2), zc 2 (Ne.symm hne2)⟩ hf.1, ?_⟩
      refine zt2.trans (hf.2.2.trans ?_)
      have hb2 : xb.TLB_TYPE = 2 := rfl
      rw [if_pos hb2, hbt2]

/-! ## One call of `reference_address` -/

theorem reference_eq_sim {addr : Nat} {t : Int} {s : State} (h : Routed t s) :
    reference_address addr t s = TLB_simulation 2 addr { s with TLB_TYPE := t } := by
  unfold reference_address
  rcases h with ⟨rfl, hen⟩ | ⟨rfl, hen⟩
  · rw [if_pos ⟨rfl, hen⟩]
    show (TLB_simulation 2 addr { s with TLB_TYPE := 0 }).bind _ = _
    generalize TLB_simulation 2 addr { s with TLB_TYPE := 0 } = r
    cases r with
    | none => rfl
    | some z =>
      simp only [Option.some_bind]
      rw [if_neg (fun h => absurd h.1 (by decide))]
  · rw [if_neg (fun h => absurd h.1 (by decide))]
    simp only [Option.some_bind]
    rw [if_pos ⟨rfl, hen⟩]
    rfl

theorem sameSetup_type (s : State) (t : Int) : SameSetup s { s with TLB_TYPE := t } :=
  ⟨fun _ => rfl, rfl, rfl, rfl, rfl, rfl, rfl, rfl, rfl, rfl⟩

/-- One reference handed to a simulated, in-range L1 level `t`, with an
in-range L2TLB behind it when L2TLB is simulated: the call returns, and the
state afterwards is described case by case. -/
theorem reference_ok (s : State) (addr : Nat) (t : Int) (hrouted : Routed t s)
    (hsim : s.clo_sim_tlb = true) (hpol : s.RepPol = 0 ∨ s.RepPol = 1 ∨ s.RepPol = 2)
    (hr1 : InRangeAt s t (decode_index (s.TLBc t) addr))
    (hr2 : s.sim_L2TLB = true → InRangeAt s 2 (decode_index (s.TLBc 2) addr)) :
    ∃ y, reference_address addr t s = some y ∧ SameSetup s y ∧ y.TLB_TYPE = t ∧
      y.l2check = false ∧ (∀ u, u ≠ t → u ≠ 2 → Untouched s y u) ∧
      (s.sim_L2TLB = false → Untouched s y 2) ∧
      (Resident s t (decode_tag (s.TLBc t) addr) (decode_index (s.TLBc t) addr) →
        HitFacts s y t (scope_lo (s.TLBc t) (decode_index (s.TLBc t) addr))
          (scope_hi (s.TLBc t) (decode_index (s.TLBc t) addr)) ∧
        Untouched s y 2 ∧ y.t1 = s.t1 ∧ y.t2 = s.t2 ∧ y.random_calls = s.random_calls) ∧
      (¬ Resident s t (decode_tag (s.TLBc t) addr) (decode_index (s.TLBc t) addr) →
        MissFacts s y t (scope_lo (s.TLBc t) (decode_index (s.TLBc t) addr))
          (scope_hi (s.TLBc t) (decode_index (s.TLBc t) addr)) (decode_tag (s.TLBc t) addr) ∧
        y.t1 = incr_ulong s.t1 ∧ (s.sim_L2TLB = false → y.t2 = s.t2) ∧
        (s.sim_L2TLB = true →
          (Resident s 2 (decode_tag (s.TLBc 2) addr) (decode_index (s.TLBc 2) addr) →
            HitFacts s y 2 (scope_lo (s.TLBc 2) (decode_index (s.TLBc 2) addr))
              (scope_hi (s.TLBc 2) (decode_index (s.TLBc 2) addr)) ∧ y.t2 = s.t2) ∧
          (¬ Resident s 2 (decode_tag (s.TLBc 2) addr) (decode_index (s.TLBc 2) addr) →
            MissFacts s y 2 (scope_lo (s.TLBc 2) (decode_index (s.TLBc 2) addr))
              (scope_hi (s.TLBc 2) (decode_index (s.TLBc 2) addr))
              (decode_tag (s.TLBc 2) addr) ∧ y.t2 = incr_ulong s.t2))) := by
  have hty : t = 0 ∨ t = 1 := by
    rcases hrouted with h | h
    · exact Or.inl h.1
    · exact Or.inr h.1
  have hne2 : t ≠ 2 := by omega
  rw [reference_eq_sim hrouted]
  let x : State := { s with TLB_TYPE := t }
  by_cases hl2 : s.sim_L2TLB = true
  · obtain ⟨y, hy, hset, hyt, hchk, hoth, hhit, hmiss⟩ := sim_l1_ok addr x hty hl2 hsim hpol hr1
      (hr2 hl2)
    refine ⟨y, hy, sameSetup_trans (sameSetup_type s t) hset, hyt, hchk, hoth,
      fun h => absurd hl2 (by rw [h]; decide), ?_, ?_⟩
    · intro hres
      obtain ⟨a, b, c, d, e⟩ := hhit hres
      exact ⟨hitFacts_congr (x := x) (y := y) ⟨rfl, rfl⟩ ⟨rfl, rfl⟩ a, b, c, d, e⟩
    · intro hres
      obtain ⟨a, b, c, d⟩ := hmiss hres
      refine ⟨missFacts_congr (x := x) (y := y) ⟨rfl, rfl⟩ ⟨rfl, rfl⟩ a, b,
        fun h => absurd hl2 (by rw [h]; decide), fun _ => ⟨?_, ?_⟩⟩
      · intro h2
        exact ⟨hitFacts_congr (x := x) (y := y) ⟨rfl, rfl⟩ ⟨rfl, rfl⟩ (c h2).1, (c h2).2⟩
      · intro h2
        exact ⟨missFacts_congr (x := x) (y := y) ⟨rfl, rfl⟩ ⟨rfl, rfl⟩ (d h2).1, (d h2).2⟩
  · have hl2f : s.sim_L2TLB = false := by
      cases h : s.sim_L2TLB with
      | true => exact absurd h hl2
      | false => rfl
    obtain ⟨y, hy, hset, hyt, _, hchk, hoth, hhit, hmiss⟩ := sim_leaf_ok 1 addr x hl2f hsim hpol hr1
    refine ⟨y, hy, sameSetup_trans (sameSetup_type s t) hset, hyt, hchk,
      fun u hu _ => hoth u hu, fun _ => hoth 2 (Ne.symm hne2), ?_, ?_⟩
    · intro hres
      obtain ⟨a, b, c, d⟩ := hhit hres
      exact ⟨hitFacts_congr (x := x) (y := y) ⟨rfl, rfl⟩ ⟨rfl, rfl⟩ a, hoth 2 (Ne.symm hne2),
        b, c, d⟩
    · intro hres
      obtain ⟨a, b, c⟩ := hmiss hres
      have hxt : x.TLB_TYPE = 0 ∨ x.TLB_TYPE = 1 := hty
      have hx2 : ¬ x.TLB_TYPE = 2 := hne2
      rw [if_pos hxt] at b
      rw [if_neg hx2] at c
      exact ⟨missFacts_congr (x := x) (y := y) ⟨rfl, rfl⟩ ⟨rfl, rfl⟩ a, b, fun _ => c,
        fun h => absurd h hl2⟩

/-- A reference that hits its L1 level: the call returns and only the
bookkeeping of that level changes. -/
theorem reference_hit (s : State) (addr : Nat) (t : Int)
    (hrouted : Routed t s) (hsim : s.clo_sim_tlb = true)
    (hr : InRangeAt s t (decode_index (s.TLBc t) addr))
    (hres : Resident s t (decode_tag (s.TLBc t) addr) (decode_index (s.TLBc t) addr)) :
    ∃ y, reference_address addr t s = some y ∧ y.t1 = s.t1 ∧ y.t2 = s.t2 ∧
      (∀ u, (y.TLBc u).miss = (s.TLBc u).miss) ∧
      (∀ u j, (y.TLB u j).tag = (s.TLB u j).tag) ∧
      (∀ u, u ≠ t → y.TLB u = s.TLB u ∧ y.TLBc u = s.TLBc u) ∧
      (y.TLBc t).hit = incr_int (s.TLBc t).hit ∧ (y.TLBc t).geom = (s.TLBc t).geom ∧
      (∀ j, j < scope_lo (s.TLBc t) (decode_index (s.TLBc t) addr) ∨
          scope_hi (s.TLBc t) (decode_index (s.TLBc t) addr) ≤ j → y.TLB t j = s.TLB t j) := by
  rw [reference_eq_sim hrouted]
  obtain ⟨g, heq, h1, h2⟩ := sim_hit 1 addr { s with TLB_TYPE := t } hsim hr hres
  obtain ⟨a1, a2, a3, a4, _⟩ := hit_state_facts (decode_tag (s.TLBc t) addr)
    { s with TLB_TYPE := t } g _ _ h1 h2
  refine ⟨_, heq, a3, a4, ?_, ?_, a2, a1.hit, ?_, a1.outside⟩
  · intro u
    by_cases hu : u = t
    · rw [hu]; exact a1.miss
    · exact congrArg tlb_t.miss (a2 u hu).2
  · intro u j
    by_cases hu : u = t
    · rw [hu]; exact a1.tags j
    · exact congrArg (fun f => (f j).tag) (a2 u hu).1
  · exact (log_page_geom _ _ _).trans (hit_prologue_geom _ _)

theorem routed_congr {s y : State} (h : SameSetup s y) {t : Int} (hr : Routed t s) :
    Routed t y := by
  unfold Routed at hr ⊢
  rw [h.itlb, h.dtlb]
  exact hr

theorem resident_of_hit {s y : State} {t : Int} {tag idx : Nat}
    (hg : (y.TLBc t).geom = (s.TLBc t).geom) (ht : SameTags (s.TLB t) (y.TLB t))
    (h : Resident s t tag idx) : Resident y t tag idx := by
  obtain ⟨j, h0, h1, h2⟩ := h
  exact ⟨j, by rw [geom_scope_lo hg]; exact h0, by rw [geom_scope_hi hg]; exact h1,
    (ht j).trans h2⟩

/-- A lookup in a state with `sim_L2TLB` false never calls the simulation of
a further level: it does not depend on it. -/
theorem tlb_lookup_leaf_indep (sim sim' : Nat → State → Option State) (a tag idx : Nat)
    (x : State) (hl2 : x.sim_L2TLB = false) :
    tlb_lookup sim a tag idx x = tlb_lookup sim' a tag idx x := by
  have hoff : (miss_prologue x).sim_L2TLB = false := by
    rw [(miss_prologue_frame x).2.2.2.2.1]; exact hl2
  have h1 : l2_descend sim a (miss_prologue x) = some (miss_prologue x) := l2_descend_off hoff
  have h2 : l2_descend sim' a (miss_prologue x) = some (miss_prologue x) := l2_descend_off hoff
  unfold tlb_lookup
  rw [h1, h2]

theorem sim_fuel_leaf (n addr : Nat) (x : State) (hl2 : x.sim_L2TLB = false) :
    TLB_simulation (n + 1) addr x = TLB_simulation 1 addr x := by
  rw [TLB_simulation_succ, TLB_simulation_succ,
    tlb_lookup_leaf_indep (TLB_simulation n) (TLB_simulation 0) addr (decode_tag x.cur addr)
      (decode_index x.cur addr) { x with l2hit := false, l2check := false } hl2]

theorem l2_descend_fuel (n a : Nat) (s : State) :
    l2_descend (TLB_simulation (n + 1)) a s = l2_descend (TLB_simulation 1) a s := by
  unfold l2_descend
  rw [sim_fuel_leaf n a _ rfl]

theorem tlb_lookup_fuel (n a tag idx : Nat) (x : State) :
    tlb_lookup (TLB_simulation (n + 1)) a tag idx x =
      tlb_lookup (TLB_simulation 1) a tag idx x := by
  unfold tlb_lookup
  rw [l2_descend_fuel]

/-- Two levels of calls are all that `TLB_simulation` ever needs. -/
theorem sim_fuel (n addr : Nat) (s : State) :
    TLB_simulation (n + 2) addr s = TLB_simulation 2 addr s := by
  rw [TLB_simulation_succ, TLB_simulation_succ, tlb_lookup_fuel]

theorem core_flags {y z : State} (h : y.core = z.core) :
    y.sim_L2TLB = z.sim_L2TLB ∧ y.l2check = z.l2check ∧ y.TLB_TYPE = z.TLB_TYPE := by
  have a := congrArg State.sim_L2TLB h
  have b := congrArg State.l2check h
  have c := congrArg State.TLB_TYPE h
  exact ⟨a, b, c⟩

/-- The context in which a simulation returns. -/
theorem sim_context {addr : Nat} {x y : State} (h : TLB_simulation 2 addr x = some y) :
    y.sim_L2TLB = x.sim_L2TLB ∧ y.l2check = false ∧ y.TLB_TYPE = x.TLB_TYPE := by
  have hlog : ∀ (tag : Nat) (z : State), y.core = (log_page tag z).core →
      y.sim_L2TLB = z.sim_L2TLB ∧ y.l2check = z.l2check ∧ y.TLB_TYPE = z.TLB_TYPE := by
    intro tag z hz
    obtain ⟨a, b, c⟩ := core_flags hz
    obtain ⟨_, _, f3, _, f5, _, _, f8, _⟩ := log_page_frame tag z
    exact ⟨a.trans f5, b.trans f8, c.trans f3⟩
  have hhit : ∀ z : State, (hit_prologue z).sim_L2TLB = z.sim_L2TLB ∧
      (hit_prologue z).l2check = z.l2check ∧ (hit_prologue z).TLB_TYPE = z.TLB_TYPE := by
    intro z
    obtain ⟨_, _, f3, _, f5, _, _, f8, _⟩ := hit_prologue_frame z
    exact ⟨f5, f8, f3⟩
  have hmiss : ∀ z : State, (miss_prologue z).sim_L2TLB = z.sim_L2TLB ∧
      (miss_prologue z).l2check = z.l2check ∧ (miss_prologue z).TLB_TYPE = z.TLB_TYPE := by
    intro z
    obtain ⟨_, _, f3, _, f5, _, _, f8, _⟩ := miss_prologue_frame z
    exact ⟨f5, f8, f3⟩
  by_cases hl2 : x.sim_L2TLB = true
  · rcases sim_l1_cases h hl2 with ⟨_, hy⟩ | ⟨_, hy | ⟨w, _, hy⟩⟩
    · exact hlog _ _ hy
    · obtain ⟨a, b, c⟩ := hlog _ _ hy
      obtain ⟨a2, b2, c2⟩ := hhit { x with l2hit := false, l2check := false }
      exact ⟨a.trans a2, b.trans b2, c.trans c2⟩
    · obtain ⟨a, b, c⟩ := hlog _ _ hy
      exact ⟨a.trans hl2.symm, b, c⟩
  · have hl2f : x.sim_L2TLB = false := by
      cases hx : x.sim_L2TLB with
      | true => exact absurd hx hl2
      | false => rfl
    rcases sim_leaf_cases h hl2f with ⟨_, hy⟩ | ⟨_, hy | hy⟩
    · exact hlog _ _ hy
    · obtain ⟨a, b, c⟩ := hlog _ _ hy
      obtain ⟨a2, b2, c2⟩ := hhit { x with l2hit := false, l2check := false }
      exact ⟨a.trans a2, b.trans b2, c.trans c2⟩
    · obtain ⟨a, b, c⟩ := hlog _ _ hy
      obtain ⟨a2, b2, c2⟩ := hmiss { x with l2hit := false, l2check := false }
      exact ⟨a.trans a2, b.trans b2, c.trans c2⟩

/-! ## Levels that a reference is not handed to -/

theorem view_of_frame {u : Int} {s x : State} (hty : x.TLB_TYPE = s.TLB_TYPE)
    (hTLB : x.TLB = s.TLB) (hc : ∀ v, v ≠ s.TLB_TYPE → x.TLBc v = s.TLBc v) :
    x.view u = s.view u := by
  unfold State.view
  rw [hty, hTLB]
  by_cases hu : s.TLB_TYPE = u
  · rw [if_pos hu, if_pos hu]
  · rw [if_neg hu, if_neg hu, hc u (Ne.symm hu)]

theorem view_hit_prologue (u : Int) (s : State) : (hit_prologue s).view u = s.view u :=
  view_of_frame (hit_prologue_frame s).2.2.1 (hit_prologue_frame s).1
    (fun _ hv => hit_prologue_TLBc_other s hv)

theorem view_miss_prologue (u : Int) (s : State) : (miss_prologue s).view u = s.view u :=
  view_of_frame (miss_prologue_frame s).2.2.1 (miss_prologue_frame s).1
    (fun _ hv => miss_prologue_TLBc_other s hv)

theorem view_log_page (u : Int) (tag : Nat) (s : State) : (log_page tag s).view u = s.view u :=
  view_of_frame (log_page_frame tag s).2.2.1 (log_page_frame tag s).1
    (fun _ hv => log_page_TLBc_other tag s hv)

theorem view_some {u : Int} {s : State} (h : s.TLB_TYPE ≠ u) :
    s.view u = some (s.TLB u, s.TLBc u) := by
  unfold State.view
  rw [if_neg h]

/-- A simulation that consults no L2TLB leaves every other level alone. -/
theorem sim_leaf_view {n addr : Nat} {x y : State} (u : Int)
    (h : TLB_simulation (n + 1) addr x = some y) (hl2 : x.sim_L2TLB = false) :
    y.view u = x.view u := by
  rw [TLB_simulation_succ] at h
  by_cases hc : x.clo_sim_tlb = true ∧ -1 ≤ x.cur.assoc
  · rw [if_pos hc] at h
    simp only [Option.map_eq_some'] at h
    obtain ⟨w, hw, rfl⟩ := h
    rw [view_log_page]
    rcases tlb_lookup_cases_stable (stable_view u) hw hc.2 with h1 | ⟨s3, h3, h4⟩
    · rw [h1, view_hit_prologue]; rfl
    · have hoff : (miss_prologue { x with l2hit := false, l2check := false }).sim_L2TLB = false := by
        rw [(miss_prologue_frame _).2.2.2.2.1]; exact hl2
      rw [l2_descend_off hoff] at h3
      simp only [Option.some.injEq] at h3
      rw [h4, ← h3, view_miss_prologue]; rfl
  · rw [if_neg hc] at h
    simp only [Option.map_some', Option.some.injEq] at h
    rw [← h, view_log_page]; rfl

/-- A simulation on an L1 level leaves every level but that one and L2TLB
alone. -/
theorem sim_l1_view {addr : Nat} {x y : State} (u : Int) (hu2 : u ≠ 2)
    (h : TLB_simulation 2 addr x = some y) : y.view u = x.view u := by
  by_cases hl2 : x.sim_L2TLB = true
  · rw [TLB_simulation_succ] at h
    by_cases hc : x.clo_sim_tlb = true ∧ -1 ≤ x.cur.assoc
    · rw [if_pos hc] at h
      simp only [Option.map_eq_some'] at h
      obtain ⟨w, hw, rfl⟩ := h
      rw [view_log_page]
      rcases tlb_lookup_cases_stable (stable_view u) hw hc.2 with h1 | ⟨s3, h3, h4⟩
      · rw [h1, view_hit_prologue]; rfl
      · have hon : (miss_prologue { x with l2hit := false, l2check := false }).sim_L2TLB = true := by
          rw [(miss_prologue_frame _).2.2.2.2.1]; exact hl2
        obtain ⟨y2, hy2, rfl⟩ := l2_descend_on hon h3
        have hv := sim_leaf_view u hy2 rfl
        have hty := (sim_leaf_flags hy2 rfl).2
        have hb : ¬ (2 : Int) = u := fun e => hu2 e.symm
        rw [view_some (by rw [hty]; exact hb), view_some hb] at hv
        simp only [Option.some.injEq, Prod.mk.injEq] at hv
        have e1 : y2.TLB u = (miss_prologue { x with l2hit := false, l2check := false }).TLB u :=
          hv.1
        have e2 : y2.TLBc u = (miss_prologue { x with l2hit := false, l2check := false }).TLBc u :=
          hv.2
        have e3 : x.view u =
            (miss_prologue { x with l2hit := false, l2check := false }).view u :=
          (view_miss_prologue u { x with l2hit := false, l2check := false }).symm
        rw [h4, e3]
        unfold State.view
        dsimp only
        rw [e1, e2]
    · rw [if_neg hc] at h
      simp only [Option.map_some', Option.some.injEq] at h
      rw [← h, view_log_page]; rfl
  · have hl2f : x.sim_L2TLB = false := by
      cases hx : x.sim_L2TLB with
      | true => exact absurd hx hl2
      | false => rfl
    exact sim_leaf_view u h hl2f

/-- A reference of kind `dt` leaves every level but `dt` and L2TLB alone. -/
theorem reference_view {addr : Nat} {dt u : Int} {s y : State}
    (h : reference_address addr dt s = some y) (hu : u ≠ dt) (hu2 : u ≠ 2) :
    y.TLB u = s.TLB u ∧ y.TLBc u = s.TLBc u := by
  have hsim : ∀ z : State, TLB_simulation 2 addr { s with TLB_TYPE := dt } = some z →
      z.TLB u = s.TLB u ∧ z.TLBc u = s.TLBc u := by
    intro z hz
    have hv := sim_l1_view u hu2 hz
    have hty := (sim_context hz).2.2
    have hb : ¬ dt = u := fun e => hu e.symm
    rw [view_some (by rw [hty]; exact hb), view_some (s := { s with TLB_TYPE := dt }) hb] at hv
    simp only [Option.some.injEq, Prod.mk.injEq] at hv
    exact hv
  by_cases hrouted : Routed dt s
  · rw [reference_eq_sim hrouted] at h
    exact hsim y h
  · unfold reference_address at h
    unfold Routed at hrouted
    rw [if_neg (show ¬ (dt = TLB_TYPE_ITLB ∧ s.sim_iTLB = true) from
      fun hh => hrouted (Or.inl hh))] at h
    simp only [Option.some_bind] at h
    rw [if_neg (show ¬ (dt = TLB_TYPE_DTLB ∧ s.sim_dTLB = true) from
      fun hh => hrouted (Or.inr hh))] at h
    simp only [Option.some.injEq] at h
    rw [← h]
    exact ⟨rfl, rfl⟩

theorem reference_not_routed {addr : Nat} {dt : Int} {s : State} (h : ¬ Routed dt s) :
    reference_address addr dt s = some s := by
  unfold reference_address
  unfold Routed at h
  rw [if_neg (show ¬ (dt = TLB_TYPE_ITLB ∧ s.sim_iTLB = true) from fun hh => h (Or.inl hh))]
  simp only [Option.some_bind]
  rw [if_neg (show ¬ (dt = TLB_TYPE_DTLB ∧ s.sim_dTLB = true) from fun hh => h (Or.inr hh))]

/-! ## The page list -/

theorem bump_page_none {v : Nat} : ∀ {l : List PAGES},
    bump_page v l = none ↔ v ∉ l.map PAGES.tag := by
  intro l
  induction l with
  | nil => simp [bump_page]
  | cons p ps ih =>
    unfold bump_page
    by_cases h : p.tag = v
    · rw [if_pos h]
      simp [h]
    · rw [if_neg h]
      simp only [Option.map_eq_none', ih, List.map_cons, List.mem_cons, not_or]
      constructor
      · intro h2; exact ⟨fun e => h e.symm, h2⟩
      · intro h2; exact h2.2

/-- A value that already has a node: the first node with that value is
counted once more and nothing moves. -/
theorem bump_page_some {v : Nat} : ∀ {l l' : List PAGES}, bump_page v l = some l' →
    l'.map PAGES.tag = l.map PAGES.tag ∧ l'.length = l.length ∧
      ((l.map PAGES.tag).Nodup →
        l' = l.map fun p => if p.tag = v then { p with count := p.count + 1 } else p) := by
  intro l
  induction l with
  | nil => intro l' h; simp [bump_page] at h
  | cons p ps ih =>
    intro l' h
    unfold bump_page at h
    by_cases hp : p.tag = v
    · rw [if_pos hp] at h
      simp only [Option.some.injEq] at h
      subst h
      refine ⟨by simp, by simp, ?_⟩
      intro hnd
      simp only [List.map_cons, hp, if_true, List.cons.injEq, true_and]
      rw [List.map_cons, List.nodup_cons] at hnd
      have hid : (ps.map fun q => if q.tag = v then { q with count := q.count + 1 } else q) =
          ps.map id := by
        apply List.map_congr_left
        intro q hq
        rw [if_neg]
        · rfl
        · intro hq2
          exact hnd.1 (by rw [hp, ← hq2]; exact List.mem_map_of_mem _ hq)
      rw [hid, List.map_id]
    · rw [if_neg hp] at h
      simp only [Option.map_eq_some'] at h
      obtain ⟨qs, hqs, rfl⟩ := h
      obtain ⟨a, b, c⟩ := ih hqs
      refine ⟨by simp [a], by simp [b], ?_⟩
      intro hnd
      rw [List.map_cons, List.nodup_cons] at hnd
      simp only [List.map_cons, if_neg hp, List.cons.injEq, true_and]
      exact c hnd.2

theorem first_seen_snoc (seen : List Nat) (v : Nat) :
    first_seen (seen ++ [v]) =
      if v ∈ first_seen seen then first_seen seen else first_seen seen ++ [v] := by
  unfold first_seen
  rw [List.foldl_append]
  rfl

theorem mem_first_seen (seen : List Nat) (v : Nat) : v ∈ first_seen seen ↔ v ∈ seen := by
  induction seen using List.reverseRecOn with
  | nil => simp [first_seen]
  | append_singleton l a ih =>
    rw [first_seen_snoc]
    by_cases h : a ∈ first_seen l
    · rw [if_pos h]
      simp only [List.mem_append, List.mem_singleton]
      constructor
      · intro h2; exact Or.inl (ih.mp h2)
      · rintro (h2 | h2)
        · exact ih.mpr h2
        · rw [h2]; exact h
    · rw [if_neg h]
      simp only [List.mem_append, List.mem_singleton, ih]

theorem nodup_first_seen (seen : List Nat) : (first_seen seen).Nodup := by
  induction seen using List.reverseRecOn with
  | nil => simp [first_seen]
  | append_singleton l a ih =>
    rw [first_seen_snoc]
    by_cases h : a ∈ first_seen l
    · rw [if_pos h]; exact ih
    · rw [if_neg h]
      exact List.Nodup.append ih (List.nodup_singleton a) (by
        intro x hx hx2
        rw [List.mem_singleton] at hx2
        exact h (hx2 ▸ hx))

theorem logged_nil : Logged [] 0 [] :=
  ⟨by simp [first_seen], by simp, by simp⟩

theorem logged_tags_nodup {l : List PAGES} {n : Int} {seen : List Nat} (h : Logged l n seen) :
    (l.map PAGES.tag).Nodup := by
  rw [h.order]
  exact List.nodup_reverse.mpr (nodup_first_seen seen)

theorem logged_mem {l : List PAGES} {n : Int} {seen : List Nat} (h : Logged l n seen) (v : Nat) :
    v ∈ l.map PAGES.tag ↔ v ∈ seen := by
  rw [h.order, List.mem_reverse, mem_first_seen]

/-- One `add_page` on a list that records `seen`. -/
theorem logged_step {l : List PAGES} {n : Int} {seen : List Nat} (h : Logged l n seen) (v : Nat) :
    (∀ l', bump_page v l = some l' → Logged l' n (seen ++ [v])) ∧
    (bump_page v l = none → Logged ({ tag := v, count := 1 } :: l) (n + 1) (seen ++ [v])) := by
  constructor
  · intro l' hb
    obtain ⟨a, b, c⟩ := bump_page_some hb
    have hmem : v ∈ l.map PAGES.tag := by
      by_contra hc
      rw [bump_page_none.mpr hc] at hb
      simp at hb
    refine ⟨?_, ?_, ?_⟩
    · rw [a, h.order, first_seen_snoc, if_pos ((mem_first_seen _ _).mpr ((logged_mem h v).mp hmem))]
    · rw [c (logged_tags_nodup h)]
      intro p hp
      rw [List.mem_map] at hp
      obtain ⟨q, hq, rfl⟩ := hp
      by_cases hqv : q.tag = v
      · rw [if_pos hqv]
        simp only [List.count_append, h.counts q hq, hqv]
        simp
      · rw [if_neg hqv]
        simp only [List.count_append, h.counts q hq]
        have hne : ¬ v = q.tag := fun e => hqv e.symm
        rw [List.count_singleton]
        simp [hne]
    · rw [b]; exact h.total
  · intro hb
    have hmem : v ∉ l.map PAGES.tag := bump_page_none.mp hb
    have hseen : v ∉ seen := fun hs => hmem ((logged_mem h v).mpr hs)
    refine ⟨?_, ?_, ?_⟩
    · rw [first_seen_snoc, if_neg (fun hs => hseen ((mem_first_seen _ _).mp hs)),
        List.reverse_append, List.map_cons, h.order]
      rfl
    · intro p hp
      rw [List.mem_cons] at hp
      rcases hp with rfl | hp
      · simp [List.count_eq_zero_of_not_mem hseen]
      · have hne : v ≠ p.tag := fun e => hmem (e ▸ List.mem_map_of_mem _ hp)
        simp only [List.count_append, h.counts p hp]
        rw [List.count_singleton]
        simp [hne]
    · rw [h.total]; simp

theorem setCur_cur (s : State) (c : tlb_t) : (s.setCur c).cur = c := by
  simp [State.setCur, State.cur, upd]

/-- One `add_page` on a level whose list records `seen`. -/
theorem add_page_logged (s : State) (seen : List Nat) (v : Nat)
    (h : Logged s.cur.page_ptr s.cur.total_pages seen) :
    Logged (add_page v s).cur.page_ptr (add_page v s).cur.total_pages (seen ++ [v]) := by
  obtain ⟨h1, h2⟩ := logged_step h v
  unfold add_page
  cases hb : bump_page v s.cur.page_ptr with
  | none =>
    simp only [setCur_cur]
    exact h2 hb
  | some ps =>
    simp only [setCur_cur]
    exact h1 ps hb

theorem add_pages_snoc (vals : List Nat) (v : Nat) (s : State) :
    add_pages (vals ++ [v]) s = add_page v (add_pages vals s) := by
  unfold add_pages
  rw [List.foldl_append]
  rfl

/-- A sequence of `add_page` calls on a level whose list is empty. -/
theorem add_pages_logged (vals : List Nat) (s : State) (h0 : s.cur.page_ptr = [])
    (h1 : s.cur.total_pages = 0) :
    Logged (add_pages vals s).cur.page_ptr (add_pages vals s).cur.total_pages vals := by
  induction vals using List.reverseRecOn with
  | nil =>
    show Logged s.cur.page_ptr s.cur.total_pages []
    rw [h0, h1]
    exact logged_nil
  | append_singleton l a ih =>
    rw [add_pages_snoc]
    exact add_page_logged _ l a ih

theorem alone_congr {s y : State} {t : Int} (h : SameSetup s y) (ha : Alone s t) : Alone y t :=
  ⟨routed_congr h ha.routed, h.sim.trans ha.sim, by rw [h.pol]; exact ha.pol,
    h.l2tlb.trans ha.l2, by rw [h.size]; exact ha.limit⟩

/-- One reference handed to a simulated, in-range L1 level that has no L2TLB
behind it. -/
theorem reference_alone (s : State) (addr : Nat) (t : Int) (ha : Alone s t)
    (hr1 : InRangeAt s t (decode_index (s.TLBc t) addr)) :
    ∃ y, reference_address addr t s = some y ∧ SameSetup s y ∧
      (Resident s t (decode_tag (s.TLBc t) addr) (decode_index (s.TLBc t) addr) →
        HitFacts s y t (scope_lo (s.TLBc t) (decode_index (s.TLBc t) addr))
          (scope_hi (s.TLBc t) (decode_index (s.TLBc t) addr))) ∧
      (¬ Resident s t (decode_tag (s.TLBc t) addr) (decode_index (s.TLBc t) addr) →
        MissFacts s y t (scope_lo (s.TLBc t) (decode_index (s.TLBc t) addr))
          (scope_hi (s.TLBc t) (decode_index (s.TLBc t) addr)) (decode_tag (s.TLBc t) addr)) := by
  obtain ⟨y, hy, hs, _, _, _, _, hhit, hmiss⟩ := reference_ok s addr t ha.routed ha.sim ha.pol hr1
    (fun h => by rw [ha.l2] at h; exact absurd h (by decide))
  exact ⟨y, hy, hs, fun h => (hhit h).1, fun h => (hmiss h).1⟩

theorem run_cons (a : Nat) (t : Int) (rest : List Nat) (s : State) :
    run ((a :: rest).map fun b => (b, t)) s =
      (reference_address a t s).bind (run (rest.map fun b => (b, t))) := rfl

theorem run_snoc (t : Int) : ∀ (pre : List Nat) (a : Nat) (s x : State),
    run (pre.map fun b => (b, t)) s = some x →
    run ((pre ++ [a]).map fun b => (b, t)) s = reference_address a t x := by
  intro pre
  induction pre with
  | nil =>
    intro a s x h
    have hx : s = x := by simpa [run] using h
    subst hx
    show (reference_address a t s).bind (run []) = _
    cases reference_address a t s <;> rfl
  | cons b rest ih =>
    intro a s x h
    rw [run_cons] at h
    show (reference_address b t s).bind (run ((rest ++ [a]).map fun b => (b, t))) = _
    cases hb : reference_address b t s with
    | none => rw [hb] at h; simp at h
    | some y =>
      rw [hb] at h
      exact ih a y x h

/-! ### Fully associative level: tags that are not resident -/

/-- A trace of pairwise distinct tags, none of them resident, on a fully
associative level without L2TLB: every reference misses, whatever the
replacement policy and the random numbers. -/
theorem fa_new_tags_miss (t : Int) : ∀ (trace : List Nat) (s : State), Alone s t →
    (s.TLBc t).assoc = -1 → 0 < (s.TLBc t).entries → (s.TLBc t).entries ≤ s.TLB_size t →
    (trace.map (decode_tag (s.TLBc t))).Nodup →
    (∀ a ∈ trace, ∀ j, 0 ≤ j → j < (s.TLBc t).entries →
      (s.TLB t j).tag ≠ decode_tag (s.TLBc t) a) →
    ∃ y, run (trace.map fun a => (a, t)) s = some y ∧ SameSetup s y ∧
      (y.TLBc t).miss = incr_int^[trace.length] (s.TLBc t).miss ∧
      (y.TLBc t).hit = (s.TLBc t).hit ∧
      (∀ j, (y.TLB t j).tag = (s.TLB t j).tag ∨
        ∃ a ∈ trace, (y.TLB t j).tag = decode_tag (s.TLBc t) a) ∧
      (∀ a, trace.getLast? = some a →
        ∃ j, 0 ≤ j ∧ j < (s.TLBc t).entries ∧ (y.TLB t j).tag = decode_tag (s.TLBc t) a) := by
  intro trace
  induction trace with
  | nil =>
    intro s _ _ _ _ _ _
    exact ⟨s, rfl, sameSetup_refl s, rfl, rfl, fun j => Or.inl rfl, fun a h => by simp at h⟩
  | cons a rest ih =>
    intro s hal hfa he0 he1 hnd hnew
    have hidx : decode_index (s.TLBc t) a = 0 := by unfold decode_index; rw [if_pos hfa]
    have hr1 : InRangeAt s t (decode_index (s.TLBc t) a) :=
      ⟨hal.limit, Or.inl ⟨hfa, he0, he1⟩⟩
    obtain ⟨y1, hy1, hs1, _, hmiss⟩ := reference_alone s a t hal hr1
    have hlo := (scope_fa hfa (decode_index (s.TLBc t) a : Nat)).1
    have hhi := (scope_fa hfa (decode_index (s.TLBc t) a : Nat)).2
    have hnr : ¬ Resident s t (decode_tag (s.TLBc t) a) (decode_index (s.TLBc t) a) := by
      rintro ⟨j, h0, h1, h2⟩
      rw [hlo] at h0
      rw [hhi] at h1
      exact hnew a (List.mem_cons_self _ _) j h0 h1 h2
    obtain ⟨hm, hh, e, hel, heh, hetag, hother, _⟩ := hmiss hnr
    rw [hlo] at hel
    rw [hhi] at heh
    have hg := hs1.geom t
    have hdt : ∀ b, decode_tag (y1.TLBc t) b = decode_tag (s.TLBc t) b :=
      fun b => geom_decode_tag hg b
    have hent : (y1.TLBc t).entries = (s.TLBc t).entries := geom_entries hg
    rw [List.map_cons, List.nodup_cons] at hnd
    have hnd1 : (rest.map (decode_tag (y1.TLBc t))).Nodup := by
      have e1 : rest.map (decode_tag (y1.TLBc t)) = rest.map (decode_tag (s.TLBc t)) :=
        List.map_congr_left fun b _ => hdt b
      rw [e1]; exact hnd.2
    have hnew1 : ∀ b ∈ rest, ∀ j, 0 ≤ j → j < (y1.TLBc t).entries →
        (y1.TLB t j).tag ≠ decode_tag (y1.TLBc t) b := by
      intro b hb j h0 h1
      rw [hdt b]
      by_cases hje : j = e
      · rw [hje, hetag]
        intro heq
        exact hnd.1 (heq ▸ List.mem_map_of_mem _ hb)
      · rw [hother j hje]
        rw [hent] at h1
        exact hnew b (List.mem_cons_of_mem _ hb) j h0 h1
    obtain ⟨y, hy, hs, hmy, hhy, htags, hlast⟩ := ih y1 (alone_congr hs1 hal)
      ((geom_assoc hg).trans hfa) (by rw [hent]; exact he0)
      (by rw [hent, hs1.size]; exact he1) hnd1 hnew1
    refine ⟨y, ?_, sameSetup_trans hs1 hs, ?_, ?_, ?_, ?_⟩
    · rw [run_cons, hy1]; exact hy
    · rw [hmy, hm, List.length_cons, Function.iterate_succ_apply]
    · rw [hhy, hh]
    · intro j
      rcases htags j with h | ⟨b, hb, h⟩
      · by_cases hje : j = e
        · right
          exact ⟨a, List.mem_cons_self _ _, by rw [h, hje, hetag]⟩
        · left
          rw [h, hother j hje]
      · right
        exact ⟨b, List.mem_cons_of_mem _ hb, by rw [h, hdt b]⟩
    · intro b hb
      cases rest with
      | nil =>
        have hba : a = b := by simpa using hb
        subst hba
        have hyy : y = y1 := by simpa [run] using hy.symm
        subst hyy
        exact ⟨e, hel, heh, hetag⟩
      | cons c rest2 =>
        rw [List.getLast?_cons_cons] at hb
        obtain ⟨j, h0, h1, h2⟩ := hlast b hb
        exact ⟨j, h0, by rw [← hent]; exact h1, by rw [h2, hdt b]⟩

/-! ### Direct-mapped level -/

theorem directMapped_congr {s y : State} {t : Int} {k m : Nat} {c0 c : tlb_t}
    (h : SameSetup s y) (hd : DirectMapped s t k m c0 c) : DirectMapped y t k m c0 c :=
  ⟨by rw [h.vas]; exact hd.init, (h.geom t).trans hd.geom, hd.page, hd.assoc, hd.entries,
    hd.hk, hd.hm, by rw [h.vas]; exact hd.vas_pos, by rw [h.vas]; exact hd.vas_lim,
    by rw [h.size]; exact hd.cells⟩

/-- Decoding and scope of an address on a direct-mapped level. -/
theorem dm_level_facts {s : State} {t : Int} {k m : Nat} {c0 c : tlb_t} {a : Nat}
    (hd : DirectMapped s t k m c0 c) (ha : a < 2 ^ s.VAS_SIZE.toNat) :
    (s.TLBc t).assoc = 0 ∧ (s.TLBc t).entries = 2 ^ m ∧
      decode_tag (s.TLBc t) a = (a / 2 ^ k) / 2 ^ m ∧
      scope_lo (s.TLBc t) (decode_index (s.TLBc t) a) = (((a / 2 ^ k) % 2 ^ m : Nat) : Int) ∧
      scope_hi (s.TLBc t) (decode_index (s.TLBc t) a) =
        (((a / 2 ^ k) % 2 ^ m : Nat) : Int) + 1 := by
  obtain ⟨hce, hca, _, _⟩ := init_level_entries hd.init
  have hassoc : (s.TLBc t).assoc = 0 := ((geom_assoc hd.geom).trans hca).trans hd.assoc
  have hent : (s.TLBc t).entries = 2 ^ m := ((geom_entries hd.geom).trans hce).trans hd.entries
  obtain ⟨_, hslot, htag⟩ := dm_decode_spec hd.page hd.hk hd.assoc hd.entries hd.hm hd.vas_pos
    hd.vas_lim hd.init ha
  have hcent : c.entries = 2 ^ m := hce.trans hd.entries
  have hpow : (2 : Int) ^ m ≤ 2 ^ 30 := pow_le_pow_right₀ (by norm_num) hd.hm
  have hcast := @dm_slot_cast (decode_index c a) c.entries
    (by rw [hcent]; positivity) (by rw [hcent]; norm_num at hpow ⊢; omega)
  have hidx : decode_index (s.TLBc t) a = decode_index c a := geom_decode_index hd.geom a
  have hlo : scope_lo (s.TLBc t) (decode_index (s.TLBc t) a) =
      (((a / 2 ^ k) % 2 ^ m : Nat) : Int) := by
    rw [(scope_dm hassoc _).1, hidx, hent, ← hcent, ← hcast, hslot]
  refine ⟨hassoc, hent, (geom_decode_tag hd.geom a).trans htag, hlo, ?_⟩
  rw [(scope_dm hassoc _).2, ← (scope_dm hassoc _).1, hlo]

/-- One reference on a direct-mapped level without L2TLB: it hits when the
slot of the page holds the tag of the page and misses otherwise, and the slot
holds that tag afterwards. -/
theorem dm_step {s : State} {t : Int} {k m : Nat} {c0 c : tlb_t} (a : Nat) (hal : Alone s t)
    (hd : DirectMapped s t k m c0 c) (ha : a < 2 ^ s.VAS_SIZE.toNat) :
    ∃ y, reference_address a t s = some y ∧ SameSetup s y ∧
      (∀ i : Nat, (y.TLB t i).tag =
        if (a / 2 ^ k) % 2 ^ m = i then (a / 2 ^ k) / 2 ^ m else (s.TLB t i).tag) ∧
      ((s.TLB t ((a / 2 ^ k) % 2 ^ m : Nat)).tag = (a / 2 ^ k) / 2 ^ m →
        (y.TLBc t).hit = incr_int (s.TLBc t).hit ∧ (y.TLBc t).miss = (s.TLBc t).miss) ∧
      ((s.TLB t ((a / 2 ^ k) % 2 ^ m : Nat)).tag ≠ (a / 2 ^ k) / 2 ^ m →
        (y.TLBc t).miss = incr_int (s.TLBc t).miss ∧ (y.TLBc t).hit = (s.TLBc t).hit) := by
  obtain ⟨hassoc, hent, htag, hlo, hhi⟩ := dm_level_facts hd ha
  have hr1 : InRangeAt s t (decode_index (s.TLBc t) a) :=
    ⟨hal.limit, Or.inr (Or.inl ⟨hassoc, by rw [hent]; positivity, by rw [hent]; exact hd.cells⟩)⟩
  obtain ⟨y, hy, hs, hhit, hmiss⟩ := reference_alone s a t hal hr1
  rw [hlo, hhi, htag] at hhit hmiss
  refine ⟨y, hy, hs, ?_⟩
  by_cases hres : (s.TLB t ((a / 2 ^ k) % 2 ^ m : Nat)).tag = (a / 2 ^ k) / 2 ^ m
  · have hr : Resident s t ((a / 2 ^ k) / 2 ^ m) (decode_index (s.TLBc t) a) :=
      ⟨_, by rw [hlo], by rw [hhi]; omega, hres⟩
    have hf := hhit hr
    refine ⟨fun i => ?_, fun _ => ⟨hf.hit, hf.miss⟩, fun h => absurd hres h⟩
    rw [hf.tags]
    split
    · next h => rw [← h]; exact hres
    · rfl
  · have hr : ¬ Resident s t ((a / 2 ^ k) / 2 ^ m) (decode_index (s.TLBc t) a) := by
      rintro ⟨j, h0, h1, h2⟩
      rw [hlo] at h0
      rw [hhi] at h1
      have hj : j = (((a / 2 ^ k) % 2 ^ m : Nat) : Int) := by omega
      rw [hj] at h2
      exact hres h2
    have hf := hmiss hr
    obtain ⟨e, he0, he1, hetag, hother, _⟩ := hf.installed
    have he : e = (((a / 2 ^ k) % 2 ^ m : Nat) : Int) := by omega
    refine ⟨fun i => ?_, fun h => absurd h hres, fun _ => ⟨hf.miss, hf.hit⟩⟩
    split
    · next h => rw [← h, ← he]; exact hetag
    · next h =>
      apply hother
      rw [he]
      intro hh
      exact h (by exact_mod_cast hh.symm)

theorem last_in_slot_slot (k m i : Nat) : ∀ (pre : List Nat) (v : Nat),
    last_in_slot k m i pre = some v → v % 2 ^ m = i := by
  intro pre
  induction pre with
  | nil => intro v h; simp [last_in_slot] at h
  | cons b rest ih =>
    intro v h
    unfold last_in_slot at h
    cases hr : last_in_slot k m i rest with
    | some w =>
      rw [hr] at h
      simp only [Option.some.injEq] at h
      rw [← h]; exact ih w hr
    | none =>
      rw [hr] at h
      simp only at h
      split at h
      · next hb =>
        simp only [Option.some.injEq] at h
        rw [← h]; exact hb
      · simp at h

/-- The slots of a direct-mapped level after a trace: a slot that the trace
referenced holds the tag of the last page referenced in it, the other slots
hold what they held before. -/
theorem dm_run (t : Int) (k m : Nat) (c0 c : tlb_t) : ∀ (pre : List Nat) (s : State),
    Alone s t → DirectMapped s t k m c0 c → (∀ b ∈ pre, b < 2 ^ s.VAS_SIZE.toNat) →
    ∃ x, run (pre.map fun b => (b, t)) s = some x ∧ SameSetup s x ∧
      ∀ i : Nat, (∀ v, last_in_slot k m i pre = some v → (x.TLB t i).tag = v / 2 ^ m) ∧
        (last_in_slot k m i pre = none → (x.TLB t i).tag = (s.TLB t i).tag) := by
  intro pre
  induction pre with
  | nil =>
    intro s _ _ _
    exact ⟨s, rfl, sameSetup_refl s, fun i => ⟨fun v h => by simp [last_in_slot] at h,
      fun _ => rfl⟩⟩
  | cons b rest ih =>
    intro s hal hd hpre
    obtain ⟨y1, hy1, hs1, htags, _, _⟩ := dm_step b hal hd (hpre b (List.mem_cons_self _ _))
    obtain ⟨x, hx, hsx, hinv⟩ := ih y1 (alone_congr hs1 hal) (directMapped_congr hs1 hd)
      (fun b2 hb2 => by rw [hs1.vas]; exact hpre b2 (List.mem_cons_of_mem _ hb2))
    refine ⟨x, by rw [run_cons, hy1]; exact hx, sameSetup_trans hs1 hsx, fun i => ?_⟩
    obtain ⟨hsome, hnone⟩ := hinv i
    unfold last_in_slot
    cases hr : last_in_slot k m i rest with
    | some w =>
      refine ⟨fun v h => ?_, fun h => by simp at h⟩
      simp only [Option.some.injEq] at h
      rw [← h]; exact hsome w hr
    | none =>
      have hxi := hnone hr
      rw [htags i] at hxi
      by_cases hb : (b / 2 ^ k) % 2 ^ m = i
      · simp only [if_pos hb] at hxi ⊢
        refine ⟨fun v h => ?_, fun h => by simp at h⟩
        simp only [Option.some.injEq] at h
        rw [← h]; exact hxi
      · simp only [if_neg hb] at hxi ⊢
        exact ⟨fun v h => by simp at h, fun _ => hxi⟩

/-! ## The LRU policy over a trace -/

theorem mem_takeWhile_ne (u : Nat) : ∀ (L : List Nat) (x : Nat),
    x ∈ L.takeWhile (fun y => decide (y ≠ u)) ↔ x ∈ L ∧ L.indexOf x < L.indexOf u := by
  intro L
  induction L with
  | nil => intro x; simp
  | cons b rest ih =>
    intro x
    by_cases hb : b = u
    · subst hb
      rw [List.takeWhile_cons_of_neg (by simp), List.indexOf_cons_self]
      simp
    · rw [List.takeWhile_cons_of_pos (by simpa using hb), List.indexOf_cons_ne _ hb]
      by_cases hx : x = b
      · subst hx
        rw [List.indexOf_cons_self]
        simp
      · rw [List.indexOf_cons_ne _ (Ne.symm hx), List.mem_cons, List.mem_cons, ih]
        simp only [hx, false_or, Nat.succ_eq_add_one, add_lt_add_iff_right]

theorem others_since_self (v : Nat) (L : List Nat) : others_since v (v :: L) = 0 := by
  unfold others_since
  rw [List.takeWhile_cons_of_neg (by simp)]
  rfl

theorem others_since_cons (u v : Nat) (L : List Nat) (h : u ≠ v) :
    others_since u (v :: L) =
      if v ∈ L ∧ L.indexOf v < L.indexOf u then others_since u L else others_since u L + 1 := by
  unfold others_since
  rw [List.takeWhile_cons_of_pos (by simpa using Ne.symm h)]
  by_cases hv : v ∈ L ∧ L.indexOf v < L.indexOf u
  · rw [if_pos hv, List.dedup_cons_of_mem ((mem_takeWhile_ne u L v).2 hv)]
  · rw [if_neg hv, List.dedup_cons_of_not_mem (fun hm => hv ((mem_takeWhile_ne u L v).1 hm))]
    rfl

theorem others_since_card (u : Nat) (L : List Nat) :
    others_since u L = (L.toFinset.filter fun x => L.indexOf x < L.indexOf u).card := by
  unfold others_since
  rw [← List.card_toFinset]
  congr 1
  ext x
  rw [List.mem_toFinset, mem_takeWhile_ne, Finset.mem_filter, List.mem_toFinset]

theorem others_since_lt {x u : Nat} {L : List Nat} (hx : x ∈ L)
    (h : L.indexOf x < L.indexOf u) : others_since x L < others_since u L := by
  rw [others_since_card, others_since_card]
  apply Finset.card_lt_card
  rw [Finset.ssubset_iff_of_subset]
  · exact ⟨x, by rw [Finset.mem_filter, List.mem_toFinset]; exact ⟨hx, h⟩,
      by rw [Finset.mem_filter]; exact fun hh => lt_irrefl _ hh.2⟩
  · intro y hy
    rw [Finset.mem_filter] at hy ⊢
    exact ⟨hy.1, lt_trans hy.2 h⟩

theorem others_since_lt_card {u : Nat} {L : List Nat} (hu : u ∈ L) :
    others_since u L < L.toFinset.card := by
  rw [others_since_card]
  apply Finset.card_lt_card
  rw [Finset.ssubset_iff_of_subset (Finset.filter_subset _ _)]
  exact ⟨u, List.mem_toFinset.2 hu, by rw [Finset.mem_filter]; exact fun hh => lt_irrefl _ hh.2⟩

/-- Two pages of the same residue with the same tag are the same page. -/
theorem page_of_tag {m u v : Nat} (h1 : u % 2 ^ m = v % 2 ^ m) (h2 : u / 2 ^ m = v / 2 ^ m) :
    u = v := by
  rw [← Nat.div_add_mod u (2 ^ m), ← Nat.div_add_mod v (2 ^ m), h1, h2]

theorem touch_cell (f : Int → TLB_ENTRY) (lo : Int) (K i j : Nat) (hj : j < K) :
    (lru_touch f lo K (lo + i) (lo + j)).tag = (f (lo + j)).tag ∧
    (lru_touch f lo K (lo + i) (lo + j)).count =
      if j = i then 0 else incr_int (f (lo + j)).count := by
  refine ⟨lru_touch_tag _ _ _ _ _, ?_⟩
  unfold lru_touch
  by_cases h : j = i
  · subst h
    rw [if_pos rfl, upd_same]
  · rw [if_neg h, upd_ne _ _ (by omega)]
    unfold bumped
    rw [if_pos (by omega)]


/-- The cells of a scope after an LRU touch of cell `i`, which now holds the
page `v`. -/
theorem lruScope_cells {f f' : Int → TLB_ENTRY} {lo : Int} {K m r : Nat} {L : List Nat}
    {w : Nat} {cv : Nat → Nat} (h : LruScope f lo K m r L w cv) (v i w' : Nat)
    (cv' : Nat → Nat) (hsame : ∀ j : Nat, j < K → j ≠ i → f' (lo + j) = f (lo + j))
    (htag : (f' (lo + i)).tag = v / 2 ^ m) (hw : w ≤ w') (hw' : w' ≤ K) (hi : i < w')
    (hcv : cv' i = v) (hold : ∀ j, j < w' → j ≠ i → j < w ∧ cv' j = cv j ∧ cv j ≠ v)
    (hlen : L.length < 2 ^ 31 - 1) :
    (∀ j : Nat, j < w' →
      (lru_touch f' lo K (lo + i) (lo + j)).tag = cv' j / 2 ^ m ∧
      (lru_touch f' lo K (lo + i) (lo + j)).count = (v :: L).indexOf (cv' j)) ∧
    (∀ j : Nat, w' ≤ j → j < K →
      (lru_touch f' lo K (lo + i) (lo + j)).tag = 0 ∧
      (lru_touch f' lo K (lo + i) (lo + j)).count = (v :: L).length) := by
  constructor
  · intro j hj
    obtain ⟨ht, hc⟩ := touch_cell f' lo K i j (by omega)
    rw [ht, hc]
    by_cases hji : j = i
    · subst hji
      rw [if_pos rfl, hcv, List.indexOf_cons_self]
      exact ⟨htag, rfl⟩
    · obtain ⟨hjw, hcj, hne⟩ := hold j hj hji
      rw [if_neg hji, hsame j (by omega) hji, hcj, List.indexOf_cons_ne _ (Ne.symm hne),
        (h.touched j hjw).1, (h.touched j hjw).2]
      have hle := List.indexOf_le_length (a := cv j) (l := L)
      refine ⟨rfl, ?_⟩
      rw [incr_int_of_lt (by omega) (by omega)]
      push_cast; rfl
  · intro j hj hjK
    obtain ⟨ht, hc⟩ := touch_cell f' lo K i j hjK
    have hji : j ≠ i := by omega
    rw [ht, hc, if_neg hji, hsame j hjK hji, (h.fresh j (by omega) hjK).1,
      (h.fresh j (by omega) hjK).2]
    refine ⟨rfl, ?_⟩
    rw [incr_int_of_lt (by omega) (by omega), List.length_cons]
    push_cast; rfl

/-- A reference to a page held by cell `i` of the scope. -/
theorem lruScope_hit {f : Int → TLB_ENTRY} {lo : Int} {K m r : Nat} {L : List Nat}
    {w : Nat} {cv : Nat → Nat} (h : LruScope f lo K m r L w cv) (hK : 0 < K) (i : Nat)
    (hi : i < w) (hlen : L.length < 2 ^ 31 - 1) :
    LruScope (lru_touch f lo K (lo + i)) lo K m r (cv i :: L) w cv := by
  obtain ⟨hvL, hvK⟩ := (h.mem (cv i)).1 ⟨i, hi, rfl⟩
  obtain ⟨hc1, hc2⟩ := lruScope_cells h (cv i) i w cv (fun _ _ _ => rfl) (h.touched i hi).1
    (le_refl _) h.len hi rfl
    (fun j hj hji => ⟨hj, rfl, fun he => hji (h.inj j i hj hi he)⟩) hlen
  refine ⟨h.len, ?_, h.inj, ?_, ?_, hc1, hc2⟩
  · intro u hu
    rcases List.mem_cons.1 hu with rfl | hu
    · exact h.slot _ hvL
    · exact h.slot u hu
  · intro u
    by_cases huv : u = cv i
    · subst huv
      rw [others_since_self]
      exact ⟨fun _ => ⟨List.mem_cons_self _ _, hK⟩, fun _ => ⟨i, hi, rfl⟩⟩
    · rw [h.mem u, others_since_cons u (cv i) L huv, List.mem_cons]
      constructor
      · rintro ⟨huL, hlt⟩
        refine ⟨Or.inr huL, ?_⟩
        split
        · exact hlt
        · next hn =>
          have hle : L.indexOf u ≤ L.indexOf (cv i) := by
            by_contra hc
            exact hn ⟨hvL, by omega⟩
          have hne : L.indexOf u ≠ L.indexOf (cv i) := fun he =>
            huv ((List.indexOf_inj huL hvL).1 he)
          have := others_since_lt huL (lt_of_le_of_ne hle hne)
          omega
      · rintro ⟨huL, hlt⟩
        rcases huL with huL | huL
        · exact absurd huL huv
        · refine ⟨huL, ?_⟩
          split at hlt
          · exact hlt
          · omega
  · intro hw u hu
    rcases List.mem_cons.1 hu with rfl | hu
    · exact ⟨i, hi, rfl⟩
    · exact h.full hw u hu

/-- A reference to a page that no cell holds, while cell `w` was never
written: the page goes to cell `w`. -/
theorem lruScope_new {f f' : Int → TLB_ENTRY} {lo : Int} {K m r : Nat} {L : List Nat}
    {w : Nat} {cv : Nat → Nat} (h : LruScope f lo K m r L w cv) (v : Nat)
    (hv : v % 2 ^ m = r) (hw : w < K) (hnot : ∀ j, j < w → cv j ≠ v)
    (hsame : ∀ j : Nat, j < K → j ≠ w → f' (lo + j) = f (lo + j))
    (htag : (f' (lo + w)).tag = v / 2 ^ m) (hlen : L.length < 2 ^ 31 - 1) :
    LruScope (lru_touch f' lo K (lo + w)) lo K m r (v :: L) (w + 1)
      (fun j => if j = w then v else cv j) := by
  have hvL : v ∉ L := fun hm => by
    obtain ⟨j, hj, he⟩ := h.full hw v hm
    exact hnot j hj he
  have hcard : L.toFinset.card ≤ w := by
    have hsub : L.toFinset ⊆ (Finset.range w).image cv := by
      intro x hx
      obtain ⟨j, hj, he⟩ := h.full hw x (List.mem_toFinset.1 hx)
      exact Finset.mem_image.2 ⟨j, Finset.mem_range.2 hj, he⟩
    calc L.toFinset.card ≤ ((Finset.range w).image cv).card := Finset.card_le_card hsub
      _ ≤ (Finset.range w).card := Finset.card_image_le
      _ = w := Finset.card_range w
  obtain ⟨hc1, hc2⟩ := lruScope_cells h v w (w + 1) (fun j => if j = w then v else cv j)
    hsame htag (by omega) (by omega) (by omega) (by simp)
    (fun j hj hjw => ⟨by omega, by simp [hjw], hnot j (by omega)⟩) hlen
  refine ⟨by omega, ?_, ?_, ?_, ?_, hc1, hc2⟩
  · intro u hu
    rcases List.mem_cons.1 hu with rfl | hu
    · exact hv
    · exact h.slot u hu
  · intro a b ha hb hab
    by_cases haw : a = w <;> by_cases hbw : b = w
    · omega
    · simp only [haw, hbw, if_true, if_false] at hab
      exact absurd hab.symm (hnot b (by omega))
    · simp only [haw, hbw, if_true, if_false] at hab
      exact absurd hab (hnot a (by omega))
    · simp only [haw, hbw, if_false] at hab
      exact h.inj a b (by omega) (by omega) hab
  · intro u
    by_cases huv : u = v
    · subst huv
      rw [others_since_self]
      exact ⟨fun _ => ⟨List.mem_cons_self _ _, by omega⟩, fun _ => ⟨w, by omega, by simp⟩⟩
    · rw [others_since_cons u v L huv, if_neg (fun hh => hvL hh.1), List.mem_cons]
      constructor
      · rintro ⟨j, hj, he⟩
        have hjw : j ≠ w := by
          intro hjw
          simp only [hjw, if_true] at he
          exact huv he.symm
        simp only [hjw, if_false] at he
        obtain ⟨huL, _⟩ := (h.mem u).1 ⟨j, by omega, he⟩
        have := others_since_lt_card huL
        exact ⟨Or.inr huL, by omega⟩
      · rintro ⟨huL, _⟩
        rcases huL with huL | huL
        · exact absurd huL huv
        · obtain ⟨j, hj, he⟩ := h.full hw u huL
          exact ⟨j, by omega, by simp only [show j ≠ w by omega, if_false]; exact he⟩
  · intro _ u hu
    rcases List.mem_cons.1 hu with rfl | hu
    · exact ⟨w, by omega, by simp⟩
    · obtain ⟨j, hj, he⟩ := h.full hw u hu
      exact ⟨j, by omega, by simp only [show j ≠ w by omega, if_false]; exact he⟩

/-- A reference to a page that no cell holds, while every cell was written:
the page replaces the one of the cell `i` whose count is the highest. -/
theorem lruScope_replace {f f' : Int → TLB_ENTRY} {lo : Int} {K m r : Nat} {L : List Nat}
    {cv : Nat → Nat} (h : LruScope f lo K m r L K cv) (v : Nat)
    (hv : v % 2 ^ m = r) (hnot : ∀ j, j < K → cv j ≠ v) (i : Nat) (hi : i < K)
    (hmax : ∀ j, j < K → L.indexOf (cv j) ≤ L.indexOf (cv i))
    (hsame : ∀ j : Nat, j < K → j ≠ i → f' (lo + j) = f (lo + j))
    (htag : (f' (lo + i)).tag = v / 2 ^ m) (hlen : L.length < 2 ^ 31 - 1) :
    LruScope (lru_touch f' lo K (lo + i)) lo K m r (v :: L) K
      (fun j => if j = i then v else cv j) := by
  have hcvL : ∀ j, j < K → cv j ∈ L ∧ others_since (cv j) L < K := fun j hj =>
    (h.mem (cv j)).1 ⟨j, hj, rfl⟩
  have hstrict : ∀ j, j < K → j ≠ i → L.indexOf (cv j) < L.indexOf (cv i) := by
    intro j hj hji
    refine lt_of_le_of_ne (hmax j hj) (fun he => hji ?_)
    exact h.inj j i hj hi ((List.indexOf_inj (hcvL j hj).1 (hcvL i hi).1).1 he)
  have hge : K - 1 ≤ others_since (cv i) L := by
    rw [others_since_card]
    have hsub : ((Finset.range K).erase i).image cv ⊆
        L.toFinset.filter fun x => L.indexOf x < L.indexOf (cv i) := by
      intro x hx
      obtain ⟨j, hj, he⟩ := Finset.mem_image.1 hx
      rw [Finset.mem_erase, Finset.mem_range] at hj
      rw [Finset.mem_filter, List.mem_toFinset, ← he]
      exact ⟨(hcvL j hj.2).1, hstrict j hj.2 hj.1⟩
    have hinj : Set.InjOn cv (((Finset.range K).erase i : Finset Nat) : Set Nat) := by
      intro a ha b hb hab
      rw [Finset.mem_coe, Finset.mem_erase, Finset.mem_range] at ha hb
      exact h.inj a b ha.2 hb.2 hab
    have hc := Finset.card_le_card hsub
    rw [Finset.card_image_of_injOn hinj, Finset.card_erase_of_mem (Finset.mem_range.2 hi),
      Finset.card_range] at hc
    exact hc
  obtain ⟨hc1, hc2⟩ := lruScope_cells h v i K (fun j => if j = i then v else cv j)
    hsame htag (le_refl _) (le_refl _) hi (by simp)
    (fun j hj hji => ⟨hj, by simp [hji], hnot j hj⟩) hlen
  refine ⟨le_refl _, ?_, ?_, ?_, fun hh => absurd hh (lt_irrefl _), hc1, hc2⟩
  · intro u hu
    rcases List.mem_cons.1 hu with rfl | hu
    · exact hv
    · exact h.slot u hu
  · intro a b ha hb hab
    by_cases hai : a = i <;> by_cases hbi : b = i
    · omega
    · simp only [hai, hbi, if_true, if_false] at hab
      exact absurd hab.symm (hnot b hb)
    · simp only [hai, hbi, if_true, if_false] at hab
      exact absurd hab (hnot a ha)
    · simp only [hai, hbi, if_false] at hab
      exact h.inj a b ha hb hab
  · intro u
    by_cases huv : u = v
    · subst huv
      rw [others_since_self]
      exact ⟨fun _ => ⟨List.mem_cons_self _ _, by omega⟩, fun _ => ⟨i, hi, by simp⟩⟩
    · rw [others_since_cons u v L huv, List.mem_cons]
      constructor
      · rintro ⟨j, hj, he⟩
        have hji : j ≠ i := by
          intro hji
          simp only [hji, if_true] at he
          exact huv he.symm
        simp only [hji, if_false] at he
        subst he
        have h1 := others_since_lt (hcvL j hj).1 (hstrict j hj hji)
        have h2 := (hcvL i hi).2
        refine ⟨Or.inr (hcvL j hj).1, ?_⟩
        split <;> omega
      · rintro ⟨huL, hlt⟩
        rcases huL with huL | huL
        · exact absurd huL huv
        · have hle : others_since u L < K := by
            split at hlt <;> omega
          obtain ⟨j, hj, he⟩ := (h.mem u).2 ⟨huL, hle⟩
          have hji : j ≠ i := by
            intro hji
            subst hji
            subst he
            split at hlt
            · next hh =>
              have h1 := others_since_lt hh.1 hh.2
              obtain ⟨a, ha, hea⟩ := (h.mem v).2 ⟨hh.1, by omega⟩
              exact hnot a ha hea
            · omega
          exact ⟨j, hj, by simp only [hji, if_false]; exact he⟩


theorem cell_index {lo e : Int} {K : Nat} (h0 : lo ≤ e) (h1 : e < lo + K) :
    ∃ i : Nat, i < K ∧ e = lo + i :=
  ⟨(e - lo).toNat, by omega, by omega⟩

/-- One reference to the page `v` in a scope under the LRU policy: the scope
after the hit on the first cell that holds the tag, the scope after the
replacement of the first cell of highest count, and the pages that are held. -/
theorem lruScope_step {f : Int → TLB_ENTRY} {lo : Int} {K m r : Nat} {L : List Nat}
    {w : Nat} {cv : Nat → Nat} (h : LruScope f lo K m r L w cv) (hK : 0 < K) (v : Nat)
    (hv : v % 2 ^ m = r) (hlen : L.length < 2 ^ 31 - 1) :
    (∀ e, FirstTag f lo (lo + K) (v / 2 ^ m) e →
      ∃ w' cv', LruScope (lru_touch f lo K e) lo K m r (v :: L) w' cv') ∧
    ((∀ j, lo ≤ j → j < lo + K → (f j).tag ≠ v / 2 ^ m) → ∀ e, FirstMax f lo (lo + K) e →
      ∃ w' cv', LruScope (lru_touch (upd f e { tag := v / 2 ^ m, count := 0 }) lo K e)
        lo K m r (v :: L) w' cv') ∧
    (v ∈ L → ((∃ j, lo ≤ j ∧ j < lo + K ∧ (f j).tag = v / 2 ^ m) ↔ others_since v L < K)) := by
  have hcvL : ∀ j, j < w → cv j ∈ L := fun j hj => ((h.mem (cv j)).1 ⟨j, hj, rfl⟩).1
  have hpage : ∀ j, j < w → (f (lo + j)).tag = v / 2 ^ m → cv j = v := by
    intro j hj ht
    rw [(h.touched j hj).1] at ht
    exact page_of_tag ((h.slot _ (hcvL j hj)).trans hv.symm) ht
  refine ⟨?_, ?_, ?_⟩
  · rintro e ⟨h0, h1, htag, hfirst⟩
    obtain ⟨i, hi, rfl⟩ := cell_index h0 h1
    by_cases hiw : i < w
    · have hc := hpage i hiw htag
      have := lruScope_hit h hK i hiw hlen
      rw [hc] at this
      exact ⟨w, cv, this⟩
    · have hnot : ∀ j, j < w → cv j ≠ v := by
        intro j hj he
        refine hfirst (lo + j) (by omega) (by omega) ?_
        rw [(h.touched j hj).1, he]
      have hiw2 : i = w := by
        by_contra hne
        refine hfirst (lo + w) (by omega) (by omega) ?_
        rw [(h.fresh w (le_refl _) (by omega)).1, ← htag, (h.fresh i (by omega) hi).1]
      subst hiw2
      exact ⟨_, _, lruScope_new h v hv hi hnot (fun _ _ _ => rfl) htag hlen⟩
  · rintro hmiss e ⟨h0, h1, hmax, hfirst⟩
    obtain ⟨i, hi, rfl⟩ := cell_index h0 h1
    have hnot : ∀ j, j < w → cv j ≠ v := by
      intro j hj he
      have hjK : j < K := lt_of_lt_of_le hj h.len
      refine hmiss (lo + j) (by omega) (by omega) ?_
      rw [(h.touched j hj).1, he]
    have hsame : ∀ j : Nat, j < K → j ≠ i →
        upd f (lo + i) { tag := v / 2 ^ m, count := 0 } (lo + j) = f (lo + j) :=
      fun j _ hji => upd_ne _ _ (by omega)
    have htag : (upd f (lo + i) { tag := v / 2 ^ m, count := 0 } (lo + i)).tag = v / 2 ^ m := by
      rw [upd_same]
    by_cases hwK : w < K
    · have hiw : i = w := by
        rcases Nat.lt_trichotomy i w with hlt | heq | hgt
        · have h1 := hmax (lo + w) (by omega) (by omega)
          rw [(h.fresh w (le_refl _) hwK).2, (h.touched i hlt).2] at h1
          have h2 := List.indexOf_lt_length.2 (hcvL i hlt)
          omega
        · exact heq
        · have h1 := hfirst (lo + w) (by omega) (by omega)
          rw [(h.fresh w (le_refl _) hwK).2, (h.fresh i (by omega) hi).2] at h1
          omega
      subst hiw
      exact ⟨_, _, lruScope_new h v hv hwK hnot hsame htag hlen⟩
    · have hwK2 : w = K := le_antisymm h.len (by omega)
      subst hwK2
      have hmx : ∀ j, j < w → L.indexOf (cv j) ≤ L.indexOf (cv i) := by
        intro j hj
        have h1 := hmax (lo + j) (by omega) (by omega)
        rw [(h.touched j hj).2, (h.touched i hi).2] at h1
        exact_mod_cast h1
      exact ⟨_, _, lruScope_replace h v hv hnot i hi hmx hsame htag hlen⟩
  · intro hvL
    constructor
    · rintro ⟨e, h0, h1, htag⟩
      obtain ⟨i, hi, rfl⟩ := cell_index h0 h1
      by_cases hiw : i < w
      · exact ((h.mem v).1 ⟨i, hiw, hpage i hiw htag⟩).2
      · exact ((h.mem v).1 (h.full (by omega) v hvL)).2
    · intro hlt
      obtain ⟨j, hj, he⟩ := (h.mem v).2 ⟨hvL, hlt⟩
      have hjK : j < K := lt_of_lt_of_le hj h.len
      exact ⟨lo + j, by omega, by omega, by rw [(h.touched j hj).1, he]⟩

/-- A fresh scope: no page referenced, every cell with tag 0 and count 0. -/
theorem lruScope_fresh (f : Int → TLB_ENTRY) (lo : Int) (K m r : Nat)
    (h : ∀ i : Nat, i < K → (f (lo + i)).tag = 0 ∧ (f (lo + i)).count = 0) :
    LruScope f lo K m r [] 0 (fun _ => 0) :=
  ⟨Nat.zero_le _, fun v hv => by simp at hv, fun i j hi => by omega,
    fun v => ⟨fun ⟨i, hi, _⟩ => by omega, fun ⟨hv, _⟩ => by simp at hv⟩,
    fun _ v hv => by simp at hv, fun i hi => by omega,
    fun i _ hi => ⟨(h i hi).1, by rw [(h i hi).2]; rfl⟩⟩

/-- A scope is not affected by changes to the cells outside it. -/
theorem lruScope_congr {f g : Int → TLB_ENTRY} {lo : Int} {K m r : Nat} {L : List Nat}
    {w : Nat} {cv : Nat → Nat} (h : LruScope f lo K m r L w cv)
    (hfg : ∀ i : Nat, i < K → g (lo + i) = f (lo + i)) : LruScope g lo K m r L w cv :=
  ⟨h.len, h.slot, h.inj, h.mem, h.full,
    fun i hi => by rw [hfg i (lt_of_lt_of_le hi h.len)]; exact h.touched i hi,
    fun i hi hiK => by rw [hfg i hiK]; exact h.fresh i hi hiK⟩


/-! ### The table after a lookup under the LRU policy -/

/-- A lookup that hits under the LRU policy: the table afterwards. -/
theorem lookup_lru_hit (sim : Nat → State → Option State) (a tag idx : Nat) (x : State)
    (hpol : x.RepPol = 1) (hr : InRangeAt x x.TLB_TYPE idx) (hne : x.cur.assoc ≠ 0)
    (hres : Resident x x.TLB_TYPE tag idx) :
    ∃ e, FirstTag x.tbl (scope_lo x.cur idx) (scope_hi x.cur idx) tag e ∧
      tlb_lookup sim a tag idx x =
        some ((hit_prologue x).put (lru_touch x.tbl (scope_lo x.cur idx)
          (scope_hi x.cur idx - scope_lo x.cur idx).toNat e)) := by
  obtain ⟨e, hfirst, heq⟩ := tlb_lookup_hit sim a tag idx x hr hres
  obtain ⟨hTLB, hsize, hty, hrep, -⟩ := hit_prologue_frame x
  have hg := hit_prologue_cur_geom x
  have hr1 : InRangeAt (hit_prologue x) (hit_prologue x).TLB_TYPE idx := by
    rw [hty]
    exact (inRangeAt_congr (hit_prologue_geom x x.TLB_TYPE) (by rw [hsize]) idx).2 hr
  have hne1 : (hit_prologue x).cur.assoc ≠ 0 := by rw [geom_assoc hg]; exact hne
  have hp0 : ¬ (hit_prologue x).RepPol = 0 := by rw [hrep, hpol]; decide
  have hp1 : (hit_prologue x).RepPol = 1 := hrep.trans hpol
  refine ⟨e, hfirst, ?_⟩
  rw [heq]
  unfold hit_update
  rw [if_neg hne1, if_neg hp0, if_pos hp1,
    increase_LRU_eq _ idx e (inRange_scopeAllocated hr1 hne1)
      (by rw [geom_scope_lo hg]; exact hfirst.1) (by rw [geom_scope_hi hg]; exact hfirst.2.1),
    geom_scope_lo hg, geom_scope_hi hg, hit_prologue_tbl]

/-- A lookup that misses under the LRU policy, with no L2TLB: the table
afterwards. -/
theorem lookup_lru_miss (sim : Nat → State → Option State) (a tag idx : Nat) (x : State)
    (hl2 : x.sim_L2TLB = false) (hpol : x.RepPol = 1) (hr : InRangeAt x x.TLB_TYPE idx)
    (hne : x.cur.assoc ≠ 0) (hm : ¬ Resident x x.TLB_TYPE tag idx) :
    ∃ p, FirstMax x.tbl (scope_lo x.cur idx) (scope_hi x.cur idx) p ∧
      tlb_lookup sim a tag idx x =
        some ((miss_prologue x).put (lru_touch (upd x.tbl p { tag := tag, count := 0 })
          (scope_lo x.cur idx) (scope_hi x.cur idx - scope_lo x.cur idx).toNat p)) := by
  obtain ⟨hTLB, hsize, hty, hrep, hsim2, _⟩ := miss_prologue_frame x
  have hg : (miss_prologue x).cur.geom = x.cur.geom := by
    have := miss_prologue_geom x x.TLB_TYPE
    unfold State.cur; rw [hty]; exact this
  have hr1 : InRangeAt (miss_prologue x) (miss_prologue x).TLB_TYPE idx := by
    rw [hty]
    exact (inRangeAt_congr (miss_prologue_geom x x.TLB_TYPE) (by rw [hsize]) idx).2 hr
  have htbl : (miss_prologue x).tbl = x.tbl := by
    unfold State.tbl; rw [hTLB, hty]
  have hne1 : (miss_prologue x).cur.assoc ≠ 0 := by rw [geom_assoc hg]; exact hne
  obtain ⟨p, _, hmax, hfa, hnw⟩ := lru_install_eq (miss_prologue x) (idx : Int) tag
    (hrep.trans hpol) (inRange_scopeAllocated hr1 hne1)
  rw [geom_scope_lo hg, geom_scope_hi hg, htbl] at hmax hfa hnw
  refine ⟨p, hmax, ?_⟩
  rw [tlb_lookup_miss sim a tag idx x hr hm]
  unfold l2_descend
  rw [hsim2, hl2]
  simp only [Bool.false_eq_true, if_false, Option.some_bind, hsim2, hl2, true_or, if_true]
  unfold install
  by_cases hfa2 : x.cur.assoc = -1
  · rw [if_pos hfa2]
    exact hfa (by rw [geom_assoc hg]; exact hfa2)
  · rw [if_neg hfa2, if_neg hne]
    obtain ⟨hsz, h1 | h1 | h1⟩ := hr
    · exact absurd h1.1 hfa2
    · exact absurd h1.1 hne
    · exact hnw (by rw [geom_assoc hg]; exact h1.1) idx (toInt32_index h1.1 h1.2 hsz)

/-- A reference that hits the current level under the LRU policy. -/
theorem sim_lru_hit (n a : Nat) (x : State) (hsim : x.clo_sim_tlb = true) (hpol : x.RepPol = 1)
    (hr : InRangeAt x x.TLB_TYPE (decode_index x.cur a)) (hne : x.cur.assoc ≠ 0)
    (hres : Resident x x.TLB_TYPE (decode_tag x.cur a) (decode_index x.cur a)) :
    ∃ e, FirstTag x.tbl (scope_lo x.cur (decode_index x.cur a))
        (scope_hi x.cur (decode_index x.cur a)) (decode_tag x.cur a) e ∧
      TLB_simulation (n + 1) a x =
        some (log_page (decode_tag x.cur a)
          ((hit_prologue { x with l2hit := false, l2check := false }).put
            (lru_touch x.tbl (scope_lo x.cur (decode_index x.cur a))
              (scope_hi x.cur (decode_index x.cur a) -
                scope_lo x.cur (decode_index x.cur a)).toNat e))) := by
  obtain ⟨e, hfirst, heq⟩ := lookup_lru_hit (TLB_simulation n) a (decode_tag x.cur a)
    (decode_index x.cur a) { x with l2hit := false, l2check := false } hpol hr hne hres
  refine ⟨e, hfirst, ?_⟩
  rw [TLB_simulation_succ, if_pos ⟨hsim, inRange_assoc_ge hr⟩, heq]
  rfl

/-- A reference that misses the current level under the LRU policy, with no
L2TLB behind it. -/
theorem sim_lru_miss (n a : Nat) (x : State) (hl2 : x.sim_L2TLB = false)
    (hsim : x.clo_sim_tlb = true) (hpol : x.RepPol = 1)
    (hr : InRangeAt x x.TLB_TYPE (decode_index x.cur a)) (hne : x.cur.assoc ≠ 0)
    (hm : ¬ Resident x x.TLB_TYPE (decode_tag x.cur a) (decode_index x.cur a)) :
    ∃ e, FirstMax x.tbl (scope_lo x.cur (decode_index x.cur a))
        (scope_hi x.cur (decode_index x.cur a)) e ∧
      TLB_simulation (n + 1) a x =
        some (log_page (decode_tag x.cur a)
          ((miss_prologue { x with l2hit := false, l2check := false }).put
            (lru_touch (upd x.tbl e { tag := decode_tag x.cur a, count := 0 })
              (scope_lo x.cur (decode_index x.cur a))
              (scope_hi x.cur (decode_index x.cur a) -
                scope_lo x.cur (decode_index x.cur a)).toNat e))) := by
  obtain ⟨e, hmax, heq⟩ := lookup_lru_miss (TLB_simulation n) a (decode_tag x.cur a)
    (decode_index x.cur a) { x with l2hit := false, l2check := false } hl2 hpol hr hne hm
  refine ⟨e, hmax, ?_⟩
  rw [TLB_simulation_succ, if_pos ⟨hsim, inRange_assoc_ge hr⟩, heq]
  rfl

/-- One reference under the LRU policy to a fully associative or N-way L1
level without L2TLB: the counters and the table afterwards. -/
theorem reference_lru (s : State) (a : Nat) (t : Int) (hal : Alone s t) (hpol : s.RepPol = 1)
    (hr : InRangeAt s t (decode_index (s.TLBc t) a)) (hne : (s.TLBc t).assoc ≠ 0) :
    ∃ y, reference_address a t s = some y ∧ SameSetup s y ∧
      (Resident s t (decode_tag (s.TLBc t) a) (decode_index (s.TLBc t) a) →
        (y.TLBc t).hit = incr_int (s.TLBc t).hit ∧ (y.TLBc t).miss = (s.TLBc t).miss ∧
        ∃ e, FirstTag (s.TLB t) (scope_lo (s.TLBc t) (decode_index (s.TLBc t) a))
            (scope_hi (s.TLBc t) (decode_index (s.TLBc t) a)) (decode_tag (s.TLBc t) a) e ∧
          y.TLB t = lru_touch (s.TLB t) (scope_lo (s.TLBc t) (decode_index (s.TLBc t) a))
            (scope_hi (s.TLBc t) (decode_index (s.TLBc t) a) -
              scope_lo (s.TLBc t) (decode_index (s.TLBc t) a)).toNat e) ∧
      (¬ Resident s t (decode_tag (s.TLBc t) a) (decode_index (s.TLBc t) a) →
        (y.TLBc t).miss = incr_int (s.TLBc t).miss ∧ (y.TLBc t).hit = (s.TLBc t).hit ∧
        ∃ e, FirstMax (s.TLB t) (scope_lo (s.TLBc t) (decode_index (s.TLBc t) a))
            (scope_hi (s.TLBc t) (decode_index (s.TLBc t) a)) e ∧
          y.TLB t = lru_touch (upd (s.TLB t) e { tag := decode_tag (s.TLBc t) a, count := 0 })
            (scope_lo (s.TLBc t) (decode_index (s.TLBc t) a))
            (scope_hi (s.TLBc t) (decode_index (s.TLBc t) a) -
              scope_lo (s.TLBc t) (decode_index (s.TLBc t) a)).toNat e) := by
  obtain ⟨y, hy, hs, hhit, hmiss⟩ := reference_alone s a t hal hr
  have hy2 := hy
  rw [reference_eq_sim hal.routed] at hy2
  refine ⟨y, hy, hs, fun hres => ?_, fun hres => ?_⟩
  · obtain ⟨e, hfirst, heq⟩ := sim_lru_hit 1 a { s with TLB_TYPE := t } hal.sim hpol hr hne hres
    refine ⟨(hhit hres).hit, (hhit hres).miss, e, hfirst, ?_⟩
    have hyy := Option.some.inj (hy2.symm.trans heq)
    have hf := (put_log_facts0 (decode_tag (s.TLBc t) a)
      (hit_prologue { s with TLB_TYPE := t, l2hit := false, l2check := false })
      (lru_touch (s.TLB t) (scope_lo (s.TLBc t) (decode_index (s.TLBc t) a))
        (scope_hi (s.TLBc t) (decode_index (s.TLBc t) a) -
          scope_lo (s.TLBc t) (decode_index (s.TLBc t) a)).toNat e)).2.2.2.2.1
    rw [(hit_prologue_frame _).2.2.1] at hf
    rw [hyy]
    exact hf
  · obtain ⟨e, hmax, heq⟩ := sim_lru_miss 1 a { s with TLB_TYPE := t } hal.l2 hal.sim hpol hr hne
      hres
    refine ⟨(hmiss hres).miss, (hmiss hres).hit, e, hmax, ?_⟩
    have hyy := Option.some.inj (hy2.symm.trans heq)
    have hf := (put_log_facts0 (decode_tag (s.TLBc t) a)
      (miss_prologue { s with TLB_TYPE := t, l2hit := false, l2check := false })
      (lru_touch (upd (s.TLB t) e { tag := decode_tag (s.TLBc t) a, count := 0 })
        (scope_lo (s.TLBc t) (decode_index (s.TLBc t) a))
        (scope_hi (s.TLBc t) (decode_index (s.TLBc t) a) -
          scope_lo (s.TLBc t) (decode_index (s.TLBc t) a)).toNat e)).2.2.2.2.1
    rw [(miss_prologue_frame _).2.2.1] at hf
    rw [hyy]
    exact hf


/-! ### References to a level under the LRU policy -/

theorem calc_VPN_MASK_wide {VAS : Int} {k N : Nat} (hN : N + k ≤ 63) (hV : VAS = k + N) :
    calc_VPN_MASK VAS k (2 ^ k) = (2 ^ (N + 1) - 1) * 2 ^ k := by
  unfold calc_VPN_MASK
  have e : (VAS - k).toNat = N := by omega
  rw [e, grow_mask_one N (by omega)]
  apply Nat.mod_eq_of_lt
  calc (2 ^ (N + 1) - 1) * 2 ^ k < 2 ^ (N + 1) * 2 ^ k := by
        apply Nat.mul_lt_mul_of_pos_right _ (by positivity)
        have : 1 ≤ 2 ^ (N + 1) := Nat.one_le_two_pow
        omega
    _ = 2 ^ (N + 1 + k) := by rw [← pow_add]
    _ ≤ 2 ^ 64 := Nat.pow_le_pow_right (by decide) (by omega)

theorem lruLevel_congr {s y : State} {t : Int} {k m K : Nat} {c0 c : tlb_t}
    (h : SameSetup s y) (hd : LruLevel s t k m K c0 c) : LruLevel y t k m K c0 c :=
  ⟨by rw [h.vas]; exact hd.init, (h.geom t).trans hd.geom, hd.page, hd.hk, h.pol.trans hd.pol,
    hd.ways, by rw [h.vas]; exact hd.kind, by rw [h.vas]; exact hd.vas_pos,
    by rw [h.vas]; exact hd.vas_lim, by rw [h.size]; exact hd.cells⟩

/-- Decoding and scope of an address on a fully associative or N-way level. -/
theorem lru_level_facts {s : State} {t : Int} {k m K : Nat} {c0 c : tlb_t} {a : Nat}
    (hal : Alone s t) (hd : LruLevel s t k m K c0 c) (ha : a < 2 ^ s.VAS_SIZE.toNat) :
    (s.TLBc t).assoc ≠ 0 ∧ InRangeAt s t (decode_index (s.TLBc t) a) ∧
      decode_tag (s.TLBc t) a = (a / 2 ^ k) / 2 ^ m ∧
      scope_lo (s.TLBc t) (decode_index (s.TLBc t) a) =
        ((((a / 2 ^ k) % 2 ^ m) * K : Nat) : Int) ∧
      scope_hi (s.TLBc t) (decode_index (s.TLBc t) a) =
        ((((a / 2 ^ k) % 2 ^ m) * K : Nat) : Int) + K := by
  obtain ⟨hce, hca, _, _⟩ := init_level_entries hd.init
  have hassoc : (s.TLBc t).assoc = c0.assoc := (geom_assoc hd.geom).trans hca
  have hent : (s.TLBc t).entries = c0.entries := (geom_entries hd.geom).trans hce
  have hK := hd.ways
  have hcells := hd.cells
  rcases hd.kind with ⟨hfa, he, hm, hkv, hv63⟩ | ⟨hnw, hsets, hm1, hm30⟩
  · subst hm
    have hfa2 : (s.TLBc t).assoc = -1 := hassoc.trans hfa
    have hidx : decode_index (s.TLBc t) a = 0 := by unfold decode_index; rw [if_pos hfa2]
    obtain ⟨_, _, _, hoff, hvm, _⟩ := init_level_common hd.page hd.hk hd.init
    obtain ⟨N, hN⟩ : ∃ N : Nat, s.VAS_SIZE = k + N := ⟨(s.VAS_SIZE - k).toNat, by omega⟩
    have hvpn : decode_vpn (s.TLBc t) a = a / 2 ^ k := by
      rw [geom_decode_vpn hd.geom a]
      unfold decode_vpn
      rw [hoff, hvm, calc_VPN_MASK_wide (by omega) hN]
      exact vpn_extract a N k (by
        have e : s.VAS_SIZE.toNat = N + k := by omega
        rw [e] at ha; exact ha)
    have htag : decode_tag (s.TLBc t) a = a / 2 ^ k := by
      unfold decode_tag
      rw [if_neg (by omega), if_neg (by omega)]
      exact hvpn
    simp only [pow_zero, one_mul, Nat.mod_one, zero_mul, Nat.div_one, Nat.cast_zero,
      zero_add] at hcells ⊢
    refine ⟨by omega, ⟨hal.limit, Or.inl ⟨hfa2, by omega, by omega⟩⟩, htag, ?_, ?_⟩
    · rw [(scope_fa hfa2 _).1]
    · rw [(scope_fa hfa2 _).2, hent, he]
  · have hpos : 0 < c0.assoc := by omega
    have hpos2 : 0 < (s.TLBc t).assoc := by omega
    obtain ⟨_, hidx, htag, _⟩ := nway_decode_spec hd.page hd.hk hpos hsets hm1 hm30 hd.vas_pos
      hd.vas_lim hd.init ha
    have hidx2 : decode_index (s.TLBc t) a = (a / 2 ^ k) % 2 ^ m :=
      (geom_decode_index hd.geom a).trans hidx
    have hlt : (a / 2 ^ k) % 2 ^ m < 2 ^ m := Nat.mod_lt _ (by positivity)
    have hle : (((a / 2 ^ k) % 2 ^ m : Nat) : Int) + 1 ≤ 2 ^ m := by
      have h1 : (((a / 2 ^ k) % 2 ^ m : Nat) : Int) < ((2 ^ m : Nat) : Int) :=
        Int.ofNat_lt.2 hlt
      have h2 : ((2 ^ m : Nat) : Int) = 2 ^ m := by push_cast; rfl
      omega
    have hmul : ((((a / 2 ^ k) % 2 ^ m : Nat) : Int) + 1) * K ≤ 2 ^ m * K :=
      mul_le_mul_of_nonneg_right hle (by positivity)
    refine ⟨by omega, ⟨hal.limit, Or.inr (Or.inr ⟨hpos2, ?_⟩)⟩,
      (geom_decode_tag hd.geom a).trans htag, ?_, ?_⟩
    · rw [hidx2, hassoc, hnw]
      exact le_trans hmul hcells
    · rw [(scope_nway hpos2 _).1, hidx2, hassoc, hnw]
      push_cast; rfl
    · rw [(scope_nway hpos2 _).2, hidx2, hassoc, hnw]
      push_cast; rfl


theorem scope_refs_cons (k m r b : Nat) (rest : List Nat) :
    scope_refs k m r (b :: rest) =
      scope_refs k m r rest ++ (if (b / 2 ^ k) % 2 ^ m = r then [b / 2 ^ k] else []) := by
  unfold scope_refs
  rw [List.map_cons, List.filter_cons]
  by_cases h : (b / 2 ^ k) % 2 ^ m = r
  · simp [h]
  · simp [h]

theorem scopes_disjoint {r q K i : Nat} (h : q ≠ r) (hi : i < K) :
    ((r * K : Nat) : Int) + i < ((q * K : Nat) : Int) ∨
      ((q * K : Nat) : Int) + K ≤ ((r * K : Nat) : Int) + i := by
  rcases Nat.lt_or_gt_of_ne h with hlt | hgt
  · right
    have h1 : (q + 1) * K ≤ r * K := Nat.mul_le_mul_right K hlt
    have h2 : (q + 1) * K = q * K + K := by ring
    have h3 : (((q * K + K : Nat)) : Int) ≤ ((r * K : Nat) : Int) := by
      rw [← h2]; exact_mod_cast h1
    push_cast at h3 ⊢
    omega
  · left
    have h1 : (r + 1) * K ≤ q * K := Nat.mul_le_mul_right K hgt
    have h2 : (r + 1) * K = r * K + K := by ring
    have h3 : (((r * K + K : Nat)) : Int) ≤ ((q * K : Nat) : Int) := by
      rw [← h2]; exact_mod_cast h1
    push_cast at h3 ⊢
    omega

/-- One reference under the LRU policy, seen from the scope `r`: a reference
to a page of the scope updates it, and hits exactly when fewer than `K`
distinct other pages were referenced in the scope since the last reference to
the page; a reference to another scope leaves it alone. -/
theorem lru_reference_scope {s : State} {t : Int} {k m K : Nat} {c0 c : tlb_t} (b r : Nat)
    (hal : Alone s t) (hd : LruLevel s t k m K c0 c) (hb : b < 2 ^ s.VAS_SIZE.toNat)
    {L : List Nat} {w : Nat} {cv : Nat → Nat}
    (hsc : LruScope (s.TLB t) ((r * K : Nat) : Int) K m r L w cv)
    (hlen : L.length < 2 ^ 31 - 1) :
    ∃ y, reference_address b t s = some y ∧ SameSetup s y ∧
      ((b / 2 ^ k) % 2 ^ m = r →
        (∃ w' cv', LruScope (y.TLB t) ((r * K : Nat) : Int) K m r (b / 2 ^ k :: L) w' cv') ∧
        (b / 2 ^ k ∈ L →
          (others_since (b / 2 ^ k) L < K →
            (y.TLBc t).hit = incr_int (s.TLBc t).hit ∧ (y.TLBc t).miss = (s.TLBc t).miss) ∧
          (¬ others_since (b / 2 ^ k) L < K →
            (y.TLBc t).miss = incr_int (s.TLBc t).miss ∧ (y.TLBc t).hit = (s.TLBc t).hit))) ∧
      ((b / 2 ^ k) % 2 ^ m ≠ r → LruScope (y.TLB t) ((r * K : Nat) : Int) K m r L w cv) := by
  obtain ⟨hne, hr, htag, hlo, hhi⟩ := lru_level_facts hal hd hb
  obtain ⟨y, hy, hs, hhit, hmiss⟩ := reference_lru s b t hal hd.pol hr hne
  have hn : ((((((b / 2 ^ k) % 2 ^ m) * K : Nat) : Int) + K) -
      ((((b / 2 ^ k) % 2 ^ m) * K : Nat) : Int)).toNat = K := by omega
  unfold Resident at hhit hmiss
  rw [htag, hlo, hhi, hn] at hhit hmiss
  refine ⟨y, hy, hs, ?_, ?_⟩
  · intro hslot
    rw [hslot] at hhit hmiss
    obtain ⟨h1, h2, h3⟩ := lruScope_step hsc hd.ways (b / 2 ^ k) hslot hlen
    by_cases hres : ∃ j, ((r * K : Nat) : Int) ≤ j ∧ j < ((r * K : Nat) : Int) + K ∧
        (s.TLB t j).tag = (b / 2 ^ k) / 2 ^ m
    · obtain ⟨hh, hm2, e, hfirst, hT⟩ := hhit hres
      refine ⟨?_, fun hvL => ⟨fun _ => ⟨hh, hm2⟩, fun hno => absurd ((h3 hvL).1 hres) hno⟩⟩
      rw [hT]
      exact h1 e hfirst
    · obtain ⟨hm2, hh, e, hmax, hT⟩ := hmiss hres
      refine ⟨?_, fun hvL => ⟨fun hlt => absurd ((h3 hvL).2 hlt) hres, fun _ => ⟨hm2, hh⟩⟩⟩
      rw [hT]
      exact h2 (fun j h0 h1 ht => hres ⟨j, h0, h1, ht⟩) e hmax
  · intro hslot
    apply lruScope_congr hsc
    intro i hi
    have hdis := scopes_disjoint hslot hi
    by_cases hres : ∃ j, ((((b / 2 ^ k) % 2 ^ m) * K : Nat) : Int) ≤ j ∧
        j < ((((b / 2 ^ k) % 2 ^ m) * K : Nat) : Int) + K ∧
        (s.TLB t j).tag = (b / 2 ^ k) / 2 ^ m
    · obtain ⟨_, _, e, hfirst, hT⟩ := hhit hres
      rw [hT]
      exact lru_touch_outside _ _ _ _ _ hfirst.1 hfirst.2.1 hdis
    · obtain ⟨_, _, e, hmax, hT⟩ := hmiss hres
      rw [hT, lru_touch_outside _ _ _ _ _ hmax.1 hmax.2.1 hdis, upd_ne]
      have := hmax.1
      have := hmax.2.1
      omega

/-- The scope `r` of a level under the LRU policy after a trace that is too
short for a count to reach `2 ^ 31`. -/
theorem lru_run (t : Int) (k m K : Nat) (c0 c : tlb_t) (r : Nat) : ∀ (pre : List Nat)
    (s : State) (L : List Nat) (w : Nat) (cv : Nat → Nat), Alone s t → LruLevel s t k m K c0 c →
    (∀ b ∈ pre, b < 2 ^ s.VAS_SIZE.toNat) →
    LruScope (s.TLB t) ((r * K : Nat) : Int) K m r L w cv →
    pre.length + L.length < 2 ^ 31 →
    ∃ x, run (pre.map fun b => (b, t)) s = some x ∧ SameSetup s x ∧
      ∃ w' cv', LruScope (x.TLB t) ((r * K : Nat) : Int) K m r (scope_refs k m r pre ++ L)
        w' cv' := by
  intro pre
  induction pre with
  | nil =>
    intro s L w cv _ _ _ hsc _
    exact ⟨s, rfl, sameSetup_refl s, w, cv, by simpa [scope_refs] using hsc⟩
  | cons b rest ih =>
    intro s L w cv hal hd hpre hsc hlen
    rw [List.length_cons] at hlen
    obtain ⟨y1, hy1, hs1, hin, hout⟩ := lru_reference_scope b r hal hd
      (hpre b (List.mem_cons_self _ _)) hsc (by omega)
    have hal1 := alone_congr hs1 hal
    have hd1 := lruLevel_congr hs1 hd
    have hpre1 : ∀ b2 ∈ rest, b2 < 2 ^ y1.VAS_SIZE.toNat := fun b2 hb2 => by
      rw [hs1.vas]; exact hpre b2 (List.mem_cons_of_mem _ hb2)
    rw [scope_refs_cons]
    by_cases hslot : (b / 2 ^ k) % 2 ^ m = r
    · obtain ⟨w1, cv1, hsc1⟩ := (hin hslot).1
      obtain ⟨x, hx, hsx, w2, cv2, hsc2⟩ := ih y1 _ w1 cv1 hal1 hd1 hpre1 hsc1
        (by rw [List.length_cons]; omega)
      refine ⟨x, by rw [run_cons, hy1]; exact hx, sameSetup_trans hs1 hsx, w2, cv2, ?_⟩
      rw [if_pos hslot, List.append_assoc]
      exact hsc2
    · obtain ⟨x, hx, hsx, w2, cv2, hsc2⟩ := ih y1 _ w cv hal1 hd1 hpre1 (hout hslot)
        (by omega)
      refine ⟨x, by rw [run_cons, hy1]; exact hx, sameSetup_trans hs1 hsx, w2, cv2, ?_⟩
      rw [if_neg hslot, List.append_nil]
      exact hsc2

/-! ## Long runs: counters at the end of their range -/

theorem run_append (l1 l2 : List (Nat × Int)) : ∀ s : State,
    run (l1 ++ l2) s = (run l1 s).bind (run l2) := by
  induction l1 with
  | nil => intro s; rfl
  | cons r rs ih =>
    intro s
    show (reference_address r.1 r.2 s).bind (run (rs ++ l2)) = _
    cases h : reference_address r.1 r.2 s with
    | none => simp [run, h]
    | some z => simp [run, h, ih z]

theorem run_replicate_succ (n : Nat) (r : Nat × Int) (s : State) :
    run (List.replicate (n + 1) r) s =
      (reference_address r.1 r.2 s).bind (run (List.replicate n r)) := rfl

theorem run_single (r : Nat × Int) (s : State) : run [r] s = reference_address r.1 r.2 s := by
  show (reference_address r.1 r.2 s).bind (run []) = _
  cases reference_address r.1 r.2 s <;> rfl

/-- A page that the L1 level holds is hit by each of `n` references in a row:
the hit counter is incremented `n` times, and the tags and the miss counter
stay. -/
theorem repeat_hits (a : Nat) (t : Int) : ∀ (n : Nat) (s : State), Routed t s →
    s.clo_sim_tlb = true → (s.RepPol = 0 ∨ s.RepPol = 1 ∨ s.RepPol = 2) →
    InRangeAt s t (decode_index (s.TLBc t) a) →
    (s.sim_L2TLB = true → InRangeAt s 2 (decode_index (s.TLBc 2) a)) →
    Resident s t (decode_tag (s.TLBc t) a) (decode_index (s.TLBc t) a) →
    ∃ y, run (List.replicate n (a, t)) s = some y ∧ SameSetup s y ∧
      (y.TLBc t).hit = incr_int^[n] (s.TLBc t).hit ∧ (y.TLBc t).miss = (s.TLBc t).miss ∧
      SameTags (s.TLB t) (y.TLB t) := by
  intro n
  induction n with
  | zero =>
    intro s _ _ _ _ _ _
    exact ⟨s, rfl, sameSetup_refl s, rfl, rfl, fun _ => rfl⟩
  | succ n ih =>
    intro s hrouted hsim hpol hr1 hr2 hres
    obtain ⟨y1, hy1, hs1, _, _, _, _, hhit, _⟩ := reference_ok s a t hrouted hsim hpol hr1 hr2
    obtain ⟨hf, _⟩ := hhit hres
    have hg := hs1.geom t
    have hg2 := hs1.geom 2
    have hres1 : Resident y1 t (decode_tag (y1.TLBc t) a) (decode_index (y1.TLBc t) a) := by
      rw [geom_decode_tag hg, geom_decode_index hg]
      exact resident_of_hit hg hf.tags hres
    have hr11 : InRangeAt y1 t (decode_index (y1.TLBc t) a) := by
      rw [geom_decode_index hg]
      exact (inRangeAt_congr hg (by rw [hs1.size]) _).2 hr1
    have hr21 : y1.sim_L2TLB = true → InRangeAt y1 2 (decode_index (y1.TLBc 2) a) := by
      intro h
      rw [geom_decode_index hg2]
      exact (inRangeAt_congr hg2 (by rw [hs1.size]) _).2 (hr2 (hs1.l2tlb.symm.trans h))
    obtain ⟨y, hy, hs, hh, hm, ht⟩ := ih y1 (routed_congr hs1 hrouted) (hs1.sim.trans hsim)
      (by rw [hs1.pol]; exact hpol) hr11 hr21 hres1
    refine ⟨y, ?_, sameSetup_trans hs1 hs, ?_, ?_, ?_⟩
    · rw [run_replicate_succ]
      show (reference_address a t s).bind _ = _
      rw [hy1]
      exact hy
    · rw [hh, hf.hit, Function.iterate_succ_apply]
    · rw [hm, hf.miss]
    · intro j
      rw [ht j, hf.tags j]

/-! ### Two pages that thrash a slot of both levels -/

theorem thrash_step {s : State} {t : Int} {a b : Nat} (h : Thrash s t a b) :
    ∃ y, reference_address a t s = some y ∧
      (y.TLBc t).miss = incr_int (s.TLBc t).miss ∧ (y.TLBc 2).miss = incr_int (s.TLBc 2).miss ∧
      (y.TLBc t).hit = (s.TLBc t).hit ∧
      y.t1 = incr_ulong s.t1 ∧ y.t2 = incr_ulong s.t2 ∧ Thrash y t b a := by
  obtain ⟨y, hy, hs, _, _, _, _, _, hmiss⟩ := reference_ok s a t h.routed h.sim h.pol h.range1
    (fun _ => h.range2)
  obtain ⟨hm1, ht1, _, hl2⟩ := hmiss h.out1
  obtain ⟨hm2, ht2⟩ := (hl2 h.l2).2 h.out2
  have hg := hs.geom t
  have hg2 := hs.geom 2
  refine ⟨y, hy, hm1.miss, hm2.miss, hm1.hit, ht1, ht2, ?_⟩
  have i1 : decode_index (y.TLBc t) a = decode_index (s.TLBc t) a := geom_decode_index hg a
  have i1b : decode_index (y.TLBc t) b = decode_index (s.TLBc t) a :=
    (geom_decode_index hg b).trans h.index1
  have i2 : decode_index (y.TLBc 2) a = decode_index (s.TLBc 2) a := geom_decode_index hg2 a
  have i2b : decode_index (y.TLBc 2) b = decode_index (s.TLBc 2) a :=
    (geom_decode_index hg2 b).trans h.index2
  have g1a : decode_tag (y.TLBc t) a = decode_tag (s.TLBc t) a := geom_decode_tag hg a
  have g1b : decode_tag (y.TLBc t) b = decode_tag (s.TLBc t) b := geom_decode_tag hg b
  have g2a : decode_tag (y.TLBc 2) a = decode_tag (s.TLBc 2) a := geom_decode_tag hg2 a
  have g2b : decode_tag (y.TLBc 2) b = decode_tag (s.TLBc 2) b := geom_decode_tag hg2 b
  refine ⟨routed_congr hs h.routed, hs.l2tlb.trans h.l2, hs.sim.trans h.sim,
    by rw [hs.pol]; exact h.pol, ?_, ?_, ?_, ?_, ?_, ?_, ?_, ?_, ?_, ?_⟩
  · rw [i1b]
    exact (inRangeAt_congr hg (by rw [hs.size]) _).2 h.range1
  · rw [i2b]
    exact (inRangeAt_congr hg2 (by rw [hs.size]) _).2 h.range2
  · rw [i1, i1b]
  · rw [i2, i2b]
  · rw [i1b, geom_scope_lo hg, geom_scope_hi hg]
    exact h.single1
  · rw [i2b, geom_scope_lo hg2, geom_scope_hi hg2]
    exact h.single2
  · rw [g1a, g1b]
    exact fun e => h.tags1 e.symm
  · rw [g2a, g2b]
    exact fun e => h.tags2 e.symm
  · rw [g1b, i1b]
    rintro ⟨j, h0, h1, h2⟩
    rw [geom_scope_lo hg] at h0
    rw [geom_scope_hi hg, h.single1] at h1
    obtain ⟨e, he0, he1, hetag, _⟩ := hm1.installed
    rw [h.single1] at he1
    have hje : j = e := by omega
    rw [hje, hetag] at h2
    exact h.tags1 h2
  · rw [g2b, i2b]
    rintro ⟨j, h0, h1, h2⟩
    rw [geom_scope_lo hg2] at h0
    rw [geom_scope_hi hg2, h.single2] at h1
    obtain ⟨e, he0, he1, hetag, _⟩ := hm2.installed
    rw [h.single2] at he1
    have hje : j = e := by omega
    rw [hje, hetag] at h2
    exact h.tags2 h2

/-- Two addresses that thrash a slot of the L1 level and of L2TLB, referenced
in turn `n` times: every reference misses both levels. -/
theorem thrash_run (t : Int) : ∀ (n : Nat) (s : State) (a b : Nat), Thrash s t a b →
    ∃ y, run (alternate n (a, t) (b, t)) s = some y ∧
      (y.TLBc t).miss = incr_int^[n] (s.TLBc t).miss ∧
      (y.TLBc 2).miss = incr_int^[n] (s.TLBc 2).miss ∧
      (y.TLBc t).hit = (s.TLBc t).hit ∧
      y.t1 = incr_ulong^[n] s.t1 ∧ y.t2 = incr_ulong^[n] s.t2 ∧
      (n % 2 = 0 → Thrash y t a b) ∧ (n % 2 = 1 → Thrash y t b a) := by
  intro n
  induction n with
  | zero =>
    intro s a b h
    exact ⟨s, rfl, rfl, rfl, rfl, rfl, rfl, fun _ => h, fun h1 => absurd h1 (by decide)⟩
  | succ n ih =>
    intro s a b h
    obtain ⟨y1, hy1, m1, m2, hh1, t1, t2, h1⟩ := thrash_step h
    obtain ⟨y, hy, n1, n2, hh, u1, u2, p0, p1⟩ := ih y1 b a h1
    refine ⟨y, ?_, ?_, ?_, ?_, ?_, ?_, fun hp => p1 (by omega), fun hp => p0 (by omega)⟩
    · show (reference_address a t s).bind _ = _
      rw [hy1]
      exact hy
    · rw [n1, m1, Function.iterate_succ_apply]
    · rw [n2, m2, Function.iterate_succ_apply]
    · rw [hh, hh1]
    · rw [u1, t1, Function.iterate_succ_apply]
    · rw [u2, t2, Function.iterate_succ_apply]

theorem iterate_incr_ulong (n : Nat) : ∀ x : Nat, x + n < 2 ^ 64 → incr_ulong^[n] x = x + n := by
  induction n with
  | zero => intro x _; rfl
  | succ n ih =>
    intro x h
    rw [Function.iterate_succ_apply, incr_ulong_of_lt (by omega), ih _ (by omega)]
    omega

/-! ### A page hit again and again under the LRU policy -/

theorem lru_touch_count (f : Int → TLB_ENTRY) (lo : Int) (K : Nat) (e j : Int) :
    (lru_touch f lo K e j).count =
      if j = e then 0 else if lo ≤ j ∧ j < lo + K then incr_int (f j).count else (f j).count := by
  unfold lru_touch
  by_cases hje : j = e
  · rw [hje, upd_same, if_pos rfl]
  · rw [upd_ne _ _ hje, if_neg hje]
    unfold bumped
    by_cases hin : lo ≤ j ∧ j < lo + K
    · rw [if_pos hin, if_pos hin]
    · rw [if_neg hin, if_neg hin]

/-- The cells of a scope after `n` LRU touches of its cell `e`. -/
theorem lru_touch_iterate (f : Int → TLB_ENTRY) (lo : Int) (K : Nat) (e : Int) :
    ∀ (n : Nat) (j : Int),
      ((fun g => lru_touch g lo K e)^[n] f j).tag = (f j).tag ∧
      ((fun g => lru_touch g lo K e)^[n] f j).count =
        if j = e then (if n = 0 then (f j).count else 0)
        else if lo ≤ j ∧ j < lo + K then incr_int^[n] (f j).count else (f j).count := by
  intro n
  induction n with
  | zero =>
    intro j
    refine ⟨rfl, ?_⟩
    simp
  | succ n ih =>
    intro j
    rw [Function.iterate_succ_apply']
    refine ⟨by rw [lru_touch_tag]; exact (ih j).1, ?_⟩
    rw [lru_touch_count, (ih j).2]
    by_cases hje : j = e
    · rw [if_pos hje, if_pos hje, if_neg (Nat.succ_ne_zero n)]
    · rw [if_neg hje, if_neg hje, if_neg hje]
      by_cases hin : lo ≤ j ∧ j < lo + K
      · rw [if_pos hin, if_pos hin, if_pos hin, Function.iterate_succ_apply']
      · rw [if_neg hin, if_neg hin, if_neg hin]

theorem firstTag_unique {f : Int → TLB_ENTRY} {lo hi : Int} {tag : Nat} {e e2 : Int}
    (h1 : FirstTag f lo hi tag e) (h2 : FirstTag f lo hi tag e2) : e2 = e := by
  obtain ⟨a0, a1, a2, a3⟩ := h1
  obtain ⟨b0, b1, b2, b3⟩ := h2
  rcases lt_trichotomy e2 e with h | h | h
  · exact absurd b2 (a3 e2 b0 h)
  · exact h
  · exact absurd a2 (b3 e a0 h)

theorem firstTag_of_tags {f g : Int → TLB_ENTRY} {lo hi : Int} {tag : Nat} {e : Int}
    (ht : ∀ j, (g j).tag = (f j).tag) (h : FirstTag f lo hi tag e) : FirstTag g lo hi tag e := by
  obtain ⟨a0, a1, a2, a3⟩ := h
  exact ⟨a0, a1, (ht e).trans a2, fun j h0 h1 => by rw [ht j]; exact a3 j h0 h1⟩

theorem lruAt_congr {s y : State} {t : Int} {a : Nat} {lo : Int} {K tag : Nat}
    (h : SameSetup s y) (hd : LruAt s t a lo K tag) : LruAt y t a lo K tag := by
  have hg := h.geom t
  refine ⟨alone_congr h hd.alone, h.pol.trans hd.pol, ?_, ?_, ?_, ?_, ?_⟩
  · rw [geom_decode_index hg]
    exact (inRangeAt_congr hg (by rw [h.size]) _).2 hd.range
  · rw [geom_assoc hg]; exact hd.assoc
  · rw [geom_decode_index hg, geom_scope_lo hg]; exact hd.first
  · rw [geom_decode_index hg, geom_scope_hi hg]; exact hd.last
  · rw [geom_decode_tag hg]; exact hd.tag

/-- A reference under the LRU policy to a page whose tag is first found in
cell `e` of its scope. -/
theorem lru_hit_step {s : State} {t : Int} {a : Nat} {lo : Int} {K tag : Nat} {e : Int}
    (hd : LruAt s t a lo K tag) (hf : FirstTag (s.TLB t) lo (lo + K) tag e) :
    ∃ y, reference_address a t s = some y ∧ SameSetup s y ∧
      y.TLB t = lru_touch (s.TLB t) lo K e ∧
      (y.TLBc t).hit = incr_int (s.TLBc t).hit ∧ (y.TLBc t).miss = (s.TLBc t).miss := by
  obtain ⟨y, hy, hs, hhit, _⟩ := reference_lru s a t hd.alone hd.pol hd.range hd.assoc
  have hres : Resident s t (decode_tag (s.TLBc t) a) (decode_index (s.TLBc t) a) := by
    refine ⟨e, ?_, ?_, ?_⟩
    · rw [hd.first]; exact hf.1
    · rw [hd.last]; exact hf.2.1
    · rw [hd.tag]; exact hf.2.2.1
  obtain ⟨hh, hm, e2, hf2, hT⟩ := hhit hres
  rw [hd.first, hd.last, hd.tag] at hf2
  have he : e2 = e := firstTag_unique hf hf2
  rw [hd.first, hd.last, he] at hT
  have hK : (lo + (K : Int) - lo).toNat = K := by omega
  rw [hK] at hT
  exact ⟨y, hy, hs, hT, hh, hm⟩

/-- A reference under the LRU policy to a page whose tag no cell of its scope
holds: the victim is the first cell of highest count. -/
theorem lru_miss_step {s : State} {t : Int} {a : Nat} {lo : Int} {K tag : Nat}
    (hd : LruAt s t a lo K tag) (hno : ∀ j, lo ≤ j → j < lo + K → (s.TLB t j).tag ≠ tag) :
    ∃ y e, reference_address a t s = some y ∧ SameSetup s y ∧
      FirstMax (s.TLB t) lo (lo + K) e ∧
      y.TLB t = lru_touch (upd (s.TLB t) e { tag := tag, count := 0 }) lo K e ∧
      (y.TLBc t).miss = incr_int (s.TLBc t).miss ∧ (y.TLBc t).hit = (s.TLBc t).hit := by
  obtain ⟨y, hy, hs, _, hmiss⟩ := reference_lru s a t hd.alone hd.pol hd.range hd.assoc
  have hres : ¬ Resident s t (decode_tag (s.TLBc t) a) (decode_index (s.TLBc t) a) := by
    rintro ⟨j, h0, h1, h2⟩
    rw [hd.first] at h0
    rw [hd.last] at h1
    rw [hd.tag] at h2
    exact hno j h0 h1 h2
  obtain ⟨hm, hh, e, hmax, hT⟩ := hmiss hres
  rw [hd.first, hd.last] at hmax
  rw [hd.first, hd.last, hd.tag] at hT
  have hK : (lo + (K : Int) - lo).toNat = K := by omega
  rw [hK] at hT
  exact ⟨y, e, hy, hs, hmax, hT, hm, hh⟩

/-- A page under the LRU policy whose tag is first found in cell `e` of its
scope, referenced `n` times in a row: every reference hits and touches `e`. -/
theorem repeat_hits_lru (a : Nat) (t : Int) (lo : Int) (K tag : Nat) (e : Int) :
    ∀ (n : Nat) (s : State), LruAt s t a lo K tag → FirstTag (s.TLB t) lo (lo + K) tag e →
    ∃ y, run (List.replicate n (a, t)) s = some y ∧ SameSetup s y ∧
      y.TLB t = (fun g => lru_touch g lo K e)^[n] (s.TLB t) ∧
      (y.TLBc t).hit = incr_int^[n] (s.TLBc t).hit ∧ (y.TLBc t).miss = (s.TLBc t).miss := by
  intro n
  induction n with
  | zero =>
    intro s _ _
    exact ⟨s, rfl, sameSetup_refl s, rfl, rfl, rfl⟩
  | succ n ih =>
    intro s hd hf
    obtain ⟨y1, hy1, hs1, hT1, hh1, hm1⟩ := lru_hit_step hd hf
    have hf1 : FirstTag (y1.TLB t) lo (lo + K) tag e :=
      firstTag_of_tags (fun j => by rw [hT1, lru_touch_tag]) hf
    obtain ⟨y, hy, hs, hT, hh, hm⟩ := ih y1 (lruAt_congr hs1 hd) hf1
    refine ⟨y, ?_, sameSetup_trans hs1 hs, ?_, ?_, ?_⟩
    · rw [run_replicate_succ]
      show (reference_address a t s).bind _ = _
      rw [hy1]
      exact hy
    · rw [hT, hT1, Function.iterate_succ_apply]
    · rw [hh, hh1, Function.iterate_succ_apply]
    · rw [hm, hm1]

/-! ### The sample levels after `2 ^ 31` references -/

set_option maxRecDepth 100000 in
theorem two_way_warm_lruAt (a : Nat) (tag : Nat)
    (ha : decode_index (two_way_warm.TLBc 1) a = 1) (ht : decode_tag (two_way_warm.TLBc 1) a = tag) :
    LruAt two_way_warm 1 a 2 2 tag := by
  refine ⟨⟨by decide, by decide, by decide, by decide, by decide⟩, by decide, ?_, by decide,
    ?_, ?_, ht⟩
  · rw [ha]; decide
  · rw [ha]; decide
  · rw [ha]; decide

set_option maxRecDepth 100000 in
/-- Set 1 of the 2-way dTLB `two_way_warm` (page 25 in cell 2, page 27 in
cell 3) after `n` more references to page 27: every one hits, and the count of
page 25 was incremented `n` times from 1. -/
theorem two_way_warm_hits (n : Nat) :
    ∃ y, run (List.replicate n (0x1B000, 1)) two_way_warm = some y ∧
      SameSetup two_way_warm y ∧
      (y.TLB 1 2).tag = 12 ∧ (y.TLB 1 2).count = incr_int^[n] 1 ∧
      (y.TLB 1 3).tag = 13 ∧ (y.TLB 1 3).count = 0 ∧
      (y.TLBc 1).hit = incr_int^[n] (two_way_warm.TLBc 1).hit ∧
      (y.TLBc 1).miss = (two_way_warm.TLBc 1).miss := by
  have hd : LruAt two_way_warm 1 0x1B000 2 2 13 :=
    two_way_warm_lruAt 0x1B000 13 (by decide) (by decide)
  have hf : FirstTag (two_way_warm.TLB 1) 2 (2 + (2 : Nat)) 13 3 := by
    refine ⟨by decide, by decide, by decide, fun j h0 h1 => ?_⟩
    have hj : j = 2 := by omega
    rw [hj]; decide
  obtain ⟨y, hy, hs, hT, hh, hm⟩ := repeat_hits_lru 0x1B000 1 2 2 13 3 n two_way_warm hd hf
  have c2 := lru_touch_iterate (two_way_warm.TLB 1) 2 2 3 n 2
  have c3 := lru_touch_iterate (two_way_warm.TLB 1) 2 2 3 n 3
  rw [← hT] at c2 c3
  refine ⟨y, hy, hs, ?_, ?_, ?_, ?_, hh, hm⟩
  · rw [c2.1]; decide
  · rw [c2.2, if_neg (by decide), if_pos (by decide)]
    have : (two_way_warm.TLB 1 2).count = 1 := by decide
    rw [this]
  · rw [c3.1]; decide
  · rw [c3.2, if_pos rfl]
    have : (two_way_warm.TLB 1 3).count = 0 := by decide
    rw [this]
    split <;> rfl

theorem firstTag_cell3 {f : Int → TLB_ENTRY} (h2 : (f 2).tag = 12) (h3 : (f 3).tag = 13) :
    FirstTag f 2 (2 + (2 : Nat)) 13 3 := by
  refine ⟨by decide, by decide, h3, fun j h0 h1 => ?_⟩
  have hj : j = 2 := by omega
  rw [hj, h2]; decide

set_option maxRecDepth 100000 in
/-- The 2-way dTLB `two_way` after the pages 25, 27, then `n` more references
to page 27 that take the count of page 25 below zero, then page 29: page 29
replaces page 27, the page used last, and the next reference to page 27
misses. -/
theorem lru_evicts_the_page_used_last (n : Nat) (hwrap : incr_int^[n] 1 < 0) :
    ∃ x y, run ((lru_long_trace n).map fun b => (b, 1)) two_way = some x ∧
      reference_address 0x1B000 1 x = some y ∧
      (x.TLB 1 2).tag = 12 ∧ (x.TLB 1 3).tag = 14 ∧
      (y.TLBc 1).hit = (x.TLBc 1).hit ∧ (y.TLBc 1).miss = incr_int (x.TLBc 1).miss := by
  have hw : run ([0x19000, 0x1B000].map fun b => (b, (1 : Int))) two_way = some two_way_warm :=
    eq_some_getD _ (by decide)
  obtain ⟨y1, hy1, hs1, t2, c2, t3, c3, _, _⟩ := two_way_warm_hits n
  have hd29 : LruAt y1 1 0x1D000 2 2 14 :=
    lruAt_congr hs1 (two_way_warm_lruAt 0x1D000 14 (by decide) (by decide))
  have hno29 : ∀ j, (2 : Int) ≤ j → j < 2 + (2 : Nat) → (y1.TLB 1 j).tag ≠ 14 := by
    intro j h0 h1
    have hj : j = 2 ∨ j = 3 := by push_cast at h1; omega
    rcases hj with hj | hj
    · rw [hj, t2]; decide
    · rw [hj, t3]; decide
  obtain ⟨x, e, hx, hsx, hmax, hTx, _, _⟩ := lru_miss_step hd29 hno29
  have he : e = 3 := by
    obtain ⟨m0, m1, m2, _⟩ := hmax
    have hj : e = 2 ∨ e = 3 := by push_cast at m1; omega
    rcases hj with hj | hj
    · exfalso
      have h3 := m2 3 (by decide) (by decide)
      rw [hj, c2, c3] at h3
      omega
    · exact hj
  rw [he] at hTx
  have x2 : (x.TLB 1 2).tag = 12 := by
    rw [hTx, lru_touch_tag, upd_ne _ _ (by decide)]; exact t2
  have x3 : (x.TLB 1 3).tag = 14 := by
    rw [hTx, lru_touch_tag, upd_same]
  have hd27 : LruAt x 1 0x1B000 2 2 13 :=
    lruAt_congr (sameSetup_trans hs1 hsx) (two_way_warm_lruAt 0x1B000 13 (by decide) (by decide))
  have hno27 : ∀ j, (2 : Int) ≤ j → j < 2 + (2 : Nat) → (x.TLB 1 j).tag ≠ 13 := by
    intro j h0 h1
    have hj : j = 2 ∨ j = 3 := by push_cast at h1; omega
    rcases hj with hj | hj
    · rw [hj, x2]; decide
    · rw [hj, x3]; decide
  obtain ⟨y, _, hy, _, _, _, hm, hh⟩ := lru_miss_step hd27 hno27
  refine ⟨x, y, ?_, hy, x2, x3, hh, hm⟩
  unfold lru_long_trace
  rw [List.map_append, List.map_append, List.map_replicate, run_append, run_append, hw]
  simp only [Option.some_bind]
  rw [hy1]
  simp only [Option.some_bind]
  exact (run_single (0x1D000, 1) y1).trans hx

theorem scope_refs_append (k m r : Nat) (l1 l2 : List Nat) :
    scope_refs k m r (l1 ++ l2) = scope_refs k m r l2 ++ scope_refs k m r l1 := by
  unfold scope_refs
  rw [List.map_append, List.filter_append, List.reverse_append]

theorem scope_refs_replicate (k m r b : Nat) (h : (b / 2 ^ k) % 2 ^ m = r) (n : Nat) :
    scope_refs k m r (List.replicate n b) = List.replicate n (b / 2 ^ k) := by
  induction n with
  | zero => rfl
  | succ n ih =>
    rw [List.replicate_succ, scope_refs_cons, ih, if_pos h, ← List.replicate_succ']

/-- In `lru_long_trace n`, page 29 is the only page of set 1 referenced since
the last reference to page 27. -/
theorem lru_long_trace_others (n : Nat) :
    others_since (0x1B000 / 2 ^ 12)
      (scope_refs 12 1 ((0x1B000 / 2 ^ 12) % 2 ^ 1) (lru_long_trace n)) = 1 := by
  unfold lru_long_trace
  rw [scope_refs_append, scope_refs_append, scope_refs_replicate 12 1 _ 0x1B000 rfl]
  have e1 : scope_refs 12 1 ((0x1B000 / 2 ^ 12) % 2 ^ 1) [0x1D000] = [29] := by decide
  have e2 : scope_refs 12 1 ((0x1B000 / 2 ^ 12) % 2 ^ 1) [0x19000, 0x1B000] = [27, 25] := by
    decide
  have e3 : 0x1B000 / 2 ^ 12 = 27 := by decide
  rw [e1, e2, e3]
  unfold others_since
  cases n with
  | zero => decide
  | succ n =>
    rw [List.replicate_succ]
    simp [List.takeWhile]

end CgTlb

namespace CgArch

/-! ## Arithmetic of `check_cache` -/

theorem VG_log2_eq_neg_one_iff (x : Nat) :
    VG_log2 x = -1 ↔ ¬ ∃ k, k < 32 ∧ 2 ^ k = x := by
  unfold VG_log2
  cases h : (List.range 32).find? (fun k => 2 ^ k = x) with
  | none =>
    simp only [true_iff]
    rw [List.find?_eq_none] at h
    rintro ⟨k, hk, hx⟩
    exact h k (List.mem_range.mpr hk) (by simpa using hx)
  | some k =>
    have h1 := List.find?_some h
    have h2 := List.mem_of_find?_eq_some h
    simp only [decide_eq_true_eq] at h1
    rw [List.mem_range] at h2
    show (k : Int) = -1 ↔ _
    constructor
    · intro h3
      have : (0 : Int) ≤ k := Int.natCast_nonneg k
      omega
    · intro h3
      exact absurd ⟨k, h2, h1⟩ h3

theorem pow_two_lt_iff {k : Nat} {n : Nat} : (2 : Int) ^ k < 2 ^ n ↔ k < n := by
  constructor
  · intro h
    by_contra hc
    have : (2 : Int) ^ n ≤ 2 ^ k := pow_le_pow_right₀ (by norm_num) (by omega)
    omega
  · intro h
    exact pow_lt_pow_right₀ (by norm_num) h

/-- The power-of-two test of `check_cache` on an `Int` other than `INT_MIN`. -/
theorem pow2_test (q : Int) (h0 : -2 ^ 31 < q) (h1 : q < 2 ^ 31) :
    VG_log2 (to_uint q) = -1 ↔ ¬ ∃ k : Nat, q = 2 ^ k := by
  rw [VG_log2_eq_neg_one_iff]
  apply not_congr
  unfold to_uint
  by_cases hq : 0 ≤ q
  · have e : q % 2 ^ 32 = q := Int.emod_eq_of_lt hq (by omega)
    rw [e]
    constructor
    · rintro ⟨k, _, hk⟩
      refine ⟨k, ?_⟩
      have : ((2 ^ k : Nat) : Int) = q := by rw [hk]; exact Int.toNat_of_nonneg hq
      rw [← this]; push_cast; rfl
    · rintro ⟨k, hk⟩
      have hk31 : k < 31 := pow_two_lt_iff.mp (by rw [← hk]; exact h1)
      refine ⟨k, by omega, ?_⟩
      rw [hk]
      have : ((2 : Int) ^ k) = ((2 ^ k : Nat) : Int) := by push_cast; rfl
      rw [this, Int.toNat_natCast]
  · have e : q % 2 ^ 32 = q + 2 ^ 32 := by
      rw [← Int.add_emod_self]
      exact Int.emod_eq_of_lt (by omega) (by omega)
    rw [e]
    constructor
    · rintro ⟨k, hk32, hk⟩
      exfalso
      have hpos : (0 : Int) ≤ q + 2 ^ 32 := by omega
      have h2 : ((2 ^ k : Nat) : Int) = q + 2 ^ 32 := by rw [hk]; exact Int.toNat_of_nonneg hpos
      push_cast at h2
      have hlt : (2 : Int) ^ k < 2 ^ 32 := by omega
      have hgt : (2 : Int) ^ 31 < 2 ^ k := by omega
      have a := pow_two_lt_iff.mp hlt
      have b := pow_two_lt_iff.mp hgt
      omega
    · rintro ⟨k, hk⟩
      have : (0 : Int) < 2 ^ k := by positivity
      omega

theorem mul_int_some {a b : Int} (h : in_int (a * b)) : mul_int a b = some (a * b) := by
  unfold mul_int; rw [if_pos h]

theorem div_int_some {a b : Int} (hb : b ≠ 0) (ha : a ≠ -2 ^ 31 ∨ b ≠ -1) :
    div_int a b = some (Int.tdiv a b) := by
  unfold div_int
  rw [if_neg]
  rintro (h | ⟨h1, h2⟩)
  · exact hb h
  · rcases ha with h | h
    · exact h h1
    · exact h h2

theorem mod_int_some {a b : Int} (hb : b ≠ 0) (ha : a ≠ -2 ^ 31 ∨ b ≠ -1) :
    mod_int a b = some (Int.tmod a b) := by
  unfold mod_int
  rw [if_neg]
  rintro (h | ⟨h1, h2⟩)
  · exact hb h
  · rcases ha with h | h
    · exact h h1
    · exact h h2

/-- The first test of `check_cache` where its arithmetic is defined: it fails
when the size is not a multiple of `line_size * assoc` or the quotient
`size / line_size / assoc` is not a power of two. -/
theorem set_count_bad_eq (c : cache_t) (hp : in_int (c.line_size * c.assoc))
    (hne : c.line_size * c.assoc ≠ 0) (hs0 : -2 ^ 31 < c.size) (hs1 : c.size < 2 ^ 31) :
    ∃ b, set_count_bad c = some b ∧
      (b = true ↔ (¬ c.line_size * c.assoc ∣ c.size ∨
        ¬ ∃ k : Nat, Int.tdiv (Int.tdiv c.size c.line_size) c.assoc = 2 ^ k)) := by
  have hl : c.line_size ≠ 0 := left_ne_zero_of_mul hne
  have ha : c.assoc ≠ 0 := right_ne_zero_of_mul hne
  have hsz : c.size ≠ -2 ^ 31 := by omega
  unfold set_count_bad
  rw [mul_int_some hp]
  simp only [Option.some_bind]
  rw [mod_int_some hne (Or.inl hsz)]
  simp only [Option.some_bind]
  by_cases hr : Int.tmod c.size (c.line_size * c.assoc) = 0
  · have hdvd : c.line_size * c.assoc ∣ c.size := Int.dvd_of_tmod_eq_zero hr
    rw [if_neg (by rw [hr]; simp), div_int_some hl (Or.inl hsz)]
    simp only [Option.some_bind]
    have hq1 : Int.natAbs (Int.tdiv c.size c.line_size) ≤ Int.natAbs c.size := by
      rw [Int.natAbs_tdiv]
      exact Nat.div_le_self _ _
    have hq1' : Int.tdiv c.size c.line_size ≠ -2 ^ 31 := by omega
    rw [div_int_some ha (Or.inl hq1')]
    simp only [Option.map_some']
    refine ⟨_, rfl, ?_⟩
    have hq2 : Int.natAbs (Int.tdiv (Int.tdiv c.size c.line_size) c.assoc) ≤
        Int.natAbs (Int.tdiv c.size c.line_size) := by
      rw [Int.natAbs_tdiv]
      exact Nat.div_le_self _ _
    rw [decide_eq_true_eq, pow2_test _ (by omega) (by omega)]
    constructor
    · intro h; exact Or.inr h
    · rintro (h | h)
      · exact absurd hdvd h
      · exact h
  · rw [if_pos hr]
    refine ⟨true, rfl, ?_⟩
    simp only [true_iff]
    left
    intro hdvd
    exact hr (Int.tmod_eq_zero_of_dvd hdvd)

/-- The result of `check_cache` once the first test has the outcome `b`. -/
theorem check_cache_of_set_count (c : cache_t) (b : Bool) (h : set_count_bad c = some b) :
    check_cache c =
      if b then some (some "Cache set count is not a power of two.\n")
      else if VG_log2 (to_uint c.line_size) = -1 then
        some (some "Cache line size is not a power of two.\n")
      else if c.line_size < MIN_LINE_SIZE then some (some "Cache line size is too small.\n")
      else if c.size ≤ c.line_size then some (some "Cache size <= line size.\n")
      else (div_int c.size c.line_size).map fun q =>
        if c.assoc > q then some "Cache associativity > (size / line size).\n" else none := by
  unfold check_cache
  rw [h]
  rfl

theorem nested_div_pos {s l a : Int} (hs : 0 ≤ s) (hl : 0 ≤ l) (ha : 0 ≤ a) :
    Int.tdiv (Int.tdiv s l) a = s / (l * a) := by
  rw [Int.tdiv_eq_ediv hs hl, Int.tdiv_eq_ediv (Int.ediv_nonneg hs hl) ha]
  lift s to ℕ using hs
  lift l to ℕ using hl
  lift a to ℕ using ha
  norm_cast
  exact Nat.div_div_eq_div_mul _ _ _

/-! ## Option parsing and the final configuration -/

theorem to_int_eq_iff (x : Int) : to_int x = x ↔ in_int x := by
  unfold to_int in_int
  constructor
  · intro h
    have h1 : 0 ≤ (x + 2 ^ 31) % 2 ^ 32 := Int.emod_nonneg _ (by norm_num)
    have h2 : (x + 2 ^ 31) % 2 ^ 32 < 2 ^ 32 := Int.emod_lt_of_pos _ (by norm_num)
    omega
  · rintro ⟨h1, h2⟩
    rw [Int.emod_eq_of_lt (by omega) (by omega)]
    ring

/-- The result of `parse_cache_opt` on a value that reads as three numbers
separated by commas with nothing after the third. -/
theorem parse_cache_opt_of_fields (TLB_bool : Bool) (cache : cache_t)
    (optval r1 r2 : List Char) (n1 n2 n3 : Int)
    (h1 : VG_strtoll10 optval = (n1, ',' :: r1)) (h2 : VG_strtoll10 r1 = (n2, ',' :: r2))
    (h3 : VG_strtoll10 r2 = (n3, [])) :
    parse_cache_opt TLB_bool cache optval =
      if ¬ (in_int n1 ∧ in_int n2 ∧ in_int n3) then
        some ({ size := to_int n1, assoc := to_int n2, line_size := to_int n3 }, Outcome.overflow)
      else if TLB_bool = false then
        (check_cache { size := n1, assoc := n2, line_size := n3 }).map fun checkRes =>
          ({ size := n1, assoc := n2, line_size := n3 },
            if checkRes.isSome then Outcome.bad_option else Outcome.returned)
      else some ({ size := n1, assoc := n2, line_size := n3 }, Outcome.returned) := by
  unfold parse_cache_opt
  simp only [h1, List.head?_cons, List.tail_cons, h2, h3, ne_eq, not_true_eq_false, if_false,
    to_int_eq_iff]
  by_cases a1 : in_int n1
  · by_cases a2 : in_int n2
    · by_cases a3 : in_int n3
      · have e1 := (to_int_eq_iff n1).mpr a1
        have e2 := (to_int_eq_iff n2).mpr a2
        have e3 := (to_int_eq_iff n3).mpr a3
        simp only [a1, a2, a3, and_self, not_true_eq_false, if_false, e1, e2, e3]
        cases TLB_bool with
        | true => simp
        | false =>
          simp only [Bool.not_false, if_true]
          cases check_cache { size := n1, assoc := n2, line_size := n3 } with
          | none => rfl
          | some r => cases r <;> rfl
      · simp [a1, a2, a3]
    · simp [a1, a2]
  · simp [a1]

theorem DEFINED_eq_false_iff (L : cache_t) : DEFINED L = false ↔ L = UNDEFINED_CACHE := by
  unfold DEFINED UNDEFINED_CACHE
  cases L with
  | mk a b c =>
    simp only [Bool.or_eq_false_iff, decide_eq_false_iff_not, not_not, cache_t.mk.injEq]
    constructor
    · rintro ⟨⟨h1, h2⟩, h3⟩; exact ⟨h1.symm, h2.symm, h3.symm⟩
    · rintro ⟨h1, h2, h3⟩; exact ⟨⟨h1.symm, h2.symm⟩, h3.symm⟩

theorem check_cache_or_override_eq {c : cache_t} {r : Option String} (h : check_cache c = some r)
    (d : Bool) : check_cache_or_override c d = some (!(r.isSome && !d)) := by
  unfold check_cache_or_override
  rw [h]
  cases r <;> cases d <;> rfl

/-- One step of `VG_(post_clo_init_configure_caches)`: the check of a slot
lets the call go on exactly when the slot does not fail. -/
theorem override_step {auto g : cache_t} (h : check_cache auto ≠ none) :
    ∃ ok, check_cache_or_override auto (DEFINED g) = some ok ∧
      (ok = false ↔ SlotFails auto g) := by
  cases hc : check_cache auto with
  | none => exact absurd hc h
  | some r =>
    refine ⟨_, check_cache_or_override_eq hc _, ?_⟩
    unfold SlotFails
    rw [hc, ← DEFINED_eq_false_iff]
    cases r <;> cases DEFINED g <;> simp

theorem final_slot_eq (auto given : cache_t) :
    (if DEFINED given = true then given else auto) = final_slot auto given := by
  unfold final_slot
  by_cases h : given = UNDEFINED_CACHE
  · rw [if_pos h, if_neg (by rw [(DEFINED_eq_false_iff given).mpr h]; decide)]
  · rw [if_neg h, if_pos]
    cases hd : DEFINED given with
    | true => rfl
    | false => exact absurd ((DEFINED_eq_false_iff given).mp hd) h

end CgArch

namespace CgTlb

/-! ## Claims -/

set_option maxRecDepth 100000 in
/-- C1 (the code departs from the claim): on the two-level scenario
(fully associative iTLB of 4 entries, fully associative L2TLB of 8 entries,
LRU), after the references to pages 1, 2, 3, 4, 5 the iTLB no longer holds
page 1 while L2TLB does; the sixth reference, to page 1, misses iTLB
(`miss` 5 → 6) and hits L2TLB (`hit` 0 → 1, `miss` unchanged), and yet page 1
is installed in iTLB again (cell 1 changes from tag 2 to tag 1). -/
theorem l2_hit_still_installs_in_l1 :
    two_level_start.isSome = true ∧
    (run five_pages two_level).isSome = true ∧
    (reference_address 0x1000 0 two_level_after_five).isSome = true ∧
    tags two_level_after_five 0 4 = [5, 2, 3, 4] ∧
    tags two_level_after_five 2 8 = [1, 2, 3, 4, 5, 0, 0, 0] ∧
    (two_level_after_five.TLBc 0).miss = 5 ∧ (two_level_after_six.TLBc 0).miss = 6 ∧
    (two_level_after_five.TLBc 2).hit = 0 ∧ (two_level_after_six.TLBc 2).hit = 1 ∧
    (two_level_after_six.TLBc 2).miss = (two_level_after_five.TLBc 2).miss ∧
    tags two_level_after_six 0 4 = [5, 1, 3, 4] := by
  refine ⟨by decide, by decide, by decide, by decide, by decide, by decide, by decide,
    by decide, by decide, by decide, by decide⟩

set_option maxRecDepth 100000 in
/-- C2 (the code departs from the claim): with L2TLB simulated, a reference
handed to a simulated L1 level that misses that level and misses L2TLB
returns, and afterwards the tag decoded for L2TLB is resident in the addressed
scope of L2TLB and the tag decoded for the L1 level is resident in the
addressed scope of that level; the miss counters of both levels are
incremented as the 32-bit `Int`s they are, `t1` and `t2` as 64-bit `ULong`s.
Such an increment adds one except at the highest value of the type. On the
direct-mapped iTLB with 4 entries over the direct-mapped L2TLB with 4 entries,
started fresh, the pages 4 and 8 (slot 0, tags 1 and 2) referenced in turn
miss both levels every time: after 2147483647 references both miss counters
are at `2147483647`, and the next reference, to page 8, misses both levels
and leaves them at `-2147483648`, not `2147483648`, while `t1` goes to
`2147483648`. -/
theorem double_miss_wraps_the_miss_counter :
    (∀ (s : State) (addr : Nat) (t : Int), Routed t s → s.sim_L2TLB = true →
      s.clo_sim_tlb = true → (s.RepPol = 0 ∨ s.RepPol = 1 ∨ s.RepPol = 2) →
      InRangeAt s t (decode_index (s.TLBc t) addr) →
      InRangeAt s 2 (decode_index (s.TLBc 2) addr) →
      ¬ Resident s t (decode_tag (s.TLBc t) addr) (decode_index (s.TLBc t) addr) →
      ¬ Resident s 2 (decode_tag (s.TLBc 2) addr) (decode_index (s.TLBc 2) addr) →
      ∃ y, reference_address addr t s = some y ∧
        Resident y 2 (decode_tag (s.TLBc 2) addr) (decode_index (s.TLBc 2) addr) ∧
        Resident y t (decode_tag (s.TLBc t) addr) (decode_index (s.TLBc t) addr) ∧
        (y.TLBc t).miss = incr_int (s.TLBc t).miss ∧
        (y.TLBc 2).miss = incr_int (s.TLBc 2).miss ∧
        y.t1 = incr_ulong s.t1 ∧ y.t2 = incr_ulong s.t2) ∧
    (∀ x : Int, -2 ^ 31 ≤ x → x < 2 ^ 31 - 1 → incr_int x = x + 1) ∧
    (∀ n : Nat, n < 2 ^ 64 - 1 → incr_ulong n = n + 1) ∧
    dm_two_level_start.isSome = true ∧
    ∃ y z, run (alternate 2147483647 (0x4000, 0) (0x8000, 0)) dm_two_level = some y ∧
      (y.TLBc 0).miss = 2147483647 ∧ (y.TLBc 2).miss = 2147483647 ∧ y.t1 = 2147483647 ∧
      ¬ Resident y 0 (decode_tag (y.TLBc 0) 0x8000) (decode_index (y.TLBc 0) 0x8000) ∧
      ¬ Resident y 2 (decode_tag (y.TLBc 2) 0x8000) (decode_index (y.TLBc 2) 0x8000) ∧
      reference_address 0x8000 0 y = some z ∧
      (z.TLBc 0).miss = -2147483648 ∧ (z.TLBc 2).miss = -2147483648 ∧ z.t1 = 2147483648 := by
  refine ⟨fun s addr t hrouted hl2 hsim hpol hr1 hr2 hm1 hm2 =>
      reference_miss_miss s addr t hrouted hl2 hsim hpol hr1 hr2 hm1 hm2,
    fun x h0 h1 => incr_int_of_lt h0 h1, fun n h => incr_ulong_of_lt h, by decide, ?_⟩
  have hT : Thrash dm_two_level 0 0x4000 0x8000 := by
    constructor <;> decide
  obtain ⟨y, hy, m1, m2, _, t1, _, _, p1⟩ := thrash_run 0 2147483647 dm_two_level 0x4000 0x8000 hT
  have hT2 := p1 (by decide)
  obtain ⟨z, hz, n1, n2, _, u1, _, _⟩ := thrash_step hT2
  have e0 : (dm_two_level.TLBc 0).miss = 0 := by decide
  have e2 : (dm_two_level.TLBc 2).miss = 0 := by decide
  have e1 : dm_two_level.t1 = 0 := by decide
  rw [e0, iterate_incr_int_exact _ _ (by norm_num) (by norm_num)] at m1
  rw [e2, iterate_incr_int_exact _ _ (by norm_num) (by norm_num)] at m2
  rw [e1, iterate_incr_ulong _ _ (by norm_num)] at t1
  have hm1 : (y.TLBc 0).miss = 2147483647 := by rw [m1]; norm_num
  have hm2 : (y.TLBc 2).miss = 2147483647 := by rw [m2]; norm_num
  have ht1 : y.t1 = 2147483647 := by rw [t1]
  refine ⟨y, z, hy, hm1, hm2, ht1, hT2.out1, hT2.out2, hz, ?_, ?_, ?_⟩
  · rw [n1, hm1]; decide
  · rw [n2, hm2]; decide
  · rw [u1, ht1]; decide

/-- C3: after a start-up with the simulation on and every simulated level of
associativity `-1`, `0` or `N > 0`, and any trace of references that the
simulator runs through: the lookups (`hit + miss`) that iTLB counted and the
number of instruction references of the trace (when iTLB is simulated), those
of dTLB and the number of data references (when dTLB is simulated), and those
of L2TLB and `iTLB.miss + dTLB.miss` (when L2TLB is simulated) agree modulo
`2 ^ 32`, the counters being 32-bit `Int`s; and they are equal when the trace
has fewer than `2 ^ 31` references, so that no counter overflows. -/
theorem lookups_match_references (o : Options) (i d l : Desc) (heap : Int → Int → Nat)
    (rnd : Nat → Nat) (trace : List (Nat × Int)) (s0 s : State)
    (hon : o.clo_sim_tlb = true)
    (hi : i.page_size ≠ -1 → -1 ≤ i.assoc) (hd : d.page_size ≠ -1 → -1 ≤ d.assoc)
    (hl : l.page_size ≠ -1 → -1 ≤ l.assoc)
    (hstart : startup o i d l heap rnd = some s0) (hrun : run trace s0 = some s) :
    ((lookups s 0 - (if i.page_size ≠ -1 then (refs_of 0 trace : Int) else 0)) % 2 ^ 32 = 0 ∧
      (lookups s 1 - (if d.page_size ≠ -1 then (refs_of 1 trace : Int) else 0)) % 2 ^ 32 = 0 ∧
      (l.page_size ≠ -1 →
        (lookups s 2 - ((s.TLBc 0).miss + (s.TLBc 1).miss)) % 2 ^ 32 = 0)) ∧
    (trace.length < 2 ^ 31 →
      lookups s 0 = (if i.page_size ≠ -1 then (refs_of 0 trace : Int) else 0) ∧
      lookups s 1 = (if d.page_size ≠ -1 then (refs_of 1 trace : Int) else 0) ∧
      (l.page_size ≠ -1 → lookups s 2 = (s.TLBc 0).miss + (s.TLBc 1).miss)) := by
  obtain ⟨f0, f1, f2, e0, e1, e2, eon, -⟩ := startup_spec hstart
  obtain ⟨h0, m0, a0, -⟩ := levelFresh_zero f0
  obtain ⟨h1, m1, a1, -⟩ := levelFresh_zero f1
  obtain ⟨h2, m2, a2, -⟩ := levelFresh_zero f2
  have hlook : LookupsOn s0 := by
    refine ⟨by rw [eon, hon], ?_, ?_, ?_⟩
    · intro h; rw [e0] at h; rw [a0]; exact hi (of_decide_eq_true h)
    · intro h; rw [e1] at h; rw [a1]; exact hd (of_decide_eq_true h)
    · intro h; rw [e2] at h; rw [a2]; exact hl (of_decide_eq_true h)
  obtain ⟨dh, dm, hc, n1, n2, b0, b1, b2, beq⟩ := run_totals trace hrun
  obtain ⟨r0, r1, r2⟩ := beq hlook
  obtain ⟨-, ch, cm, -⟩ := hc
  simp only [e0, e1, e2, decide_eq_true_eq] at r0 r1 r2
  have hlen := refs_of_le trace
  have ch0 := ch 0
  have ch1 := ch 1
  have ch2 := ch 2
  have cm0 := cm 0
  have cm1 := cm 1
  have cm2 := cm 2
  rw [h0] at ch0
  rw [h1] at ch1
  rw [h2] at ch2
  rw [m0] at cm0
  rw [m1] at cm1
  rw [m2] at cm2
  have p0 := n1 0
  have p1 := n1 1
  have p2 := n1 2
  have q0 := n2 0
  have q1 := n2 1
  have q2 := n2 2
  unfold lookups
  refine ⟨⟨?_, ?_, ?_⟩, fun hshort => ?_⟩
  · rw [← r0]
    have := ch0.1
    have := cm0.1
    omega
  · rw [← r1]
    have := ch1.1
    have := cm1.1
    omega
  · intro h
    rw [if_pos h] at r2
    have := ch2.1
    have := cm2.1
    have := cm0.1
    have := cm1.1
    omega
  · have x0 := counts_up_exact ch0 (by norm_num) (by norm_num) (by omega) (by omega)
    have x1 := counts_up_exact ch1 (by norm_num) (by norm_num) (by omega) (by omega)
    have x2 := counts_up_exact ch2 (by norm_num) (by norm_num) (by omega) (by omega)
    have y0 := counts_up_exact cm0 (by norm_num) (by norm_num) (by omega) (by omega)
    have y1 := counts_up_exact cm1 (by norm_num) (by norm_num) (by omega) (by omega)
    have y2 := counts_up_exact cm2 (by norm_num) (by norm_num) (by omega) (by omega)
    refine ⟨?_, ?_, ?_⟩
    · rw [← r0]; omega
    · rw [← r1]; omega
    · intro h
      rw [if_pos h] at r2
      omega

set_option maxRecDepth 100000 in
/-- C3, for the two-level configuration and the five instruction references
`five_pages`. -/
theorem lookups_match_references_witness :
    five_pages.length < 2 ^ 31 ∧
      lookups two_level_after_five 0 =
        (if fa_four.page_size ≠ -1 then (refs_of 0 five_pages : Int) else 0) ∧
      lookups two_level_after_five 1 =
        (if Desc.undefined.page_size ≠ -1 then (refs_of 1 five_pages : Int) else 0) ∧
      (fa_eight.page_size ≠ -1 → lookups two_level_after_five 2 =
        (two_level_after_five.TLBc 0).miss + (two_level_after_five.TLBc 1).miss) :=
  ⟨by decide,
    (lookups_match_references Options.default fa_four Desc.undefined fa_eight (fun _ _ => 0)
      (fun _ => 0) five_pages two_level two_level_after_five (by decide) (by decide) (by decide)
      (by decide) (eq_some_getD _ (by decide)) (eq_some_getD _ (by decide))).2 (by decide)⟩

/-- C4: if the miss counters of the three levels and the accumulators `t1`
and `t2` are all zero, then after any trace of references that the simulator
runs through, `t1` and `iTLB.miss + dTLB.miss`, and `t2` and `L2TLB.miss`,
agree modulo `2 ^ 32`, the miss counters being 32-bit `Int`s; and
`t1 = iTLB.miss + dTLB.miss` and `t2 = L2TLB.miss` when the trace has fewer
than `2 ^ 31` references, so that no counter overflows. -/
theorem accumulators_match_miss_counters (trace : List (Nat × Int)) (s y : State)
    (hm0 : (s.TLBc 0).miss = 0) (hm1 : (s.TLBc 1).miss = 0) (hm2 : (s.TLBc 2).miss = 0)
    (ht1 : s.t1 = 0) (ht2 : s.t2 = 0) (hrun : run trace s = some y) :
    (((y.t1 : Int) - ((y.TLBc 0).miss + (y.TLBc 1).miss)) % 2 ^ 32 = 0 ∧
      ((y.t2 : Int) - (y.TLBc 2).miss) % 2 ^ 32 = 0) ∧
    (trace.length < 2 ^ 31 →
      (y.t1 : Int) = (y.TLBc 0).miss + (y.TLBc 1).miss ∧ (y.t2 : Int) = (y.TLBc 2).miss) := by
  obtain ⟨dh, dm, hc, n1, n2, b0, b1, b2, -⟩ := run_totals trace hrun
  obtain ⟨-, -, cm, c1, c2, -⟩ := hc
  have hlen := refs_of_le trace
  have cm0 := cm 0
  have cm1 := cm 1
  have cm2 := cm 2
  rw [hm0] at cm0
  rw [hm1] at cm1
  rw [hm2] at cm2
  rw [ht1] at c1
  rw [ht2] at c2
  have p0 := n1 0
  have p1 := n1 1
  have p2 := n1 2
  have q0 := n2 0
  have q1 := n2 1
  have q2 := n2 2
  refine ⟨⟨?_, ?_⟩, fun hshort => ?_⟩
  · have := cm0.1
    have := cm1.1
    have := c1.1
    push_cast at *
    omega
  · have := cm2.1
    have := c2.1
    push_cast at *
    omega
  · have y0 := counts_up_exact cm0 (by norm_num) (by norm_num) (by omega) (by omega)
    have y1 := counts_up_exact cm1 (by norm_num) (by norm_num) (by omega) (by omega)
    have y2 := counts_up_exact cm2 (by norm_num) (by norm_num) (by omega) (by omega)
    have z1 := counts_up_exact64 c1 (by norm_num) (by norm_num) (by push_cast; omega)
      (by push_cast; omega)
    have z2 := counts_up_exact64 c2 (by norm_num) (by norm_num) (by push_cast; omega)
      (by push_cast; omega)
    push_cast at z1 z2
    omega

set_option maxRecDepth 100000 in
/-- C4, for the two-level configuration and the references `five_pages`. -/
theorem accumulators_match_miss_counters_witness :
    five_pages.length < 2 ^ 31 ∧
      (two_level_after_five.t1 : Int) =
        (two_level_after_five.TLBc 0).miss + (two_level_after_five.TLBc 1).miss ∧
      (two_level_after_five.t2 : Int) = (two_level_after_five.TLBc 2).miss :=
  ⟨by decide,
    (accumulators_match_miss_counters five_pages two_level two_level_after_five (by decide)
      (by decide) (by decide) (by decide) (by decide) (eq_some_getD _ (by decide))).2
      (by decide)⟩

/-- Under the LRU policy, in a fully associative or N-way level whose
addressed scope is allocated: a lookup that hits and the replacement block
both leave the count of the touched cell at 0 and increment every other count
of the scope once. -/
theorem lookup_install_lru_fresh (sim : Nat → State → Option State) (a tag idx : Nat) (s : State)
    (hpol : s.RepPol = 1) (hr : InRangeAt s s.TLB_TYPE idx) (hne : s.cur.assoc ≠ 0) :
    (Resident s s.TLB_TYPE tag idx → ∃ e y,
      FirstTag s.tbl (scope_lo s.cur idx) (scope_hi s.cur idx) tag e ∧
      tlb_lookup sim a tag idx s = some y ∧
      LRUFresh s.tbl y.tbl (scope_lo s.cur idx) (scope_hi s.cur idx) e) ∧
    (∃ p y, LRU (toInt32 idx) s = some p ∧
      install s.cur.assoc s.cur.entries tag idx s = some y ∧ (y.tbl p).tag = tag ∧
      LRUFresh s.tbl y.tbl (scope_lo s.cur idx) (scope_hi s.cur idx) p) := by
  have hsa : ScopeAllocated s idx := inRange_scopeAllocated hr hne
  constructor
  · intro hres
    obtain ⟨e, hfirst, heq⟩ := tlb_lookup_hit sim a tag idx s hr hres
    obtain ⟨hTLB, hsize, hty, hrep, -⟩ := hit_prologue_frame s
    have hg : (hit_prologue s).cur.geom = s.cur.geom := by
      have h := hit_prologue_geom s s.TLB_TYPE
      unfold State.cur
      rw [hty]
      exact h
    have hcur : (hit_prologue s).cur.assoc = s.cur.assoc := geom_assoc hg
    have hlo : scope_lo (hit_prologue s).cur idx = scope_lo s.cur idx := geom_scope_lo hg idx
    have hhi : scope_hi (hit_prologue s).cur idx = scope_hi s.cur idx := geom_scope_hi hg idx
    have hsz : (hit_prologue s).size = s.size := by
      unfold State.size; rw [hsize, hty]
    have htbl : (hit_prologue s).tbl = s.tbl := by
      unfold State.tbl; rw [hTLB, hty]
    have hsa2 : ScopeAllocated (hit_prologue s) idx := by
      unfold ScopeAllocated
      rw [hcur, hlo, hhi, hsz]
      exact hsa
    have hup : hit_update e (hit_prologue s) = increase_LRU e (hit_prologue s) := by
      unfold hit_update
      rw [if_neg (by rw [hcur]; exact hne), if_neg (by rw [hrep, hpol]; decide),
        if_pos (by rw [hrep, hpol])]
    rw [hup, increase_LRU_eq _ idx e hsa2 (by rw [hlo]; exact hfirst.1)
      (by rw [hhi]; exact hfirst.2.1), hlo, hhi, htbl] at heq
    refine ⟨e, _, hfirst, heq, ?_⟩
    rw [put_tbl]
    exact lru_touch_fresh _ _ _ _ hfirst.1 hfirst.2.1
  · have hset : toInt32 idx = idx ∨ s.cur.assoc = -1 := by
      obtain ⟨hsz, hfa | hdm | hnw⟩ := hr
      · exact Or.inr hfa.1
      · exact absurd hdm.1 hne
      · exact Or.inl (toInt32_index hnw.1 hnw.2 hsz)
    obtain ⟨p, hp, hmax, hfa, hnw⟩ := lru_install_eq s idx tag hpol hsa
    obtain ⟨hp0, hp1⟩ := firstMax_mem hmax
    refine ⟨p, s.put (lru_touch (upd s.tbl p { tag := tag, count := 0 }) (scope_lo s.cur idx)
      (scope_hi s.cur idx - scope_lo s.cur idx).toNat p), ?_, ?_, ?_, ?_⟩
    · rcases hset with h | h
      · rw [h]; exact hp
      · rw [LRU_fa_set h, ← LRU_fa_set h idx]; exact hp
    · unfold install
      by_cases h : s.cur.assoc = -1
      · rw [if_pos h]; exact hfa h
      · have hpos : 0 < s.cur.assoc := by
          rcases hsa.1 with h1 | h1
          · exact absurd h1 h
          · exact h1
        rw [if_neg h, if_neg hne]
        rcases hset with h2 | h2
        · exact hnw hpos idx h2
        · exact absurd h2 h
    · rw [put_tbl, lru_touch_tag, upd_same]
    · rw [put_tbl]
      exact lru_touch_fresh_upd s.tbl _ _ p { tag := tag, count := 0 } hp0 hp1

set_option maxRecDepth 100000 in
/-- C5 (the code departs from the claim): under the LRU policy, in a fully
associative or N-way level whose addressed scope is allocated, (a) a lookup
that hits returns, the hit is on the first cell `e` of the scope that holds
the tag, and afterwards the count of `e` is 0 and every other count of the
scope was incremented once; (b) the replacement block installs the tag in the
LRU victim `p` and afterwards the count of `p` is 0 and every other count of
the scope was incremented once. The counts are 32-bit `Int`s: the increment
adds one except at `2147483647`. On the fresh 2-way dTLB with 4 entries, after
the pages 25 and 27 of set 1 (state `two_way_warm`: tags 12 and 13 in the
cells 2 and 3, counts 1 and 0) and 2147483646 more references to page 27, the
count of page 25 is `2147483647`; the next reference to page 27 hits and
leaves it at `-2147483648`, not its old value plus one. -/
theorem lru_counts_wrap_at_int_max :
    (∀ (sim : Nat → State → Option State) (a tag idx : Nat) (s : State), s.RepPol = 1 →
      InRangeAt s s.TLB_TYPE idx → s.cur.assoc ≠ 0 →
      (Resident s s.TLB_TYPE tag idx → ∃ e y,
        FirstTag s.tbl (scope_lo s.cur idx) (scope_hi s.cur idx) tag e ∧
        tlb_lookup sim a tag idx s = some y ∧
        LRUFresh s.tbl y.tbl (scope_lo s.cur idx) (scope_hi s.cur idx) e) ∧
      (∃ p y, LRU (toInt32 idx) s = some p ∧
        install s.cur.assoc s.cur.entries tag idx s = some y ∧ (y.tbl p).tag = tag ∧
        LRUFresh s.tbl y.tbl (scope_lo s.cur idx) (scope_hi s.cur idx) p)) ∧
    (∀ x : Int, -2 ^ 31 ≤ x → x < 2 ^ 31 - 1 → incr_int x = x + 1) ∧
    (run ([0x19000, 0x1B000].map fun b => (b, (1 : Int))) two_way).isSome = true ∧
    tags two_way_warm 1 4 = [0, 0, 12, 13] ∧ counts two_way_warm 1 4 = [0, 0, 1, 0] ∧
    ∃ y z, run (List.replicate 2147483646 (0x1B000, 1)) two_way_warm = some y ∧
      (y.TLB 1 2).tag = 12 ∧ (y.TLB 1 2).count = 2147483647 ∧
      (y.TLB 1 3).tag = 13 ∧ (y.TLB 1 3).count = 0 ∧
      reference_address 0x1B000 1 y = some z ∧
      (z.TLB 1 2).tag = 12 ∧ (z.TLB 1 2).count = -2147483648 ∧
      (z.TLB 1 3).tag = 13 ∧ (z.TLB 1 3).count = 0 := by
  refine ⟨fun sim a tag idx s hpol hr hne => lookup_install_lru_fresh sim a tag idx s hpol hr hne,
    fun x h0 h1 => incr_int_of_lt h0 h1, by decide, by decide, by decide, ?_⟩
  obtain ⟨y, hy, hs, t2, c2, t3, c3, _, _⟩ := two_way_warm_hits 2147483646
  rw [iterate_incr_int_exact _ _ (by norm_num) (by norm_num)] at c2
  have hc2 : (y.TLB 1 2).count = 2147483647 := by rw [c2]; norm_num
  obtain ⟨z, hz, _, hT, _, _⟩ := lru_hit_step
    (lruAt_congr hs (two_way_warm_lruAt 0x1B000 13 (by decide) (by decide)))
    (firstTag_cell3 t2 t3)
  refine ⟨y, z, hy, t2, hc2, t3, c3, hz, ?_, ?_, ?_, ?_⟩
  · rw [hT, lru_touch_tag]; exact t2
  · rw [hT, lru_touch_count, if_neg (by decide), if_pos (by decide), hc2]; decide
  · rw [hT, lru_touch_tag]; exact t3
  · rw [hT, lru_touch_count, if_pos rfl]

/-- C6: in a fully associative level with `1 ≤ entries` allocated cells, `LRU`
returns the lowest index of the whole array whose count is the maximum; in an
N-way level, `LRU(set)` returns the lowest index of `set * assoc ≤ j <
(set + 1) * assoc` whose count is the maximum over that set, provided these
cells are allocated. -/
theorem lru_victim_is_first_maximum (s : State) (set : Int) :
    (s.cur.assoc = -1 → 1 ≤ s.cur.entries → s.cur.entries ≤ s.size →
      ∃ p, LRU set s = some p ∧ FirstMax s.tbl 0 s.cur.entries p) ∧
    (0 < s.cur.assoc → 0 ≤ set → (set + 1) * s.cur.assoc ≤ s.size →
      ∃ p, LRU set s = some p ∧ FirstMax s.tbl (set * s.cur.assoc) ((set + 1) * s.cur.assoc) p) := by
  constructor
  · intro hfa h1 h2
    have hs := scope_fa hfa set
    have h := LRU_spec s set ⟨Or.inl hfa, by rw [hs.1], by rw [hs.1, hs.2]; omega,
      by rw [hs.2]; exact h2⟩
    rw [hs.1, hs.2] at h
    exact h
  · intro hpos h1 h2
    have hs := scope_nway hpos set
    have e : set * s.cur.assoc + s.cur.assoc = (set + 1) * s.cur.assoc := by ring
    rw [e] at hs
    have h := LRU_spec s set ⟨Or.inr hpos, by rw [hs.1]; positivity,
      by rw [hs.1, hs.2, ← e]; omega, by rw [hs.2]; exact h2⟩
    rw [hs.1, hs.2] at h
    exact h

set_option maxRecDepth 100000 in
/-- C6, in set 1 of the 2-way dTLB `two_way_counts 1` (cells 2 and 3, counts
7 and 2). -/
theorem lru_victim_is_first_maximum_witness :
    ∃ p, LRU 1 (two_way_counts 1) = some p ∧
      FirstMax (two_way_counts 1).tbl (1 * (two_way_counts 1).cur.assoc)
        ((1 + 1) * (two_way_counts 1).cur.assoc) p :=
  (lru_victim_is_first_maximum (two_way_counts 1) 1).2 (by decide) (by decide) (by decide)

/-- C7: under the LFU policy, in a fully associative or N-way level whose
addressed scope is allocated, `LFU` returns the lowest index of the scope
whose count is the minimum, and the replacement block writes the new tag there
with count 1 and changes nothing else. -/
theorem lfu_victim_is_first_minimum (s : State) (set : Int) (tag : Nat)
    (hpol : s.RepPol = 0) (h : ScopeAllocated s set) :
    ∃ p, LFU set s = some p ∧ FirstMin s.tbl (scope_lo s.cur set) (scope_hi s.cur set) p ∧
      (s.cur.assoc = -1 →
        fa_install tag s = some (s.put (upd s.tbl p { tag := tag, count := 1 }))) ∧
      (0 < s.cur.assoc → ∀ idx : Nat, toInt32 idx = set →
        nway_install tag idx s = some (s.put (upd s.tbl p { tag := tag, count := 1 }))) :=
  lfu_install_eq s set tag hpol h

set_option maxRecDepth 100000 in
/-- C7, in set 0 of the 2-way dTLB `two_way_counts 0` (counts 3 and 7). -/
theorem lfu_victim_is_first_minimum_witness :
    ∃ p, LFU 0 (two_way_counts 0) = some p ∧
      FirstMin (two_way_counts 0).tbl (scope_lo (two_way_counts 0).cur 0)
        (scope_hi (two_way_counts 0).cur 0) p ∧
      ((two_way_counts 0).cur.assoc = -1 → fa_install 20 (two_way_counts 0) =
        some ((two_way_counts 0).put (upd (two_way_counts 0).tbl p { tag := 20, count := 1 }))) ∧
      (0 < (two_way_counts 0).cur.assoc → ∀ idx : Nat, toInt32 idx = 0 →
        nway_install 20 idx (two_way_counts 0) =
          some ((two_way_counts 0).put (upd (two_way_counts 0).tbl p { tag := 20, count := 1 }))) :=
  lfu_victim_is_first_minimum (two_way_counts 0) 0 20 (by decide) (by decide)

set_option maxRecDepth 100000 in
/-- C9 (the code departs from the claim): for the 2-way level with 2 entries,
hence one set, `init_tlb` completes with `sets = 1` but `index_mask = 1`; for
the address `0x1000` (page 1) `TLB_simulation` computes the set index 1, not
`1 mod 1 = 0`, and the tag 0, not `1 / 1 = 1`; set 1 lies beyond the two
allocated cells, and the reference has no defined result. -/
theorem single_set_decode_uses_two_sets :
    (init_level 32 (desc_level one_set_desc)).isSome = true ∧
    one_set_level.assoc = 2 ∧ one_set_level.entries = 2 ∧ one_set_level.sets = 1 ∧
    one_set_level.index_mask = 1 ∧
    decode_vpn one_set_level 0x1000 = 1 ∧
    decode_index one_set_level 0x1000 = 1 ∧ decode_vpn one_set_level 0x1000 % 1 = 0 ∧
    decode_tag one_set_level 0x1000 = 0 ∧ decode_vpn one_set_level 0x1000 / 1 = 1 ∧
    one_set_start.isSome = true ∧ one_set.TLB_size 0 = 2 ∧
    (reference_address 0x1000 0 one_set).isSome = false := by
  refine ⟨by decide, by decide, by decide, by decide, by decide, by decide, by decide,
    by decide, by decide, by decide, by decide, by decide, by decide⟩

set_option maxRecDepth 100000 in
/-- C10 (the code departs from the claim): for a direct-mapped level with
pages of `2 ^ k` bytes and `2 ^ m` entries and an address width
`k < VAS_SIZE ≤ k + 30`, `init_tlb` completes, and for every address
`a < 2 ^ VAS_SIZE` the page number that `TLB_simulation` extracts is
`a / 2 ^ k`, the slot that `tlb_lookup` consults is `vpn mod entries` and the
tag is `vpn / entries`. For every other width, `VAS_SIZE ≤ k` or
`k + 30 < VAS_SIZE`, the `int` shift `2 << (VAS_SIZE - offset_mask - 1)` that
builds the tag mask has no defined result: so for 4 KiB pages, 4 entries and
`VAS_SIZE = 64`. -/
theorem direct_mapped_decode_needs_a_narrow_width :
    (∀ (VAS : Int) (c0 : tlb_t) (k m a : Nat), c0.page_size = 2 ^ k → k ≤ 30 →
      c0.assoc = 0 → c0.entries = 2 ^ m → m ≤ 30 → (k : Int) < VAS → VAS ≤ k + 30 →
      a < 2 ^ VAS.toNat →
      ∃ c, init_level VAS c0 = some c ∧ decode_vpn c a = a / 2 ^ k ∧
        dm_slot (decode_index c a) c.entries = (a / 2 ^ k) % 2 ^ m ∧
        decode_tag c a = (a / 2 ^ k) / 2 ^ m) ∧
    (∀ (VAS : Int) (c0 : tlb_t) (k : Nat), c0.page_size = 2 ^ k → k ≤ 30 → c0.assoc = 0 →
      -2 ^ 31 ≤ VAS → VAS < 2 ^ 31 → (VAS ≤ k ∨ k + 30 < VAS) →
      init_level_x VAS c0 = Except.error InitFault.undefined) ∧
    init_level_x 64 (desc_level dm_four_desc) = Except.error InitFault.undefined ∧
    (init_level 42 (desc_level dm_four_desc)).isSome = true ∧
    init_level_x 43 (desc_level dm_four_desc) = Except.error InitFault.undefined := by
  refine ⟨?_, ?_,
    init_level_x_undefined (k := 12) (by decide) (by decide) (Or.inl (by decide)) (by decide)
      (by decide) (Or.inr (by decide)),
    by decide,
    init_level_x_undefined (k := 12) (by decide) (by decide) (Or.inl (by decide)) (by decide)
      (by decide) (Or.inr (by decide))⟩
  · intro VAS c0 k m a hp hk hassoc he hm hV0 hV1 ha
    obtain ⟨c, hc⟩ := init_level_dm_some hp hk hassoc hV0 hV1
    exact ⟨c, hc, dm_decode_spec hp hk hassoc he hm (by omega) (by omega) hc ha⟩
  · intro VAS c0 k hp hk hassoc h0 h1 h
    exact init_level_x_undefined hp hk (Or.inl hassoc) h0 h1 h

set_option maxRecDepth 100000 in
/-- C11 (the code departs from the claim): for the 2-way level with 2
entries, hence one set, and the address `0x2000` (page 2), `TLB_simulation`
computes the tag 1 and the set index 0, so `tag * sets + set_index` is 1, not
the page number 2. -/
theorem single_set_round_trip_fails :
    (init_level 32 (desc_level one_set_desc)).isSome = true ∧
    one_set_level.sets = 1 ∧ decode_vpn one_set_level 0x2000 = 2 ∧
    decode_tag one_set_level 0x2000 = 1 ∧ decode_index one_set_level 0x2000 = 0 ∧
    (decode_tag one_set_level 0x2000 : Int) * one_set_level.sets +
      decode_index one_set_level 0x2000 = 1 := by
  refine ⟨by decide, by decide, by decide, by decide, by decide, by decide⟩

/-! ## Claims on initialisation -/

set_option maxRecDepth 100000 in
/-- C20 (the claim as stated fails): `init_tlb` completes, and the whole
start-up with it, for the descriptor (3000, -1, 0), whose page size is not a
power of two and which has no entry; it completes for (4096, 2, 3), whose
entries are not a multiple of the associativity, and for (4096, 2, 6), whose
set count 3 is not a power of two; only the odd associativity of (4096, 3, 6)
stops at the assertion. -/
theorem init_tlb_accepts_invalid_descriptors :
    (init_level_x 32 (desc_level { page_size := 3000, assoc := -1, entries := 0 })).isOk = true ∧
    (startup Options.default { page_size := 3000, assoc := -1, entries := 0 } Desc.undefined
      Desc.undefined (fun _ _ => 0) (fun _ => 0)).isSome = true ∧
    (init_level_x 32 (desc_level { page_size := 4096, assoc := 2, entries := 3 })).isOk = true ∧
    (init_level_x 32 (desc_level { page_size := 4096, assoc := 2, entries := 6 })).isOk = true ∧
    init_level_x 32 (desc_level { page_size := 4096, assoc := 3, entries := 6 }) =
      Except.error InitFault.assertion := by
  refine ⟨by decide, by decide, by decide, by decide, rfl⟩

/-- C20 (amended): `init_tlb` stops at its assertion exactly when the
associativity is neither `-1` nor `0` and is odd; no other invariant of the
descriptor is checked.  It completes for every fully associative level, and
for every level of even (or zero) associativity whose page size is `2 ^ k`
with `k < VAS_SIZE ≤ k + 30`, the range in which the shift that builds the tag
mask is defined. -/
theorem init_tlb_asserts_only_odd_assoc (VAS : Int) (c : tlb_t) :
    (init_level_x VAS c = Except.error InitFault.assertion ↔
      (c.assoc ≠ -1 ∧ c.assoc ≠ 0 ∧ c.assoc % 2 ≠ 0)) ∧
    (c.assoc = -1 → (init_level_x VAS c).isOk = true) ∧
    (∀ k : Nat, c.page_size = 2 ^ k → k ≤ 30 → (k : Int) < VAS → VAS ≤ k + 30 →
      c.assoc % 2 = 0 → (init_level_x VAS c).isOk = true) := by
  refine ⟨?_, ?_, ?_⟩
  · unfold init_level_x
    dsimp only
    split_ifs with h1 h2 h3
    · simp [h1]
    · cases calc_tag_mask VAS (toULong (log2 (toInt32 c.page_size))) (calc_index_mask c.entries) <;>
        simp [h2]
    · cases calc_tag_mask VAS (toULong (log2 (toInt32 c.page_size)))
        (calc_index_mask (Int.tdiv c.entries c.assoc)) <;> simp [h3]
    · simp [h1, h2, h3]
  · intro h
    unfold init_level_x
    dsimp only
    rw [if_pos h]
    rfl
  · intro k hp hk h0 h1 heven
    have htag : ∀ im, ∃ t, calc_tag_mask VAS (toULong (log2 (toInt32 c.page_size))) im = some t := by
      intro im
      unfold calc_tag_mask shl_two
      rw [hp, log2_page hk, toULong_of_nonneg (by omega) (by omega), if_pos (by omega)]
      exact ⟨_, rfl⟩
    unfold init_level_x
    dsimp only
    split_ifs with h2 h3
    · rfl
    · obtain ⟨t, ht⟩ := htag (calc_index_mask c.entries)
      rw [ht]; rfl
    · obtain ⟨t, ht⟩ := htag (calc_index_mask (Int.tdiv c.entries c.assoc))
      rw [ht]; rfl

set_option maxRecDepth 100000 in
/-- C20 (amended), for the 2-way level with 4 entries and 4 KiB pages under
32-bit addresses. -/
theorem init_tlb_asserts_only_odd_assoc_witness :
    (init_level_x 32 (desc_level { page_size := 4096, assoc := 2, entries := 4 })).isOk = true :=
  (init_tlb_asserts_only_odd_assoc 32
    (desc_level { page_size := 4096, assoc := 2, entries := 4 })).2.2 12 (by decide) (by decide)
    (by decide) (by decide) (by decide)

/-! ## Claims on single references -/

set_option maxRecDepth 100000 in
/-- C21 (the code departs from the claim): a reference handed to a
simulated L1 level that finds its tag in the addressed scope returns, and
leaves `t1`, `t2`, every miss counter, every tag of every level, and every
level other than that L1 level (entries, counters, page list; L2TLB in
particular) unchanged; in that L1 level the hit counter is incremented as the
32-bit `Int` it is, the geometry stays, and no cell outside the addressed
scope changes. The increment adds one except at the highest value of the
type: on the two-level configuration, after the pages 1 to 5 and 2147483647
more references to page 5, which all hit iTLB, `iTLB.hit` is `2147483647`, and
the next reference to page 5 hits and leaves `iTLB.hit = -2147483648`, not
`2147483648`. -/
theorem hit_wraps_the_hit_counter :
    (∀ (s : State) (addr : Nat) (t : Int), Routed t s → s.clo_sim_tlb = true →
      InRangeAt s t (decode_index (s.TLBc t) addr) →
      Resident s t (decode_tag (s.TLBc t) addr) (decode_index (s.TLBc t) addr) →
      ∃ y, reference_address addr t s = some y ∧ y.t1 = s.t1 ∧ y.t2 = s.t2 ∧
        (∀ u, (y.TLBc u).miss = (s.TLBc u).miss) ∧
        (∀ u j, (y.TLB u j).tag = (s.TLB u j).tag) ∧
        (∀ u, u ≠ t → y.TLB u = s.TLB u ∧ y.TLBc u = s.TLBc u) ∧
        (y.TLBc t).hit = incr_int (s.TLBc t).hit ∧ (y.TLBc t).geom = (s.TLBc t).geom ∧
        (∀ j, j < scope_lo (s.TLBc t) (decode_index (s.TLBc t) addr) ∨
            scope_hi (s.TLBc t) (decode_index (s.TLBc t) addr) ≤ j →
          y.TLB t j = s.TLB t j)) ∧
    (∀ x : Int, -2 ^ 31 ≤ x → x < 2 ^ 31 - 1 → incr_int x = x + 1) ∧
    (run five_pages two_level).isSome = true ∧ (two_level_after_five.TLBc 0).hit = 0 ∧
    ∃ y z, run (List.replicate 2147483647 (0x5000, 0)) two_level_after_five = some y ∧
      (y.TLBc 0).hit = 2147483647 ∧
      Resident y 0 (decode_tag (y.TLBc 0) 0x5000) (decode_index (y.TLBc 0) 0x5000) ∧
      reference_address 0x5000 0 y = some z ∧
      (z.TLBc 0).hit = -2147483648 ∧ (z.TLBc 0).miss = (y.TLBc 0).miss := by
  refine ⟨fun s addr t hrouted hsim hr hres => reference_hit s addr t hrouted hsim hr hres,
    fun x h0 h1 => incr_int_of_lt h0 h1, by decide, by decide, ?_⟩
  obtain ⟨y, hy, hs, hh, _, ht⟩ := repeat_hits 0x5000 0 2147483647 two_level_after_five
    (by decide) (by decide) (by decide) (by decide) (fun _ => by decide) (by decide)
  have e0 : (two_level_after_five.TLBc 0).hit = 0 := by decide
  rw [e0, iterate_incr_int_exact _ _ (by norm_num) (by norm_num)] at hh
  have hhit : (y.TLBc 0).hit = 2147483647 := by rw [hh]; norm_num
  have hg := hs.geom 0
  have hres : Resident y 0 (decode_tag (y.TLBc 0) 0x5000) (decode_index (y.TLBc 0) 0x5000) := by
    rw [geom_decode_tag hg, geom_decode_index hg]
    exact resident_of_hit hg ht (by decide)
  have hr : InRangeAt y 0 (decode_index (y.TLBc 0) 0x5000) := by
    rw [geom_decode_index hg]
    exact (inRangeAt_congr hg (by rw [hs.size]) _).2 (by decide)
  obtain ⟨z, hz, _, _, a3, _, _, a6, _⟩ := reference_hit y 0x5000 0
    (routed_congr hs (by decide)) (hs.sim.trans (by decide)) hr hres
  refine ⟨y, z, hy, hhit, hres, hz, ?_, a3 0⟩
  rw [a6, hhit]; decide

set_option maxRecDepth 100000 in
/-- C12 (the code departs from the claim): `tlb_post_clo_init` clears the
counts of the cells it allocates but never writes their tags, and a cell has
no valid bit, so what the first reference to a set finds depends on what the
allocator returned. On the freshly started direct-mapped iTLB with 4 entries
whose cells hold tag 0 and count 0, the references to pages 0, 4, 8, 12, 16, 0
give 1 hit and 5 misses, not 6 misses: the first reference, whose decoded tag
is 0, finds tag 0 in the never-written slot 0. When the allocator returned
cells that hold the tag 5, the first reference to page 0 misses and the first
reference to page 20 (slot 0, tag 5) hits. -/
theorem first_reference_with_tag_zero_hits :
    dm_four_start.isSome = true ∧ tags dm_four_state 0 4 = [0, 0, 0, 0] ∧
    counts dm_four_state 0 4 = [0, 0, 0, 0] ∧
    ((reference_address 0x0000 0 dm_four_state).map fun y => ((y.TLBc 0).hit, (y.TLBc 0).miss)) =
      some (1, 0) ∧
    (run slot_zero_refs dm_four_state).isSome = true ∧
    (dm_four_after.TLBc 0).hit = 1 ∧ (dm_four_after.TLBc 0).miss = 5 ∧
    dm_four_dirty_start.isSome = true ∧ tags dm_four_dirty 0 4 = [5, 5, 5, 5] ∧
    counts dm_four_dirty 0 4 = [0, 0, 0, 0] ∧
    ((reference_address 0x0000 0 dm_four_dirty).map fun y => ((y.TLBc 0).hit, (y.TLBc 0).miss)) =
      some (0, 1) ∧
    ((reference_address 0x14000 0 dm_four_dirty).map fun y =>
      ((y.TLBc 0).hit, (y.TLBc 0).miss)) = some (1, 0) := by
  refine ⟨by decide, by decide, by decide, by decide, by decide, by decide, by decide,
    by decide, by decide, by decide, by decide, by decide⟩

set_option maxRecDepth 100000 in
/-- C29 (the code departs from the claim): in the 2-way iTLB with 2 entries,
hence one set, the reference to `0x1000` decodes to set index 1, and the scan
of `tlb_lookup` starts at cell `1 * 2 + 0 = 2`, outside the two allocated
cells `0` and `1`; the victim search `LRU(1)` reads the same cell. -/
theorem single_set_lookup_leaves_the_array :
    one_set_start.isSome = true ∧ (one_set.TLBc 0).entries = 2 ∧ one_set.TLB_size 0 = 2 ∧
    decode_index (one_set.TLBc 0) 0x1000 = 1 ∧
    nway_cell (decode_index (one_set.TLBc 0) 0x1000) (one_set.TLBc 0).assoc 0 = 2 ∧
    (load 2 { one_set with TLB_TYPE := 0 }).isSome = false ∧
    (LRU 1 { one_set with TLB_TYPE := 0 }).isSome = false ∧
    (reference_address 0x1000 0 one_set).isSome = false := by
  refine ⟨by decide, by decide, by decide, by decide, by decide, by decide, by decide,
    by decide⟩

/-- C30: (a) a lookup made with `sim_L2TLB` false, as the nested lookup of
L2TLB is, never calls `TLB_simulation`: it is the same whatever that callee
is; (b) two levels of calls are all that `TLB_simulation` needs, the result is
the same with any larger bound; (c) when `reference_address` returns from a
simulated L1 level `t`, `sim_L2TLB` has the value it had before, `l2check` is
false and `TLB_TYPE` is `t`; (d) on an in-range geometry the call returns,
and after an L1 miss the tag is installed in level `t`. -/
theorem recursion_is_bounded_and_restores_context :
    (∀ (sim sim' : Nat → State → Option State) (a tag idx : Nat) (x : State),
      x.sim_L2TLB = false → tlb_lookup sim a tag idx x = tlb_lookup sim' a tag idx x) ∧
    (∀ (n addr : Nat) (s : State), TLB_simulation (n + 2) addr s = TLB_simulation 2 addr s) ∧
    (∀ (addr : Nat) (t : Int) (s y : State), Routed t s → reference_address addr t s = some y →
      y.sim_L2TLB = s.sim_L2TLB ∧ y.l2check = false ∧ y.TLB_TYPE = t) ∧
    (∀ (addr : Nat) (t : Int) (s : State), Routed t s → s.clo_sim_tlb = true →
      (s.RepPol = 0 ∨ s.RepPol = 1 ∨ s.RepPol = 2) →
      InRangeAt s t (decode_index (s.TLBc t) addr) →
      (s.sim_L2TLB = true → InRangeAt s 2 (decode_index (s.TLBc 2) addr)) →
      ∃ y, reference_address addr t s = some y ∧
        (¬ Resident s t (decode_tag (s.TLBc t) addr) (decode_index (s.TLBc t) addr) →
          ∃ e, Installed (s.TLB t) (y.TLB t)
            (scope_lo (s.TLBc t) (decode_index (s.TLBc t) addr))
            (scope_hi (s.TLBc t) (decode_index (s.TLBc t) addr))
            (decode_tag (s.TLBc t) addr) e)) := by
  refine ⟨tlb_lookup_leaf_indep, sim_fuel, ?_, ?_⟩
  · intro addr t s y hrouted h
    rw [reference_eq_sim hrouted] at h
    exact sim_context h
  · intro addr t s hrouted hsim hpol hr1 hr2
    obtain ⟨y, hy, _, _, _, _, _, _, hmiss⟩ := reference_ok s addr t hrouted hsim hpol hr1 hr2
    exact ⟨y, hy, fun hres => (hmiss hres).1.installed⟩

/-- C22: an instruction reference while iTLB is not simulated, and a data
reference while dTLB is not simulated, return the state they were given,
unchanged; and whenever an instruction reference returns, the entries and the
record of dTLB (counters and page list included) are what they were, and
likewise those of iTLB after a data reference. -/
theorem references_stay_on_their_level :
    (∀ (addr : Nat) (s : State), s.sim_iTLB = false → reference_address addr 0 s = some s) ∧
    (∀ (addr : Nat) (s : State), s.sim_dTLB = false → reference_address addr 1 s = some s) ∧
    (∀ (addr : Nat) (s y : State), reference_address addr 0 s = some y →
      y.TLB 1 = s.TLB 1 ∧ y.TLBc 1 = s.TLBc 1) ∧
    (∀ (addr : Nat) (s y : State), reference_address addr 1 s = some y →
      y.TLB 0 = s.TLB 0 ∧ y.TLBc 0 = s.TLBc 0) := by
  refine ⟨?_, ?_, ?_, ?_⟩
  · intro addr s h
    apply reference_not_routed
    rintro (⟨_, h2⟩ | ⟨h1, _⟩)
    · rw [h] at h2; exact absurd h2 (by decide)
    · exact absurd h1 (by decide)
  · intro addr s h
    apply reference_not_routed
    rintro (⟨h1, _⟩ | ⟨_, h2⟩)
    · exact absurd h1 (by decide)
    · rw [h] at h2; exact absurd h2 (by decide)
  · intro addr s y h
    exact reference_view h (by decide) (by decide)
  · intro addr s y h
    exact reference_view h (by decide) (by decide)

set_option maxRecDepth 100000 in
/-- C22, on the configuration `two_way`, where only dTLB is simulated: an
instruction reference returns the state unchanged. -/
theorem references_stay_on_their_level_witness :
    two_way.sim_iTLB = false ∧ reference_address 0x1000 0 two_way = some two_way :=
  ⟨by decide, references_stay_on_their_level.1 0x1000 two_way (by decide)⟩

set_option maxRecDepth 100000 in
/-- C30, for the first reference to page 1 of the two-level configuration,
which misses iTLB and visits L2TLB. -/
theorem recursion_is_bounded_and_restores_context_witness :
    two_level.sim_L2TLB = true ∧
    ∃ y, reference_address 0x1000 0 two_level = some y ∧
      y.sim_L2TLB = two_level.sim_L2TLB ∧ y.l2check = false ∧ y.TLB_TYPE = 0 :=
  ⟨by decide,
    (recursion_is_bounded_and_restores_context.2.2.2 0x1000 0 two_level (by decide) (by decide)
      (by decide) (by decide) (fun _ => by decide)).elim fun y hy =>
      ⟨y, hy.1, recursion_is_bounded_and_restores_context.2.2.1 0x1000 0 two_level y (by decide)
        hy.1⟩⟩

/-! ## Claims on the page list -/

/-- C23: after any sequence of `add_page` calls on a level whose page list was
empty and whose `total_pages` was 0, the list holds exactly one node per
distinct value passed, the count of each node is the number of calls made with
its value, and `total_pages` is the number of nodes. -/
theorem page_log_counts (vals : List Nat) (s : State) (h0 : s.cur.page_ptr = [])
    (h1 : s.cur.total_pages = 0) :
    ((add_pages vals s).cur.page_ptr.map PAGES.tag).Nodup ∧
    (∀ v, v ∈ (add_pages vals s).cur.page_ptr.map PAGES.tag ↔ v ∈ vals) ∧
    (∀ p ∈ (add_pages vals s).cur.page_ptr, p.count = vals.count p.tag) ∧
    (add_pages vals s).cur.total_pages = (add_pages vals s).cur.page_ptr.length := by
  have h := add_pages_logged vals s h0 h1
  exact ⟨logged_tags_nodup h, logged_mem h, h.counts, h.total⟩

set_option maxRecDepth 100000 in
/-- C23, for the values 7, 7, 3, 7, 3, 11 on the iTLB of `two_level`. -/
theorem page_log_counts_witness :
    ((add_pages page_values two_level_itlb).cur.page_ptr.map PAGES.tag).Nodup ∧
    (∀ v, v ∈ (add_pages page_values two_level_itlb).cur.page_ptr.map PAGES.tag ↔
      v ∈ page_values) ∧
    (∀ p ∈ (add_pages page_values two_level_itlb).cur.page_ptr,
      p.count = page_values.count p.tag) ∧
    (add_pages page_values two_level_itlb).cur.total_pages =
      (add_pages page_values two_level_itlb).cur.page_ptr.length :=
  page_log_counts page_values two_level_itlb (by decide) (by decide)

set_option maxRecDepth 100000 in
/-- C24 (the code departs from the claim): on a direct-mapped iTLB with 8
entries and the page log on, the references to the pages 7, 7, 3, 7, 3, 11
leave two nodes, tagged 1 (count 1) and 0 (count 5), and `total_pages = 2`:
`add_page` is handed the tag `vpn / 8`, not the page number, so that pages 7
and 3 share a node; on a fully associative level the same references leave
the three nodes 11, 3 and 7. -/
theorem page_log_records_the_tag :
    (dm_logging_start.bind (run page_refs)).isSome = true ∧
    decode_vpn (dm_logging_after.TLBc 0) 0x3000 = 3 ∧
    decode_tag (dm_logging_after.TLBc 0) 0x3000 = 0 ∧
    decode_tag (dm_logging_after.TLBc 0) 0x7000 = 0 ∧
    decode_tag (dm_logging_after.TLBc 0) 0xB000 = 1 ∧
    print_pages (dm_logging_after.TLBc 0) = [(1, 1), (0, 5)] ∧
    (dm_logging_after.TLBc 0).total_pages = 2 ∧
    (fa_logging_start.bind (run page_refs)).isSome = true ∧
    print_pages (fa_logging_after.TLBc 0) = [(11, 1), (3, 2), (7, 3)] := by
  refine ⟨by decide, by decide, by decide, by decide, by decide, by decide, by decide,
    by decide, by decide⟩

set_option maxRecDepth 100000 in
/-- C26 (the claim as stated fails): under the random policy, on the fresh
fully associative iTLB with 4 entries and no L2TLB, with a generator that
always returns 0, the references to the pages 1, 2, 3, 4, 5 give 5 misses and
0 hits but every install goes to entry 0: the level ends with the tags
5, 0, 0, 0, a single tag of the trace and three never-written entries, not 4
distinct tags of the trace. -/
theorem random_policy_may_reuse_one_entry :
    (random_start fun _ => 0).isSome = true ∧
    tags (random_state fun _ => 0) 0 4 = [0, 0, 0, 0] ∧
    (run (five_addrs.map fun a => (a, 0)) (random_state fun _ => 0)).isSome = true ∧
    ((random_after fun _ => 0).TLBc 0).miss = 5 ∧ ((random_after fun _ => 0).TLBc 0).hit = 0 ∧
    tags (random_after fun _ => 0) 0 4 = [5, 0, 0, 0] := by
  refine ⟨by decide, by decide, by decide, by decide, by decide, by decide⟩

/-- C26 (amended): under the random policy, on a fully associative L1 level
without L2TLB, a trace of references whose tags are pairwise distinct and not
resident at the start returns, whatever the random generator gives, with one
miss per reference and no hit: the miss counter, a 32-bit `Int`, is
incremented once per reference, which adds the length of the trace when the
sum stays below `2 ^ 31`; afterwards every entry holds the tag it held at the
start or a tag of the trace, and the tag of the last reference is resident. -/
theorem random_policy_distinct_pages_miss (s : State) (t : Int) (trace : List Nat)
    (hrouted : Routed t s) (hsim : s.clo_sim_tlb = true) (hpol : s.RepPol = 2)
    (hl2 : s.sim_L2TLB = false) (hfa : (s.TLBc t).assoc = -1)
    (he0 : 0 < (s.TLBc t).entries) (he1 : (s.TLBc t).entries ≤ s.TLB_size t)
    (hlim : s.TLB_size t < 2 ^ 31)
    (hnd : (trace.map (decode_tag (s.TLBc t))).Nodup)
    (hnew : ∀ a ∈ trace, ∀ i < (s.TLBc t).entries.toNat,
      (s.TLB t i).tag ≠ decode_tag (s.TLBc t) a) :
    ∃ y, run (trace.map fun a => (a, t)) s = some y ∧
      (y.TLBc t).miss = incr_int^[trace.length] (s.TLBc t).miss ∧
      (-2 ^ 31 ≤ (s.TLBc t).miss → (s.TLBc t).miss + trace.length < 2 ^ 31 →
        (y.TLBc t).miss = (s.TLBc t).miss + trace.length) ∧
      (y.TLBc t).hit = (s.TLBc t).hit ∧
      (∀ j, (y.TLB t j).tag = (s.TLB t j).tag ∨
        ∃ a ∈ trace, (y.TLB t j).tag = decode_tag (s.TLBc t) a) ∧
      (∀ a, trace.getLast? = some a →
        ∃ j, 0 ≤ j ∧ j < (s.TLBc t).entries ∧ (y.TLB t j).tag = decode_tag (s.TLBc t) a) := by
  have hnew2 : ∀ a ∈ trace, ∀ j, 0 ≤ j → j < (s.TLBc t).entries →
      (s.TLB t j).tag ≠ decode_tag (s.TLBc t) a := by
    intro a ha j h0 h1
    have h := hnew a ha j.toNat (by omega)
    rwa [Int.toNat_of_nonneg h0] at h
  obtain ⟨y, hy, _, hm, hh, htags, hlast⟩ := fa_new_tags_miss t trace s
    ⟨hrouted, hsim, Or.inr (Or.inr hpol), hl2, hlim⟩ hfa he0 he1 hnd hnew2
  exact ⟨y, hy, hm, fun h0 h1 => by rw [hm, iterate_incr_int_exact _ _ h0 h1], hh, htags,
    hlast⟩

set_option maxRecDepth 100000 in
/-- C26 (amended), for the pages 1, 2, 3, 4, 5 on the fresh fully associative
iTLB with 4 entries, with the generator that returns 0, 1, 2, .... -/
theorem random_policy_distinct_pages_miss_witness :
    ∃ y, run (five_addrs.map fun a => (a, 0)) (random_state fun n => n) = some y ∧
      (y.TLBc 0).miss = incr_int^[five_addrs.length] ((random_state fun n => n).TLBc 0).miss ∧
      (-2 ^ 31 ≤ ((random_state fun n => n).TLBc 0).miss →
        ((random_state fun n => n).TLBc 0).miss + five_addrs.length < 2 ^ 31 →
        (y.TLBc 0).miss = ((random_state fun n => n).TLBc 0).miss + five_addrs.length) ∧
      (y.TLBc 0).hit = ((random_state fun n => n).TLBc 0).hit ∧
      (∀ j, (y.TLB 0 j).tag = ((random_state fun n => n).TLB 0 j).tag ∨
        ∃ a ∈ five_addrs, (y.TLB 0 j).tag = decode_tag ((random_state fun n => n).TLBc 0) a) ∧
      (∀ a, five_addrs.getLast? = some a →
        ∃ j, 0 ≤ j ∧ j < ((random_state fun n => n).TLBc 0).entries ∧
          (y.TLB 0 j).tag = decode_tag ((random_state fun n => n).TLBc 0) a) :=
  random_policy_distinct_pages_miss (random_state fun n => n) 0 five_addrs
    (by decide) (by decide) (by decide) (by decide) (by decide) (by decide) (by decide)
    (by decide) (by decide) (by decide)

/-- The hit rule of a direct-mapped L1 level of `2 ^ m` entries and pages of
`2 ^ k` bytes without L2TLB, that `init_tlb` completed: after any trace `pre`
of addresses below `2 ^ VAS_SIZE`, a reference to an address `a` below
`2 ^ VAS_SIZE` hits exactly when the last page referenced in its slot is its
own. -/
theorem dm_hit_rule (s : State) (t : Int) (k m : Nat) (c0 c : tlb_t)
    (pre : List Nat) (a : Nat) (hal : Alone s t) (hd : DirectMapped s t k m c0 c)
    (hpre : ∀ b ∈ pre, b < 2 ^ s.VAS_SIZE.toNat) (ha : a < 2 ^ s.VAS_SIZE.toNat) :
    ∃ x y, run (pre.map fun b => (b, t)) s = some x ∧ reference_address a t x = some y ∧
      run ((pre ++ [a]).map fun b => (b, t)) s = some y ∧
      ∀ v, last_in_slot k m ((a / 2 ^ k) % 2 ^ m) pre = some v →
        ((y.TLBc t).hit = incr_int (x.TLBc t).hit ↔ v = a / 2 ^ k) ∧
        (v = a / 2 ^ k → (y.TLBc t).miss = (x.TLBc t).miss ∧
          (y.TLB t ((a / 2 ^ k) % 2 ^ m : Nat)).tag = (a / 2 ^ k) / 2 ^ m) ∧
        (v ≠ a / 2 ^ k →
          (y.TLBc t).miss = incr_int (x.TLBc t).miss ∧ (y.TLBc t).hit = (x.TLBc t).hit ∧
          (x.TLB t ((a / 2 ^ k) % 2 ^ m : Nat)).tag = v / 2 ^ m ∧
          (y.TLB t ((a / 2 ^ k) % 2 ^ m : Nat)).tag = (a / 2 ^ k) / 2 ^ m ∧
          v / 2 ^ m ≠ (a / 2 ^ k) / 2 ^ m) := by
  obtain ⟨x, hx, hsx, hinv⟩ := dm_run t k m c0 c pre s hal hd hpre
  obtain ⟨y, hy, _, htags, hhit, hmiss⟩ := dm_step a (alone_congr hsx hal)
    (directMapped_congr hsx hd) (by rw [hsx.vas]; exact ha)
  refine ⟨x, y, hx, hy, (run_snoc t pre a s x hx).trans hy, fun v hv => ?_⟩
  have hxv := (hinv ((a / 2 ^ k) % 2 ^ m)).1 v hv
  have hmod := last_in_slot_slot k m _ pre v hv
  have hya := htags ((a / 2 ^ k) % 2 ^ m)
  rw [if_pos rfl] at hya
  have hiff : v / 2 ^ m = (a / 2 ^ k) / 2 ^ m ↔ v = a / 2 ^ k := by
    constructor
    · intro h
      rw [← Nat.div_add_mod v (2 ^ m), ← Nat.div_add_mod (a / 2 ^ k) (2 ^ m), h, hmod]
    · intro h; rw [h]
  refine ⟨⟨fun h => ?_, fun h => ?_⟩, fun h => ?_, fun h => ?_⟩
  · by_contra hne
    have hne2 : (x.TLB t ((a / 2 ^ k) % 2 ^ m : Nat)).tag ≠ (a / 2 ^ k) / 2 ^ m := by
      rw [hxv]; exact fun h2 => hne (hiff.mp h2)
    have := (hmiss hne2).2
    rw [this] at h
    exact incr_int_ne _ h.symm
  · exact (hhit (by rw [hxv]; exact hiff.mpr h)).1
  · exact ⟨(hhit (by rw [hxv]; exact hiff.mpr h)).2, hya⟩
  · have hne2 : (x.TLB t ((a / 2 ^ k) % 2 ^ m : Nat)).tag ≠ (a / 2 ^ k) / 2 ^ m := by
      rw [hxv]; exact fun h2 => h (hiff.mp h2)
    exact ⟨(hmiss hne2).1, (hmiss hne2).2, hxv, hya, fun h2 => h (hiff.mp h2)⟩

set_option maxRecDepth 100000 in
/-- C27 (the code departs from the claim): on a direct-mapped L1 level of
`2 ^ m` entries and pages of `2 ^ k` bytes, without L2TLB, with an address
width `k < VAS_SIZE ≤ k + 30`, after any trace `pre` of addresses below
`2 ^ VAS_SIZE`, a reference to an address `a` below `2 ^ VAS_SIZE` returns;
when the slot `vpn mod entries` of `a` was referenced in `pre` and `v` is the
page number of the last reference to it, the reference hits (the hit counter,
a 32-bit `Int`, is incremented) if and only if `v` is the page number of `a`,
and otherwise it misses and replaces the tag of `v` in the slot by the tag of
`a`. So on the fresh direct-mapped iTLB with 4 entries and 32-bit addresses,
where after the pages 1, 5, 2 the reference to page 1 misses. For every other
width, `VAS_SIZE ≤ k` or `k + 30 < VAS_SIZE`, the `int` shift
`2 << (VAS_SIZE - offset_mask - 1)` that builds the tag mask has no defined
result: so for 4 KiB pages, 4 entries and `VAS_SIZE = 64`. -/
theorem direct_mapped_hit_rule_needs_a_narrow_width :
    (∀ (s : State) (t : Int) (k m : Nat) (c0 c : tlb_t) (pre : List Nat) (a : Nat),
      Alone s t → DirectMapped s t k m c0 c → (k : Int) < s.VAS_SIZE → s.VAS_SIZE ≤ k + 30 →
      (∀ b ∈ pre, b < 2 ^ s.VAS_SIZE.toNat) → a < 2 ^ s.VAS_SIZE.toNat →
      ∃ x y, run (pre.map fun b => (b, t)) s = some x ∧ reference_address a t x = some y ∧
        run ((pre ++ [a]).map fun b => (b, t)) s = some y ∧
        ∀ v, last_in_slot k m ((a / 2 ^ k) % 2 ^ m) pre = some v →
          ((y.TLBc t).hit = incr_int (x.TLBc t).hit ↔ v = a / 2 ^ k) ∧
          (v = a / 2 ^ k → (y.TLBc t).miss = (x.TLBc t).miss ∧
            (y.TLB t ((a / 2 ^ k) % 2 ^ m : Nat)).tag = (a / 2 ^ k) / 2 ^ m) ∧
          (v ≠ a / 2 ^ k →
            (y.TLBc t).miss = incr_int (x.TLBc t).miss ∧ (y.TLBc t).hit = (x.TLBc t).hit ∧
            (x.TLB t ((a / 2 ^ k) % 2 ^ m : Nat)).tag = v / 2 ^ m ∧
            (y.TLB t ((a / 2 ^ k) % 2 ^ m : Nat)).tag = (a / 2 ^ k) / 2 ^ m ∧
            v / 2 ^ m ≠ (a / 2 ^ k) / 2 ^ m)) ∧
    (∀ x : Int, incr_int x ≠ x) ∧
    Alone dm_four_state 0 ∧ DirectMapped dm_four_state 0 12 2 (desc_level dm_four_desc) dm_four ∧
    dm_four_state.VAS_SIZE = 32 ∧
    last_in_slot 12 2 ((0x1000 / 2 ^ 12) % 2 ^ 2) [0x1000, 0x5000, 0x2000] = some 5 ∧
    ((run ([0x1000, 0x5000, 0x2000].map fun b => (b, 0)) dm_four_state).map fun x =>
      ((x.TLBc 0).hit, (x.TLBc 0).miss)) = some (2, 1) ∧
    ((run (([0x1000, 0x5000, 0x2000] ++ [0x1000]).map fun b => (b, 0)) dm_four_state).map
      fun y => ((y.TLBc 0).hit, (y.TLBc 0).miss)) = some (2, 2) ∧
    (∀ (VAS : Int) (c0 : tlb_t) (k : Nat), c0.page_size = 2 ^ k → k ≤ 30 → c0.assoc = 0 →
      -2 ^ 31 ≤ VAS → VAS < 2 ^ 31 → (VAS ≤ k ∨ k + 30 < VAS) →
      init_level_x VAS c0 = Except.error InitFault.undefined) ∧
    init_level_x 64 (desc_level dm_four_desc) = Except.error InitFault.undefined := by
  refine ⟨fun s t k m c0 c pre a hal hd _ _ hpre ha => dm_hit_rule s t k m c0 c pre a hal hd hpre ha,
    incr_int_ne, ⟨by decide, by decide, by decide, by decide, by decide⟩,
    ⟨by decide, by decide, by decide, by decide, by decide, by decide, by decide, by decide,
      by decide, by decide⟩, by decide, by decide, by decide, by decide,
    fun VAS c0 k hp hk hassoc h0 h1 h => init_level_x_undefined hp hk (Or.inl hassoc) h0 h1 h,
    init_level_x_undefined (k := 12) (by decide) (by decide) (Or.inl (by decide)) (by decide)
      (by decide) (Or.inr (by decide))⟩

/-! ## The LRU policy over a trace -/

theorem scope_refs_length (k m r : Nat) (trace : List Nat) :
    (scope_refs k m r trace).length ≤ trace.length := by
  unfold scope_refs
  rw [List.length_reverse]
  exact (List.length_filter_le _ _).trans (by rw [List.length_map])

/-- The LRU rule of an L1 level without L2TLB that `init_tlb` completed, on
traces too short for a count to reach `2 ^ 31`: a reference to a page seen
before hits exactly when fewer than `K` distinct other pages of its scope were
referenced since. -/
theorem lru_rule (s : State) (t : Int) (k m K : Nat) (c0 c : tlb_t)
    (pre : List Nat) (a : Nat) (hal : Alone s t) (hd : LruLevel s t k m K c0 c)
    (hfresh : ∀ i : Nat, i < 2 ^ m * K → (s.TLB t i).tag = 0 ∧ (s.TLB t i).count = 0)
    (hpre : ∀ b ∈ pre, b < 2 ^ s.VAS_SIZE.toNat) (ha : a < 2 ^ s.VAS_SIZE.toNat)
    (hseen : a / 2 ^ k ∈ pre.map fun b => b / 2 ^ k) (hlen : pre.length < 2 ^ 31 - 1) :
    ∃ x y, run (pre.map fun b => (b, t)) s = some x ∧ reference_address a t x = some y ∧
      run ((pre ++ [a]).map fun b => (b, t)) s = some y ∧
      ((y.TLBc t).hit = incr_int (x.TLBc t).hit ↔
        others_since (a / 2 ^ k) (scope_refs k m ((a / 2 ^ k) % 2 ^ m) pre) < K) ∧
      (others_since (a / 2 ^ k) (scope_refs k m ((a / 2 ^ k) % 2 ^ m) pre) < K →
        (y.TLBc t).miss = (x.TLBc t).miss) ∧
      (¬ others_since (a / 2 ^ k) (scope_refs k m ((a / 2 ^ k) % 2 ^ m) pre) < K →
        (y.TLBc t).miss = incr_int (x.TLBc t).miss ∧ (y.TLBc t).hit = (x.TLBc t).hit) := by
  have hlt : (a / 2 ^ k) % 2 ^ m < 2 ^ m := Nat.mod_lt _ (by positivity)
  have hsc0 : LruScope (s.TLB t) ((((a / 2 ^ k) % 2 ^ m) * K : Nat) : Int) K m
      ((a / 2 ^ k) % 2 ^ m) [] 0 (fun _ => 0) := by
    apply lruScope_fresh
    intro i hi
    have hb : (a / 2 ^ k) % 2 ^ m * K + i < 2 ^ m * K := by
      calc (a / 2 ^ k) % 2 ^ m * K + i < (a / 2 ^ k) % 2 ^ m * K + K := by omega
        _ = ((a / 2 ^ k) % 2 ^ m + 1) * K := by ring
        _ ≤ 2 ^ m * K := Nat.mul_le_mul_right K hlt
    have := hfresh _ hb
    rw [Nat.cast_add] at this
    exact this
  obtain ⟨x, hx, hsx, w, cv, hsc⟩ := lru_run t k m K c0 c ((a / 2 ^ k) % 2 ^ m) pre s [] 0
    (fun _ => 0) hal hd hpre hsc0 (by simp only [List.length_nil]; omega)
  rw [List.append_nil] at hsc
  obtain ⟨y, hy, _, hin, _⟩ := lru_reference_scope a ((a / 2 ^ k) % 2 ^ m)
    (alone_congr hsx hal) (lruLevel_congr hsx hd) (by rw [hsx.vas]; exact ha) hsc
    (lt_of_le_of_lt (scope_refs_length k m _ pre) hlen)
  have hmem : a / 2 ^ k ∈ scope_refs k m ((a / 2 ^ k) % 2 ^ m) pre := by
    unfold scope_refs
    rw [List.mem_reverse, List.mem_filter]
    exact ⟨hseen, by simp⟩
  obtain ⟨hyes, hno⟩ := (hin rfl).2 hmem
  refine ⟨x, y, hx, hy, (run_snoc t pre a s x hx).trans hy, ⟨fun h => ?_, fun h => (hyes h).1⟩,
    fun h => (hyes h).2, hno⟩
  by_contra hc
  have := (hno hc).2
  rw [this] at h
  exact incr_int_ne _ h.symm

set_option maxRecDepth 100000 in
/-- C8 (the code departs from the claim): on an L1 level without L2TLB under
the LRU policy, fully associative with `K` entries (`m = 0`) or N-way with `K`
ways and `2 ^ m ≥ 2` sets, that `init_tlb` completed (for an N-way level this
takes `k < VAS_SIZE ≤ k + 30`), started with tag 0 and count 0 in every cell,
after a trace `pre` of fewer than `2 ^ 31 - 1` addresses below `2 ^ VAS_SIZE`,
a reference to an address `a` below `2 ^ VAS_SIZE` whose page was referenced
in `pre` returns, and it hits if and only if fewer than `K` distinct other
pages of the same scope were referenced since the last reference to that
page; otherwise it misses. So on the fresh 2-way dTLB with 4 entries, where
after 0x0000, 0x2000, 0x1000 the reference 0x0000 hits.

The rule fails beyond these bounds. The counts are 32-bit `Int`s: on the same
fresh dTLB, after the trace `lru_long_trace 2147483647` (the pages 25 and 27
of set 1, then 2147483647 more references to page 27, which take the count of
page 25 from `2147483647` to `-2147483648`, then page 29, which therefore
replaces page 27 and not page 25), the reference to page 27 misses although
page 29 is the only other page of the set referenced since its last
reference. And for an N-way level with `VAS_SIZE ≤ k` or `k + 30 < VAS_SIZE`
the `int` shift that builds the tag mask has no defined result: so for the
2-way level and `VAS_SIZE = 64`. -/
theorem lru_rule_holds_within_int_range :
    (∀ (s : State) (t : Int) (k m K : Nat) (c0 c : tlb_t) (pre : List Nat) (a : Nat),
      Alone s t → LruLevel s t k m K c0 c →
      (∀ i : Nat, i < 2 ^ m * K → (s.TLB t i).tag = 0 ∧ (s.TLB t i).count = 0) →
      (∀ b ∈ pre, b < 2 ^ s.VAS_SIZE.toNat) → a < 2 ^ s.VAS_SIZE.toNat →
      (a / 2 ^ k ∈ pre.map fun b => b / 2 ^ k) → pre.length < 2 ^ 31 - 1 →
      ∃ x y, run (pre.map fun b => (b, t)) s = some x ∧ reference_address a t x = some y ∧
        run ((pre ++ [a]).map fun b => (b, t)) s = some y ∧
        ((y.TLBc t).hit = incr_int (x.TLBc t).hit ↔
          others_since (a / 2 ^ k) (scope_refs k m ((a / 2 ^ k) % 2 ^ m) pre) < K) ∧
        (others_since (a / 2 ^ k) (scope_refs k m ((a / 2 ^ k) % 2 ^ m) pre) < K →
          (y.TLBc t).miss = (x.TLBc t).miss) ∧
        (¬ others_since (a / 2 ^ k) (scope_refs k m ((a / 2 ^ k) % 2 ^ m) pre) < K →
          (y.TLBc t).miss = incr_int (x.TLBc t).miss ∧ (y.TLBc t).hit = (x.TLBc t).hit)) ∧
    (∀ x : Int, incr_int x ≠ x) ∧
    (∀ (s : State) (t : Int) (k m K : Nat) (c0 c : tlb_t), LruLevel s t k m K c0 c →
      0 < c0.assoc → (k : Int) < s.VAS_SIZE ∧ s.VAS_SIZE ≤ k + 30) ∧
    Alone two_way 1 ∧ LruLevel two_way 1 12 1 2 (desc_level two_way_desc) two_way_level ∧
    tags two_way 1 4 = [0, 0, 0, 0] ∧ counts two_way 1 4 = [0, 0, 0, 0] ∧
    others_since (0x0000 / 2 ^ 12)
      (scope_refs 12 1 ((0x0000 / 2 ^ 12) % 2 ^ 1) [0x0000, 0x2000, 0x1000]) = 1 ∧
    ((run ([0x0000, 0x2000, 0x1000].map fun b => (b, 1)) two_way).map fun x =>
      ((x.TLBc 1).hit, (x.TLBc 1).miss)) = some (2, 1) ∧
    ((run (([0x0000, 0x2000, 0x1000] ++ [0x0000]).map fun b => (b, 1)) two_way).map fun y =>
      ((y.TLBc 1).hit, (y.TLBc 1).miss)) = some (3, 1) ∧
    (∀ b ∈ lru_long_trace 2147483647, b < 2 ^ two_way.VAS_SIZE.toNat) ∧
    (0x1B000 / 2 ^ 12 ∈ (lru_long_trace 2147483647).map fun b => b / 2 ^ 12) ∧
    others_since (0x1B000 / 2 ^ 12)
      (scope_refs 12 1 ((0x1B000 / 2 ^ 12) % 2 ^ 1) (lru_long_trace 2147483647)) = 1 ∧
    (∃ x y, run ((lru_long_trace 2147483647).map fun b => (b, 1)) two_way = some x ∧
      reference_address 0x1B000 1 x = some y ∧
      (x.TLB 1 2).tag = 12 ∧ (x.TLB 1 3).tag = 14 ∧
      (y.TLBc 1).hit = (x.TLBc 1).hit ∧ (y.TLBc 1).miss = incr_int (x.TLBc 1).miss) ∧
    (∀ (VAS : Int) (c0 : tlb_t) (k : Nat), c0.page_size = 2 ^ k → k ≤ 30 →
      0 < c0.assoc → c0.assoc % 2 = 0 → -2 ^ 31 ≤ VAS → VAS < 2 ^ 31 →
      (VAS ≤ k ∨ k + 30 < VAS) → init_level_x VAS c0 = Except.error InitFault.undefined) ∧
    init_level_x 64 (desc_level two_way_desc) = Except.error InitFault.undefined := by
  refine ⟨fun s t k m K c0 c pre a hal hd hfresh hpre ha hseen hlen =>
      lru_rule s t k m K c0 c pre a hal hd hfresh hpre ha hseen hlen,
    incr_int_ne,
    fun s t k m K c0 c hd hpos => init_level_width hd.page hd.hk (Or.inr hpos)
      (by have := hd.vas_pos; norm_num; omega) hd.vas_lim hd.init,
    ⟨by decide, by decide, by decide, by decide, by decide⟩,
    ⟨by decide, by decide, by decide, by decide, by decide, by decide,
      Or.inr ⟨by decide, by decide, by decide, by decide⟩, by decide, by decide, by decide⟩,
    by decide, by decide, by decide, by decide, by decide, ?_⟩
  refine ⟨?_, ?_, lru_long_trace_others 2147483647, ?_,
    fun VAS c0 k hp hk hpos hev h0 h1 h =>
      init_level_x_undefined hp hk (Or.inr ⟨hpos, hev⟩) h0 h1 h,
    init_level_x_undefined (k := 12) (by decide) (by decide) (Or.inr ⟨by decide, by decide⟩)
      (by decide) (by decide) (Or.inr (by decide))⟩
  · intro b hb
    have hv : two_way.VAS_SIZE.toNat = 32 := by decide
    rw [hv]
    unfold lru_long_trace at hb
    rw [List.mem_append, List.mem_append] at hb
    rcases hb with (hb | hb) | hb
    · rw [List.mem_cons, List.mem_singleton] at hb
      rcases hb with hb | hb <;> rw [hb] <;> norm_num
    · rw [List.eq_of_mem_replicate hb]; norm_num
    · rw [List.mem_singleton] at hb
      rw [hb]; norm_num
  · unfold lru_long_trace
    rw [List.map_append, List.map_append, List.mem_append, List.mem_append]
    left; left
    decide
  · apply lru_evicts_the_page_used_last
    rw [iterate_incr_int _ _ (by norm_num) (by norm_num)]
    decide

/-! ## Frame of the replacement, and the width of the page number -/

/-- C31: a reference handed to a simulated, in-range L1 level `t` (with an
in-range L2TLB behind it when L2TLB is simulated), under any of the three
policies, returns, and every entry outside the slot or set that the address
decodes to is afterwards what it was, tag and count: in a direct-mapped level
every cell other than `addr_index % entries`, in an N-way level every cell
outside `addr_index * assoc ≤ j < (addr_index + 1) * assoc`; the same holds
for L2TLB with its own decoding, and the third level is not changed at all. -/
theorem replacement_is_confined_to_the_set (s : State) (addr : Nat) (t : Int)
    (hrouted : Routed t s) (hsim : s.clo_sim_tlb = true)
    (hpol : s.RepPol = 0 ∨ s.RepPol = 1 ∨ s.RepPol = 2)
    (hr1 : InRangeAt s t (decode_index (s.TLBc t) addr))
    (hr2 : s.sim_L2TLB = true → InRangeAt s 2 (decode_index (s.TLBc 2) addr)) :
    ∃ y, reference_address addr t s = some y ∧
      ((s.TLBc t).assoc = 0 →
        ∀ j, j ≠ (decode_index (s.TLBc t) addr : Int) % (s.TLBc t).entries →
          y.TLB t j = s.TLB t j) ∧
      (0 < (s.TLBc t).assoc →
        ∀ j, j < (decode_index (s.TLBc t) addr : Int) * (s.TLBc t).assoc ∨
            ((decode_index (s.TLBc t) addr : Int) + 1) * (s.TLBc t).assoc ≤ j →
          y.TLB t j = s.TLB t j) ∧
      ((s.TLBc 2).assoc = 0 →
        ∀ j, j ≠ (decode_index (s.TLBc 2) addr : Int) % (s.TLBc 2).entries →
          y.TLB 2 j = s.TLB 2 j) ∧
      (0 < (s.TLBc 2).assoc →
        ∀ j, j < (decode_index (s.TLBc 2) addr : Int) * (s.TLBc 2).assoc ∨
            ((decode_index (s.TLBc 2) addr : Int) + 1) * (s.TLBc 2).assoc ≤ j →
          y.TLB 2 j = s.TLB 2 j) ∧
      (∀ u, u ≠ t → u ≠ 2 → y.TLB u = s.TLB u) := by
  obtain ⟨y, hy, _, _, _, hoth, hl2off, hhit, hmiss⟩ :=
    reference_ok s addr t hrouted hsim hpol hr1 hr2
  have hout1 : SameOutside (s.TLB t) (y.TLB t)
      (scope_lo (s.TLBc t) (decode_index (s.TLBc t) addr))
      (scope_hi (s.TLBc t) (decode_index (s.TLBc t) addr)) := by
    by_cases hres : Resident s t (decode_tag (s.TLBc t) addr) (decode_index (s.TLBc t) addr)
    · exact (hhit hres).1.outside
    · obtain ⟨e, _, _, _, _, h⟩ := (hmiss hres).1.installed
      exact h
  have hout2 : SameOutside (s.TLB 2) (y.TLB 2)
      (scope_lo (s.TLBc 2) (decode_index (s.TLBc 2) addr))
      (scope_hi (s.TLBc 2) (decode_index (s.TLBc 2) addr)) := by
    by_cases hl2 : s.sim_L2TLB = true
    · by_cases hres : Resident s t (decode_tag (s.TLBc t) addr) (decode_index (s.TLBc t) addr)
      · intro j _
        rw [(hhit hres).2.1.1]
      · obtain ⟨h2hit, h2miss⟩ := (hmiss hres).2.2.2 hl2
        by_cases hres2 : Resident s 2 (decode_tag (s.TLBc 2) addr)
            (decode_index (s.TLBc 2) addr)
        · exact (h2hit hres2).1.outside
        · obtain ⟨e, _, _, _, _, h⟩ := (h2miss hres2).1.installed
          exact h
    · have hoff : s.sim_L2TLB = false := by
        cases h : s.sim_L2TLB with
        | true => exact absurd h hl2
        | false => rfl
      intro j _
      rw [(hl2off hoff).1]
  have hdm : ∀ u, SameOutside (s.TLB u) (y.TLB u)
      (scope_lo (s.TLBc u) (decode_index (s.TLBc u) addr))
      (scope_hi (s.TLBc u) (decode_index (s.TLBc u) addr)) → (s.TLBc u).assoc = 0 →
      ∀ j, j ≠ (decode_index (s.TLBc u) addr : Int) % (s.TLBc u).entries →
        y.TLB u j = s.TLB u j := by
    intro u h ha j hj
    rw [(scope_dm ha _).1, (scope_dm ha _).2] at h
    exact h j (by omega)
  have hnw : ∀ u, SameOutside (s.TLB u) (y.TLB u)
      (scope_lo (s.TLBc u) (decode_index (s.TLBc u) addr))
      (scope_hi (s.TLBc u) (decode_index (s.TLBc u) addr)) → 0 < (s.TLBc u).assoc →
      ∀ j, j < (decode_index (s.TLBc u) addr : Int) * (s.TLBc u).assoc ∨
          ((decode_index (s.TLBc u) addr : Int) + 1) * (s.TLBc u).assoc ≤ j →
        y.TLB u j = s.TLB u j := by
    intro u h ha j hj
    rw [(scope_nway ha _).1, (scope_nway ha _).2] at h
    have e : ((decode_index (s.TLBc u) addr : Int) + 1) * (s.TLBc u).assoc =
        (decode_index (s.TLBc u) addr : Int) * (s.TLBc u).assoc + (s.TLBc u).assoc := by ring
    rw [e] at hj
    exact h j hj
  exact ⟨y, hy, hdm t hout1, hnw t hout1, hdm 2 hout2, hnw 2 hout2,
    fun u h1 h2 => (hoth u h1 h2).1⟩

set_option maxRecDepth 100000 in
/-- C31, for the data reference to page 1 (set 1, cells 2 and 3) on the 2-way
dTLB with 4 entries `two_way`. -/
theorem replacement_is_confined_to_the_set_witness :
    decode_index (two_way.TLBc 1) 0x1000 = 1 ∧ (two_way.TLBc 1).assoc = 2 ∧
    ∃ y, reference_address 0x1000 1 two_way = some y ∧
      ((two_way.TLBc 1).assoc = 0 →
        ∀ j, j ≠ (decode_index (two_way.TLBc 1) 0x1000 : Int) % (two_way.TLBc 1).entries →
          y.TLB 1 j = two_way.TLB 1 j) ∧
      (0 < (two_way.TLBc 1).assoc →
        ∀ j, j < (decode_index (two_way.TLBc 1) 0x1000 : Int) * (two_way.TLBc 1).assoc ∨
            ((decode_index (two_way.TLBc 1) 0x1000 : Int) + 1) * (two_way.TLBc 1).assoc ≤ j →
          y.TLB 1 j = two_way.TLB 1 j) ∧
      ((two_way.TLBc 2).assoc = 0 →
        ∀ j, j ≠ (decode_index (two_way.TLBc 2) 0x1000 : Int) % (two_way.TLBc 2).entries →
          y.TLB 2 j = two_way.TLB 2 j) ∧
      (0 < (two_way.TLBc 2).assoc →
        ∀ j, j < (decode_index (two_way.TLBc 2) 0x1000 : Int) * (two_way.TLBc 2).assoc ∨
            ((decode_index (two_way.TLBc 2) 0x1000 : Int) + 1) * (two_way.TLBc 2).assoc ≤ j →
          y.TLB 2 j = two_way.TLB 2 j) ∧
      (∀ u, u ≠ 1 → u ≠ 2 → y.TLB u = two_way.TLB u) :=
  ⟨by decide, by decide, replacement_is_confined_to_the_set two_way 0x1000 1 (by decide)
    (by decide) (by decide) (by decide) (fun h => absurd h (by decide))⟩

set_option maxRecDepth 100000 in
/-- C32 (the code departs from the claim): `calc_VPN_MASK` starts from the
mask 1 and doubles it `VAS_SIZE - offset` times, so the mask has the bits
`k .. VAS_SIZE`, one more than the bits `k .. VAS_SIZE - 1` of the claim: for
4 KiB pages and 32-bit addresses it is `0x1FFFFF000`, not `0xFFFFF000`.  In a
fully associative level, where the tag is the masked page number, the
addresses `0x1000` and `0x100001000`, which differ in bit 32 only, decode to
the tags 1 and `0x100001`, and referenced one after the other they give two
misses; a difference in bit 33 is masked.  In the direct-mapped and 2-way
levels the tag mask removes bit 32, and both addresses decode alike. -/
theorem vpn_mask_has_one_bit_too_many :
    (∀ k N : Nat, N + k ≤ 63 →
      calc_VPN_MASK ((k : Int) + N) k (2 ^ k) = (2 ^ (N + 1) - 1) * 2 ^ k) ∧
    calc_VPN_MASK 32 12 4096 = 0x1FFFFF000 ∧
    (init_level 32 (desc_level fa_four)).isSome = true ∧
    fa_four_level.vpn_mask = 0x1FFFFF000 ∧
    decode_tag fa_four_level 0x1000 = 1 ∧ decode_tag fa_four_level 0x100001000 = 0x100001 ∧
    decode_tag fa_four_level 0x200001000 = 1 ∧
    (run bit_32_refs two_level).isSome = true ∧
    (two_level_after_bit_32.TLBc 0).miss = 2 ∧ (two_level_after_bit_32.TLBc 0).hit = 0 ∧
    decode_tag dm_four 0x100001000 = decode_tag dm_four 0x1000 ∧
    decode_index dm_four 0x100001000 = decode_index dm_four 0x1000 ∧
    decode_tag two_way_level 0x100001000 = decode_tag two_way_level 0x1000 ∧
    decode_index two_way_level 0x100001000 = decode_index two_way_level 0x1000 := by
  refine ⟨fun k N h => calc_VPN_MASK_wide h rfl, by decide, by decide, by decide, by decide,
    by decide, by decide, by decide, by decide, by decide, by decide, by decide, by decide,
    by decide⟩

end CgTlb

namespace CgArch

/-! ## Claims about `cg-arch.c` -/

/-- C13: for a descriptor whose size, associativity and line size are positive
32-bit integers with `line_size * assoc` not overflowing, `check_cache`
returns, and it returns `NULL` if and only if the size is divisible by
`line_size * assoc`, the quotient is a power of two, the line size is a power
of two, the line size is at least 16, the size exceeds the line size, and the
associativity is at most `size / line_size`. -/
theorem check_cache_accepts_iff (c : cache_t) (hs : 0 < c.size) (ha : 0 < c.assoc)
    (hl : 0 < c.line_size) (hs1 : c.size < 2 ^ 31) (hl1 : c.line_size < 2 ^ 31) (hp : c.line_size * c.assoc < 2 ^ 31) :
    ∃ r, check_cache c = some r ∧
      (r = none ↔
        (c.line_size * c.assoc ∣ c.size ∧ (∃ k : Nat, c.size / (c.line_size * c.assoc) = 2 ^ k) ∧
          (∃ k : Nat, c.line_size = 2 ^ k) ∧ 16 ≤ c.line_size ∧ c.line_size < c.size ∧
          c.assoc ≤ c.size / c.line_size)) := by
  have hpos : 0 < c.line_size * c.assoc := Int.mul_pos hl ha
  obtain ⟨b, hb, hbiff⟩ := set_count_bad_eq c ⟨by omega, hp⟩ (by omega) (by omega) hs1
  rw [nested_div_pos (le_of_lt hs) (le_of_lt hl) (le_of_lt ha)] at hbiff
  rw [check_cache_of_set_count c b hb]
  cases b with
  | true =>
    refine ⟨_, rfl, ?_⟩
    have h := hbiff.mp rfl
    constructor
    · intro h1; simp at h1
    · rintro ⟨h1, h2, -⟩
      rcases h with h | h
      · exact absurd h1 h
      · exact absurd h2 h
  | false =>
    have h : c.line_size * c.assoc ∣ c.size ∧ ∃ k : Nat, c.size / (c.line_size * c.assoc) = 2 ^ k := by
      by_contra hc
      have := hbiff.mpr (by tauto)
      simp at this
    simp only [Bool.false_eq_true, if_false]
    by_cases h1 : VG_log2 (to_uint c.line_size) = -1
    · rw [if_pos h1]
      refine ⟨_, rfl, ?_⟩
      have := (pow2_test c.line_size (by omega) hl1).mp h1
      constructor
      · intro h2; simp at h2
      · rintro ⟨-, -, h3, -⟩; exact absurd h3 this
    · rw [if_neg h1]
      have hpw : ∃ k : Nat, c.line_size = 2 ^ k := by
        by_contra hc
        exact h1 ((pow2_test c.line_size (by omega) hl1).mpr hc)
      by_cases h2 : c.line_size < MIN_LINE_SIZE
      · rw [if_pos h2]
        refine ⟨_, rfl, ?_⟩
        unfold MIN_LINE_SIZE at h2
        constructor
        · intro h3; simp at h3
        · rintro ⟨-, -, -, h4, -⟩; omega
      · rw [if_neg h2]
        unfold MIN_LINE_SIZE at h2
        by_cases h3 : c.size ≤ c.line_size
        · rw [if_pos h3]
          refine ⟨_, rfl, ?_⟩
          constructor
          · intro h4; simp at h4
          · rintro ⟨-, -, -, -, h5, -⟩; omega
        · rw [if_neg h3, div_int_some (by omega) (Or.inl (by omega)),
            Int.tdiv_eq_ediv (le_of_lt hs) (le_of_lt hl)]
          simp only [Option.map_some']
          refine ⟨_, rfl, ?_⟩
          by_cases h4 : c.assoc > c.size / c.line_size
          · rw [if_pos h4]
            constructor
            · intro h5; simp at h5
            · rintro ⟨-, -, -, -, -, h6⟩; omega
          · rw [if_neg h4]
            constructor
            · intro _
              exact ⟨h.1, h.2, hpw, by omega, by omega, by omega⟩
            · intro _; rfl

/-- C13, for the descriptor (65536, 2, 64). -/
theorem check_cache_accepts_iff_witness :
    ∃ r, check_cache { size := 65536, assoc := 2, line_size := 64 } = some r ∧
      (r = none ↔
        ((64 : Int) * 2 ∣ 65536 ∧ (∃ k : Nat, (65536 : Int) / (64 * 2) = 2 ^ k) ∧
          (∃ k : Nat, (64 : Int) = 2 ^ k) ∧ (16 : Int) ≤ 64 ∧ (64 : Int) < 65536 ∧
          (2 : Int) ≤ 65536 / 64)) :=
  check_cache_accepts_iff { size := 65536, assoc := 2, line_size := 64 } (by decide) (by decide)
    (by decide) (by decide) (by decide) (by decide)

/-- C14 (the code departs from the claim): for the descriptor (1024, 0, 64),
which `--I1=1024,0,64` hands to `check_cache`, the first test takes the
remainder of the size by `line_size * assoc = 0`, which has no defined result;
the same holds for a zero line size, and the command-line path stops there
too. -/
theorem check_cache_divides_by_zero :
    mul_int 64 0 = some 0 ∧ mod_int 1024 0 = none ∧
    check_cache { size := 1024, assoc := 0, line_size := 64 } = none ∧
    check_cache { size := 1024, assoc := 2, line_size := 0 } = none ∧
    check_cache { size := 65536, assoc := -1, line_size := 64 } =
      some (some "Cache set count is not a power of two.\n") ∧
    (VG_str_clo_cache_opt "--I1=1024,0,64".toList Clo.start).isSome = false := by
  refine ⟨by decide, by decide, by decide, by decide, by decide, by decide⟩

/-- C16 (the code departs from the claim): the value `1000,2,64` fails
`check_cache`, and `--I1=1000,2,64` is rejected as a bad option when it comes
first; after `--iTLB=4096,-1,64` has set `TLB_bool`, which is never cleared,
the same `--I1=1000,2,64` is taken and the descriptor (1000, 2, 64) stored
without `check_cache` being called. -/
theorem cache_option_after_tlb_option_is_not_checked :
    check_cache { size := 1000, assoc := 2, line_size := 64 } =
      some (some "Cache set count is not a power of two.\n") ∧
    (VG_str_clo_cache_opt "--I1=1000,2,64".toList Clo.start).map (fun r => r.2) =
      some (Handled.rejected Outcome.bad_option) ∧
    ((VG_str_clo_cache_opt "--iTLB=4096,-1,64".toList Clo.start).map
      fun r => (r.1.TLB_bool, r.2)) = some (true, Handled.taken) ∧
    ((VG_str_clo_cache_opt "--iTLB=4096,-1,64".toList Clo.start).bind fun r =>
      (VG_str_clo_cache_opt "--I1=1000,2,64".toList r.1).map fun q => (q.1.I1c, q.2)) =
      some ({ size := 1000, assoc := 2, line_size := 64 }, Handled.taken) := by
  refine ⟨by decide, by decide, by decide, by decide⟩

/-- C17 (the code departs from the claim): a missing comma and trailing
characters are rejected, but a field without digits is read as 0, because
`VG_(strtoll10)` then leaves the end pointer on the comma that follows:
`4096,,64` is taken as (4096, 0, 64) and `,,` as (0, 0, 0) for a TLB option,
and for `--I1=4096,,64` the descriptor (4096, 0, 64) reaches `check_cache`,
which divides by zero. -/
theorem empty_field_is_read_as_zero :
    (parse_cache_opt true UNDEFINED_CACHE "4096,64".toList).map (fun r => r.2) =
      some Outcome.bad_option ∧
    (parse_cache_opt true UNDEFINED_CACHE "4096,2,64x".toList).map (fun r => r.2) =
      some Outcome.bad_option ∧
    VG_strtoll10 ",64".toList = (0, ",64".toList) ∧
    parse_cache_opt true UNDEFINED_CACHE "4096,,64".toList =
      some ({ size := 4096, assoc := 0, line_size := 64 }, Outcome.returned) ∧
    parse_cache_opt true UNDEFINED_CACHE ",,".toList =
      some ({ size := 0, assoc := 0, line_size := 0 }, Outcome.returned) ∧
    ((VG_str_clo_cache_opt "--iTLB=4096,,64".toList Clo.start).map
      fun r => (r.1.iTLBc, r.2)) =
      some ({ size := 4096, assoc := 0, line_size := 64 }, Handled.taken) ∧
    parse_cache_opt false UNDEFINED_CACHE "4096,,64".toList = none := by
  refine ⟨by decide, by decide, by decide, by decide, by decide, by decide, by decide⟩

/-- C18: for an option value that reads as three numbers `n1,n2,n3` (each
followed by a comma, the third by the end of the string), `parse_cache_opt`
leaves through the overflow error if and only if some `ni` is outside the
signed 32-bit range; when all three fit, it does not report an overflow and
the descriptor it wrote is exactly `(n1, n2, n3)`, and with validation off
(`TLB_bool` set) it returns with that descriptor. -/
theorem overflow_iff_a_field_exceeds_int (TLB_bool : Bool) (cache : cache_t)
    (optval r1 r2 : List Char) (n1 n2 n3 : Int)
    (h1 : VG_strtoll10 optval = (n1, ',' :: r1)) (h2 : VG_strtoll10 r1 = (n2, ',' :: r2))
    (h3 : VG_strtoll10 r2 = (n3, [])) :
    ((∃ c, parse_cache_opt TLB_bool cache optval = some (c, Outcome.overflow)) ↔
      ¬ (in_int n1 ∧ in_int n2 ∧ in_int n3)) ∧
    (in_int n1 ∧ in_int n2 ∧ in_int n3 →
      (∀ r, parse_cache_opt TLB_bool cache optval = some r →
        r.1 = { size := n1, assoc := n2, line_size := n3 } ∧ r.2 ≠ Outcome.overflow) ∧
      (TLB_bool = true → parse_cache_opt TLB_bool cache optval =
        some ({ size := n1, assoc := n2, line_size := n3 }, Outcome.returned)) ∧
      (check_cache { size := n1, assoc := n2, line_size := n3 } ≠ none →
        (parse_cache_opt TLB_bool cache optval).isSome = true)) := by
  rw [parse_cache_opt_of_fields TLB_bool cache optval r1 r2 n1 n2 n3 h1 h2 h3]
  by_cases hfit : in_int n1 ∧ in_int n2 ∧ in_int n3
  · rw [if_neg (not_not.mpr hfit)]
    cases TLB_bool with
    | true =>
      rw [if_neg (by decide)]
      refine ⟨⟨?_, fun h => absurd hfit h⟩, fun _ => ⟨?_, fun _ => rfl, fun _ => rfl⟩⟩
      · rintro ⟨c, hc⟩
        simp at hc
      · intro r hr
        simp only [Option.some.injEq] at hr
        rw [← hr]
        exact ⟨rfl, fun h => Outcome.noConfusion h⟩
    | false =>
      rw [if_pos rfl]
      cases hcc : check_cache { size := n1, assoc := n2, line_size := n3 } with
      | none =>
        refine ⟨⟨?_, fun h => absurd hfit h⟩, fun _ => ⟨?_, fun h => Bool.noConfusion h,
          fun h => absurd rfl h⟩⟩
        · rintro ⟨c, hc⟩
          simp at hc
        · intro r hr
          simp at hr
      | some res =>
        rw [Option.map_some']
        refine ⟨⟨?_, fun h => absurd hfit h⟩, fun _ => ⟨?_, fun h => Bool.noConfusion h,
          fun _ => rfl⟩⟩
        · rintro ⟨c, hc⟩
          simp only [Option.some.injEq, Prod.mk.injEq] at hc
          cases res <;> simp at hc
        · intro r hr
          simp only [Option.some.injEq] at hr
          rw [← hr]
          refine ⟨rfl, ?_⟩
          cases res
          · exact fun h => Outcome.noConfusion h
          · exact fun h => Outcome.noConfusion h
  · rw [if_pos hfit]
    refine ⟨⟨fun _ => hfit, fun _ => ⟨_, rfl⟩⟩, fun h => absurd h hfit⟩

/-- C18, for the value `4294967296,2,64`, whose first number is `2 ^ 32`. -/
theorem overflow_iff_a_field_exceeds_int_witness :
    (∃ c, parse_cache_opt false UNDEFINED_CACHE "4294967296,2,64".toList =
      some (c, Outcome.overflow)) ↔ ¬ (in_int 4294967296 ∧ in_int 2 ∧ in_int 64) :=
  (overflow_iff_a_field_exceeds_int false UNDEFINED_CACHE "4294967296,2,64".toList
    "2,64".toList "64".toList 4294967296 2 64 (by decide) (by decide) (by decide)).1

/-- C19: when `check_cache` is defined on the four auto-detected CPU-cache
descriptors, `VG_(post_clo_init_configure_caches)` ends, and it stops at the
assertion if and only if, for one of the slots I1, D1, L2, LL, the
auto-detected descriptor fails `check_cache` and the command-line descriptor
of that slot is undefined; when it returns, the final descriptor of each of
these slots is the command-line one if that is defined and the auto-detected
one otherwise. -/
theorem configure_aborts_iff (configure : Caches → Bool → Caches) (caches : Caches) (clo : Clo)
    (h1 : check_cache (configure caches (all_caches_clo_defined clo)).I1c ≠ none)
    (h2 : check_cache (configure caches (all_caches_clo_defined clo)).D1c ≠ none)
    (h3 : check_cache (configure caches (all_caches_clo_defined clo)).L2c ≠ none)
    (h4 : check_cache (configure caches (all_caches_clo_defined clo)).LLc ≠ none) :
    ∃ r, VG_post_clo_init_configure_caches configure caches clo = some r ∧
      (r = none ↔
        (SlotFails (configure caches (all_caches_clo_defined clo)).I1c clo.I1c ∨
         SlotFails (configure caches (all_caches_clo_defined clo)).D1c clo.D1c ∨
         SlotFails (configure caches (all_caches_clo_defined clo)).L2c clo.L2c ∨
         SlotFails (configure caches (all_caches_clo_defined clo)).LLc clo.LLc)) ∧
      (∀ f, r = some f →
        f.I1c = final_slot (configure caches (all_caches_clo_defined clo)).I1c clo.I1c ∧
        f.D1c = final_slot (configure caches (all_caches_clo_defined clo)).D1c clo.D1c ∧
        f.L2c = final_slot (configure caches (all_caches_clo_defined clo)).L2c clo.L2c ∧
        f.LLc = final_slot (configure caches (all_caches_clo_defined clo)).LLc clo.LLc) := by
  unfold VG_post_clo_init_configure_caches
  generalize configure caches (all_caches_clo_defined clo) = a at h1 h2 h3 h4 ⊢
  obtain ⟨ok1, e1, f1⟩ := override_step (g := clo.I1c) h1
  obtain ⟨ok2, e2, f2⟩ := override_step (g := clo.D1c) h2
  obtain ⟨ok3, e3, f3⟩ := override_step (g := clo.L2c) h3
  obtain ⟨ok4, e4, f4⟩ := override_step (g := clo.LLc) h4
  simp only [e1, e2, e3, e4, Option.some_bind]
  have g1 : ∀ b : Bool, b = true → ¬ b = false := fun b h => by rw [h]; decide
  cases ok1 with
  | false => exact ⟨none, rfl, ⟨fun _ => Or.inl (f1.mp rfl), fun _ => rfl⟩,
      fun f h => Option.noConfusion h⟩
  | true =>
  cases ok2 with
  | false => exact ⟨none, rfl, ⟨fun _ => Or.inr (Or.inl (f2.mp rfl)), fun _ => rfl⟩,
      fun f h => Option.noConfusion h⟩
  | true =>
  cases ok3 with
  | false => exact ⟨none, rfl, ⟨fun _ => Or.inr (Or.inr (Or.inl (f3.mp rfl))), fun _ => rfl⟩,
      fun f h => Option.noConfusion h⟩
  | true =>
  cases ok4 with
  | false => exact ⟨none, rfl, ⟨fun _ => Or.inr (Or.inr (Or.inr (f4.mp rfl))), fun _ => rfl⟩,
      fun f h => Option.noConfusion h⟩
  | true =>
    refine ⟨_, rfl, ⟨fun h => Option.noConfusion h, ?_⟩, ?_⟩
    · rintro (h | h | h | h)
      · exact absurd (f1.mpr h) (by decide)
      · exact absurd (f2.mpr h) (by decide)
      · exact absurd (f3.mpr h) (by decide)
      · exact absurd (f4.mpr h) (by decide)
    · intro f hf
      simp only [Bool.not_true, Bool.false_eq_true, if_false, Option.some.injEq] at hf
      subst hf
      refine ⟨?_, ?_, ?_, ?_⟩
      · rw [← final_slot_eq a.I1c clo.I1c]
        simp only [apply_ite Caches.I1c, ite_self]
      · rw [← final_slot_eq a.D1c clo.D1c]
        simp only [apply_ite Caches.D1c, ite_self]
      · rw [← final_slot_eq a.L2c clo.L2c]
        simp only [apply_ite Caches.L2c, ite_self]
      · rw [← final_slot_eq a.LLc clo.LLc]
        simp only [apply_ite Caches.LLc, ite_self]

/-- C19, for an auto-detection that yields (65536, 2, 64) in every slot and no
command-line descriptor. -/
theorem configure_aborts_iff_witness :
    ∃ r, VG_post_clo_init_configure_caches sample_configure sample_caches Clo.start = some r ∧
      (r = none ↔
        (SlotFails (sample_configure sample_caches (all_caches_clo_defined Clo.start)).I1c
            Clo.start.I1c ∨
         SlotFails (sample_configure sample_caches (all_caches_clo_defined Clo.start)).D1c
            Clo.start.D1c ∨
         SlotFails (sample_configure sample_caches (all_caches_clo_defined Clo.start)).L2c
            Clo.start.L2c ∨
         SlotFails (sample_configure sample_caches (all_caches_clo_defined Clo.start)).LLc
            Clo.start.LLc)) ∧
      (∀ f, r = some f →
        f.I1c = final_slot (sample_configure sample_caches
          (all_caches_clo_defined Clo.start)).I1c Clo.start.I1c ∧
        f.D1c = final_slot (sample_configure sample_caches
          (all_caches_clo_defined Clo.start)).D1c Clo.start.D1c ∧
        f.L2c = final_slot (sample_configure sample_caches
          (all_caches_clo_defined Clo.start)).L2c Clo.start.L2c ∧
        f.LLc = final_slot (sample_configure sample_caches
          (all_caches_clo_defined Clo.start)).LLc Clo.start.LLc) :=
  configure_aborts_iff sample_configure sample_caches Clo.start (by decide) (by decide)
    (by decide) (by decide)

/-- C33: `check_cache` returns the associativity message for no descriptor:
when the set-count test passes, the line size is at least 16 and the size
exceeds the line size, the quotient `size / line_size` is at least 1 and
`size / line_size / assoc` is a power of two, hence not 0, so that
`assoc ≤ size / line_size` already holds when the last test is reached. -/
theorem associativity_check_is_subsumed (c : cache_t) :
    check_cache c ≠ some (some "Cache associativity > (size / line size).\n") ∧
    (set_count_bad c = some false → MIN_LINE_SIZE ≤ c.line_size → c.line_size < c.size →
      c.assoc ≤ Int.tdiv c.size c.line_size) := by
  have key : set_count_bad c = some false → MIN_LINE_SIZE ≤ c.line_size →
      c.line_size < c.size → c.assoc ≤ Int.tdiv c.size c.line_size := by
    intro hb hl hs
    have hl16 : (16 : Int) ≤ c.line_size := hl
    by_contra hgt
    have hq1 : 1 ≤ Int.tdiv c.size c.line_size := by
      rw [Int.tdiv_eq_ediv (by omega) (by omega)]
      exact Int.le_ediv_of_mul_le (by omega) (by omega)
    have hz : Int.tdiv (Int.tdiv c.size c.line_size) c.assoc = 0 :=
      Int.tdiv_eq_zero_of_lt (by omega) (by omega)
    unfold set_count_bad at hb
    simp only [Option.bind_eq_some, Option.map_eq_some'] at hb
    obtain ⟨p, _, r, _, hb⟩ := hb
    split at hb
    · simp at hb
    · simp only [Option.bind_eq_some, Option.map_eq_some'] at hb
      obtain ⟨q1, hq1e, q2, hq2e, hdec⟩ := hb
      unfold div_int at hq1e hq2e
      split at hq1e
      · simp at hq1e
      · simp only [Option.some.injEq] at hq1e
        subst hq1e
        split at hq2e
        · simp at hq2e
        · simp only [Option.some.injEq] at hq2e
          subst hq2e
          rw [hz] at hdec
          revert hdec
          decide
  refine ⟨?_, key⟩
  cases hb : set_count_bad c with
  | none =>
    unfold check_cache
    rw [hb]
    simp
  | some b =>
    rw [check_cache_of_set_count c b hb]
    cases b with
    | true =>
      rw [if_pos rfl]
      decide
    | false =>
      simp only [Bool.false_eq_true, if_false]
      split
      · decide
      · split
        · decide
        · split
          · decide
          · next h1 h2 h3 =>
            have hle := key hb (by omega) (by omega)
            unfold div_int
            split
            · simp
            · simp only [Option.map_some', gt_iff_lt, if_neg (not_lt.mpr hle)]
              decide

/-- C33, for the descriptor (65536, 2, 64), which passes every test. -/
theorem associativity_check_is_subsumed_witness :
    set_count_bad { size := 65536, assoc := 2, line_size := 64 } = some false ∧
    check_cache { size := 65536, assoc := 2, line_size := 64 } = some none ∧
    (2 : Int) ≤ Int.tdiv 65536 64 :=
  ⟨by decide, by decide,
    (associativity_check_is_subsumed { size := 65536, assoc := 2, line_size := 64 }).2
      (by decide) (by decide) (by decide)⟩

end CgArch
